import Mathlib

/-!
Mach-O structural decoder (`format/macho/macho.go`)

A shallow embedding of `ofileDecode` / `fatParse` and of the part of the decode
engine (`decode.D`) they drive, followed by theorems about the embedding.

The decode engine is a bit-addressable cursor over an immutable byte buffer that
builds a tree of named fields.  A decoder `Dec α` is a function from the decoder
state `D` to either an error or a result together with the new state.
-/

namespace Macho

/-! ## Decode engine -/

/-- Byte order of multi-byte reads (`decode.Endian`). -/
inductive Endian
  | LittleEndian
  | BigEndian
deriving DecidableEq, Repr

/-- Ways a decode can stop: `Fatalf` is the unconditional abort of `d.Fatalf`, `IOError` is the
failure of a read or seek outside the buffer, `Panic` is a Go run-time panic, `outOfFuel` marks
a run of the embedding that needed more nested `ofileDecode` activations than it was allowed. -/
inductive Err
  | Fatalf (msg : String)
  | IOError (op : String)
  | Panic (msg : String)
  | outOfFuel
deriving DecidableEq, Repr

/-- The typed raw value of a scalar field. -/
inductive Actual
  | U (v : Nat)
  | S (v : Int)
  | Str (bytes : List Nat)
  | Raw (v : Nat)
  | B (b : Bool)
deriving DecidableEq, Repr

/-- A scalar (`scalar.S`): the raw value, an optional symbolic label and a description. -/
structure S where
  Actual : Actual
  Sym : Option String
  Description : String
deriving DecidableEq, Repr

/-- A node of the decoded tree: a scalar field with its source bit range, or a compound
(struct or array) with its children in decode order. -/
inductive Value
  | Scalar (name : String) (s : S) (start len : Nat)
  | Struct (name : String) (children : List Value)
  | Array (name : String) (children : List Value)
deriving Repr

mutual
/-- Equality of decoded trees is decidable. -/
def Value.decEq : (a b : Value) → Decidable (a = b)
  | .Scalar n1 s1 p1 l1, .Scalar n2 s2 p2 l2 =>
    if h : n1 = n2 ∧ s1 = s2 ∧ p1 = p2 ∧ l1 = l2 then
      isTrue (by rw [h.1, h.2.1, h.2.2.1, h.2.2.2])
    else isFalse (by intro e; cases e; exact h ⟨rfl, rfl, rfl, rfl⟩)
  | .Struct n1 c1, .Struct n2 c2 =>
    if h : n1 = n2 then
      match Value.decEqList c1 c2 with
      | isTrue h2 => isTrue (by rw [h, h2])
      | isFalse h2 => isFalse (by intro e; cases e; exact h2 rfl)
    else isFalse (by intro e; cases e; exact h rfl)
  | .Array n1 c1, .Array n2 c2 =>
    if h : n1 = n2 then
      match Value.decEqList c1 c2 with
      | isTrue h2 => isTrue (by rw [h, h2])
      | isFalse h2 => isFalse (by intro e; cases e; exact h2 rfl)
    else isFalse (by intro e; cases e; exact h rfl)
  | .Scalar _ _ _ _, .Struct _ _ => isFalse (by intro e; cases e)
  | .Scalar _ _ _ _, .Array _ _ => isFalse (by intro e; cases e)
  | .Struct _ _, .Scalar _ _ _ _ => isFalse (by intro e; cases e)
  | .Struct _ _, .Array _ _ => isFalse (by intro e; cases e)
  | .Array _ _, .Scalar _ _ _ _ => isFalse (by intro e; cases e)
  | .Array _ _, .Struct _ _ => isFalse (by intro e; cases e)
/-- Equality of lists of decoded trees is decidable. -/
def Value.decEqList : (a b : List Value) → Decidable (a = b)
  | [], [] => isTrue rfl
  | x :: xs, y :: ys =>
    match Value.decEq x y with
    | isTrue h1 =>
      match Value.decEqList xs ys with
      | isTrue h2 => isTrue (by rw [h1, h2])
      | isFalse h2 => isFalse (by intro e; cases e; exact h2 rfl)
    | isFalse h1 => isFalse (by intro e; cases e; exact h1 rfl)
  | [], _ :: _ => isFalse (by intro e; cases e)
  | _ :: _, [] => isFalse (by intro e; cases e)
end

instance : DecidableEq Value := Value.decEq

/-- The decoder state (`decode.D`): the shared buffer and bit position, the byte order of this
decoder, and the children added so far to the compound this decoder builds. -/
structure D where
  buf : List Nat
  pos : Nat
  Endian : Endian
  children : List Value
deriving DecidableEq, Repr

/-- Equality of decode results is decidable. -/
instance {ε α : Type} [DecidableEq ε] [DecidableEq α] : DecidableEq (Except ε α)
  | .ok a, .ok b =>
    if h : a = b then isTrue (by rw [h]) else isFalse (by intro e; cases e; exact h rfl)
  | .error a, .error b =>
    if h : a = b then isTrue (by rw [h]) else isFalse (by intro e; cases e; exact h rfl)
  | .ok _, .error _ => isFalse (by intro e; cases e)
  | .error _, .ok _ => isFalse (by intro e; cases e)

/-- A decoder: runs on a state, fails or returns a result and the next state. -/
def Dec (α : Type) : Type := D → Except Err (α × D)

/-- Sequencing of decoders: the first failure aborts everything after it (a Go panic unwinds
through all callers). -/
def Dec.bind {α β : Type} (x : Dec α) (f : α → Dec β) : Dec β := fun d =>
  match x d with
  | .error e => .error e
  | .ok (a, d1) => f a d1

instance : Monad Dec where
  pure a := fun d => .ok (a, d)
  bind := Dec.bind

/-- A scalar mapper (`scalar.Mapper`): decorates a scalar after it has been read. -/
abbrev Mapper : Type := S → S

/-- Apply mappers left to right. -/
def applyMappers (sms : List Mapper) (s : S) : S := sms.foldl (fun acc m => m acc) s

/-- Mapper of a `scalar.UToSymStr` table: an unsigned value found in the table gets its label. -/
def UToSymStr (table : List (Nat × String)) : Mapper := fun s =>
  match s.Actual with
  | .U v =>
    match table.lookup v with
    | some name => { s with Sym := some name }
    | none => s
  | _ => s

/-- Mapper of a `scalar.UToScalar` table whose entries set a description. -/
def UToScalar (table : List (Nat × String)) : Mapper := fun s =>
  match s.Actual with
  | .U v =>
    match table.lookup v with
    | some descr => { s with Description := descr }
    | none => s
  | _ => s

/-- Modelled from the spec: `scalar.Hex` only selects how a number is displayed; the stored value
is not changed. -/
def Hex : Mapper := fun s => s

/-- The whole buffer as one big-endian number. -/
def bigEndianNat (buf : List Nat) : Nat := buf.foldl (fun acc b => acc * 256 + b % 256) 0

/-- The `nBits` bits starting at bit `firstBit` (most significant bit of a byte first), as a
big-endian number.  Meaningful when `firstBit + nBits ≤ 8 * buf.length`. -/
def readBits (buf : List Nat) (firstBit nBits : Nat) : Nat :=
  (bigEndianNat buf / 2 ^ (8 * buf.length - (firstBit + nBits))) % 2 ^ nBits

/-- Reverse the `nBytes` low bytes of `v`. -/
def reverseBytes : Nat → Nat → Nat
  | 0, _ => 0
  | k + 1, v => (v % 256) * 256 ^ k + reverseBytes k (v / 256)

/-- The unsigned number held by the `nBits` bits at `firstBit` in byte order `e`: the bits are
read most significant first and, for little endian, the bytes of the result are reversed. -/
def readU (buf : List Nat) (firstBit nBits : Nat) (e : Endian) : Nat :=
  if e = .LittleEndian then reverseBytes (nBits / 8) (readBits buf firstBit nBits)
  else readBits buf firstBit nBits

/-- Modelled from the spec: fixed-width unsigned read in a selectable byte order; a read past
the end of the buffer is an exhaustion failure. -/
def TryU (nBits : Nat) (e : Endian) : Dec Nat := fun d =>
  if 8 * d.buf.length < d.pos + nBits then .error (.IOError "read")
  else .ok (readU d.buf d.pos nBits e, { d with pos := d.pos + nBits })

/-- Modelled from the spec: 32-bit unsigned little-endian read, whatever the decoder's byte
order is. -/
def U32LE : Dec Nat := TryU 32 .LittleEndian

/-- Modelled from the spec: 32-bit unsigned read in the decoder's byte order, no field added. -/
def U32 : Dec Nat := fun d => TryU 32 d.Endian d

/-- Add a scalar field to the compound being built. -/
def addScalar (name : String) (s : S) (start len : Nat) : Dec Unit := fun d =>
  .ok ((), { d with children := d.children ++ [Value.Scalar name s start len] })

/-- Modelled from the spec: unsigned field of `nBits` bits in the decoder's byte order. -/
def FieldU (nBits : Nat) (name : String) (sms : List Mapper) : Dec Nat := fun d =>
  match TryU nBits d.Endian d with
  | .error e => .error e
  | .ok (v, d1) =>
    match addScalar name (applyMappers sms ⟨.U v, none, ""⟩) d.pos nBits d1 with
    | .error e => .error e
    | .ok (_, d2) => .ok (v, d2)

/-- Modelled from the spec: 8-bit unsigned field. -/
def FieldU8 (name : String) (sms : List Mapper) : Dec Nat := FieldU 8 name sms

/-- Modelled from the spec: 32-bit unsigned field. -/
def FieldU32 (name : String) (sms : List Mapper) : Dec Nat := FieldU 32 name sms

/-- Modelled from the spec: 64-bit unsigned field. -/
def FieldU64 (name : String) (sms : List Mapper) : Dec Nat := FieldU 64 name sms

/-- Modelled from the spec: 32-bit signed (two's complement) field. -/
def FieldS32 (name : String) (sms : List Mapper) : Dec Int := fun d =>
  match TryU 32 d.Endian d with
  | .error e => .error e
  | .ok (v, d1) =>
    let i : Int := if v < 2 ^ 31 then (v : Int) else (v : Int) - 2 ^ 32
    match addScalar name (applyMappers sms ⟨.S i, none, ""⟩) d.pos 32 d1 with
    | .error e => .error e
    | .ok (_, d2) => .ok (i, d2)

/-- Modelled from the spec: single-bit boolean field. -/
def FieldBool (name : String) : Dec Bool := fun d =>
  match TryU 1 .BigEndian d with
  | .error e => .error e
  | .ok (v, d1) =>
    match addScalar name ⟨.B (v == 1), none, ""⟩ d.pos 1 d1 with
    | .error e => .error e
    | .ok (_, d2) => .ok (v == 1, d2)

/-- Modelled from the spec: read `nBits` raw bits, no field added; the length is a signed 64-bit
number and a negative one is refused. -/
def RawLen (nBits : Int) : Dec Nat := fun d =>
  if nBits < 0 then .error (.IOError "rawlen")
  else TryU nBits.toNat .BigEndian d

/-- Modelled from the spec: raw field of `nBits` bits. -/
def FieldRawLen (name : String) (nBits : Int) (sms : List Mapper) : Dec Unit := fun d =>
  match RawLen nBits d with
  | .error e => .error e
  | .ok (v, d1) => addScalar name (applyMappers sms ⟨.Raw v, none, ""⟩) d.pos nBits.toNat d1

/-- Modelled from the spec: raw field whose bits are whatever `fn` reads. -/
def FieldBitBufFn (name : String) (fn : Dec Nat) : Dec Unit := fun d =>
  match fn d with
  | .error e => .error e
  | .ok (v, d1) => addScalar name ⟨.Raw v, none, ""⟩ d.pos (d1.pos - d.pos) d1

/-- Modelled from the spec: the "assert region is all-zero" primitive; it marks the raw value and
never fails. -/
def BitBufIsZero : Mapper := fun s =>
  match s.Actual with
  | .Raw v => { s with Description := if v = 0 then "all zero" else "all not zero" }
  | _ => s

/-- The `n` bytes starting at bit `firstBit`. -/
def readBytes (buf : List Nat) (firstBit n : Nat) : List Nat :=
  (List.range n).map (fun i => readBits buf (firstBit + 8 * i) 8)

/-- Modelled from the spec: fixed-length null-padded string field of `fixedBytes` bytes (a Go
`int`); all `fixedBytes` bytes are consumed and the reported string stops at the first null.  A
negative length is refused. -/
def FieldUTF8NullFixedLen (name : String) (fixedBytes : Int) : Dec (List Nat) := fun d =>
  if fixedBytes < 0 then .error (.IOError "text")
  else if 8 * d.buf.length < d.pos + 8 * fixedBytes.toNat then .error (.IOError "text")
  else
    let str := (readBytes d.buf d.pos fixedBytes.toNat).takeWhile (fun b => b != 0)
    match addScalar name ⟨.Str str, none, ""⟩ d.pos (8 * fixedBytes.toNat)
        { d with pos := d.pos + 8 * fixedBytes.toNat } with
    | .error e => .error e
    | .ok (_, d2) => .ok (str, d2)

/-- Number of bytes before the first null byte at or after bit `firstBit`, looking at no more than
`fuel` bytes, none of them past the end of the buffer. -/
def findNull (buf : List Nat) : Nat → Nat → Option Nat
  | 0, _ => none
  | fuel + 1, firstBit =>
    if 8 * buf.length < firstBit + 8 then none
    else if readBits buf firstBit 8 = 0 then some 0
    else (findNull buf fuel (firstBit + 8)).map (fun k => k + 1)

/-- Modelled from the spec: null-terminated string field; the terminator is consumed and not
part of the string; a missing terminator is an exhaustion failure. -/
def FieldUTF8Null (name : String) : Dec (List Nat) := fun d =>
  match findNull d.buf d.buf.length d.pos with
  | none => .error (.IOError "text")
  | some k =>
    let str := readBytes d.buf d.pos k
    match addScalar name ⟨.Str str, none, ""⟩ d.pos (8 * (k + 1))
        { d with pos := d.pos + 8 * (k + 1) } with
    | .error e => .error e
    | .ok (_, d2) => .ok (str, d2)

/-- Modelled from the spec: relative seek in bits, forward or backward; the only refused target
is one before the start of the buffer (reads, not seeks, enforce the end). -/
def SeekRel (delta : Int) : Dec Nat := fun d =>
  if (d.pos : Int) + delta < 0 then .error (.IOError "seek")
  else .ok (((d.pos : Int) + delta).toNat, { d with pos := ((d.pos : Int) + delta).toNat })

/-- Modelled from the spec: absolute seek in bits; the only refused target is a negative one. -/
def SeekAbs (pos : Int) : Dec Nat := fun d =>
  if pos < 0 then .error (.IOError "seek")
  else .ok (pos.toNat, { d with pos := pos.toNat })

/-- Modelled from the spec: the unconditional fatal abort with a message. -/
def Fatalf {α : Type} (msg : String) : Dec α := fun _ => .error (.Fatalf msg)

/-- Modelled from the spec: a named struct sub-tree.  `fn` runs on a child decoder that shares
the buffer and position, starts with the parent's byte order and with no children; the parent
gets the finished struct as one child and keeps its own byte order. -/
def FieldStruct {α : Type} (name : String) (fn : Dec α) : Dec α := fun d =>
  match fn { d with children := [] } with
  | .error e => .error e
  | .ok (a, cd) =>
    .ok (a, { d with pos := cd.pos, children := d.children ++ [Value.Struct name cd.children] })

/-- The loop of `FieldStructArrayLoop`: one struct per iteration, `idx` counting up, for `n`
more iterations; the results of the bodies are collected in order. -/
def structLoop {α : Type} (structName : String) (fn : Nat → Dec α) : Nat → Nat → Dec (List α)
  | 0, _ => pure []
  | n + 1, idx => do
    let a ← FieldStruct structName (fn idx)
    let rest ← structLoop structName fn n (idx + 1)
    pure (a :: rest)

/-- Modelled from the spec: a named repeated sub-tree.  Every use in this decoder has the
shape `idx := 0; loop while idx < n { body; idx++ }` with the counter captured by the closures,
so the condition is given as the bound `n` and the body receives the counter. -/
def FieldStructArrayLoop {α : Type} (name structName : String) (n : Nat) (fn : Nat → Dec α) :
    Dec (List α) := fun d =>
  match structLoop structName fn n 0 { d with children := [] } with
  | .error e => .error e
  | .ok (as, ad) =>
    .ok (as, { d with pos := ad.pos, children := d.children ++ [Value.Array name ad.children] })

/-- Modelled from the spec: a synthetic signed value field (empty range at the cursor). -/
def FieldValueS (name : String) (a : Int) : Dec Unit := fun d =>
  addScalar name ⟨.S a, none, ""⟩ d.pos 0 d

/-- Modelled from the spec: a synthetic unsigned value field (empty range at the cursor). -/
def FieldValueU (name : String) (a : Nat) : Dec Unit := fun d =>
  addScalar name ⟨.U a, none, ""⟩ d.pos 0 d

/-- Modelled from the spec: a synthetic string value field (empty range at the cursor); the
string is kept in the label. -/
def FieldValueStr (name : String) (a : String) : Dec Unit := fun d =>
  addScalar name ⟨.Str [], some a, ""⟩ d.pos 0 d

/-- Assignment to `d.Endian`. -/
def setEndian (e : Endian) : Dec Unit := fun d => .ok ((), { d with Endian := e })

/-! ## Constants and symbol tables of `macho.go` -/

/-- Constant `MH_MAGIC`. -/
abbrev MH_MAGIC : Nat := 0xfeedface

/-- Constant `MH_CIGAM`. -/
abbrev MH_CIGAM : Nat := 0xcefaedfe

/-- Constant `MH_MAGIC_64`. -/
abbrev MH_MAGIC_64 : Nat := 0xfeedfacf

/-- Constant `MH_CIGAM_64`. -/
abbrev MH_CIGAM_64 : Nat := 0xcffaedfe

/-- Constant `FAT_MAGIC`. -/
abbrev FAT_MAGIC : Nat := 0xcafebabe

/-- Constant `FAT_CIGAM`. -/
abbrev FAT_CIGAM : Nat := 0xbebafeca

/-- Load command id `LC_REQ_DYLD`. -/
abbrev LC_REQ_DYLD : Nat := 0x80000000

/-- Load command id `LC_SEGMENT`. -/
abbrev LC_SEGMENT : Nat := 0x1

/-- Load command id `LC_SYMTAB`. -/
abbrev LC_SYMTAB : Nat := 0x2

/-- Load command id `LC_SYMSEG`. -/
abbrev LC_SYMSEG : Nat := 0x3

/-- Load command id `LC_THREAD`. -/
abbrev LC_THREAD : Nat := 0x4

/-- Load command id `LC_UNIXTHREAD`. -/
abbrev LC_UNIXTHREAD : Nat := 0x5

/-- Load command id `LC_LOADFVMLIB`. -/
abbrev LC_LOADFVMLIB : Nat := 0x6

/-- Load command id `LC_IDFVMLIB`. -/
abbrev LC_IDFVMLIB : Nat := 0x7

/-- Load command id `LC_IDENT` (not implemented). -/
abbrev LC_IDENT : Nat := 0x8

/-- Load command id `LC_FVMFILE` (not implemented). -/
abbrev LC_FVMFILE : Nat := 0x9

/-- Load command id `LC_PREPAGE` (not implemented). -/
abbrev LC_PREPAGE : Nat := 0xa

/-- Load command id `LC_DYSYMTAB`. -/
abbrev LC_DYSYMTAB : Nat := 0xb

/-- Load command id `LC_LOAD_DYLIB`. -/
abbrev LC_LOAD_DYLIB : Nat := 0xc

/-- Load command id `LC_ID_DYLIB`. -/
abbrev LC_ID_DYLIB : Nat := 0xd

/-- Load command id `LC_LOAD_DYLINKER`. -/
abbrev LC_LOAD_DYLINKER : Nat := 0xe

/-- Load command id `LC_ID_DYLINKER`. -/
abbrev LC_ID_DYLINKER : Nat := 0xf

/-- Load command id `LC_PREBOUND_DYLIB`. -/
abbrev LC_PREBOUND_DYLIB : Nat := 0x10

/-- Load command id `LC_ROUTINES`. -/
abbrev LC_ROUTINES : Nat := 0x11

/-- Load command id `LC_SUB_FRAMEWORK`. -/
abbrev LC_SUB_FRAMEWORK : Nat := 0x12

/-- Load command id `LC_SUB_UMBRELLA`. -/
abbrev LC_SUB_UMBRELLA : Nat := 0x13

/-- Load command id `LC_SUB_CLIENT`. -/
abbrev LC_SUB_CLIENT : Nat := 0x14

/-- Load command id `LC_SUB_LIBRARY`. -/
abbrev LC_SUB_LIBRARY : Nat := 0x15

/-- Load command id `LC_TWOLEVEL_HINTS`. -/
abbrev LC_TWOLEVEL_HINTS : Nat := 0x16

/-- Load command id `LC_PREBIND_CKSUM` (not implemented). -/
abbrev LC_PREBIND_CKSUM : Nat := 0x17

/-- Load command id `LC_LOAD_WEAK_DYLIB`. -/
abbrev LC_LOAD_WEAK_DYLIB : Nat := 0x80000018

/-- Load command id `LC_SEGMENT_64`. -/
abbrev LC_SEGMENT_64 : Nat := 0x19

/-- Load command id `LC_ROUTINES_64`. -/
abbrev LC_ROUTINES_64 : Nat := 0x1a

/-- Load command id `LC_UUID`. -/
abbrev LC_UUID : Nat := 0x1b

/-- Load command id `LC_RPATH`. -/
abbrev LC_RPATH : Nat := 0x8000001c

/-- Load command id `LC_CODE_SIGNATURE`. -/
abbrev LC_CODE_SIGNATURE : Nat := 0x1d

/-- Load command id `LC_SEGMENT_SPLIT_INFO`. -/
abbrev LC_SEGMENT_SPLIT_INFO : Nat := 0x1e

/-- Load command id `LC_REEXPORT_DYLIB`. -/
abbrev LC_REEXPORT_DYLIB : Nat := 0x8000001f

/-- Load command id `LC_LAZY_LOAD_DYLIB`. -/
abbrev LC_LAZY_LOAD_DYLIB : Nat := 0x20

/-- Load command id `LC_ENCRYPTION_INFO`. -/
abbrev LC_ENCRYPTION_INFO : Nat := 0x21

/-- Load command id `LC_DYLD_INFO`. -/
abbrev LC_DYLD_INFO : Nat := 0x22

/-- Load command id `LC_DYLD_INFO_ONLY`. -/
abbrev LC_DYLD_INFO_ONLY : Nat := 0x80000022

/-- Load command id `LC_LOAD_UPWARD_DYLIB`. -/
abbrev LC_LOAD_UPWARD_DYLIB : Nat := 0x80000023

/-- Load command id `LC_VERSION_MIN_MACOSX`. -/
abbrev LC_VERSION_MIN_MACOSX : Nat := 0x24

/-- Load command id `LC_VERSION_MIN_IPHONEOS`. -/
abbrev LC_VERSION_MIN_IPHONEOS : Nat := 0x25

/-- Load command id `LC_FUNCTION_STARTS`. -/
abbrev LC_FUNCTION_STARTS : Nat := 0x26

/-- Load command id `LC_DYLD_ENVIRONMENT`. -/
abbrev LC_DYLD_ENVIRONMENT : Nat := 0x27

/-- Load command id `LC_MAIN`. -/
abbrev LC_MAIN : Nat := 0x80000028

/-- Load command id `LC_DATA_IN_CODE`. -/
abbrev LC_DATA_IN_CODE : Nat := 0x29

/-- Load command id `LC_SOURCE_VERSION`. -/
abbrev LC_SOURCE_VERSION : Nat := 0x2A

/-- Load command id `LC_DYLIB_CODE_SIGN_DRS`. -/
abbrev LC_DYLIB_CODE_SIGN_DRS : Nat := 0x2B

/-- Load command id `LC_ENCRYPTION_INFO_64`. -/
abbrev LC_ENCRYPTION_INFO_64 : Nat := 0x2C

/-- Load command id `LC_LINKER_OPTION`. -/
abbrev LC_LINKER_OPTION : Nat := 0x2D

/-- Load command id `LC_LINKER_OPTIMIZATION_HINT`. -/
abbrev LC_LINKER_OPTIMIZATION_HINT : Nat := 0x2E

/-- Load command id `LC_VERSION_MIN_TVOS`. -/
abbrev LC_VERSION_MIN_TVOS : Nat := 0x2F

/-- Load command id `LC_VERSION_MIN_WATCHOS`. -/
abbrev LC_VERSION_MIN_WATCHOS : Nat := 0x30

/-- Load command id `LC_NOTE` (not implemented). -/
abbrev LC_NOTE : Nat := 0x31

/-- Load command id `LC_BUILD_VERSION`. -/
abbrev LC_BUILD_VERSION : Nat := 0x32

/-- Table `magicSymMapper`: descriptions of the thin magics. -/
def magicSymMapper : List (Nat × String) := [
  (MH_MAGIC, "32-bit little endian"),
  (MH_CIGAM, "32-bit big endian"),
  (MH_MAGIC_64, "64-bit little endian"),
  (MH_CIGAM_64, "64-bit big endian")
]

/-- Table `endianNames`. -/
def endianNames : List (Nat × String) := [
  (MH_MAGIC, "little_endian"),
  (MH_CIGAM, "big_endian"),
  (MH_MAGIC_64, "little_endian"),
  (MH_CIGAM_64, "big_endian")
]

/-- Table `cpuTypes`. -/
def cpuTypes : List (Nat × String) := [
  (0xffffffff, "CPU_TYPE_ANY"),
  (1, "CPU_TYPE_VAX"),
  (2, "CPU_TYPE_ROMP"),
  (4, "CPU_TYPE_NS32032"),
  (5, "CPU_TYPE_NS32332"),
  (6, "CPU_TYPE_MC680x0"),
  (7, "CPU_TYPE_X86"),
  (8, "CPU_TYPE_MIPS"),
  (9, "CPU_TYPE_NS32532"),
  (10, "CPU_TYPE_MC98000"),
  (11, "CPU_TYPE_HPPA"),
  (12, "CPU_TYPE_ARM"),
  (13, "CPU_TYPE_MC88000"),
  (14, "CPU_TYPE_SPARC"),
  (15, "CPU_TYPE_I860"),
  (16, "CPU_TYPE_I860_LITTLE"),
  (17, "CPU_TYPE_RS6000"),
  (18, "CPU_TYPE_POWERPC"),
  (0x1000007, "CPU_TYPE_X86_64"),
  (0x100000c, "CPU_TYPE_ARM64"),
  (0x1000013, "CPU_TYPE_POWERPC64"),
  (255, "CPU_TYPE_VEO")
]

/-- Helper `intelSubTypeHelper`: `f + (m << 4)`. -/
def intelSubTypeHelper (f m : Nat) : Nat := f + m * 2 ^ 4

/-- Table `cpuSubTypes`: one sub-type table per cpu type. -/
def cpuSubTypes : List (Nat × List (Nat × String)) := [
  (0xffffffff, [
    (0xffffffff, "CPU_SUBTYPE_MULTIPLE")]),
  (1, [
    (0xffffffff, "CPU_SUBTYPE_MULTIPLE"),
    (0, "CPU_SUBTYPE_VAX_ALL"),
    (1, "CPU_SUBTYPE_VAX780"),
    (2, "CPU_SUBTYPE_VAX785"),
    (3, "CPU_SUBTYPE_VAX750"),
    (4, "CPU_SUBTYPE_VAX730"),
    (5, "CPU_SUBTYPE_UVAXI"),
    (6, "CPU_SUBTYPE_UVAXII"),
    (7, "CPU_SUBTYPE_VAX8200"),
    (8, "CPU_SUBTYPE_VAX8500"),
    (9, "CPU_SUBTYPE_VAX8600"),
    (10, "CPU_SUBTYPE_VAX8650"),
    (11, "CPU_SUBTYPE_VAX8800"),
    (12, "CPU_SUBTYPE_UVAXIII")]),
  (6, [
    (0xffffffff, "CPU_SUBTYPE_MULTIPLE"),
    (1, "CPU_SUBTYPE_MC680X0_ALL"),
    (2, "CPU_SUBTYPE_MC68040"),
    (3, "CPU_SUBTYPE_MC68030_ONLY")]),
  (7, [
    (0xffffffff, "CPU_SUBTYPE_MULTIPLE"),
    (intelSubTypeHelper 3 0, "CPU_SUBTYPE_I386_ALL"),
    (intelSubTypeHelper 4 0, "CPU_SUBTYPE_I486"),
    (intelSubTypeHelper 4 8, "CPU_SUBTYPE_486SX"),
    (intelSubTypeHelper 5 0, "CPU_SUBTYPE_PENT"),
    (intelSubTypeHelper 6 1, "CPU_SUBTYPE_PENTPRO"),
    (intelSubTypeHelper 6 3, "CPU_SUBTYPE_PENTII_M3"),
    (intelSubTypeHelper 6 5, "CPU_SUBTYPE_PENTII_M5"),
    (intelSubTypeHelper 7 6, "CPU_SUBTYPE_CELERON"),
    (intelSubTypeHelper 7 7, "CPU_SUBTYPE_CELERON_MOBILE"),
    (intelSubTypeHelper 8 0, "CPU_SUBTYPE_PENTIUM_3"),
    (intelSubTypeHelper 8 1, "CPU_SUBTYPE_PENTIUM_3_M"),
    (intelSubTypeHelper 8 2, "CPU_SUBTYPE_PENTIUM_3_XEON"),
    (intelSubTypeHelper 9 0, "CPU_SUBTYPE_PENTIUM_M"),
    (intelSubTypeHelper 10 0, "CPU_SUBTYPE_PENTIUM_4"),
    (intelSubTypeHelper 10 1, "CPU_SUBTYPE_PENTIUM_4_M"),
    (intelSubTypeHelper 11 0, "CPU_SUBTYPE_ITANIUM"),
    (intelSubTypeHelper 11 1, "CPU_SUBTYPE_ITANIUM_2"),
    (intelSubTypeHelper 12 0, "CPU_SUBTYPE_XEON"),
    (intelSubTypeHelper 12 1, "CPU_SUBTYPE_XEON_2")]),
  (8, [
    (0xffffffff, "CPU_SUBTYPE_MULTIPLE"),
    (0, "CPU_SUBTYPE_MIPS_ALL"),
    (1, "CPU_SUBTYPE_MIPS_R2300"),
    (2, "CPU_SUBTYPE_MIPS_R2600"),
    (3, "CPU_SUBTYPE_MIPS_R2800"),
    (4, "CPU_SUBTYPE_MIPS_R2000A"),
    (5, "CPU_SUBTYPE_MIPS_R2000"),
    (6, "CPU_SUBTYPE_MIPS_R3000A"),
    (7, "CPU_SUBTYPE_MIPS_R3000")]),
  (10, [
    (0xffffffff, "CPU_SUBTYPE_MULTIPLE"),
    (0, "CPU_SUBTYPE_MC98000_ALL"),
    (1, "CPU_SUBTYPE_MC98001")]),
  (11, [
    (0xffffffff, "CPU_SUBTYPE_MULTIPLE"),
    (0, "CPU_SUBTYPE_HPPA_ALL"),
    (1, "CPU_SUBTYPE_HPPA_7100"),
    (2, "CPU_SUBTYPE_HPPA_7100_LC")]),
  (12, [
    (0xffffffff, "CPU_SUBTYPE_MULTIPLE"),
    (0, "CPU_SUBTYPE_ARM_ALL"),
    (5, "CPU_SUBTYPE_ARM_V4T"),
    (6, "CPU_SUBTYPE_ARM_V6"),
    (7, "CPU_SUBTYPE_ARM_V5TEJ"),
    (8, "CPU_SUBTYPE_ARM_XSCALE"),
    (9, "CPU_SUBTYPE_ARM_V7"),
    (10, "CPU_SUBTYPE_ARM_V7F"),
    (11, "CPU_SUBTYPE_ARM_V7S"),
    (12, "CPU_SUBTYPE_ARM_V7K"),
    (13, "CPU_SUBTYPE_ARM_V8"),
    (14, "CPU_SUBTYPE_ARM_V6M"),
    (15, "CPU_SUBTYPE_ARM_V7M"),
    (16, "CPU_SUBTYPE_ARM_V7EM")]),
  (13, [
    (0xffffffff, "CPU_SUBTYPE_MULTIPLE"),
    (0, "CPU_SUBTYPE_MC88000_ALL"),
    (1, "CPU_SUBTYPE_MC88100"),
    (2, "CPU_SUBTYPE_MC88110")]),
  (14, [
    (0xffffffff, "CPU_SUBTYPE_MULTIPLE"),
    (0, "CPU_SUBTYPE_SPARC_ALL")]),
  (15, [
    (0xffffffff, "CPU_SUBTYPE_MULTIPLE"),
    (0, "CPU_SUBTYPE_I860_ALL"),
    (1, "CPU_SUBTYPE_I860_A860")]),
  (18, [
    (0xffffffff, "CPU_SUBTYPE_MULTIPLE"),
    (0, "CPU_SUBTYPE_POWERPC_ALL"),
    (1, "CPU_SUBTYPE_POWERPC_601"),
    (2, "CPU_SUBTYPE_POWERPC_602"),
    (3, "CPU_SUBTYPE_POWERPC_603"),
    (4, "CPU_SUBTYPE_POWERPC_603E"),
    (5, "CPU_SUBTYPE_POWERPC_603EV"),
    (6, "CPU_SUBTYPE_POWERPC_604"),
    (7, "CPU_SUBTYPE_POWERPC_604E"),
    (8, "CPU_SUBTYPE_POWERPC_620"),
    (9, "CPU_SUBTYPE_POWERPC_750"),
    (10, "CPU_SUBTYPE_POWERPC_7400"),
    (11, "CPU_SUBTYPE_POWERPC_7450"),
    (100, "CPU_SUBTYPE_POWERPC_970")]),
  (0x1000012, [
    (0xffffffff, "CPU_SUBTYPE_MULTIPLE"),
    (0, "CPU_SUBTYPE_ARM64_ALL"),
    (1, "CPU_SUBTYPE_ARM64_V8"),
    (2, "CPU_SUBTYPE_ARM64_E")])
]

/-- Table `fileTypes`. -/
def fileTypes : List (Nat × String) := [
  (0x1, "MH_OBJECT"),
  (0x2, "MH_EXECUTE"),
  (0x3, "MH_FVMLIB"),
  (0x4, "MH_CORE"),
  (0x5, "MH_PRELOAD"),
  (0x6, "MH_DYLIB"),
  (0x7, "MH_DYLINKER"),
  (0x8, "MH_BUNDLE"),
  (0x9, "MH_DYLIB_STUB"),
  (0xa, "MH_DSYM"),
  (0xb, "MH_KEXT_BUNDLE")
]

/-- Table `loadCommands`: the names of the known load command ids. -/
def loadCommands : List (Nat × String) := [
  (LC_REQ_DYLD, "req_dyld"),
  (LC_SEGMENT, "segment"),
  (LC_SYMTAB, "symtab"),
  (LC_SYMSEG, "symseg"),
  (LC_THREAD, "thread"),
  (LC_UNIXTHREAD, "unixthread"),
  (LC_LOADFVMLIB, "loadfvmlib"),
  (LC_IDFVMLIB, "idfvmlib"),
  (LC_IDENT, "ident"),
  (LC_FVMFILE, "fvmfile"),
  (LC_PREPAGE, "prepage"),
  (LC_DYSYMTAB, "dysymtab"),
  (LC_LOAD_DYLIB, "load_dylib"),
  (LC_ID_DYLIB, "id_dylib"),
  (LC_LOAD_DYLINKER, "load_dylinker"),
  (LC_ID_DYLINKER, "id_dylinker"),
  (LC_PREBOUND_DYLIB, "prebound_dylib"),
  (LC_ROUTINES, "routines"),
  (LC_SUB_FRAMEWORK, "sub_framework"),
  (LC_SUB_UMBRELLA, "sub_umbrella"),
  (LC_SUB_CLIENT, "sub_client"),
  (LC_SUB_LIBRARY, "sub_library"),
  (LC_TWOLEVEL_HINTS, "twolevel_hints"),
  (LC_PREBIND_CKSUM, "prebind_cksum"),
  (LC_LOAD_WEAK_DYLIB, "load_weak_dylib"),
  (LC_SEGMENT_64, "segment_64"),
  (LC_ROUTINES_64, "routines_64"),
  (LC_UUID, "uuid"),
  (LC_RPATH, "rpath"),
  (LC_CODE_SIGNATURE, "code_signature"),
  (LC_SEGMENT_SPLIT_INFO, "segment_split_info"),
  (LC_REEXPORT_DYLIB, "reexport_dylib"),
  (LC_LAZY_LOAD_DYLIB, "lazy_load_dylib"),
  (LC_ENCRYPTION_INFO, "encryption_info"),
  (LC_DYLD_INFO, "dyld_info"),
  (LC_DYLD_INFO_ONLY, "dyld_info_only"),
  (LC_LOAD_UPWARD_DYLIB, "load_upward_dylib"),
  (LC_VERSION_MIN_MACOSX, "version_min_macosx"),
  (LC_VERSION_MIN_IPHONEOS, "version_min_iphoneos"),
  (LC_FUNCTION_STARTS, "function_starts"),
  (LC_DYLD_ENVIRONMENT, "dyld_environment"),
  (LC_MAIN, "main"),
  (LC_DATA_IN_CODE, "data_in_code"),
  (LC_SOURCE_VERSION, "source_version"),
  (LC_DYLIB_CODE_SIGN_DRS, "dylib_code_sign_drs"),
  (LC_ENCRYPTION_INFO_64, "encryption_info_64"),
  (LC_LINKER_OPTION, "linker_option"),
  (LC_LINKER_OPTIMIZATION_HINT, "linker_optimization_hint"),
  (LC_VERSION_MIN_TVOS, "version_min_tvos"),
  (LC_VERSION_MIN_WATCHOS, "version_min_watchos"),
  (LC_NOTE, "note"),
  (LC_BUILD_VERSION, "build_version")
]

/-- Table `sectionTypes`. -/
def sectionTypes : List (Nat × String) := [
  (0x0, "S_REGULAR"),
  (0x1, "S_ZEROFILL"),
  (0x2, "S_CSTRING_LITERALS"),
  (0x3, "S_4BYTE_LITERALS"),
  (0x4, "S_8BYTE_LITERALS"),
  (0x5, "S_LITERAL_POINTERS"),
  (0x6, "S_NON_LAZY_SYMBOL_POINTERS"),
  (0x7, "S_LAZY_SYMBOL_POINTERS"),
  (0x8, "S_SYMBOL_STUBS"),
  (0x9, "S_MOD_INIT_FUNC_POINTERS"),
  (0xa, "S_MOD_TERM_FUNC_POINTERS"),
  (0xb, "S_COALESCED"),
  (0xc, "S_GB_ZEROFILL"),
  (0xd, "S_INTERPOSING"),
  (0xe, "S_16BYTE_LITERALS"),
  (0xf, "S_DTRACE_DOF"),
  (0x10, "S_LAZY_DYLIB_SYMBOL_POINTERS"),
  (0x11, "S_THREAD_LOCAL_REGULAR"),
  (0x12, "S_THREAD_LOCAL_ZEROFILL"),
  (0x13, "S_THREAD_LOCAL_VARIABLES"),
  (0x14, "S_THREAD_LOCAL_VARIABLE_POINTERS"),
  (0x15, "S_THREAD_LOCAL_INIT_FUNCTION_POINTERS")
]

/-! ## Flag words and thread states -/

/-- Function `parseMachHeaderFlags`. -/
def parseMachHeaderFlags : Dec Unit := do
  FieldRawLen "reserved" 6 []
  let _ ← FieldBool "MH_APP_EXTENSION_SAFE"
  let _ ← FieldBool "MH_NO_HEAP_EXECUTION"
  let _ ← FieldBool "MH_HAS_TLV_DESCRIPTORS"
  let _ ← FieldBool "MH_DEAD_STRIPPABLE_DYLIB"
  let _ ← FieldBool "MH_PIE"
  let _ ← FieldBool "MH_NO_REEXPORTED_DYLIBS"
  let _ ← FieldBool "MH_SETUID_SAFE"
  let _ ← FieldBool "MH_ROOT_SAFE"
  let _ ← FieldBool "MH_ALLOW_STACK_EXECUTION"
  let _ ← FieldBool "MH_BINDS_TO_WEAK"
  let _ ← FieldBool "MH_WEAK_DEFINES"
  let _ ← FieldBool "MH_CANONICAL"
  let _ ← FieldBool "MH_SUBSECTIONS_VIA_SYMBOLS"
  let _ ← FieldBool "MH_ALLMODSBOUND"
  let _ ← FieldBool "MH_PREBINDABLE"
  let _ ← FieldBool "MH_NOFIXPREBINDING"
  let _ ← FieldBool "MH_NOMULTIDEFS"
  let _ ← FieldBool "MH_FORCE_FLAT"
  let _ ← FieldBool "MH_TWOLEVEL"
  let _ ← FieldBool "MH_LAZY_INIT"
  let _ ← FieldBool "MH_SPLIT_SEGS"
  let _ ← FieldBool "MH_PREBOUND"
  let _ ← FieldBool "MH_BINDATLOAD"
  let _ ← FieldBool "MH_DYLDLINK"
  let _ ← FieldBool "MH_INCRLINK"
  let _ ← FieldBool "MH_NOUNDEFS"
  pure ()

/-- Function `parseSegmentFlags`. -/
def parseSegmentFlags : Dec Unit := do
  FieldRawLen "reserved" 28 []
  let _ ← FieldBool "SG_PROTECTED_VERSION_1"
  let _ ← FieldBool "SG_NORELOC"
  let _ ← FieldBool "SG_FVMLIB"
  let _ ← FieldBool "SG_HIGHVM"
  pure ()

/-- Function `parseSectionFlags`. -/
def parseSectionFlags : Dec Unit := do
  let _ ← FieldBool "S_ATTR_PURE_INSTRUCTIONS"
  let _ ← FieldBool "S_ATTR_NO_TOC"
  let _ ← FieldBool "S_ATTR_STRIP_STATIC_SYMS"
  let _ ← FieldBool "S_ATTR_NO_DEAD_STRIP"
  let _ ← FieldBool "S_ATTR_LIVE_SUPPORT"
  let _ ← FieldBool "S_ATTR_SELF_MODIFYING_CODE"
  let _ ← FieldBool "S_ATTR_DEBUG"
  FieldRawLen "reserved" 14 []
  let _ ← FieldBool "S_ATTR_SOME_INSTRUCTIONS"
  let _ ← FieldBool "S_ATTR_EXT_RELOC"
  let _ ← FieldBool "S_ATTR_LOC_RELOC"
  pure ()

/-- Function `threadStateI386Decode`. -/
def threadStateI386Decode : Dec Unit := do
  let _ ← FieldU32 "eax" []
  let _ ← FieldU32 "ebx" []
  let _ ← FieldU32 "ecx" []
  let _ ← FieldU32 "edx" []
  let _ ← FieldU32 "edi" []
  let _ ← FieldU32 "esi" []
  let _ ← FieldU32 "ebp" []
  let _ ← FieldU32 "esp" []
  let _ ← FieldU32 "ss" []
  let _ ← FieldU32 "eflags" []
  let _ ← FieldU32 "eip" []
  let _ ← FieldU32 "cs" []
  let _ ← FieldU32 "ds" []
  let _ ← FieldU32 "es" []
  let _ ← FieldU32 "fs" []
  let _ ← FieldU32 "gs" []
  pure ()

/-- Function `threadStateX8664Decode`. -/
def threadStateX8664Decode : Dec Unit := do
  let _ ← FieldU64 "rax" []
  let _ ← FieldU64 "rbx" []
  let _ ← FieldU64 "rcx" []
  let _ ← FieldU64 "rdx" []
  let _ ← FieldU64 "rdi" []
  let _ ← FieldU64 "rsi" []
  let _ ← FieldU64 "rbp" []
  let _ ← FieldU64 "rsp" []
  let _ ← FieldU64 "r8" []
  let _ ← FieldU64 "r9" []
  let _ ← FieldU64 "r10" []
  let _ ← FieldU64 "r11" []
  let _ ← FieldU64 "r12" []
  let _ ← FieldU64 "r13" []
  let _ ← FieldU64 "r14" []
  let _ ← FieldU64 "r15" []
  let _ ← FieldU64 "rip" []
  let _ ← FieldU64 "rflags" []
  let _ ← FieldU64 "cs" []
  let _ ← FieldU64 "fs" []
  let _ ← FieldU64 "gs" []
  pure ()

/-- Function `threadStateARM32Decode`. -/
def threadStateARM32Decode : Dec Unit := do
  let _ ← FieldStructArrayLoop "r" "r" 13 (fun _ => do
    let _ ← FieldU32 "value" []
    pure ())
  let _ ← FieldU32 "sp" []
  let _ ← FieldU32 "lr" []
  let _ ← FieldU32 "pc" []
  let _ ← FieldU32 "cpsr" []
  pure ()

/-- Function `threadStateARM64Decode`. -/
def threadStateARM64Decode : Dec Unit := do
  let _ ← FieldStructArrayLoop "r" "r" 29 (fun _ => do
    let _ ← FieldU64 "value" []
    pure ())
  let _ ← FieldU64 "fp" []
  let _ ← FieldU64 "lr" []
  let _ ← FieldU64 "sp" []
  let _ ← FieldU64 "pc" []
  let _ ← FieldU32 "cpsr" []
  let _ ← FieldU32 "pad" []
  pure ()

/-- Function `threadStatePPC32Decode`. -/
def threadStatePPC32Decode : Dec Unit := do
  let _ ← FieldStructArrayLoop "srr" "srr" 2 (fun _ => do
    let _ ← FieldU32 "value" []
    pure ())
  let _ ← FieldStructArrayLoop "r" "r" 32 (fun _ => do
    let _ ← FieldU32 "value" []
    pure ())
  let _ ← FieldU32 "ct" []
  let _ ← FieldU32 "xer" []
  let _ ← FieldU32 "lr" []
  let _ ← FieldU32 "ctr" []
  let _ ← FieldU32 "mq" []
  let _ ← FieldU32 "vrsave" []
  pure ()

/-- Function `threadStatePPC64Decode`. -/
def threadStatePPC64Decode : Dec Unit := do
  let _ ← FieldStructArrayLoop "srr" "srr" 2 (fun _ => do
    let _ ← FieldU64 "value" []
    pure ())
  let _ ← FieldStructArrayLoop "r" "r" 32 (fun _ => do
    let _ ← FieldU64 "value" []
    pure ())
  let _ ← FieldU32 "ct" []
  let _ ← FieldU64 "xer" []
  let _ ← FieldU64 "lr" []
  let _ ← FieldU64 "ctr" []
  let _ ← FieldU32 "vrsave" []
  pure ()

/-! ## `ofileDecode` and `fatParse` -/

/-- Conversion `int64(x)` of an unsigned 64-bit number. -/
def toInt64 (x : Nat) : Int :=
  if x % 2 ^ 64 < 2 ^ 63 then ((x % 2 ^ 64 : Nat) : Int) else ((x % 2 ^ 64 : Nat) : Int) - 2 ^ 64

/-- Mapper `timestampMapper`: it attaches a calendar rendering of the value as label and leaves
the stored value as it is; the rendering is not part of the embedding. -/
def timestampMapper : Mapper := fun s => s

/-- The body of the `header` struct of `ofileDecode` (lines 388-400); it returns the captured
`cpuType` and `ncmds`. -/
def headerDecode (archBits : Int) : Dec (Nat × Nat) := do
  FieldValueS "arch_bits" archBits
  let magic ← FieldU32 "magic" [Hex, UToScalar magicSymMapper]
  FieldValueU "bits" archBits.toNat
  FieldValueStr "endian" ((endianNames.lookup magic).getD "")
  let cpuType ← FieldU32 "cputype" [UToSymStr cpuTypes]
  let _ ← FieldU32 "cpusubtype" [UToSymStr ((cpuSubTypes.lookup cpuType).getD [])]
  let _ ← FieldU32 "filetype" [UToSymStr fileTypes]
  let ncmds ← FieldU32 "ncdms" []
  let _ ← FieldU32 "sizeofncdms" []
  FieldStruct "flags" parseMachHeaderFlags
  if archBits = 64 then
    FieldRawLen "reserved" (4 * 8) [BitBufIsZero]
  pure (cpuType, ncmds)

/-- The body of one `section` struct of a segment command (lines 439-463). -/
def sectionDecode (archBits : Int) : Dec Unit := do
  let _ ← FieldUTF8NullFixedLen "sectname" 16
  let _ ← FieldUTF8NullFixedLen "segname" 16
  if archBits = 32 then
    let _ ← FieldU32 "address" [Hex]
    let _ ← FieldU32 "size" []
  else
    let _ ← FieldU64 "address" [Hex]
    let _ ← FieldU64 "size" []
  let _ ← FieldU32 "offset" []
  let _ ← FieldU32 "align" []
  let _ ← FieldU32 "reloff" []
  let _ ← FieldU32 "nreloc" []
  FieldStruct "flags" parseSectionFlags
  let _ ← FieldU8 "type" [UToSymStr sectionTypes]
  let _ ← FieldU32 "reserved1" []
  let _ ← FieldU32 "reserved2" []
  if archBits = 64 then
    let _ ← FieldU32 "reserved3" []
  pure ()

/-- The body of the `segment_command` struct (lines 416-434); it returns the captured
`nsects`. -/
def segmentCommandDecode (archBits : Int) : Dec Nat := do
  FieldValueS "arch_bits" archBits
  let _ ← FieldUTF8NullFixedLen "segname" 16
  if archBits = 32 then
    let _ ← FieldU32 "vmaddr" [Hex]
    let _ ← FieldU32 "vmsize" []
    let _ ← FieldU32 "fileoff" []
    let _ ← FieldU32 "tfilesize" []
  else
    let _ ← FieldU64 "vmaddr" [Hex]
    let _ ← FieldU64 "vmsize" []
    let _ ← FieldU64 "fileoff" []
    let _ ← FieldU64 "tfilesize" []
  let _ ← FieldS32 "initprot" []
  let _ ← FieldS32 "maxprot" []
  let nsects ← FieldU32 "nsects" []
  FieldStruct "flags" parseSegmentFlags
  pure nsects

/-- The body of the `state` struct of a thread command (lines 494-509): the switch on the
`cpuType` captured from the header. -/
def threadStateDecode (cpuType count : Nat) : Dec Unit :=
  if cpuType = 0x7 then threadStateI386Decode
  else if cpuType = 0xC then threadStateARM32Decode
  else if cpuType = 0x13 then threadStatePPC32Decode
  else if cpuType = 0x1000007 then threadStateX8664Decode
  else if cpuType = 0x100000C then threadStateARM64Decode
  else if cpuType = 0x1000013 then threadStatePPC64Decode
  else FieldRawLen "state" (toInt64 (count * 32)) []

/-- The switch on `cmd` in the body of one `load_command` struct (lines 408-625).  `archBits`
and `cpuType` are the variables of `ofileDecode` captured by the closure; `cmdsize` and the other
field values are unsigned 64-bit numbers below `2 ^ 32`. -/
def loadCommandPayload (archBits : Int) (cpuType cmd cmdsize : Nat) : Dec Unit :=
  if cmd = LC_UUID then
    FieldStruct "uuid_command" (FieldRawLen "uuid" (16 * 8) [])
  else if cmd = LC_SEGMENT ∨ cmd = LC_SEGMENT_64 then do
    let nsects ← FieldStruct "segment_command" (segmentCommandDecode archBits)
    let _ ← FieldStructArrayLoop "sections" "section" nsects (fun _ => sectionDecode archBits)
    pure ()
  else if cmd = LC_TWOLEVEL_HINTS then do
    let _ ← FieldU32 "offset" []
    let _ ← FieldU32 "nhints" []
    pure ()
  else if cmd = LC_LOAD_DYLIB ∨ cmd = LC_ID_DYLIB ∨ cmd = LC_LOAD_UPWARD_DYLIB
      ∨ cmd = LC_LOAD_WEAK_DYLIB ∨ cmd = LC_LAZY_LOAD_DYLIB ∨ cmd = LC_REEXPORT_DYLIB then
    FieldStruct "dylib_command" (do
      let offset ← FieldU32 "offset" []
      let _ ← FieldU32 "timestamp" [timestampMapper]
      let _ ← FieldU32 "current_version" []
      let _ ← FieldU32 "compatibility_version" []
      let _ ← FieldUTF8NullFixedLen "name" ((cmdsize : Int) - (offset : Int))
      pure ())
  else if cmd = LC_LOAD_DYLINKER ∨ cmd = LC_ID_DYLINKER ∨ cmd = LC_DYLD_ENVIRONMENT then do
    let offset ← FieldU32 "offset" []
    let _ ← FieldUTF8NullFixedLen "name" ((cmdsize : Int) - (offset : Int))
    pure ()
  else if cmd = LC_RPATH then do
    let offset ← FieldU32 "offset" []
    let _ ← FieldUTF8NullFixedLen "name" ((cmdsize : Int) - (offset : Int))
    pure ()
  else if cmd = LC_PREBOUND_DYLIB then do
    let _ ← U32
    let nmodules ← FieldU32 "nmodules" []
    let _ ← U32
    let _ ← FieldUTF8Null "name"
    FieldBitBufFn "linked_modules" (RawLen (toInt64 (nmodules / 8 + nmodules % 8)))
  else if cmd = LC_THREAD ∨ cmd = LC_UNIXTHREAD then do
    let _ ← FieldU32 "flavor" []
    let count ← FieldU32 "count" []
    FieldStruct "state" (threadStateDecode cpuType count)
  else if cmd = LC_ROUTINES ∨ cmd = LC_ROUTINES_64 then
    if archBits = 32 then do
      let _ ← FieldU32 "init_address" [Hex]
      let _ ← FieldU32 "init_module" []
      let _ ← FieldU32 "reserved1" []
      let _ ← FieldU32 "reserved2" []
      let _ ← FieldU32 "reserved3" []
      let _ ← FieldU32 "reserved4" []
      let _ ← FieldU32 "reserved5" []
      let _ ← FieldU32 "reserved6" []
      pure ()
    else do
      let _ ← FieldU64 "init_address" [Hex]
      let _ ← FieldU64 "init_module" []
      let _ ← FieldU64 "reserved1" []
      let _ ← FieldU64 "reserved2" []
      let _ ← FieldU64 "reserved3" []
      let _ ← FieldU64 "reserved4" []
      let _ ← FieldU64 "reserved5" []
      let _ ← FieldU64 "reserved6" []
      pure ()
  else if cmd = LC_SUB_UMBRELLA ∨ cmd = LC_SUB_LIBRARY ∨ cmd = LC_SUB_CLIENT
      ∨ cmd = LC_SUB_FRAMEWORK then do
    let offset ← FieldU32 "offset" []
    let _ ← FieldUTF8NullFixedLen "name" ((cmdsize : Int) - (offset : Int))
    pure ()
  else if cmd = LC_SYMTAB then do
    let _ ← FieldU32 "symoff" []
    let _ ← FieldU32 "nsyms" []
    let _ ← FieldU32 "stroff" []
    let _ ← FieldU32 "strsize" []
    pure ()
  else if cmd = LC_DYSYMTAB then do
    let _ ← FieldU32 "ilocalsym" []
    let _ ← FieldU32 "nlocalsym" []
    let _ ← FieldU32 "iextdefsym" []
    let _ ← FieldU32 "nextdefsym" []
    let _ ← FieldU32 "iundefsym" []
    let _ ← FieldU32 "nundefsym" []
    let _ ← FieldU32 "tocoff" []
    let _ ← FieldU32 "ntoc" []
    let _ ← FieldU32 "modtaboff" []
    let _ ← FieldU32 "nmodtab" []
    let _ ← FieldU32 "extrefsymoff" []
    let _ ← FieldU32 "nextrefsyms" []
    let _ ← FieldU32 "indirectsymoff" []
    let _ ← FieldU32 "nindirectsyms" []
    let _ ← FieldU32 "extreloff" []
    let _ ← FieldU32 "nextrel" []
    let _ ← FieldU32 "locreloff" []
    let _ ← FieldU32 "nlocrel" []
    pure ()
  else if cmd = LC_BUILD_VERSION then do
    let _ ← FieldU32 "platform" []
    let _ ← FieldU32 "minos" []
    let _ ← FieldU32 "sdk" []
    let ntools ← FieldU32 "ntools" []
    let _ ← FieldStructArrayLoop "tools" "tool" ntools (fun _ => do
      let _ ← FieldU32 "tool" []
      let _ ← FieldU32 "version" []
      pure ())
    pure ()
  else if cmd = LC_CODE_SIGNATURE ∨ cmd = LC_SEGMENT_SPLIT_INFO ∨ cmd = LC_FUNCTION_STARTS
      ∨ cmd = LC_DATA_IN_CODE ∨ cmd = LC_DYLIB_CODE_SIGN_DRS
      ∨ cmd = LC_LINKER_OPTIMIZATION_HINT then
    FieldStruct "linkedit_data" (do
      let _ ← FieldU32 "off" []
      let _ ← FieldU32 "size" []
      pure ())
  else if cmd = LC_VERSION_MIN_IPHONEOS ∨ cmd = LC_VERSION_MIN_MACOSX ∨ cmd = LC_VERSION_MIN_TVOS
      ∨ cmd = LC_VERSION_MIN_WATCHOS then do
    let _ ← FieldU32 "version" []
    let _ ← FieldU32 "sdk" []
    pure ()
  else if cmd = LC_DYLD_INFO ∨ cmd = LC_DYLD_INFO_ONLY then
    FieldStruct "dyld_info" (do
      let _ ← FieldU32 "rebase_off" []
      let _ ← FieldU32 "rebase_size" []
      let _ ← FieldU32 "bind_off" []
      let _ ← FieldU32 "bind_size" []
      let _ ← FieldU32 "weak_bind_off" []
      let _ ← FieldU32 "weak_bind_size" []
      let _ ← FieldU32 "lazy_bind_off" []
      let _ ← FieldU32 "lazy_bind_size" []
      let _ ← FieldU32 "export_off" []
      let _ ← FieldU32 "export_size" []
      pure ())
  else if cmd = LC_MAIN then
    FieldStruct "entrypoint" (do
      let _ ← FieldU64 "entryoff" []
      let _ ← FieldU64 "stacksize" []
      pure ())
  else if cmd = LC_SOURCE_VERSION then
    FieldStruct "source_version_tag" (do
      let _ ← FieldU64 "tag" []
      pure ())
  else if cmd = LC_LINKER_OPTION then
    FieldStruct "linker_option" (do
      let count ← FieldU32 "count" []
      let _ ← FieldUTF8NullFixedLen "option" (count : Int)
      pure ())
  else if cmd = LC_ENCRYPTION_INFO ∨ cmd = LC_ENCRYPTION_INFO_64 then
    FieldStruct "encryption_info" (do
      let _ ← FieldU32 "offset" []
      let _ ← FieldU32 "size" []
      let _ ← FieldU32 "id" []
      pure ())
  else if cmd = LC_IDFVMLIB ∨ cmd = LC_LOADFVMLIB then
    FieldStruct "fvmlib" (do
      let offset ← FieldU32 "offset" []
      let _ ← FieldU32 "minor_version" []
      let _ ← FieldU32 "header_addr" [Hex]
      let _ ← FieldUTF8NullFixedLen "name" ((cmdsize : Int) - (offset : Int))
      pure ())
  else if (loadCommands.lookup cmd).isNone then do
    let _ ← SeekRel (toInt64 (((cmdsize + 2 ^ 64 - 8) % 2 ^ 64) * 8))
    pure ()
  else
    pure ()

/-- The body of one `load_command` struct (lines 405-627): the `cmd` and `cmdsize` fields,
then the switch on `cmd`. -/
def loadCommand (archBits : Int) (cpuType : Nat) : Dec Unit := do
  let cmd ← FieldU32 "cmd" [UToSymStr loadCommands, Hex]
  let cmdsize ← FieldU32 "cmdsize" []
  loadCommandPayload archBits cpuType cmd cmdsize

/-- The thin path of `ofileDecode` (lines 386-627), once `archBits` and the byte order are set:
step back over the magic, the `header` struct, then the `load_commands` array, whose loop
`ncmdsIdx < int(ncmds)` runs `ncmds` times (`ncmds` is below `2 ^ 32` and `int` has 64 bits). -/
def ofileThin (archBits : Int) : Dec Unit := do
  let _ ← SeekRel (-4 * 8)
  let (cpuType, ncmds) ← FieldStruct "header" (headerDecode archBits)
  let _ ← FieldStructArrayLoop "load_commands" "load_command" ncmds
    (fun _ => loadCommand archBits cpuType)
  pure ()

/-- The body of one `fat_arch` struct (lines 646-650); it returns the `offset` field, which the
closure appends to `ofileOffsets`. -/
def fatArchDecode : Dec Nat := do
  let cpuType ← FieldU32 "cputype" [UToSymStr cpuTypes]
  let _ ← FieldU32 "cpusubtype" [UToSymStr ((cpuSubTypes.lookup cpuType).getD [])]
  let offset ← FieldU32 "offset" []
  let _ ← FieldU32 "size" []
  let _ ← FieldU32 "align" []
  pure offset

/-- The body of the `fat_header` struct (lines 636-653); it returns the captured `narchs` and
`ofileOffsets`. -/
def fatHeaderDecode : Dec (Nat × List Nat) := do
  FieldRawLen "magic" (4 * 8) []
  let narchs ← FieldU32 "narchs" []
  let ofileOffsets ← FieldStructArrayLoop "archs" "arch" narchs
    (fun _ => FieldStruct "fat_arch" fatArchDecode)
  pure (narchs, ofileOffsets)

/-- The body of one `file` struct (lines 659-661): seek to the recorded offset, then the nested
decode.  An index outside `ofileOffsets` is a Go run-time panic. -/
def fatFileDecode (ofileDecode : Dec Unit) (ofileOffsets : List Nat) (nfilesIdx : Nat) :
    Dec Unit :=
  match ofileOffsets.get? nfilesIdx with
  | none => fun _ => .error (.Panic "index out of range")
  | some offset => do
    let _ ← SeekAbs (toInt64 offset * 8)
    ofileDecode

/-- Function `fatParse`.  The nested `ofileDecode` is a parameter, so that the recursion of
`ofileDecode` through `fatParse` is structural. -/
def fatParse (ofileDecode : Dec Unit) : Dec Unit := do
  let _ ← SeekAbs 0
  let (narchs, ofileOffsets) ← FieldStruct "fat_header" fatHeaderDecode
  let _ ← FieldStructArrayLoop "files" "file" narchs (fatFileDecode ofileDecode ofileOffsets)
  pure ()

/-- Function `ofileDecode`, with `fuel` bounding the depth of nested `ofileDecode` activations
(one for a thin object, two for a fat container of thin objects). -/
def ofileDecode : Nat → Dec Unit
  | 0 => fun _ => .error .outOfFuel
  | fuel + 1 => do
    let magicBuffer ← U32LE
    if magicBuffer = MH_MAGIC ∨ magicBuffer = MH_MAGIC_64 then do
      setEndian .LittleEndian
      ofileThin (if magicBuffer = MH_MAGIC then 32 else 64)
    else if magicBuffer = MH_CIGAM ∨ magicBuffer = MH_CIGAM_64 then do
      setEndian .BigEndian
      ofileThin (if magicBuffer = MH_CIGAM then 32 else 64)
    else if magicBuffer = FAT_MAGIC then do
      setEndian .LittleEndian
      fatParse (ofileDecode fuel)
    else if magicBuffer = FAT_CIGAM then do
      setEndian .BigEndian
      fatParse (ofileDecode fuel)
    else
      Fatalf "Invalid magic field"

/-- Function `machoDecode`: decode the whole input from bit 0. -/
def machoDecode (fuel : Nat) (buf : List Nat) : Except Err (Unit × D) :=
  ofileDecode fuel ⟨buf, 0, .BigEndian, []⟩

/-! ## Reading results and decoded trees -/

/-- The cursor position a decode ends at. -/
def endPos {α : Type} (r : Except Err (α × D)) : Except Err Nat :=
  match r with
  | .error e => .error e
  | .ok (_, d) => .ok d.pos

/-- The fields a decode has added to the compound of its decoder. -/
def decoded {α : Type} (r : Except Err (α × D)) : Except Err (List Value) :=
  match r with
  | .error e => .error e
  | .ok (_, d) => .ok d.children

/-- The name of a node. -/
def Value.name : Value → String
  | .Scalar name _ _ _ => name
  | .Struct name _ => name
  | .Array name _ => name

/-- The children of a compound node; a scalar has none. -/
def Value.children : Value → List Value
  | .Scalar _ _ _ _ => []
  | .Struct _ children => children
  | .Array _ children => children

/-- The scalar of a scalar node. -/
def Value.scalar : Value → Option S
  | .Scalar _ s _ _ => some s
  | _ => none

/-- The unsigned value of an unsigned scalar node. -/
def Value.unsigned : Value → Option Nat
  | .Scalar _ ⟨.U v, _, _⟩ _ _ => some v
  | _ => none

/-- The source bit range `(start, len)` of a scalar node. -/
def Value.range : Value → Option (Nat × Nat)
  | .Scalar _ _ start len => some (start, len)
  | _ => none

/-- The first node called `name` among `vs`. -/
def field (name : String) (vs : List Value) : Option Value :=
  vs.find? (fun v => v.name == name)

/-- The children of the first node called `name` among `vs` (none when there is no such node). -/
def fieldChildren (name : String) (vs : List Value) : List Value :=
  match field name vs with
  | some v => v.children
  | none => []

/-- A decoder that can only fail with an `IOError`, the failure of a read or seek outside the
buffer. -/
def IOOnly {α : Type} (x : Dec α) : Prop := ∀ d e, x d = .error e → ∃ op, e = .IOError op

/-! ## Sample inputs -/

/-- A `uuid` command (id `0x1b`) in little-endian byte order that declares `cmdsize = 32`,
followed by 24 payload bytes. -/
def uuidCommand32 : List Nat :=
  [0x1b, 0, 0, 0, 32, 0, 0, 0,
   1, 2, 3, 4, 5, 6, 7, 8, 9, 10, 11, 12, 13, 14, 15, 16, 17, 18, 19, 20, 21, 22, 23, 24]

/-- A command with the unknown id `0x77` in little-endian byte order, `cmdsize = 16`, followed by
8 payload bytes. -/
def unknownCommand16 : List Nat :=
  [0x77, 0, 0, 0, 16, 0, 0, 0, 0xa1, 0xa2, 0xa3, 0xa4, 0xa5, 0xa6, 0xa7, 0xa8]

/-- A 32-bit little-endian thin object (cputype 7, `ncmds = 2`) whose first command is `LC_IDENT`
with `cmdsize = 16` (8 payload bytes) and whose second command is a `uuid` command with
`cmdsize = 24`. -/
def identThenUuid : List Nat :=
  [0xce, 0xfa, 0xed, 0xfe, 7, 0, 0, 0, 3, 0, 0, 0, 2, 0, 0, 0,
   2, 0, 0, 0, 40, 0, 0, 0, 0x85, 0, 0, 0,
   0x08, 0, 0, 0, 16, 0, 0, 0, 0xa1, 0xa2, 0xa3, 0xa4, 0xb1, 0xb2, 0xb3, 0xb4,
   0x1b, 0, 0, 0, 24, 0, 0, 0,
   1, 2, 3, 4, 5, 6, 7, 8, 9, 10, 11, 12, 13, 14, 15, 16]

/-- The `cmd` values of the `load_command` entries of a decoded thin object, in order. -/
def commandIds (tree : List Value) : List (Option Nat) :=
  (fieldChildren "load_commands" tree).map
    (fun c => (field "cmd" c.children).bind Value.unsigned)

/-- The start bits of the `cmd` fields of the `load_command` entries of a decoded thin object,
in order. -/
def commandStarts (tree : List Value) : List (Option Nat) :=
  (fieldChildren "load_commands" tree).map
    (fun c => ((field "cmd" c.children).bind Value.range).map Prod.fst)

/-- A 32-bit little-endian thin object with no load command: magic bytes `ce fa ed fe`,
cputype 7, cpusubtype 3, filetype 2, `ncmds = 0`. -/
def thinLE32 : List Nat :=
  [0xce, 0xfa, 0xed, 0xfe, 7, 0, 0, 0, 3, 0, 0, 0, 2, 0, 0, 0,
   0, 0, 0, 0, 0, 0, 0, 0, 0x85, 0, 0, 0]

/-- A 32-bit big-endian thin object with no load command: magic bytes `fe ed fa ce`,
cputype 18, cpusubtype 0, filetype 2, `ncmds = 0`. -/
def thinBE32 : List Nat :=
  [0xfe, 0xed, 0xfa, 0xce, 0, 0, 0, 18, 0, 0, 0, 0, 0, 0, 0, 2,
   0, 0, 0, 0, 0, 0, 0, 0, 0, 0, 0, 0x85]

/-- A 64-bit big-endian thin object with no load command: magic bytes `fe ed fa cf`,
cputype `0x1000013`, `ncmds = 0`, reserved bytes zero. -/
def thinBE64 : List Nat :=
  [0xfe, 0xed, 0xfa, 0xcf, 1, 0, 0, 0x13, 0, 0, 0, 0, 0, 0, 0, 2,
   0, 0, 0, 0, 0, 0, 0, 0, 0, 0, 0, 0x85, 0, 0, 0, 0]

/-- A big-endian fat container (magic bytes `ca fe ba be`) with one `fat_arch` record whose
offset 28 points at the four zero bytes that end the buffer. -/
def fatBadSlice : List Nat :=
  [0xca, 0xfe, 0xba, 0xbe, 0, 0, 0, 1,
   0, 0, 0, 7, 0, 0, 0, 3, 0, 0, 0, 28, 0, 0, 0, 4, 0, 0, 0, 0,
   0, 0, 0, 0]

/-- The label of the `endian` field of the `header` struct of a decoded thin object. -/
def headerEndian (tree : List Value) : Option String :=
  ((field "endian" (fieldChildren "header" tree)).bind Value.scalar).bind S.Sym

/-- The thin path of `ofileDecode` cut after `i` load commands: the header, then the first `i`
iterations of the `load_commands` loop.  It names the state "after `i` commands have been
read". -/
def ofileThinPrefix (archBits : Int) (i : Nat) : Dec Unit := do
  let _ ← SeekRel (-4 * 8)
  let (cpuType, _) ← FieldStruct "header" (headerDecode archBits)
  let _ ← FieldStructArrayLoop "load_commands" "load_command" i
    (fun _ => loadCommand archBits cpuType)
  pure ()

/-- A 32-bit little-endian thin object that declares `ncmds = 2` and ends after its first
command (unknown id `0x77`, `cmdsize = 16`). -/
def truncatedThin : List Nat :=
  [0xce, 0xfa, 0xed, 0xfe, 7, 0, 0, 0, 3, 0, 0, 0, 2, 0, 0, 0,
   2, 0, 0, 0, 32, 0, 0, 0, 0x85, 0, 0, 0,
   0x77, 0, 0, 0, 16, 0, 0, 0, 0xa1, 0xa2, 0xa3, 0xa4, 0xa5, 0xa6, 0xa7, 0xa8]

/-- The five fields of a `fat_arch` record that starts at bit `p`, as the format lays them out:
`cputype`, `cpusubtype`, `offset`, `size`, `align`, 32 bits each, in byte order `e`. -/
def fatArchFields (buf : List Nat) (e : Endian) (p : Nat) : List Value :=
  [Value.Scalar "cputype"
     (applyMappers [UToSymStr cpuTypes] ⟨.U (readU buf p 32 e), none, ""⟩) p 32,
   Value.Scalar "cpusubtype"
     (applyMappers [UToSymStr ((cpuSubTypes.lookup (readU buf p 32 e)).getD [])]
       ⟨.U (readU buf (p + 32) 32 e), none, ""⟩) (p + 32) 32,
   Value.Scalar "offset" ⟨.U (readU buf (p + 64) 32 e), none, ""⟩ (p + 64) 32,
   Value.Scalar "size" ⟨.U (readU buf (p + 96) 32 e), none, ""⟩ (p + 96) 32,
   Value.Scalar "align" ⟨.U (readU buf (p + 128) 32 e), none, ""⟩ (p + 128) 32]

/-- A big-endian fat container with two slices listed out of offset order: the first `fat_arch`
record has offset 76 (a 32-bit little-endian thin object, `thinLE32`), the second has offset 48
(a 32-bit big-endian thin object, `thinBE32`). -/
def fatTwoSlices : List Nat :=
  [0xca, 0xfe, 0xba, 0xbe, 0, 0, 0, 2,
   0, 0, 0, 7, 0, 0, 0, 3, 0, 0, 0, 76, 0, 0, 0, 28, 0, 0, 0, 0,
   0, 0, 0, 18, 0, 0, 0, 0, 0, 0, 0, 48, 0, 0, 0, 28, 0, 0, 0, 0]
  ++ thinBE32 ++ thinLE32

/-! ## Layouts -/

/-- The shape of a decoded node: the names, the bit lengths of the scalars and the nesting, with
values and positions left out. -/
inductive Shape
  | Leaf (name : String) (bits : Nat)
  | Struct (name : String) (kids : List Shape)
  | Array (name : String) (kids : List Shape)
deriving Repr

mutual
/-- The shape of a decoded node. -/
def Value.shape : Value → Shape
  | .Scalar name _ _ len => .Leaf name len
  | .Struct name cs => .Struct name (Value.shapes cs)
  | .Array name cs => .Array name (Value.shapes cs)
/-- The shapes of a list of decoded nodes. -/
def Value.shapes : List Value → List Shape
  | [] => []
  | v :: vs => Value.shape v :: Value.shapes vs
end

/-- The decoder `x`, run from the state `d`, reads exactly `n` bits: it succeeds exactly when the
`n` bits are left (a run that reads nothing always succeeds); it then moves the cursor `n` bits
on, keeps the buffer and the byte order, and adds fields of the shapes `ss`, in that order. -/
def LayoutAt {α : Type} (x : Dec α) (d : D) (n : Nat) (ss : List Shape) : Prop :=
  ((n = 0 ∨ d.pos + n ≤ 8 * d.buf.length) →
    ∃ a d', x d = .ok (a, d') ∧ d'.pos = d.pos + n ∧ d'.buf = d.buf ∧ d'.Endian = d.Endian ∧
      ∃ cs, d'.children = d.children ++ cs ∧ Value.shapes cs = ss) ∧
  ((0 < n ∧ 8 * d.buf.length < d.pos + n) → ∃ e, x d = .error e)

/-- A decoder with a fixed layout: from every state it reads exactly `n` bits and adds fields of
the shapes `ss`. -/
def Layout {α : Type} (x : Dec α) (n : Nat) (ss : List Shape) : Prop :=
  ∀ d : D, LayoutAt x d n ss

/-- The shape of the `flags` struct of a segment command (`parseSegmentFlags`). -/
def segmentFlagsShape : List Shape :=
  [Shape.Leaf "reserved" 28, Shape.Leaf "SG_PROTECTED_VERSION_1" 1,
   Shape.Leaf "SG_NORELOC" 1, Shape.Leaf "SG_FVMLIB" 1, Shape.Leaf "SG_HIGHVM" 1]

/-- The shape of the `flags` struct of a section (`parseSectionFlags`). -/
def sectionFlagsShape : List Shape :=
  [Shape.Leaf "S_ATTR_PURE_INSTRUCTIONS" 1, Shape.Leaf "S_ATTR_NO_TOC" 1,
   Shape.Leaf "S_ATTR_STRIP_STATIC_SYMS" 1, Shape.Leaf "S_ATTR_NO_DEAD_STRIP" 1,
   Shape.Leaf "S_ATTR_LIVE_SUPPORT" 1, Shape.Leaf "S_ATTR_SELF_MODIFYING_CODE" 1,
   Shape.Leaf "S_ATTR_DEBUG" 1, Shape.Leaf "reserved" 14,
   Shape.Leaf "S_ATTR_SOME_INSTRUCTIONS" 1, Shape.Leaf "S_ATTR_EXT_RELOC" 1,
   Shape.Leaf "S_ATTR_LOC_RELOC" 1]

/-- The fields of the `segment_command` struct in a 32-bit object: 48 bytes. -/
def segmentShape32 : List Shape :=
  [Shape.Leaf "arch_bits" 0, Shape.Leaf "segname" 128, Shape.Leaf "vmaddr" 32,
   Shape.Leaf "vmsize" 32, Shape.Leaf "fileoff" 32, Shape.Leaf "tfilesize" 32,
   Shape.Leaf "initprot" 32, Shape.Leaf "maxprot" 32, Shape.Leaf "nsects" 32,
   Shape.Struct "flags" segmentFlagsShape]

/-- The fields of the `segment_command` struct in a 64-bit object: 64 bytes. -/
def segmentShape64 : List Shape :=
  [Shape.Leaf "arch_bits" 0, Shape.Leaf "segname" 128, Shape.Leaf "vmaddr" 64,
   Shape.Leaf "vmsize" 64, Shape.Leaf "fileoff" 64, Shape.Leaf "tfilesize" 64,
   Shape.Leaf "initprot" 32, Shape.Leaf "maxprot" 32, Shape.Leaf "nsects" 32,
   Shape.Struct "flags" segmentFlagsShape]

/-- The fields of one `section` struct in a 32-bit object: 68 bytes, no `reserved3`. -/
def sectionShape32 : List Shape :=
  [Shape.Leaf "sectname" 128, Shape.Leaf "segname" 128, Shape.Leaf "address" 32,
   Shape.Leaf "size" 32, Shape.Leaf "offset" 32, Shape.Leaf "align" 32,
   Shape.Leaf "reloff" 32, Shape.Leaf "nreloc" 32, Shape.Struct "flags" sectionFlagsShape,
   Shape.Leaf "type" 8, Shape.Leaf "reserved1" 32, Shape.Leaf "reserved2" 32]

/-- The fields of one `section` struct in a 64-bit object: 80 bytes, with `reserved3`. -/
def sectionShape64 : List Shape :=
  [Shape.Leaf "sectname" 128, Shape.Leaf "segname" 128, Shape.Leaf "address" 64,
   Shape.Leaf "size" 64, Shape.Leaf "offset" 32, Shape.Leaf "align" 32,
   Shape.Leaf "reloff" 32, Shape.Leaf "nreloc" 32, Shape.Struct "flags" sectionFlagsShape,
   Shape.Leaf "type" 8, Shape.Leaf "reserved1" 32, Shape.Leaf "reserved2" 32,
   Shape.Leaf "reserved3" 32]

/-- The payload of a segment command of a 32-bit little-endian object: segment `__TEXT` with
vmaddr `0x1000`, vmsize `0x1000`, fileoff 0, filesize `0x1000`, then the words 7 (maxprot in the
format), 5 (initprot in the format), `nsects = 1`, flags 0; then one section `__text`. -/
def segmentPayload32 : List Nat :=
  [0x5f, 0x5f, 0x54, 0x45, 0x58, 0x54, 0x00, 0x00, 0x00, 0x00, 0x00, 0x00, 0x00, 0x00, 0x00, 0x00,
   0x00, 0x10, 0x00, 0x00, 0x00, 0x10, 0x00, 0x00, 0x00, 0x00, 0x00, 0x00, 0x00, 0x10, 0x00, 0x00,
   0x07, 0x00, 0x00, 0x00, 0x05, 0x00, 0x00, 0x00, 0x01, 0x00, 0x00, 0x00, 0x00, 0x00, 0x00, 0x00,
   0x5f, 0x5f, 0x74, 0x65, 0x78, 0x74, 0x00, 0x00, 0x00, 0x00, 0x00, 0x00, 0x00, 0x00, 0x00, 0x00,
   0x5f, 0x5f, 0x54, 0x45, 0x58, 0x54, 0x00, 0x00, 0x00, 0x00, 0x00, 0x00, 0x00, 0x00, 0x00, 0x00,
   0x00, 0x10, 0x00, 0x00, 0x10, 0x00, 0x00, 0x00, 0x00, 0x01, 0x00, 0x00, 0x04, 0x00, 0x00, 0x00,
   0x00, 0x00, 0x00, 0x00, 0x00, 0x00, 0x00, 0x00, 0x00, 0x04, 0x00, 0x80, 0x00, 0x00, 0x00, 0x00,
   0x00, 0x00, 0x00, 0x00]

/-- The decoder state at the start of `segmentPayload32`, little endian, nothing decoded yet. -/
def segmentStart32 : D := ⟨segmentPayload32, 0, .LittleEndian, []⟩

/-- The fields called `tfilesize`, `initprot` and `maxprot` of the `segment_command` struct of a
decoded segment payload, in the order they were decoded: name, source bit range, value. -/
def segmentProt (tree : List Value) : List (String × Option (Nat × Nat) × Option Actual) :=
  (fieldChildren "segment_command" tree).filterMap (fun v =>
    if v.name = "tfilesize" ∨ v.name = "initprot" ∨ v.name = "maxprot" then
      some (v.name, v.range, v.scalar.map S.Actual)
    else none)

/-- The fixed prefix `P`, in bytes, of the payload of a name-carrying command, as the format
documents it: 16 for the dylib family, 12 for the fvmlib family, 4 for the dylinker family,
`rpath` and the `sub_*` family; none for every other id. -/
def namePrefix (cmd : Nat) : Option Nat :=
  if cmd = LC_LOAD_DYLIB ∨ cmd = LC_ID_DYLIB ∨ cmd = LC_LOAD_UPWARD_DYLIB
      ∨ cmd = LC_LOAD_WEAK_DYLIB ∨ cmd = LC_LAZY_LOAD_DYLIB ∨ cmd = LC_REEXPORT_DYLIB then some 16
  else if cmd = LC_IDFVMLIB ∨ cmd = LC_LOADFVMLIB then some 12
  else if cmd = LC_LOAD_DYLINKER ∨ cmd = LC_ID_DYLINKER ∨ cmd = LC_DYLD_ENVIRONMENT
      ∨ cmd = LC_RPATH ∨ cmd = LC_SUB_UMBRELLA ∨ cmd = LC_SUB_LIBRARY ∨ cmd = LC_SUB_CLIENT
      ∨ cmd = LC_SUB_FRAMEWORK then some 4
  else none

/-- The `name` field of a decoded command payload `cs`: looked up among the fields themselves
and, when there is none, inside the compound fields among them. -/
def nameField (cs : List Value) : Option Value :=
  match field "name" cs with
  | some v => some v
  | none => cs.findSome? (fun v => field "name" v.children)

/-- The payload of a `LC_LOAD_DYLIB` command with `cmdsize = 32` in little-endian byte order:
name offset 24, timestamp 2, versions `0x10000`, then the 8 name bytes `a b 0 c d 0 0 0` with a
null byte in the middle. -/
def dylibPayload : List Nat :=
  [24, 0, 0, 0, 2, 0, 0, 0, 0, 0, 1, 0, 0, 0, 1, 0,
   0x61, 0x62, 0, 0x63, 0x64, 0, 0, 0]

/-- The decoder state at the start of `dylibPayload`, little endian, nothing decoded yet. -/
def dylibStart : D := ⟨dylibPayload, 0, .LittleEndian, []⟩

/-- The payload of a `LC_PREBOUND_DYLIB` command with `cmdsize = 24` in little-endian byte order:
name offset 20, `nmodules = 16`, linked-modules offset 22, the name `a` with its terminator, then
the two bitmap bytes `ff 0f` that 16 modules need. -/
def preboundPayload : List Nat :=
  [20, 0, 0, 0, 16, 0, 0, 0, 22, 0, 0, 0, 0x61, 0, 0xff, 0x0f]

/-- The decoder state at the start of `preboundPayload`, little endian, nothing decoded yet. -/
def preboundStart : D := ⟨preboundPayload, 0, .LittleEndian, []⟩

/-- The number of bits covered by the scalar fields of the `state` struct of a decoded thread
command payload. -/
def stateBits (tree : List Value) : Nat :=
  ((fieldChildren "state" tree).map (fun v => (v.range.map Prod.snd).getD 0)).sum

/-- The payload of a `LC_UNIXTHREAD` command in little-endian byte order that declares flavor 4
and `count = 4`, followed by 168 zero bytes. -/
def threadPayload : List Nat :=
  [4, 0, 0, 0, 4, 0, 0, 0] ++ List.replicate 168 0

/-- The decoder state at the start of `threadPayload`, little endian, nothing decoded yet. -/
def threadStart : D := ⟨threadPayload, 0, .LittleEndian, []⟩

/-- The source bit range of the `magic` field of the struct called `structName` in a decoded
tree. -/
def magicRange (structName : String) (tree : List Value) : Option (Nat × Nat) :=
  (field "magic" (fieldChildren structName tree)).bind Value.range

/-- Eight bytes that are no Mach-O data followed, at byte 8, by the four bytes `ca fe ba be` of
a big-endian fat magic.  The bytes 4..7 are zero. -/
def fatAtByte8 : List Nat :=
  [0xde, 0xad, 0xbe, 0xef, 0, 0, 0, 0, 0xca, 0xfe, 0xba, 0xbe]

/-- Four bytes that are no Mach-O data followed, at byte 4, by the 32-bit little-endian thin
object `thinLE32`. -/
def thinAtByte4 : List Nat := [0xde, 0xad, 0xbe, 0xef] ++ thinLE32

/-- A big-endian fat container (magic bytes `ca fe ba be`) with one `fat_arch` record whose
offset is 0: the slice it lists is the container itself. -/
def fatSelf : List Nat :=
  [0xca, 0xfe, 0xba, 0xbe, 0, 0, 0, 1,
   0, 0, 0, 7, 0, 0, 0, 3, 0, 0, 0, 0, 0, 0, 0, 28, 0, 0, 0, 0]

/-- A fat magic (the bytes `ca fe ba be` or `be ba fe ca`) lies at bit `p` of `buf`. -/
def fatMagicAt (buf : List Nat) (p : Nat) : Prop :=
  p + 32 ≤ 8 * buf.length ∧
    (readU buf p 32 .LittleEndian = FAT_MAGIC ∨ readU buf p 32 .LittleEndian = FAT_CIGAM)

instance (buf : List Nat) (p : Nat) : Decidable (fatMagicAt buf p) := by
  unfold fatMagicAt
  infer_instance

/-- The buffers `B` and `B'` have the same length and hold the same bits from `lo` to `hi`:
every read inside the buffer that starts at or after bit `lo` and ends at or before bit `hi`
gives the same number on both. -/
def AgreeOn (lo hi : Nat) (B B' : List Nat) : Prop :=
  B.length = B'.length ∧
    ∀ p n, lo ≤ p → p + n ≤ hi → p + n ≤ 8 * B.length → readBits B p n = readBits B' p n

/-- The decoder `x` only looks forward: started at least `k` bits after a floor `lo`, on a buffer
that agrees with `B'` from `lo` on, it fails on `B'` with the same failure or succeeds on `B'`
with the same result, the same fields and the same cursor, which is not below `lo`. -/
def Fwd {α : Type} (k : Nat) (x : Dec α) : Prop :=
  ∀ (lo : Nat) (B' : List Nat) (d : D),
    AgreeOn lo (8 * d.buf.length) d.buf B' → lo + k ≤ d.pos →
      (∀ e, x d = .error e → x { d with buf := B' } = .error e) ∧
      (∀ a d1, x d = .ok (a, d1) →
        x { d with buf := B' } = .ok (a, { d1 with buf := B' }) ∧ d1.buf = d.buf ∧ lo ≤ d1.pos)

/-- The decoder `x` reads between its start and its end: a run that succeeds keeps the buffer,
does not move the cursor back, and gives the same result, fields and cursor on every buffer
that agrees with its own between the cursor positions it starts and ends at. -/
def Region {α : Type} (x : Dec α) : Prop :=
  ∀ (d : D) (a : α) (d1 : D), x d = .ok (a, d1) →
    d1.buf = d.buf ∧ d.pos ≤ d1.pos ∧
      ∀ B', AgreeOn d.pos d1.pos d.buf B' → x { d with buf := B' } = .ok (a, { d1 with buf := B' })

/-- The fields of the `header` struct before `reserved` (lines 388-397 of `ofileDecode`):
`headerDecode` without its last, conditional, field. -/
def headerFields (archBits : Int) : Dec (Nat × Nat) := do
  FieldValueS "arch_bits" archBits
  let magic ← FieldU32 "magic" [Hex, UToScalar magicSymMapper]
  FieldValueU "bits" archBits.toNat
  FieldValueStr "endian" ((endianNames.lookup magic).getD "")
  let cpuType ← FieldU32 "cputype" [UToSymStr cpuTypes]
  let _ ← FieldU32 "cpusubtype" [UToSymStr ((cpuSubTypes.lookup cpuType).getD [])]
  let _ ← FieldU32 "filetype" [UToSymStr fileTypes]
  let ncmds ← FieldU32 "ncdms" []
  let _ ← FieldU32 "sizeofncdms" []
  FieldStruct "flags" parseMachHeaderFlags
  pure (cpuType, ncmds)
/-- The shape of the `flags` struct of the header (`parseMachHeaderFlags`): 32 bits. -/
def machHeaderFlagsShape : List Shape :=
  Shape.Leaf "reserved" 6 ::
    ["MH_APP_EXTENSION_SAFE", "MH_NO_HEAP_EXECUTION", "MH_HAS_TLV_DESCRIPTORS",
     "MH_DEAD_STRIPPABLE_DYLIB", "MH_PIE", "MH_NO_REEXPORTED_DYLIBS", "MH_SETUID_SAFE",
     "MH_ROOT_SAFE", "MH_ALLOW_STACK_EXECUTION", "MH_BINDS_TO_WEAK", "MH_WEAK_DEFINES",
     "MH_CANONICAL", "MH_SUBSECTIONS_VIA_SYMBOLS", "MH_ALLMODSBOUND", "MH_PREBINDABLE",
     "MH_NOFIXPREBINDING", "MH_NOMULTIDEFS", "MH_FORCE_FLAT", "MH_TWOLEVEL", "MH_LAZY_INIT",
     "MH_SPLIT_SEGS", "MH_PREBOUND", "MH_BINDATLOAD", "MH_DYLDLINK", "MH_INCRLINK",
     "MH_NOUNDEFS"].map (fun name => Shape.Leaf name 1)

/-- The fields of the `header` struct of a 32-bit object: 28 bytes, no `reserved` field. -/
def headerShape32 : List Shape :=
  [Shape.Leaf "arch_bits" 0, Shape.Leaf "magic" 32, Shape.Leaf "bits" 0, Shape.Leaf "endian" 0,
   Shape.Leaf "cputype" 32, Shape.Leaf "cpusubtype" 32, Shape.Leaf "filetype" 32,
   Shape.Leaf "ncdms" 32, Shape.Leaf "sizeofncdms" 32, Shape.Struct "flags" machHeaderFlagsShape]

/-- The fields of the `header` struct of a 64-bit object: 32 bytes, the last four of them the
`reserved` field. -/
def headerShape64 : List Shape := headerShape32 ++ [Shape.Leaf "reserved" 32]

/-- Forget the value of a scalar field called `reserved`: its name and source range stay. -/
def eraseReserved : Value → Value
  | .Scalar name s start len =>
    if name = "reserved" then .Scalar name ⟨.Raw 0, none, ""⟩ start len
    else .Scalar name s start len
  | v => v

/-- A decoded tree with the value and the all-zero mark of the `reserved` field of its `header`
struct forgotten; every other node is kept as it is. -/
def forgetReserved (tree : List Value) : List Value :=
  tree.map (fun v =>
    match v with
    | .Struct name cs => if name = "header" then .Struct name (cs.map eraseReserved) else v
    | v => v)
/-- The first 28 bytes of the header of a 64-bit big-endian thin object with no load command
(magic bytes `fe ed fa cf`, cputype `0x1000013`, `ncmds = 0`): the header without its four
reserved bytes. -/
def header64 : List Nat :=
  [0xfe, 0xed, 0xfa, 0xcf, 1, 0, 0, 0x13, 0, 0, 0, 0, 0, 0, 0, 2,
   0, 0, 0, 0, 0, 0, 0, 0, 0, 0, 0, 0x85]

/-- The shape of a register array of `k` registers of `bits` bits: an array called `name` of `k`
structs called `name`, each with the one field `value`. -/
def registerArray (name : String) (k bits : Nat) : Shape :=
  Shape.Array name (List.replicate k (Shape.Struct name [Shape.Leaf "value" bits]))

/-- The buffer of 304 zero bytes, the size of a PPC64 thread state as the code reads it. -/
def ppc64State : List Nat := List.replicate 304 0

/-- Fields of 32 bits with the given names. -/
def words32 (names : List String) : List Shape := names.map (fun name => Shape.Leaf name 32)

/-- Fields of 64 bits with the given names. -/
def words64 (names : List String) : List Shape := names.map (fun name => Shape.Leaf name 64)

/-- The payload of each fixed-layout command family as the format documents it: its size in
bytes and its fields, for an object of `archBits` bits; none for every other id. -/
def fixedPayload (archBits : Int) (cmd : Nat) : Option (Nat × List Shape) :=
  if cmd = LC_UUID then
    some (16, [Shape.Struct "uuid_command" [Shape.Leaf "uuid" 128]])
  else if cmd = LC_TWOLEVEL_HINTS then
    some (8, words32 ["offset", "nhints"])
  else if cmd = LC_ROUTINES ∨ cmd = LC_ROUTINES_64 then
    if archBits = 32 then some (32, words32 ["init_address", "init_module", "reserved1", "reserved2", "reserved3", "reserved4",
        "reserved5", "reserved6"])
    else some (64, words64 ["init_address", "init_module", "reserved1", "reserved2", "reserved3", "reserved4",
        "reserved5", "reserved6"])
  else if cmd = LC_SYMTAB then
    some (16, words32 ["symoff", "nsyms", "stroff", "strsize"])
  else if cmd = LC_DYSYMTAB then
    some (72, words32 ["ilocalsym", "nlocalsym", "iextdefsym", "nextdefsym", "iundefsym",
      "nundefsym", "tocoff", "ntoc", "modtaboff", "nmodtab", "extrefsymoff", "nextrefsyms",
      "indirectsymoff", "nindirectsyms", "extreloff", "nextrel", "locreloff", "nlocrel"])
  else if cmd = LC_CODE_SIGNATURE ∨ cmd = LC_SEGMENT_SPLIT_INFO ∨ cmd = LC_FUNCTION_STARTS
      ∨ cmd = LC_DATA_IN_CODE ∨ cmd = LC_DYLIB_CODE_SIGN_DRS ∨ cmd = LC_LINKER_OPTIMIZATION_HINT then
    some (8, [Shape.Struct "linkedit_data" (words32 ["off", "size"])])
  else if cmd = LC_VERSION_MIN_IPHONEOS ∨ cmd = LC_VERSION_MIN_MACOSX ∨ cmd = LC_VERSION_MIN_TVOS
      ∨ cmd = LC_VERSION_MIN_WATCHOS then
    some (8, words32 ["version", "sdk"])
  else if cmd = LC_DYLD_INFO ∨ cmd = LC_DYLD_INFO_ONLY then
    some (40, [Shape.Struct "dyld_info" (words32 ["rebase_off", "rebase_size", "bind_off",
      "bind_size", "weak_bind_off", "weak_bind_size", "lazy_bind_off", "lazy_bind_size",
      "export_off", "export_size"])])
  else if cmd = LC_MAIN then
    some (16, [Shape.Struct "entrypoint" (words64 ["entryoff", "stacksize"])])
  else if cmd = LC_SOURCE_VERSION then
    some (8, [Shape.Struct "source_version_tag" (words64 ["tag"])])
  else if cmd = LC_ENCRYPTION_INFO ∨ cmd = LC_ENCRYPTION_INFO_64 then
    some (12, [Shape.Struct "encryption_info" (words32 ["offset", "size", "id"])])
  else none

/-- The payload of a `LC_BUILD_VERSION` command in little-endian byte order: platform 1, minos
`0xb0000`, sdk `0xb0300`, `ntools = 2`, then the pairs (3, `0x2c80000`) and (4, 1). -/
def buildVersionPayload : List Nat :=
  [1, 0, 0, 0, 0, 0, 0x0b, 0, 0, 3, 0x0b, 0, 2, 0, 0, 0,
   3, 0, 0, 0, 0, 0, 0xc8, 2, 4, 0, 0, 0, 1, 0, 0, 0]

/-- The decoder state at the start of `buildVersionPayload`, little endian, nothing decoded
yet. -/
def buildVersionStart : D := ⟨buildVersionPayload, 0, .LittleEndian, []⟩

/-- A 32-bit little-endian thin object that declares `ncmds = 3` and holds one 8-byte command
with the unknown id `0x77` and `cmdsize = 0`. -/
def zeroSizeCommand : List Nat :=
  [0xce, 0xfa, 0xed, 0xfe, 7, 0, 0, 0, 3, 0, 0, 0, 2, 0, 0, 0,
   3, 0, 0, 0, 8, 0, 0, 0, 0x85, 0, 0, 0,
   0x77, 0, 0, 0, 0, 0, 0, 0]

/-- The decoder state at the first command of `zeroSizeCommand` (bit 224), little endian. -/
def zeroSizeStart : D := ⟨zeroSizeCommand, 224, .LittleEndian, []⟩

/-- Whether a decode succeeded. -/
def succeeds {α : Type} (r : Except Err (α × D)) : Bool :=
  match r with
  | .ok _ => true
  | .error _ => false

/-- A big-endian fat container with three slices: a 32-bit little-endian thin object at byte 68
(`thinLE32`), four zero bytes at byte 96, which are no magic, and a 32-bit big-endian thin
object at byte 100 (`thinBE32`). -/
def fatSecondBad : List Nat :=
  [0xca, 0xfe, 0xba, 0xbe, 0, 0, 0, 3,
   0, 0, 0, 7, 0, 0, 0, 3, 0, 0, 0, 68, 0, 0, 0, 28, 0, 0, 0, 0,
   0, 0, 0, 7, 0, 0, 0, 3, 0, 0, 0, 96, 0, 0, 0, 4, 0, 0, 0, 0,
   0, 0, 0, 18, 0, 0, 0, 0, 0, 0, 0, 100, 0, 0, 0, 28, 0, 0, 0, 0]
  ++ thinLE32 ++ [0, 0, 0, 0] ++ thinBE32

/-- The decoder state in which `ofileDecode` hands `fatSecondBad` to `fatParse`: after the
magic, big endian. -/
def fatSecondBadStart : D := ⟨fatSecondBad, 32, .BigEndian, []⟩

end Macho

/-!
MIDI meta events (`format/midi/metaevents.go`)

The closures of `decodeSequenceNumber`, `decodeTimeSignature` and `decodeKeySignature` that
compute a value from `data`, the bytes of the event returned by `vlf`.  The bytes are `uint8`,
the values `uint64`; the arithmetic is Go's, modulo `2 ^ 64`.  A Go run-time panic is an error
that carries the panic message.
-/

namespace Midi

/-- The closure of the `sequenceNumber` field of `decodeSequenceNumber` (lines 123-137): both
uses of `data` are guarded by a check of its length. -/
def decodeSequenceNumber (data : List Nat) : Except String Nat :=
  let seqno := 0
  let seqno := if h : data.length > 0 then (seqno + data.get ⟨0, h⟩ % 2 ^ 64) % 2 ^ 64 else seqno
  let seqno :=
    if h : data.length > 1 then ((seqno <<< 8) % 2 ^ 64 + data.get ⟨1, h⟩ % 2 ^ 64) % 2 ^ 64
    else seqno
  .ok seqno

/-- The loop `for i := uint8(0); i < data[1]; i++ { denominator <<= 1 }` of
`decodeTimeSignature` (lines 317-320), with `n` for `data[1]`: the counter is a `uint8` and
wraps at 256, the denominator is a `uint64`.  `fuel` bounds the number of tests of the loop
condition; running out of it gives `none`. -/
def denominatorLoop : Nat → Nat → Nat → Nat → Option Nat
  | 0, _, _, _ => none
  | fuel + 1, i, n, denominator =>
    if i < n then denominatorLoop fuel ((i + 1) % 256) n ((denominator <<< 1) % 2 ^ 64)
    else some denominator

/-- The value fields the closure of the `signature` struct of `decodeTimeSignature` (lines
302-334) adds after `bytes`, in order, with their names.  Every use of `data` is guarded by a
check of its length. -/
def decodeTimeSignature (fuel : Nat) (data : List Nat) : Option (List (String × Nat)) := do
  let numerator :=
    if h : data.length > 0 then [("numerator", data.get ⟨0, h⟩ % 2 ^ 64)] else []
  let denominator ←
    if h : data.length > 1 then
      (denominatorLoop fuel 0 (data.get ⟨1, h⟩) 1).map (fun v => [("denominator", v)])
    else some []
  let ticksPerClick :=
    if h : data.length > 2 then [("ticksPerClick", data.get ⟨2, h⟩ % 2 ^ 64)] else []
  let thirtySecondsPerQuarter :=
    if h : data.length > 3 then [("thirtySecondsPerQuarter", data.get ⟨3, h⟩ % 2 ^ 64)] else []
  pure (numerator ++ denominator ++ ticksPerClick ++ thirtySecondsPerQuarter)

/-- The closure of the `key` field of `decodeKeySignature` (lines 339-346):
`key := uint64(data[0]) & 0x00ff; key <<= 8; key |= uint64(data[1]) & 0x00ff`.  Neither index
is guarded: an index outside `data` is a Go run-time panic. -/
def decodeKeySignature (data : List Nat) : Except String Nat :=
  match data.get? 0 with
  | none => .error "index out of range [0] with length 0"
  | some b0 =>
    let key := (b0 % 2 ^ 64) &&& 0x00ff
    let key := (key <<< 8) % 2 ^ 64
    match data.get? 1 with
    | none => .error "index out of range [1] with length 1"
    | some b1 => .ok (key ||| ((b1 % 2 ^ 64) &&& 0x00ff))

end Midi

/-!
H.264 sequence parameter set (`format/mpeg/avc_sps.go`)

The VUI parameters and the HRD parameters they hold.  The decoder runs on the same decode
engine as the Mach-O decoder, in the engine's default byte order, big endian.  Code of other
packages that the two functions call is a parameter of the embedding: the exp-Golomb reader
`uEV` and the three label tables of `format`.
-/

namespace Mpeg

open Macho

/-- The collaborators of `avcVuiParameters` whose code is in other files: the reader `uEV` and
the label tables `format.ISO_23091_2_ColourPrimariesMap`,
`format.ISO_23091_2_TransferCharacteristicMap` and `format.ISO_23091_2_MatrixCoefficients`. -/
structure Collaborators where
  uEV : Dec Nat
  colourPrimariesMap : Mapper
  transferCharacteristicMap : Mapper
  matrixCoefficients : Mapper

/-- The table `avcVideoFormatMap`. -/
def avcVideoFormatMap : List (Nat × String) := [
  (0, "component"),
  (1, "pal"),
  (2, "ntsc"),
  (3, "secam"),
  (4, "mac"),
  (5, "unspecified"),
  (6, "reserved"),
  (7, "reserved")]

/-- The table `avcAspectRatioIdcMap`. -/
def avcAspectRatioIdcMap : List (Nat × String) := [
  (0, "unspecified"),
  (1, "1:1"),
  (2, "12:11"),
  (3, "10:11"),
  (4, "16:11"),
  (5, "40:33"),
  (6, "24:11"),
  (7, "20:11"),
  (8, "32:11"),
  (9, "80:33"),
  (10, "18:11"),
  (11, "15:11"),
  (12, "64:33"),
  (13, "160:99"),
  (14, "4:3"),
  (15, "3:2"),
  (16, "2:1")]

/-- Modelled from its use: the mapper `scalar.UAdd(n)` adds `n` to an unsigned 64-bit value. -/
def UAdd (n : Nat) : Mapper := fun s =>
  match s.Actual with
  | .U v => { s with Actual := .U ((v + n) % 2 ^ 64) }
  | _ => s

/-- Modelled from its use: an unsigned field whose value is whatever `fn` reads; the field
covers the bits `fn` moved the cursor over and the result is the value after the mappers. -/
def FieldUFn (name : String) (fn : Dec Nat) (sms : List Mapper) : Dec Nat := fun d =>
  match fn d with
  | .error e => .error e
  | .ok (v, d1) =>
    match addScalar name (applyMappers sms ⟨.U v, none, ""⟩) d.pos (d1.pos - d.pos) d1 with
    | .error e => .error e
    | .ok (_, d2) =>
      .ok ((match (applyMappers sms ⟨.U v, none, ""⟩).Actual with
        | .U w => w
        | _ => v), d2)

/-- Modelled from its use: a named array sub-tree; like `FieldStruct`, with the finished
compound an array. -/
def FieldArray {α : Type} (name : String) (fn : Dec α) : Dec α := fun d =>
  match fn { d with children := [] } with
  | .error e => .error e
  | .ok (a, cd) =>
    .ok (a, { d with pos := cd.pos, children := d.children ++ [Value.Array name cd.children] })

/-- Function `avcHdrParameters`.  The loop `for i := uint64(0); i < cpbCnt; i++` adds one
`sched_sel` struct per iteration. -/
def avcHdrParameters (x : Collaborators) : Dec Unit := do
  let cpbCnt ← FieldUFn "cpb_cnt" x.uEV [UAdd 1]
  let _ ← FieldU 4 "bit_rate_scale" []
  let _ ← FieldU 4 "cpb_size_scale" []
  let _ ← FieldArray "sched_sels" (structLoop "sched_sel" (fun _ => do
    let _ ← FieldUFn "bit_rate_value" x.uEV [UAdd 1]
    let _ ← FieldUFn "cpb_size_value" x.uEV [UAdd 1]
    let _ ← FieldBool "cbr_flag"
    pure ()) cpbCnt 0)
  let _ ← FieldU 5 "initial_cpb_removal_delay_length" [UAdd 1]
  let _ ← FieldU 5 "cpb_removal_delay_length" [UAdd 1]
  let _ ← FieldU 5 "dpb_output_delay_length" [UAdd 1]
  let _ ← FieldU 5 "time_offset_length" []
  pure ()

/-- Function `avcVuiParameters`.  A Go `if` without `else` is written with its empty `else`
branch, `pure ()`. -/
def avcVuiParameters (x : Collaborators) : Dec Unit := do
  let aspectRatioInfoPresentFlag ← FieldBool "aspect_ratio_info_present_flag"
  (if aspectRatioInfoPresentFlag then do
      let aspectRatioIdc ← FieldU8 "aspect_ratio_idc" [UToSymStr avcAspectRatioIdcMap]
      (if aspectRatioIdc = 255 then do
          let _ ← FieldU 16 "width" []
          let _ ← FieldU 16 "height" []
          pure ()
        else pure ())
    else pure ())
  let overscanInfoPresentFlag ← FieldBool "overscan_info_present_flag"
  (if overscanInfoPresentFlag then do
      let _ ← FieldBool "overscan_appropriate_flag"
      pure ()
    else pure ())
  let videoSignalTypePresentFlag ← FieldBool "video_signal_type_present_flag"
  (if videoSignalTypePresentFlag then do
      let _ ← FieldU 3 "video_format" [UToSymStr avcVideoFormatMap]
      let _ ← FieldBool "video_full_range_flag"
      let colourDescriptionPresentFlag ← FieldBool "colour_description_present_flag"
      (if colourDescriptionPresentFlag then do
          let _ ← FieldU8 "colour_primaries" [x.colourPrimariesMap]
          let _ ← FieldU8 "transfer_characteristics" [x.transferCharacteristicMap]
          let _ ← FieldU8 "matrix_coefficients" [x.matrixCoefficients]
          pure ()
        else pure ())
    else pure ())
  let chromaLocInfoPresentFlag ← FieldBool "chroma_loc_info_present_flag"
  (if chromaLocInfoPresentFlag then do
      let _ ← FieldUFn "chroma_sample_loc_type_top_field" x.uEV []
      let _ ← FieldUFn "chroma_sample_loc_type_bottom_field" x.uEV []
      pure ()
    else pure ())
  let timingInfoPresentFlag ← FieldBool "timing_info_present_flag"
  (if timingInfoPresentFlag then do
      let _ ← FieldU32 "num_units_in_tick" []
      let _ ← FieldU32 "time_scale" []
      let _ ← FieldBool "fixed_frame_rate_flag"
      pure ()
    else pure ())
  let nalHrdParametersPresentFlag ← FieldBool "nal_hrd_parameters_present_flag"
  (if nalHrdParametersPresentFlag then
      FieldStruct "nal_hrd_parameters" (avcHdrParameters x)
    else pure ())
  let vclHrdParametersPresentFlag ← FieldBool "vcl_hrd_parameters_present_flag"
  (if vclHrdParametersPresentFlag then
      FieldStruct "vcl_hrd_parameters" (avcHdrParameters x)
    else pure ())
  (if nalHrdParametersPresentFlag || vclHrdParametersPresentFlag then do
      let _ ← FieldBool "low_delay_hrd_flag"
      pure ()
    else pure ())
  let _ ← FieldBool "pic_struct_present_flag"
  let bitstreamRestrictionFlag ← FieldBool "bitstream_restriction_flag"
  (if bitstreamRestrictionFlag then do
      let _ ← FieldBool "motion_vectors_over_pic_boundaries_flag"
      let _ ← FieldUFn "max_bytes_per_pic_denom" x.uEV []
      let _ ← FieldUFn "max_bits_per_mb_denom" x.uEV []
      let _ ← FieldUFn "log2_max_mv_length_horizontal" x.uEV []
      let _ ← FieldUFn "log2_max_mv_length_vertical" x.uEV []
      let _ ← FieldUFn "max_num_reorder_frames" x.uEV []
      let _ ← FieldUFn "max_dec_frame_buffering" x.uEV []
      pure ()
    else pure ())

/-! ### Reading the decoded VUI -/

/-- The five names of lines 94-104 of `avcVuiParameters`: the two present flags, the two HRD
structures and `low_delay_hrd_flag`. -/
def hrdNames : List String :=
  ["nal_hrd_parameters_present_flag", "nal_hrd_parameters",
   "vcl_hrd_parameters_present_flag", "vcl_hrd_parameters", "low_delay_hrd_flag"]

/-- Whether a decoded node is a compound (struct or array). -/
def isCompound : Value → Bool
  | .Scalar _ _ _ _ => false
  | _ => true

/-- The decoded nodes with one of the `hrdNames`, in decode order: the name of each and
whether it is a compound. -/
def hrdTrace (tree : List Value) : List (String × Bool) :=
  (tree.filter (fun v => hrdNames.contains v.name)).map (fun v => (v.name, isCompound v))

/-- The nodes with one of the `hrdNames` as the claim orders them, for the values `nal` and
`vcl` of the two present flags: the nal flag, the nal structure when `nal` is set, the vcl
flag, the vcl structure when `vcl` is set, `low_delay_hrd_flag` when one of the two is set. -/
def claimedTrace (nal vcl : Bool) : List (String × Bool) :=
  [("nal_hrd_parameters_present_flag", false)]
    ++ (if nal then [("nal_hrd_parameters", true)] else [])
    ++ [("vcl_hrd_parameters_present_flag", false)]
    ++ (if vcl then [("vcl_hrd_parameters", true)] else [])
    ++ (if nal || vcl then [("low_delay_hrd_flag", false)] else [])

/-- Whether the tree has a node called `name`. -/
def hasNode (name : String) (tree : List Value) : Bool := (field name tree).isSome

/-- The value of the first node called `name` when it is a flag. -/
def flag (name : String) (tree : List Value) : Option Bool :=
  match field name tree with
  | some (.Scalar _ ⟨.B b, _, _⟩ _ _) => some b
  | _ => none

/-- The fields a decode has added; none when it failed. -/
def treeOf {α : Type} (r : Except Err (α × D)) : List Value :=
  match r with
  | .ok (_, d) => d.children
  | .error _ => []

/-- A reader that adds no field: a successful run leaves the fields as they were. -/
def Quiet {α : Type} (x : Dec α) : Prop := ∀ d a d1, x d = .ok (a, d1) → d1.children = d.children

/-- The decoder adds fields only, none of them with one of the `hrdNames`. -/
def Avoids {α : Type} (x : Dec α) : Prop :=
  ∀ d a d1, x d = .ok (a, d1) →
    ∃ cs, d1.children = d.children ++ cs ∧ ∀ c ∈ cs, hrdNames.contains c.name = false

/-- Lines 57-93 of `avcVuiParameters`: everything before `nal_hrd_parameters_present_flag`. -/
def vuiHead (x : Collaborators) : Dec Unit := do
  let aspectRatioInfoPresentFlag ← FieldBool "aspect_ratio_info_present_flag"
  (if aspectRatioInfoPresentFlag then do
      let aspectRatioIdc ← FieldU8 "aspect_ratio_idc" [UToSymStr avcAspectRatioIdcMap]
      (if aspectRatioIdc = 255 then do
          let _ ← FieldU 16 "width" []
          let _ ← FieldU 16 "height" []
          pure ()
        else pure ())
    else pure ())
  let overscanInfoPresentFlag ← FieldBool "overscan_info_present_flag"
  (if overscanInfoPresentFlag then do
      let _ ← FieldBool "overscan_appropriate_flag"
      pure ()
    else pure ())
  let videoSignalTypePresentFlag ← FieldBool "video_signal_type_present_flag"
  (if videoSignalTypePresentFlag then do
      let _ ← FieldU 3 "video_format" [UToSymStr avcVideoFormatMap]
      let _ ← FieldBool "video_full_range_flag"
      let colourDescriptionPresentFlag ← FieldBool "colour_description_present_flag"
      (if colourDescriptionPresentFlag then do
          let _ ← FieldU8 "colour_primaries" [x.colourPrimariesMap]
          let _ ← FieldU8 "transfer_characteristics" [x.transferCharacteristicMap]
          let _ ← FieldU8 "matrix_coefficients" [x.matrixCoefficients]
          pure ()
        else pure ())
    else pure ())
  let chromaLocInfoPresentFlag ← FieldBool "chroma_loc_info_present_flag"
  (if chromaLocInfoPresentFlag then do
      let _ ← FieldUFn "chroma_sample_loc_type_top_field" x.uEV []
      let _ ← FieldUFn "chroma_sample_loc_type_bottom_field" x.uEV []
      pure ()
    else pure ())
  let timingInfoPresentFlag ← FieldBool "timing_info_present_flag"
  (if timingInfoPresentFlag then do
      let _ ← FieldU32 "num_units_in_tick" []
      let _ ← FieldU32 "time_scale" []
      let _ ← FieldBool "fixed_frame_rate_flag"
      pure ()
    else pure ())

/-- Lines 94-104 of `avcVuiParameters`: the two present flags, the HRD structures and
`low_delay_hrd_flag`. -/
def vuiHrd (x : Collaborators) : Dec Unit := do
  let nalHrdParametersPresentFlag ← FieldBool "nal_hrd_parameters_present_flag"
  (if nalHrdParametersPresentFlag then
      FieldStruct "nal_hrd_parameters" (avcHdrParameters x)
    else pure ())
  let vclHrdParametersPresentFlag ← FieldBool "vcl_hrd_parameters_present_flag"
  (if vclHrdParametersPresentFlag then
      FieldStruct "vcl_hrd_parameters" (avcHdrParameters x)
    else pure ())
  (if nalHrdParametersPresentFlag || vclHrdParametersPresentFlag then do
      let _ ← FieldBool "low_delay_hrd_flag"
      pure ()
    else pure ())

/-- Lines 105-115 of `avcVuiParameters`: everything after `low_delay_hrd_flag`. -/
def vuiTail (x : Collaborators) : Dec Unit := do
  let _ ← FieldBool "pic_struct_present_flag"
  let bitstreamRestrictionFlag ← FieldBool "bitstream_restriction_flag"
  (if bitstreamRestrictionFlag then do
      let _ ← FieldBool "motion_vectors_over_pic_boundaries_flag"
      let _ ← FieldUFn "max_bytes_per_pic_denom" x.uEV []
      let _ ← FieldUFn "max_bits_per_mb_denom" x.uEV []
      let _ ← FieldUFn "log2_max_mv_length_horizontal" x.uEV []
      let _ ← FieldUFn "log2_max_mv_length_vertical" x.uEV []
      let _ ← FieldUFn "max_num_reorder_frames" x.uEV []
      let _ ← FieldUFn "max_dec_frame_buffering" x.uEV []
      pure ()
    else pure ())

/-- Number of zero bits before the first one bit at or after bit `pos`, looking at no more
than `fuel` bits, none of them past the end of the buffer. -/
def zeroRun (buf : List Nat) : Nat → Nat → Option Nat
  | 0, _ => none
  | fuel + 1, pos =>
    if 8 * buf.length < pos + 1 then none
    else if readBits buf pos 1 = 1 then some 0
    else (zeroRun buf fuel (pos + 1)).map (fun k => k + 1)

/-- The exp-Golomb code `ue(v)` of H.264: `k` zero bits, a one bit, then `k` bits `v`, for the
value `2 ^ k - 1 + v`.  A sample for the collaborator `uEV`; it adds no field. -/
def expGolomb : Dec Nat := fun d =>
  match zeroRun d.buf (8 * d.buf.length) d.pos with
  | none => .error (.IOError "read")
  | some k =>
    match TryU k .BigEndian { d with pos := d.pos + k + 1 } with
    | .error e => .error e
    | .ok (v, d1) => .ok (2 ^ k - 1 + v, d1)

/-- Sample collaborators: `expGolomb` for `uEV` and label tables that label nothing. -/
def sampleCollaborators : Collaborators := ⟨expGolomb, fun s => s, fun s => s, fun s => s⟩

/-- A VUI of 42 bits in 6 bytes: the five present flags of lines 57-93 are 0,
`nal_hrd_parameters_present_flag` is 1 and its HRD structure has one `sched_sel`,
`vcl_hrd_parameters_present_flag` is 0, `low_delay_hrd_flag` is 1, the two last flags are 0. -/
def vuiNalOnly : List Nat := [0x06, 0x01, 0x80, 0x00, 0x01, 0x00]

/-- A VUI of 9 bits in 2 bytes with all of its flags 0. -/
def vuiNoHrd : List Nat := [0x00, 0x00]

end Mpeg

namespace Macho

/-! ## Writing the decoded fields back -/

mutual
/-- The scalar fields of a decoded node in decode order, each with its width in bits. -/
def Value.leaves : Value → List (S × Nat)
  | .Scalar _ s _ len => [(s, len)]
  | .Struct _ cs => Value.leavesList cs
  | .Array _ cs => Value.leavesList cs
/-- The scalar fields of a list of decoded nodes in decode order, each with its width. -/
def Value.leavesList : List Value → List (S × Nat)
  | [] => []
  | v :: vs => Value.leaves v ++ Value.leavesList vs
end

/-- The `len` bits that writing one field back produces, as a big-endian number: a number is
written at the width `len` in byte order `e` (two's complement when signed), a flag as one bit,
raw bits as they are, a string as its bytes followed by null bytes up to the width. -/
def writeBack (e : Endian) (s : S) (len : Nat) : Nat :=
  match s.Actual with
  | .U v => if e = .LittleEndian then reverseBytes (len / 8) (v % 2 ^ len) else v % 2 ^ len
  | .S i =>
    if e = .LittleEndian then reverseBytes (len / 8) (i % 2 ^ len).toNat
    else (i % 2 ^ len).toNat
  | .B b => (if b then 1 else 0) % 2 ^ len
  | .Raw v => v % 2 ^ len
  | .Str bytes => (bigEndianNat bytes * 2 ^ (len - 8 * bytes.length)) % 2 ^ len

/-- The number of bits that writing the fields back produces. -/
def writtenLen : List (S × Nat) → Nat
  | [] => 0
  | (_, len) :: rest => len + writtenLen rest

/-- The bits that writing the fields back one after the other produces, as a big-endian
number of `writtenLen` bits. -/
def written (e : Endian) : List (S × Nat) → Nat
  | [] => 0
  | (s, len) :: rest => writeBack e s len * 2 ^ writtenLen rest + written e rest

/-- The result of writing back, in byte order `e`, the fields a decode has added: the bits and
their number. -/
def writtenBack {α : Type} (e : Endian) (r : Except Err (α × D)) : Except Err (Nat × Nat) :=
  match r with
  | .error err => .error err
  | .ok (_, d) =>
    .ok (written e (Value.leavesList d.children), writtenLen (Value.leavesList d.children))

/-- The bits of `buf` between bit `start` and the position a decode ended at, and their
number. -/
def consumed {α : Type} (buf : List Nat) (start : Nat) (r : Except Err (α × D)) :
    Except Err (Nat × Nat) :=
  match r with
  | .error err => .error err
  | .ok (_, d) => .ok (readBits buf start (d.pos - start), d.pos - start)

/-- The decoder `x`, run from the state `d` with the cursor inside the buffer, keeps every bit
it consumes: a successful run keeps the buffer and the byte order, moves the cursor forward and
not past the end, and the fields it adds, written back one after the other in the byte order of
the decoder, are exactly the bits between the old and the new cursor. -/
def ExactAt {α : Type} (x : Dec α) (d : D) : Prop :=
  d.pos ≤ 8 * d.buf.length → ∀ a d1, x d = .ok (a, d1) →
    d1.buf = d.buf ∧ d1.Endian = d.Endian ∧ d.pos ≤ d1.pos ∧ d1.pos ≤ 8 * d.buf.length ∧
    ∃ cs, d1.children = d.children ++ cs ∧
      writtenLen (Value.leavesList cs) = d1.pos - d.pos ∧
      written d.Endian (Value.leavesList cs) = readBits d.buf d.pos (d1.pos - d.pos)

/-- A decoder that keeps every bit it consumes, from every state. -/
def Exact {α : Type} (x : Dec α) : Prop := ∀ d : D, ExactAt x d

/-- A mapper that leaves the stored value as it is. -/
def KeepsActual (m : Mapper) : Prop := ∀ s : S, (m s).Actual = s.Actual

/-- A 32-bit little-endian thin object (cputype 7) with one `LC_PREBOUND_DYLIB` command of
`cmdsize = 24`: name offset 20, `nmodules = 16`, linked-modules offset 22, the name `a` with
its terminator and the bitmap bytes `ff 0f`. -/
def thinPrebound : List Nat :=
  [0xce, 0xfa, 0xed, 0xfe, 7, 0, 0, 0, 3, 0, 0, 0, 2, 0, 0, 0,
   1, 0, 0, 0, 24, 0, 0, 0, 0x85, 0, 0, 0,
   0x10, 0, 0, 0, 24, 0, 0, 0] ++ preboundPayload

/-- A 32-bit little-endian thin object (cputype 7) with two commands: a `uuid` command and a
`LC_SYMTAB` command, each with the `cmdsize` of its layout. -/
def thinUuidSymtab : List Nat :=
  [0xce, 0xfa, 0xed, 0xfe, 7, 0, 0, 0, 3, 0, 0, 0, 2, 0, 0, 0,
   2, 0, 0, 0, 48, 0, 0, 0, 0x85, 0, 0, 0,
   0x1b, 0, 0, 0, 24, 0, 0, 0,
   1, 2, 3, 4, 5, 6, 7, 8, 9, 10, 11, 12, 13, 14, 15, 16,
   0x02, 0, 0, 0, 24, 0, 0, 0,
   0x40, 0, 0, 0, 5, 0, 0, 0, 0x90, 0, 0, 0, 0x2a, 0, 0, 0]

/-- The command ids whose payload the decoder reads entirely into number, flag and raw
fields: the fixed-layout families of `fixedPayload`, `LC_BUILD_VERSION` and the two thread
commands. -/
def numericCommand (archBits : Int) (cmd : Nat) : Bool :=
  (fixedPayload archBits cmd).isSome || cmd == LC_BUILD_VERSION || cmd == LC_THREAD
    || cmd == LC_UNIXTHREAD

/-- Whether a decoded `cmd` value is there and is the id of a `numericCommand`. -/
def numericId (archBits : Int) (id : Option Nat) : Bool :=
  match id with
  | some cmd => numericCommand archBits cmd
  | none => false

/-- Whether a decode succeeded with every decoded load command a `numericCommand`. -/
def numericCommands {α : Type} (archBits : Int) (r : Except Err (α × D)) : Bool :=
  match r with
  | .error _ => false
  | .ok (_, d) => (commandIds d.children).all (numericId archBits)

/-- A decoder that only adds fields: a successful run keeps the fields that were there and
appends its own. -/
def Grows {α : Type} (x : Dec α) : Prop :=
  ∀ d a d1, x d = .ok (a, d1) → ∃ cs, d1.children = d.children ++ cs

/-- A decoder whose only failure is the failure of a read past the end of the buffer. -/
def ReadFail {α : Type} (x : Dec α) : Prop := ∀ d e, x d = .error e → e = .IOError "read"

/-- A 32-bit little-endian thin object of 40 bytes that declares `ncmds = 1`: its one command
has the unknown id `0x77` and declares `cmdsize = 16`, and the input ends after 4 of the 8
payload bytes. -/
def skippedPastEnd : List Nat :=
  [0xce, 0xfa, 0xed, 0xfe, 7, 0, 0, 0, 3, 0, 0, 0, 2, 0, 0, 0,
   1, 0, 0, 0, 16, 0, 0, 0, 0x85, 0, 0, 0,
   0x77, 0, 0, 0, 16, 0, 0, 0, 0xa1, 0xa2, 0xa3, 0xa4]

/-- A 32-bit little-endian thin object of 44 bytes that declares `ncmds = 1`: its one command
is a `uuid` command with `cmdsize = 24`, and the input ends after 8 of the 16 payload bytes. -/
def truncatedUuid : List Nat :=
  [0xce, 0xfa, 0xed, 0xfe, 7, 0, 0, 0, 3, 0, 0, 0, 2, 0, 0, 0,
   1, 0, 0, 0, 24, 0, 0, 0, 0x85, 0, 0, 0,
   0x1b, 0, 0, 0, 24, 0, 0, 0, 1, 2, 3, 4, 5, 6, 7, 8]

/-! ## Reasoning about decoders -/

set_option linter.unusedTactic false
set_option linter.unreachableTactic false

theorem Dec.bind_apply {α β : Type} (x : Dec α) (f : α → Dec β) (d : D) :
    (x >>= f) d = match x d with
      | .error e => .error e
      | .ok (a, d1) => f a d1 := rfl

theorem Dec.pure_apply {α : Type} (a : α) (d : D) : (pure a : Dec α) d = .ok (a, d) := rfl

theorem Dec.bind_ok {α β : Type} {x : Dec α} {f : α → Dec β} {d d1 : D} {a : α}
    (h : x d = .ok (a, d1)) : (x >>= f) d = f a d1 := by
  rw [Dec.bind_apply, h]

theorem Dec.bind_error {α β : Type} {x : Dec α} {f : α → Dec β} {d : D} {e : Err}
    (h : x d = .error e) : (x >>= f) d = .error e := by
  rw [Dec.bind_apply, h]

theorem reverseBytes_lt (k v : Nat) : reverseBytes k v < 256 ^ k := by
  induction k generalizing v with
  | zero => simp [reverseBytes]
  | succ k ih =>
    have h1 := ih (v / 256)
    have h2 : v % 256 < 256 := Nat.mod_lt _ (by norm_num)
    have h3 : v % 256 * 256 ^ k ≤ 255 * 256 ^ k := Nat.mul_le_mul_right _ (by omega)
    simp only [reverseBytes, pow_succ]
    omega

theorem readU_lt (buf : List Nat) (p : Nat) (e : Endian) : readU buf p 32 e < 2 ^ 32 := by
  unfold readU
  split
  · have := reverseBytes_lt 4 (readBits buf p 32)
    norm_num at this ⊢
    exact this
  · unfold readBits
    exact Nat.mod_lt _ (by norm_num)

theorem FieldU_eq (nBits : Nat) (name : String) (sms : List Mapper) (d : D) :
    FieldU nBits name sms d =
      if 8 * d.buf.length < d.pos + nBits then .error (.IOError "read")
      else .ok (readU d.buf d.pos nBits d.Endian,
        { d with pos := d.pos + nBits,
                 children := d.children ++ [Value.Scalar name
                   (applyMappers sms ⟨.U (readU d.buf d.pos nBits d.Endian), none, ""⟩)
                   d.pos nBits] }) := by
  by_cases hc : 8 * d.buf.length < d.pos + nBits <;> simp [FieldU, TryU, addScalar, hc]

theorem FieldU32_ok {name : String} {sms : List Mapper} {d d1 : D} {v : Nat}
    (h : FieldU32 name sms d = .ok (v, d1)) :
    v = readU d.buf d.pos 32 d.Endian ∧ v < 2 ^ 32 ∧ d.pos + 32 ≤ 8 * d.buf.length ∧
      d1 = { d with pos := d.pos + 32,
                    children := d.children ++ [Value.Scalar name
                      (applyMappers sms ⟨.U v, none, ""⟩) d.pos 32] } := by
  unfold FieldU32 at h
  rw [FieldU_eq] at h
  split at h
  · simp at h
  · simp only [Except.ok.injEq, Prod.mk.injEq] at h
    obtain ⟨hv, hd⟩ := h
    subst hv
    exact ⟨rfl, readU_lt _ _ _, by omega, hd.symm⟩

theorem loadCommands_lookup_none {cmd : Nat} (h : loadCommands.lookup cmd = none) :
    ∀ k ∈ loadCommands.map Prod.fst, cmd ≠ k := by
  intro k hk hc
  subst hc
  rw [List.lookup_eq_none_iff] at h
  simp only [List.mem_map] at hk
  obtain ⟨⟨a, b⟩, hab, rfl⟩ := hk
  exact absurd (h (a, b) hab) (by simp)

theorem loadCommandPayload_unknown (archBits : Int) (cpuType : Nat) {cmd : Nat} (cmdsize : Nat)
    (h : loadCommands.lookup cmd = none) :
    loadCommandPayload archBits cpuType cmd cmdsize =
      (SeekRel (toInt64 (((cmdsize + 2 ^ 64 - 8) % 2 ^ 64) * 8)) >>= fun _ => pure ()) := by
  have hk := loadCommands_lookup_none h
  simp only [loadCommands, List.map, List.mem_cons, List.mem_singleton, forall_eq_or_imp,
    forall_eq, List.not_mem_nil, false_implies, implies_true, and_true] at hk
  unfold loadCommandPayload
  simp only [hk, h, false_or, or_false, if_false, Option.isNone_none, if_true]

theorem toInt64_skip {cmdsize : Nat} (h8 : 8 ≤ cmdsize) (h32 : cmdsize < 2 ^ 32) :
    toInt64 (((cmdsize + 2 ^ 64 - 8) % 2 ^ 64) * 8) = ((8 * cmdsize - 64 : Nat) : Int) := by
  unfold toInt64
  have h1 : (cmdsize + 2 ^ 64 - 8) % 2 ^ 64 = cmdsize - 8 := by omega
  rw [h1]
  have h2 : (cmdsize - 8) * 8 % 2 ^ 64 = 8 * cmdsize - 64 := by omega
  rw [h2]
  rw [if_pos (by omega)]

theorem SeekRel_forward (n : Nat) (d : D) :
    SeekRel (n : Int) d = .ok (d.pos + n, { d with pos := d.pos + n }) := by
  unfold SeekRel
  have h : ¬ ((d.pos : Int) + (n : Int) < 0) := by omega
  rw [if_neg h]
  have h2 : ((d.pos : Int) + (n : Int)).toNat = d.pos + n := by omega
  rw [h2]

/-- An unknown command id: the command struct holds only `cmd` and `cmdsize`, and the cursor
ends `cmdsize` bytes after the start of the command. -/
theorem loadCommand_unknown (archBits : Int) (cpuType : Nat) {d d1 d2 : D} {cmd cmdsize : Nat}
    (hcmd : FieldU32 "cmd" [UToSymStr loadCommands, Hex] d = .ok (cmd, d1))
    (hsize : FieldU32 "cmdsize" [] d1 = .ok (cmdsize, d2))
    (hunknown : loadCommands.lookup cmd = none) (h8 : 8 ≤ cmdsize) :
    loadCommand archBits cpuType d = .ok ((), { d2 with pos := d.pos + 8 * cmdsize }) := by
  obtain ⟨-, -, -, hd1⟩ := FieldU32_ok hcmd
  obtain ⟨-, hlt, -, hd2⟩ := FieldU32_ok hsize
  unfold loadCommand
  rw [Dec.bind_ok hcmd, Dec.bind_ok hsize, loadCommandPayload_unknown _ _ _ hunknown,
    toInt64_skip h8 hlt, Dec.bind_apply, SeekRel_forward]
  have hp : d2.pos + (8 * cmdsize - 64) = d.pos + 8 * cmdsize := by
    rw [hd2, hd1]; simp only; omega
  simp only [Dec.pure_apply, hp]

theorem IOOnly.pure {α : Type} (a : α) : IOOnly (pure a : Dec α) := by
  intro d e h; simp [Dec.pure_apply] at h

theorem IOOnly.bind {α β : Type} {x : Dec α} {f : α → Dec β} (hx : IOOnly x)
    (hf : ∀ a, IOOnly (f a)) : IOOnly (x >>= f) := by
  intro d e h
  rw [Dec.bind_apply] at h
  cases hxd : x d with
  | error e1 => rw [hxd] at h; simp at h; subst h; exact hx d e1 hxd
  | ok r => obtain ⟨a, d1⟩ := r; rw [hxd] at h; exact hf a d1 e h

theorem IOOnly.ite {α : Type} {c : Prop} [Decidable c] {t e : Dec α} (ht : IOOnly t)
    (he : IOOnly e) : IOOnly (if c then t else e) := by
  split <;> assumption

theorem IOOnly.TryU (nBits : Nat) (e : Endian) : IOOnly (TryU nBits e) := by
  intro d err h
  unfold Macho.TryU at h
  split at h
  · simp at h; exact ⟨_, h.symm⟩
  · simp at h

theorem IOOnly.FieldU (nBits : Nat) (name : String) (sms : List Mapper) :
    IOOnly (FieldU nBits name sms) := by
  intro d err h
  unfold Macho.FieldU at h
  cases hr : Macho.TryU nBits d.Endian d with
  | error e1 => rw [hr] at h; simp at h; subst h; exact IOOnly.TryU _ _ d e1 hr
  | ok r => rw [hr] at h; simp [addScalar] at h

theorem IOOnly.FieldU8 (name : String) (sms : List Mapper) : IOOnly (FieldU8 name sms) :=
  IOOnly.FieldU 8 name sms

theorem IOOnly.FieldU32 (name : String) (sms : List Mapper) : IOOnly (FieldU32 name sms) :=
  IOOnly.FieldU 32 name sms

theorem IOOnly.FieldU64 (name : String) (sms : List Mapper) : IOOnly (FieldU64 name sms) :=
  IOOnly.FieldU 64 name sms

theorem IOOnly.U32 : IOOnly U32 := fun d e h => IOOnly.TryU 32 d.Endian d e h

theorem IOOnly.FieldS32 (name : String) (sms : List Mapper) : IOOnly (FieldS32 name sms) := by
  intro d err h
  unfold Macho.FieldS32 at h
  cases hr : Macho.TryU 32 d.Endian d with
  | error e1 => rw [hr] at h; simp at h; subst h; exact IOOnly.TryU _ _ d e1 hr
  | ok r => rw [hr] at h; simp [addScalar] at h

theorem IOOnly.FieldBool (name : String) : IOOnly (FieldBool name) := by
  intro d err h
  unfold Macho.FieldBool at h
  cases hr : Macho.TryU 1 .BigEndian d with
  | error e1 => rw [hr] at h; simp at h; subst h; exact IOOnly.TryU _ _ d e1 hr
  | ok r => rw [hr] at h; simp [addScalar] at h

theorem IOOnly.RawLen (nBits : Int) : IOOnly (RawLen nBits) := by
  intro d err h
  unfold Macho.RawLen at h
  split at h
  · simp at h; exact ⟨_, h.symm⟩
  · exact IOOnly.TryU _ _ d err h

theorem IOOnly.FieldRawLen (name : String) (nBits : Int) (sms : List Mapper) :
    IOOnly (FieldRawLen name nBits sms) := by
  intro d err h
  unfold Macho.FieldRawLen at h
  cases hr : Macho.RawLen nBits d with
  | error e1 => rw [hr] at h; simp at h; subst h; exact IOOnly.RawLen _ d e1 hr
  | ok r => rw [hr] at h; simp [addScalar] at h

theorem IOOnly.FieldBitBufFn (name : String) {fn : Dec Nat} (hfn : IOOnly fn) :
    IOOnly (FieldBitBufFn name fn) := by
  intro d err h
  unfold Macho.FieldBitBufFn at h
  cases hr : fn d with
  | error e1 => rw [hr] at h; simp at h; subst h; exact hfn d e1 hr
  | ok r => rw [hr] at h; simp [addScalar] at h

theorem IOOnly.FieldUTF8NullFixedLen (name : String) (fixedBytes : Int) :
    IOOnly (FieldUTF8NullFixedLen name fixedBytes) := by
  intro d err h
  unfold Macho.FieldUTF8NullFixedLen at h
  split at h
  · simp at h; exact ⟨_, h.symm⟩
  · split at h
    · simp at h; exact ⟨_, h.symm⟩
    · simp [addScalar] at h

theorem IOOnly.FieldUTF8Null (name : String) : IOOnly (FieldUTF8Null name) := by
  intro d err h
  unfold Macho.FieldUTF8Null at h
  split at h
  · simp at h; exact ⟨_, h.symm⟩
  · simp [addScalar] at h

theorem IOOnly.SeekRel (delta : Int) : IOOnly (SeekRel delta) := by
  intro d err h
  unfold Macho.SeekRel at h
  split at h
  · simp at h; exact ⟨_, h.symm⟩
  · simp at h

theorem IOOnly.SeekAbs (pos : Int) : IOOnly (SeekAbs pos) := by
  intro d err h
  unfold Macho.SeekAbs at h
  split at h
  · simp at h; exact ⟨_, h.symm⟩
  · simp at h

theorem IOOnly.FieldValueS (name : String) (a : Int) : IOOnly (FieldValueS name a) := by
  intro d err h; simp [Macho.FieldValueS, addScalar] at h

theorem IOOnly.FieldValueU (name : String) (a : Nat) : IOOnly (FieldValueU name a) := by
  intro d err h; simp [Macho.FieldValueU, addScalar] at h

theorem IOOnly.FieldValueStr (name : String) (a : String) : IOOnly (FieldValueStr name a) := by
  intro d err h; simp [Macho.FieldValueStr, addScalar] at h

theorem IOOnly.FieldStruct {α : Type} (name : String) {fn : Dec α} (hfn : IOOnly fn) :
    IOOnly (FieldStruct name fn) := by
  intro d err h
  unfold Macho.FieldStruct at h
  cases hr : fn { d with children := [] } with
  | error e1 => rw [hr] at h; simp at h; subst h; exact hfn _ e1 hr
  | ok r => rw [hr] at h; simp at h

theorem IOOnly.structLoop {α : Type} (structName : String) {fn : Nat → Dec α}
    (hfn : ∀ i, IOOnly (fn i)) (n idx : Nat) : IOOnly (structLoop structName fn n idx) := by
  induction n generalizing idx with
  | zero => exact IOOnly.pure _
  | succ n ih =>
    unfold Macho.structLoop
    exact IOOnly.bind (IOOnly.FieldStruct _ (hfn idx))
      (fun _ => IOOnly.bind (ih (idx + 1)) (fun _ => IOOnly.pure _))

theorem IOOnly.FieldStructArrayLoop {α : Type} (name structName : String) (n : Nat)
    {fn : Nat → Dec α} (hfn : ∀ i, IOOnly (fn i)) :
    IOOnly (FieldStructArrayLoop name structName n fn) := by
  intro d err h
  unfold Macho.FieldStructArrayLoop at h
  cases hr : Macho.structLoop structName fn n 0 { d with children := [] } with
  | error e1 => rw [hr] at h; simp at h; subst h; exact IOOnly.structLoop _ hfn n 0 _ e1 hr
  | ok r => rw [hr] at h; simp at h

theorem IOOnly.parseMachHeaderFlags : IOOnly (parseMachHeaderFlags) := by
  unfold Macho.parseMachHeaderFlags
  repeat' with_reducible first
    | exact IOOnly.pure _
    | exact IOOnly.FieldBool _
    | exact IOOnly.FieldRawLen _ _ _
    | exact IOOnly.FieldU32 _ _
    | exact IOOnly.FieldU64 _ _
    | exact IOOnly.FieldS32 _ _
    | exact IOOnly.FieldU8 _ _
    | exact IOOnly.U32
    | exact IOOnly.RawLen _
    | exact IOOnly.SeekRel _
    | exact IOOnly.SeekAbs _
    | exact IOOnly.FieldUTF8NullFixedLen _ _
    | exact IOOnly.FieldUTF8Null _
    | exact IOOnly.FieldValueS _ _
    | exact IOOnly.FieldValueU _ _
    | exact IOOnly.FieldValueStr _ _
    | apply IOOnly.bind
    | apply IOOnly.ite
    | apply IOOnly.FieldStruct
    | apply IOOnly.FieldStructArrayLoop
    | apply IOOnly.FieldBitBufFn
    | intro _

theorem IOOnly.parseSegmentFlags : IOOnly (parseSegmentFlags) := by
  unfold Macho.parseSegmentFlags
  repeat' with_reducible first
    | exact IOOnly.pure _
    | exact IOOnly.FieldBool _
    | exact IOOnly.FieldRawLen _ _ _
    | exact IOOnly.FieldU32 _ _
    | exact IOOnly.FieldU64 _ _
    | exact IOOnly.FieldS32 _ _
    | exact IOOnly.FieldU8 _ _
    | exact IOOnly.U32
    | exact IOOnly.RawLen _
    | exact IOOnly.SeekRel _
    | exact IOOnly.SeekAbs _
    | exact IOOnly.FieldUTF8NullFixedLen _ _
    | exact IOOnly.FieldUTF8Null _
    | exact IOOnly.FieldValueS _ _
    | exact IOOnly.FieldValueU _ _
    | exact IOOnly.FieldValueStr _ _
    | apply IOOnly.bind
    | apply IOOnly.ite
    | apply IOOnly.FieldStruct
    | apply IOOnly.FieldStructArrayLoop
    | apply IOOnly.FieldBitBufFn
    | intro _

theorem IOOnly.parseSectionFlags : IOOnly (parseSectionFlags) := by
  unfold Macho.parseSectionFlags
  repeat' with_reducible first
    | exact IOOnly.pure _
    | exact IOOnly.FieldBool _
    | exact IOOnly.FieldRawLen _ _ _
    | exact IOOnly.FieldU32 _ _
    | exact IOOnly.FieldU64 _ _
    | exact IOOnly.FieldS32 _ _
    | exact IOOnly.FieldU8 _ _
    | exact IOOnly.U32
    | exact IOOnly.RawLen _
    | exact IOOnly.SeekRel _
    | exact IOOnly.SeekAbs _
    | exact IOOnly.FieldUTF8NullFixedLen _ _
    | exact IOOnly.FieldUTF8Null _
    | exact IOOnly.FieldValueS _ _
    | exact IOOnly.FieldValueU _ _
    | exact IOOnly.FieldValueStr _ _
    | apply IOOnly.bind
    | apply IOOnly.ite
    | apply IOOnly.FieldStruct
    | apply IOOnly.FieldStructArrayLoop
    | apply IOOnly.FieldBitBufFn
    | intro _

theorem IOOnly.threadStateI386Decode : IOOnly (threadStateI386Decode) := by
  unfold Macho.threadStateI386Decode
  repeat' with_reducible first
    | exact IOOnly.pure _
    | exact IOOnly.FieldBool _
    | exact IOOnly.FieldRawLen _ _ _
    | exact IOOnly.FieldU32 _ _
    | exact IOOnly.FieldU64 _ _
    | exact IOOnly.FieldS32 _ _
    | exact IOOnly.FieldU8 _ _
    | exact IOOnly.U32
    | exact IOOnly.RawLen _
    | exact IOOnly.SeekRel _
    | exact IOOnly.SeekAbs _
    | exact IOOnly.FieldUTF8NullFixedLen _ _
    | exact IOOnly.FieldUTF8Null _
    | exact IOOnly.FieldValueS _ _
    | exact IOOnly.FieldValueU _ _
    | exact IOOnly.FieldValueStr _ _
    | apply IOOnly.bind
    | apply IOOnly.ite
    | apply IOOnly.FieldStruct
    | apply IOOnly.FieldStructArrayLoop
    | apply IOOnly.FieldBitBufFn
    | intro _

theorem IOOnly.threadStateX8664Decode : IOOnly (threadStateX8664Decode) := by
  unfold Macho.threadStateX8664Decode
  repeat' with_reducible first
    | exact IOOnly.pure _
    | exact IOOnly.FieldBool _
    | exact IOOnly.FieldRawLen _ _ _
    | exact IOOnly.FieldU32 _ _
    | exact IOOnly.FieldU64 _ _
    | exact IOOnly.FieldS32 _ _
    | exact IOOnly.FieldU8 _ _
    | exact IOOnly.U32
    | exact IOOnly.RawLen _
    | exact IOOnly.SeekRel _
    | exact IOOnly.SeekAbs _
    | exact IOOnly.FieldUTF8NullFixedLen _ _
    | exact IOOnly.FieldUTF8Null _
    | exact IOOnly.FieldValueS _ _
    | exact IOOnly.FieldValueU _ _
    | exact IOOnly.FieldValueStr _ _
    | apply IOOnly.bind
    | apply IOOnly.ite
    | apply IOOnly.FieldStruct
    | apply IOOnly.FieldStructArrayLoop
    | apply IOOnly.FieldBitBufFn
    | intro _

theorem IOOnly.threadStateARM32Decode : IOOnly (threadStateARM32Decode) := by
  unfold Macho.threadStateARM32Decode
  repeat' with_reducible first
    | exact IOOnly.pure _
    | exact IOOnly.FieldBool _
    | exact IOOnly.FieldRawLen _ _ _
    | exact IOOnly.FieldU32 _ _
    | exact IOOnly.FieldU64 _ _
    | exact IOOnly.FieldS32 _ _
    | exact IOOnly.FieldU8 _ _
    | exact IOOnly.U32
    | exact IOOnly.RawLen _
    | exact IOOnly.SeekRel _
    | exact IOOnly.SeekAbs _
    | exact IOOnly.FieldUTF8NullFixedLen _ _
    | exact IOOnly.FieldUTF8Null _
    | exact IOOnly.FieldValueS _ _
    | exact IOOnly.FieldValueU _ _
    | exact IOOnly.FieldValueStr _ _
    | apply IOOnly.bind
    | apply IOOnly.ite
    | apply IOOnly.FieldStruct
    | apply IOOnly.FieldStructArrayLoop
    | apply IOOnly.FieldBitBufFn
    | intro _

theorem IOOnly.threadStateARM64Decode : IOOnly (threadStateARM64Decode) := by
  unfold Macho.threadStateARM64Decode
  repeat' with_reducible first
    | exact IOOnly.pure _
    | exact IOOnly.FieldBool _
    | exact IOOnly.FieldRawLen _ _ _
    | exact IOOnly.FieldU32 _ _
    | exact IOOnly.FieldU64 _ _
    | exact IOOnly.FieldS32 _ _
    | exact IOOnly.FieldU8 _ _
    | exact IOOnly.U32
    | exact IOOnly.RawLen _
    | exact IOOnly.SeekRel _
    | exact IOOnly.SeekAbs _
    | exact IOOnly.FieldUTF8NullFixedLen _ _
    | exact IOOnly.FieldUTF8Null _
    | exact IOOnly.FieldValueS _ _
    | exact IOOnly.FieldValueU _ _
    | exact IOOnly.FieldValueStr _ _
    | apply IOOnly.bind
    | apply IOOnly.ite
    | apply IOOnly.FieldStruct
    | apply IOOnly.FieldStructArrayLoop
    | apply IOOnly.FieldBitBufFn
    | intro _

theorem IOOnly.threadStatePPC32Decode : IOOnly (threadStatePPC32Decode) := by
  unfold Macho.threadStatePPC32Decode
  repeat' with_reducible first
    | exact IOOnly.pure _
    | exact IOOnly.FieldBool _
    | exact IOOnly.FieldRawLen _ _ _
    | exact IOOnly.FieldU32 _ _
    | exact IOOnly.FieldU64 _ _
    | exact IOOnly.FieldS32 _ _
    | exact IOOnly.FieldU8 _ _
    | exact IOOnly.U32
    | exact IOOnly.RawLen _
    | exact IOOnly.SeekRel _
    | exact IOOnly.SeekAbs _
    | exact IOOnly.FieldUTF8NullFixedLen _ _
    | exact IOOnly.FieldUTF8Null _
    | exact IOOnly.FieldValueS _ _
    | exact IOOnly.FieldValueU _ _
    | exact IOOnly.FieldValueStr _ _
    | apply IOOnly.bind
    | apply IOOnly.ite
    | apply IOOnly.FieldStruct
    | apply IOOnly.FieldStructArrayLoop
    | apply IOOnly.FieldBitBufFn
    | intro _

theorem IOOnly.threadStatePPC64Decode : IOOnly (threadStatePPC64Decode) := by
  unfold Macho.threadStatePPC64Decode
  repeat' with_reducible first
    | exact IOOnly.pure _
    | exact IOOnly.FieldBool _
    | exact IOOnly.FieldRawLen _ _ _
    | exact IOOnly.FieldU32 _ _
    | exact IOOnly.FieldU64 _ _
    | exact IOOnly.FieldS32 _ _
    | exact IOOnly.FieldU8 _ _
    | exact IOOnly.U32
    | exact IOOnly.RawLen _
    | exact IOOnly.SeekRel _
    | exact IOOnly.SeekAbs _
    | exact IOOnly.FieldUTF8NullFixedLen _ _
    | exact IOOnly.FieldUTF8Null _
    | exact IOOnly.FieldValueS _ _
    | exact IOOnly.FieldValueU _ _
    | exact IOOnly.FieldValueStr _ _
    | apply IOOnly.bind
    | apply IOOnly.ite
    | apply IOOnly.FieldStruct
    | apply IOOnly.FieldStructArrayLoop
    | apply IOOnly.FieldBitBufFn
    | intro _

theorem IOOnly.headerDecode (archBits : Int) : IOOnly (headerDecode archBits) := by
  unfold Macho.headerDecode
  repeat' with_reducible first
    | exact IOOnly.pure _
    | exact IOOnly.FieldBool _
    | exact IOOnly.FieldRawLen _ _ _
    | exact IOOnly.FieldU32 _ _
    | exact IOOnly.FieldU64 _ _
    | exact IOOnly.FieldS32 _ _
    | exact IOOnly.FieldU8 _ _
    | exact IOOnly.U32
    | exact IOOnly.RawLen _
    | exact IOOnly.SeekRel _
    | exact IOOnly.SeekAbs _
    | exact IOOnly.FieldUTF8NullFixedLen _ _
    | exact IOOnly.FieldUTF8Null _
    | exact IOOnly.FieldValueS _ _
    | exact IOOnly.FieldValueU _ _
    | exact IOOnly.FieldValueStr _ _
    | exact IOOnly.parseMachHeaderFlags
    | apply IOOnly.bind
    | apply IOOnly.ite
    | apply IOOnly.FieldStruct
    | apply IOOnly.FieldStructArrayLoop
    | apply IOOnly.FieldBitBufFn
    | intro _

theorem IOOnly.sectionDecode (archBits : Int) : IOOnly (sectionDecode archBits) := by
  unfold Macho.sectionDecode
  repeat' with_reducible first
    | exact IOOnly.pure _
    | exact IOOnly.FieldBool _
    | exact IOOnly.FieldRawLen _ _ _
    | exact IOOnly.FieldU32 _ _
    | exact IOOnly.FieldU64 _ _
    | exact IOOnly.FieldS32 _ _
    | exact IOOnly.FieldU8 _ _
    | exact IOOnly.U32
    | exact IOOnly.RawLen _
    | exact IOOnly.SeekRel _
    | exact IOOnly.SeekAbs _
    | exact IOOnly.FieldUTF8NullFixedLen _ _
    | exact IOOnly.FieldUTF8Null _
    | exact IOOnly.FieldValueS _ _
    | exact IOOnly.FieldValueU _ _
    | exact IOOnly.FieldValueStr _ _
    | exact IOOnly.parseSectionFlags
    | apply IOOnly.bind
    | apply IOOnly.ite
    | apply IOOnly.FieldStruct
    | apply IOOnly.FieldStructArrayLoop
    | apply IOOnly.FieldBitBufFn
    | intro _

theorem IOOnly.segmentCommandDecode (archBits : Int) : IOOnly (segmentCommandDecode archBits) := by
  unfold Macho.segmentCommandDecode
  repeat' with_reducible first
    | exact IOOnly.pure _
    | exact IOOnly.FieldBool _
    | exact IOOnly.FieldRawLen _ _ _
    | exact IOOnly.FieldU32 _ _
    | exact IOOnly.FieldU64 _ _
    | exact IOOnly.FieldS32 _ _
    | exact IOOnly.FieldU8 _ _
    | exact IOOnly.U32
    | exact IOOnly.RawLen _
    | exact IOOnly.SeekRel _
    | exact IOOnly.SeekAbs _
    | exact IOOnly.FieldUTF8NullFixedLen _ _
    | exact IOOnly.FieldUTF8Null _
    | exact IOOnly.FieldValueS _ _
    | exact IOOnly.FieldValueU _ _
    | exact IOOnly.FieldValueStr _ _
    | exact IOOnly.parseSegmentFlags
    | apply IOOnly.bind
    | apply IOOnly.ite
    | apply IOOnly.FieldStruct
    | apply IOOnly.FieldStructArrayLoop
    | apply IOOnly.FieldBitBufFn
    | intro _

theorem IOOnly.threadStateDecode (cpuType count : Nat) :
    IOOnly (threadStateDecode cpuType count) := by
  unfold Macho.threadStateDecode
  repeat' with_reducible first
    | exact IOOnly.pure _
    | exact IOOnly.FieldBool _
    | exact IOOnly.FieldRawLen _ _ _
    | exact IOOnly.FieldU32 _ _
    | exact IOOnly.FieldU64 _ _
    | exact IOOnly.FieldS32 _ _
    | exact IOOnly.FieldU8 _ _
    | exact IOOnly.U32
    | exact IOOnly.RawLen _
    | exact IOOnly.SeekRel _
    | exact IOOnly.SeekAbs _
    | exact IOOnly.FieldUTF8NullFixedLen _ _
    | exact IOOnly.FieldUTF8Null _
    | exact IOOnly.FieldValueS _ _
    | exact IOOnly.FieldValueU _ _
    | exact IOOnly.FieldValueStr _ _
    | exact IOOnly.threadStateI386Decode
    | exact IOOnly.threadStateX8664Decode
    | exact IOOnly.threadStateARM32Decode
    | exact IOOnly.threadStateARM64Decode
    | exact IOOnly.threadStatePPC32Decode
    | exact IOOnly.threadStatePPC64Decode
    | apply IOOnly.bind
    | apply IOOnly.ite
    | apply IOOnly.FieldStruct
    | apply IOOnly.FieldStructArrayLoop
    | apply IOOnly.FieldBitBufFn
    | intro _

theorem IOOnly.loadCommandPayload (archBits : Int) (cpuType cmd cmdsize : Nat) :
    IOOnly (loadCommandPayload archBits cpuType cmd cmdsize) := by
  unfold Macho.loadCommandPayload
  repeat' with_reducible first
    | exact IOOnly.pure _
    | exact IOOnly.FieldBool _
    | exact IOOnly.FieldRawLen _ _ _
    | exact IOOnly.FieldU32 _ _
    | exact IOOnly.FieldU64 _ _
    | exact IOOnly.FieldS32 _ _
    | exact IOOnly.FieldU8 _ _
    | exact IOOnly.U32
    | exact IOOnly.RawLen _
    | exact IOOnly.SeekRel _
    | exact IOOnly.SeekAbs _
    | exact IOOnly.FieldUTF8NullFixedLen _ _
    | exact IOOnly.FieldUTF8Null _
    | exact IOOnly.FieldValueS _ _
    | exact IOOnly.FieldValueU _ _
    | exact IOOnly.FieldValueStr _ _
    | exact IOOnly.segmentCommandDecode _
    | exact IOOnly.sectionDecode _
    | exact IOOnly.threadStateDecode _ _
    | apply IOOnly.bind
    | apply IOOnly.ite
    | apply IOOnly.FieldStruct
    | apply IOOnly.FieldStructArrayLoop
    | apply IOOnly.FieldBitBufFn
    | intro _

theorem IOOnly.loadCommand (archBits : Int) (cpuType : Nat) :
    IOOnly (loadCommand archBits cpuType) := by
  unfold Macho.loadCommand
  repeat' with_reducible first
    | exact IOOnly.pure _
    | exact IOOnly.FieldBool _
    | exact IOOnly.FieldRawLen _ _ _
    | exact IOOnly.FieldU32 _ _
    | exact IOOnly.FieldU64 _ _
    | exact IOOnly.FieldS32 _ _
    | exact IOOnly.FieldU8 _ _
    | exact IOOnly.U32
    | exact IOOnly.RawLen _
    | exact IOOnly.SeekRel _
    | exact IOOnly.SeekAbs _
    | exact IOOnly.FieldUTF8NullFixedLen _ _
    | exact IOOnly.FieldUTF8Null _
    | exact IOOnly.FieldValueS _ _
    | exact IOOnly.FieldValueU _ _
    | exact IOOnly.FieldValueStr _ _
    | exact IOOnly.loadCommandPayload _ _ _ _
    | apply IOOnly.bind
    | apply IOOnly.ite
    | apply IOOnly.FieldStruct
    | apply IOOnly.FieldStructArrayLoop
    | apply IOOnly.FieldBitBufFn
    | intro _

theorem FieldU32_run (name : String) (sms : List Mapper) {d : D}
    (h : d.pos + 32 ≤ 8 * d.buf.length) :
    FieldU32 name sms d = .ok (readU d.buf d.pos 32 d.Endian,
      { d with pos := d.pos + 32,
               children := d.children ++ [Value.Scalar name
                 (applyMappers sms ⟨.U (readU d.buf d.pos 32 d.Endian), none, ""⟩) d.pos 32] }) := by
  unfold FieldU32
  rw [FieldU_eq, if_neg (by omega)]

theorem structLoop_succ {α : Type} (structName : String) (fn : Nat → Dec α) (n idx : Nat) :
    structLoop structName fn (n + 1) idx =
      (FieldStruct structName (fn idx) >>= fun a =>
        structLoop structName fn n (idx + 1) >>= fun rest => pure (a :: rest)) := rfl

/-! ## Unknown and unimplemented command ids (C1, C4, C5) -/

/-- The fields and the end position of a command with an unknown id, run from an empty
compound. -/
theorem loadCommand_unknown_run (archBits : Int) (cpuType : Nat) (d : D)
    (hlen : d.pos + 64 ≤ 8 * d.buf.length)
    (hunknown : loadCommands.lookup (readU d.buf d.pos 32 d.Endian) = none)
    (h8 : 8 ≤ readU d.buf (d.pos + 32) 32 d.Endian) :
    loadCommand archBits cpuType { d with children := [] } = .ok ((),
      { d with pos := d.pos + 8 * readU d.buf (d.pos + 32) 32 d.Endian,
               children := [
                 Value.Scalar "cmd" ⟨.U (readU d.buf d.pos 32 d.Endian), none, ""⟩ d.pos 32,
                 Value.Scalar "cmdsize" ⟨.U (readU d.buf (d.pos + 32) 32 d.Endian), none, ""⟩
                   (d.pos + 32) 32] }) := by
  have hcmd := FieldU32_run "cmd" [UToSymStr loadCommands, Hex]
    (d := { d with children := [] }) (by simpa using by omega)
  have hsize := FieldU32_run "cmdsize" []
    (d := { d with pos := d.pos + 32,
                   children := [] ++ [Value.Scalar "cmd" (applyMappers [UToSymStr loadCommands, Hex]
                     ⟨.U (readU d.buf d.pos 32 d.Endian), none, ""⟩) d.pos 32] })
    (by simpa using by omega)
  rw [loadCommand_unknown archBits cpuType hcmd hsize hunknown h8]
  simp [applyMappers, UToSymStr, Hex, hunknown]

/-- C4: for a command whose id (the 32-bit word at the command start) is not a key of
`loadCommands` and whose `cmdsize` is at least 8, the `load_command` struct holds the `cmd` and
`cmdsize` fields and no payload field, the cursor ends exactly `cmdsize` bytes after the command
start, and the decode does not fail: the loop goes on with the next command from there. -/
theorem C4_unknown_command_skipped (archBits : Int) (cpuType : Nat) (d : D) (n idx : Nat)
    (hlen : d.pos + 64 ≤ 8 * d.buf.length)
    (hunknown : loadCommands.lookup (readU d.buf d.pos 32 d.Endian) = none)
    (h8 : 8 ≤ readU d.buf (d.pos + 32) 32 d.Endian) :
    FieldStruct "load_command" (loadCommand archBits cpuType) d = .ok ((),
      { d with pos := d.pos + 8 * readU d.buf (d.pos + 32) 32 d.Endian,
               children := d.children ++ [Value.Struct "load_command" [
                 Value.Scalar "cmd" ⟨.U (readU d.buf d.pos 32 d.Endian), none, ""⟩ d.pos 32,
                 Value.Scalar "cmdsize" ⟨.U (readU d.buf (d.pos + 32) 32 d.Endian), none, ""⟩
                   (d.pos + 32) 32]] }) ∧
    structLoop "load_command" (fun _ => loadCommand archBits cpuType) (n + 1) idx d =
      (structLoop "load_command" (fun _ => loadCommand archBits cpuType) n (idx + 1) >>=
        fun rest => pure (() :: rest))
      { d with pos := d.pos + 8 * readU d.buf (d.pos + 32) 32 d.Endian,
               children := d.children ++ [Value.Struct "load_command" [
                 Value.Scalar "cmd" ⟨.U (readU d.buf d.pos 32 d.Endian), none, ""⟩ d.pos 32,
                 Value.Scalar "cmdsize" ⟨.U (readU d.buf (d.pos + 32) 32 d.Endian), none, ""⟩
                   (d.pos + 32) 32]] } := by
  have hs : FieldStruct "load_command" (loadCommand archBits cpuType) d = .ok ((),
      { d with pos := d.pos + 8 * readU d.buf (d.pos + 32) 32 d.Endian,
               children := d.children ++ [Value.Struct "load_command" [
                 Value.Scalar "cmd" ⟨.U (readU d.buf d.pos 32 d.Endian), none, ""⟩ d.pos 32,
                 Value.Scalar "cmdsize" ⟨.U (readU d.buf (d.pos + 32) 32 d.Endian), none, ""⟩
                   (d.pos + 32) 32]] }) := by
    unfold FieldStruct
    rw [loadCommand_unknown_run archBits cpuType d hlen hunknown h8]
  exact ⟨hs, by rw [structLoop_succ, Dec.bind_ok hs]⟩

/-- Witness of C4: the unknown id `0x77` with `cmdsize = 16` at the start of a 16-byte buffer;
the cursor ends at bit 128. -/
theorem C4_unknown_command_skipped_witness :
    FieldStruct "load_command" (loadCommand 32 7) ⟨unknownCommand16, 0, .LittleEndian, []⟩ =
      .ok ((), ⟨unknownCommand16, 128, .LittleEndian, [Value.Struct "load_command" [
        Value.Scalar "cmd" ⟨.U 0x77, none, ""⟩ 0 32,
        Value.Scalar "cmdsize" ⟨.U 16, none, ""⟩ 32 32]]⟩) :=
  (C4_unknown_command_skipped 32 7 ⟨unknownCommand16, 0, .LittleEndian, []⟩ 0 0
    (by decide!) (by decide!) (by decide!)).1

theorem FieldRawLen_run (name : String) (n : Nat) (sms : List Mapper) {d : D}
    (h : d.pos + n ≤ 8 * d.buf.length) :
    FieldRawLen name (n : Int) sms d = .ok ((),
      { d with pos := d.pos + n,
               children := d.children ++ [Value.Scalar name
                 (applyMappers sms ⟨.Raw (readU d.buf d.pos n .BigEndian), none, ""⟩) d.pos n] }) := by
  have h0 : ¬ ((n : Int) < 0) := by omega
  have h1 : ¬ (8 * d.buf.length < d.pos + n) := by omega
  simp [FieldRawLen, RawLen, TryU, addScalar, h0, h1]

theorem loadCommandPayload_uuid (archBits : Int) (cpuType cmdsize : Nat) :
    loadCommandPayload archBits cpuType LC_UUID cmdsize =
      FieldStruct "uuid_command" (FieldRawLen "uuid" (16 * 8) []) := by
  unfold loadCommandPayload
  rw [if_pos rfl]

/-- C1 (counterexample): a `uuid` command that declares `cmdsize = 32` (at least 8) is decoded
without failure and consumes 16 payload bytes after the 8-byte prefix, not `32 - 8 = 24`: the
cursor ends at bit 192 and not at bit `8 * 32 = 256`. -/
theorem C1_counterexample :
    readU uuidCommand32 0 32 .LittleEndian = LC_UUID ∧
    readU uuidCommand32 32 32 .LittleEndian = 32 ∧
    endPos (loadCommand 32 7 ⟨uuidCommand32, 0, .LittleEndian, []⟩) = .ok (64 + 8 * 16) ∧
    16 ≠ 32 - 8 := by
  decide!

/-- The ids that `loadCommands` names but the switch has no case for (`LC_IDENT`, `LC_FVMFILE`,
`LC_PREPAGE`, `LC_PREBIND_CKSUM`, `LC_NOTE`) reach the default branch with the guard false: the
payload decoder does nothing, whatever `cmdsize` is. -/
theorem loadCommandPayload_unimplemented (archBits : Int) (cpuType cmd cmdsize : Nat)
    (h : cmd ∈ [LC_IDENT, LC_FVMFILE, LC_PREPAGE, LC_PREBIND_CKSUM, LC_NOTE]) :
    loadCommandPayload archBits cpuType cmd cmdsize = pure () := by
  simp only [List.mem_cons, List.mem_singleton, List.not_mem_nil, or_false] at h
  rcases h with rfl | rfl | rfl | rfl | rfl <;> rfl

/-- C5 (evaluation at the failing input): in a thin object whose first command is `LC_IDENT`
with `cmdsize = 16`, the decode succeeds, the first command starts at bit 224 and the second
command is read at bit 288, 8 bytes after the first, not at bit `224 + 8 * 16 = 352`; its `cmd`
is the payload word `0xa4a3a2a1` and not the `uuid` id `0x1b` that follows the payload. -/
theorem C5_ident_not_skipped :
    (decoded (machoDecode 1 identThenUuid)).map commandStarts = .ok [some 224, some 288] ∧
    (decoded (machoDecode 1 identThenUuid)).map commandIds = .ok [some 0x8, some 0xa4a3a2a1] ∧
    readU identThenUuid 352 32 .LittleEndian = LC_UUID := by
  decide!

/-! ## The magic dispatch (C2, C3, C9, C10) -/

/-- The dispatch of `ofileDecode` spelled out on the state: the magic is the little-endian word at
the cursor, and every branch that goes on first overwrites the byte order. -/
theorem ofileDecode_succ (fuel : Nat) (d : D) :
    ofileDecode (fuel + 1) d =
      if 8 * d.buf.length < d.pos + 32 then .error (.IOError "read")
      else if readU d.buf d.pos 32 .LittleEndian = MH_MAGIC
          ∨ readU d.buf d.pos 32 .LittleEndian = MH_MAGIC_64 then
        ofileThin (if readU d.buf d.pos 32 .LittleEndian = MH_MAGIC then 32 else 64)
          { d with pos := d.pos + 32, Endian := .LittleEndian }
      else if readU d.buf d.pos 32 .LittleEndian = MH_CIGAM
          ∨ readU d.buf d.pos 32 .LittleEndian = MH_CIGAM_64 then
        ofileThin (if readU d.buf d.pos 32 .LittleEndian = MH_CIGAM then 32 else 64)
          { d with pos := d.pos + 32, Endian := .BigEndian }
      else if readU d.buf d.pos 32 .LittleEndian = FAT_MAGIC then
        fatParse (ofileDecode fuel) { d with pos := d.pos + 32, Endian := .LittleEndian }
      else if readU d.buf d.pos 32 .LittleEndian = FAT_CIGAM then
        fatParse (ofileDecode fuel) { d with pos := d.pos + 32, Endian := .BigEndian }
      else .error (.Fatalf "Invalid magic field") := by
  conv_lhs => unfold ofileDecode
  rw [Dec.bind_apply]
  by_cases hlen : 8 * d.buf.length < d.pos + 32
  · simp [U32LE, TryU, hlen]
  · simp only [U32LE, TryU, hlen, if_false]
    split_ifs <;> rfl

theorem IOOnly.ofileThin (archBits : Int) : IOOnly (ofileThin archBits) := by
  unfold Macho.ofileThin
  refine IOOnly.bind (IOOnly.SeekRel _) (fun _ => ?_)
  refine IOOnly.bind (IOOnly.FieldStruct _ (IOOnly.headerDecode _)) (fun r => ?_)
  obtain ⟨cpuType, ncmds⟩ := r
  exact IOOnly.bind (IOOnly.FieldStructArrayLoop _ _ _ (fun _ => IOOnly.loadCommand _ _))
    (fun _ => IOOnly.pure _)

/-- C2: with the magic read as the little-endian 32-bit word at the cursor, `ofileDecode` runs
the thin path with `archBits`/byte order (32, little) for `0xfeedface`, (32, big) for
`0xcefaedfe`, (64, little) for `0xfeedfacf`, (64, big) for `0xcffaedfe`; for `0xcafebabe` and
`0xbebafeca` its result is that of `fatParse` alone, with byte order little and big, so the thin
header and command decode are not run. -/
theorem C2_magic_dispatch (fuel : Nat) (d : D) (hlen : d.pos + 32 ≤ 8 * d.buf.length) :
    (readU d.buf d.pos 32 .LittleEndian = MH_MAGIC →
      ofileDecode (fuel + 1) d =
        ofileThin 32 { d with pos := d.pos + 32, Endian := .LittleEndian }) ∧
    (readU d.buf d.pos 32 .LittleEndian = MH_CIGAM →
      ofileDecode (fuel + 1) d =
        ofileThin 32 { d with pos := d.pos + 32, Endian := .BigEndian }) ∧
    (readU d.buf d.pos 32 .LittleEndian = MH_MAGIC_64 →
      ofileDecode (fuel + 1) d =
        ofileThin 64 { d with pos := d.pos + 32, Endian := .LittleEndian }) ∧
    (readU d.buf d.pos 32 .LittleEndian = MH_CIGAM_64 →
      ofileDecode (fuel + 1) d =
        ofileThin 64 { d with pos := d.pos + 32, Endian := .BigEndian }) ∧
    (readU d.buf d.pos 32 .LittleEndian = FAT_MAGIC →
      ofileDecode (fuel + 1) d =
        fatParse (ofileDecode fuel) { d with pos := d.pos + 32, Endian := .LittleEndian }) ∧
    (readU d.buf d.pos 32 .LittleEndian = FAT_CIGAM →
      ofileDecode (fuel + 1) d =
        fatParse (ofileDecode fuel) { d with pos := d.pos + 32, Endian := .BigEndian }) := by
  have hl : ¬ (8 * d.buf.length < d.pos + 32) := by omega
  refine ⟨?_, ?_, ?_, ?_, ?_, ?_⟩ <;> intro hm <;> rw [ofileDecode_succ, if_neg hl] <;>
    simp [hm]

/-- Witness of C2: the magic bytes `ce fa ed fe` select the thin path with 32 bits and little
endian. -/
theorem C2_magic_dispatch_witness :
    ofileDecode 1 ⟨thinLE32, 0, .BigEndian, []⟩ =
      ofileThin 32 ⟨thinLE32, 0 + 32, .LittleEndian, []⟩ :=
  (C2_magic_dispatch 0 ⟨thinLE32, 0, .BigEndian, []⟩ (by decide!)).1 (by decide!)

/-- C3 (counterexample): the region starts with the fat magic, one of the six recognised values,
and `ofileDecode` still fails with "Invalid magic field": the failure of the nested slice at
offset 28 aborts the whole decode. -/
theorem C3_counterexample :
    readU fatBadSlice 0 32 .LittleEndian = FAT_CIGAM ∧
    machoDecode 2 fatBadSlice = .error (.Fatalf "Invalid magic field") := by
  decide!

/-- C3 (amended): for a region of at least 4 bytes, a magic that is none of the six recognised
values makes `ofileDecode` fail with "Invalid magic field" (a failure carries no field); with
one of the four thin magics `ofileDecode` never fails with a fatal message, only with a read or
seek failure; with a fat magic it fails with "Invalid magic field" exactly when `fatParse`,
through a nested slice, does. -/
theorem C3_invalid_magic (fuel : Nat) (d : D) (hlen : d.pos + 32 ≤ 8 * d.buf.length) :
    ((readU d.buf d.pos 32 .LittleEndian ≠ MH_MAGIC ∧
      readU d.buf d.pos 32 .LittleEndian ≠ MH_MAGIC_64 ∧
      readU d.buf d.pos 32 .LittleEndian ≠ MH_CIGAM ∧
      readU d.buf d.pos 32 .LittleEndian ≠ MH_CIGAM_64 ∧
      readU d.buf d.pos 32 .LittleEndian ≠ FAT_MAGIC ∧
      readU d.buf d.pos 32 .LittleEndian ≠ FAT_CIGAM) →
      ofileDecode (fuel + 1) d = .error (.Fatalf "Invalid magic field")) ∧
    ((readU d.buf d.pos 32 .LittleEndian = MH_MAGIC ∨
      readU d.buf d.pos 32 .LittleEndian = MH_MAGIC_64 ∨
      readU d.buf d.pos 32 .LittleEndian = MH_CIGAM ∨
      readU d.buf d.pos 32 .LittleEndian = MH_CIGAM_64) →
      ∀ msg, ofileDecode (fuel + 1) d ≠ .error (.Fatalf msg)) ∧
    (readU d.buf d.pos 32 .LittleEndian = FAT_MAGIC →
      (ofileDecode (fuel + 1) d = .error (.Fatalf "Invalid magic field") ↔
        fatParse (ofileDecode fuel) { d with pos := d.pos + 32, Endian := .LittleEndian } =
          .error (.Fatalf "Invalid magic field"))) ∧
    (readU d.buf d.pos 32 .LittleEndian = FAT_CIGAM →
      (ofileDecode (fuel + 1) d = .error (.Fatalf "Invalid magic field") ↔
        fatParse (ofileDecode fuel) { d with pos := d.pos + 32, Endian := .BigEndian } =
          .error (.Fatalf "Invalid magic field"))) := by
  have hl : ¬ (8 * d.buf.length < d.pos + 32) := by omega
  refine ⟨?_, ?_, ?_, ?_⟩
  · rintro ⟨h1, h2, h3, h4, h5, h6⟩
    rw [ofileDecode_succ, if_neg hl]
    simp [h1, h2, h3, h4, h5, h6]
  · intro hm msg hfail
    rw [ofileDecode_succ, if_neg hl] at hfail
    have hthin : ∀ (a : Int) (s : D), ofileThin a s ≠ .error (.Fatalf msg) := by
      intro a s hs
      obtain ⟨op, hop⟩ := IOOnly.ofileThin a s _ hs
      cases hop
    split_ifs at hfail <;> first
      | exact hthin _ _ hfail
      | (rcases hm with h | h | h | h <;> simp_all)
  · intro hm
    rw [ofileDecode_succ, if_neg hl]
    simp [hm]
  · intro hm
    rw [ofileDecode_succ, if_neg hl]
    simp [hm]

/-- Witness of C3 (amended): a buffer of four zero bytes is refused with "Invalid magic
field". -/
theorem C3_invalid_magic_witness :
    ofileDecode 1 ⟨[0, 0, 0, 0], 0, .BigEndian, []⟩ = .error (.Fatalf "Invalid magic field") :=
  (C3_invalid_magic 0 ⟨[0, 0, 0, 0], 0, .BigEndian, []⟩ (by decide!)).1 (by decide!)

/-- C9: two runs of `ofileDecode` on the same buffer, position and compound that differ only in
the incoming byte order of the decoder give the same result: the same failure, or the same
decoded fields, final cursor position and final byte order. -/
theorem C9_incoming_endian_irrelevant (fuel : Nat) (buf : List Nat) (pos : Nat)
    (children : List Value) (e1 e2 : Endian) :
    ofileDecode fuel ⟨buf, pos, e1, children⟩ = ofileDecode fuel ⟨buf, pos, e2, children⟩ := by
  cases fuel with
  | zero => rfl
  | succ fuel => rw [ofileDecode_succ, ofileDecode_succ]

/-- C10 (evaluation at the failing inputs): for the big-endian thin objects the dispatcher
selects big endian (the magic read little-endian is `MH_CIGAM` / `MH_CIGAM_64` and the decoder
ends with byte order big), yet the header's `endian` field says "little_endian": the magic
re-read in the selected byte order is `0xfeedface` / `0xfeedfacf`, and the "big_endian" entries
of `endianNames` are never reached. -/
theorem C10_big_endian_reported_little :
    readU thinBE32 0 32 .LittleEndian = MH_CIGAM ∧
    (machoDecode 1 thinBE32).map (fun r => r.2.Endian) = .ok .BigEndian ∧
    (decoded (machoDecode 1 thinBE32)).map headerEndian = .ok (some "little_endian") ∧
    readU thinBE64 0 32 .LittleEndian = MH_CIGAM_64 ∧
    (machoDecode 1 thinBE64).map (fun r => r.2.Endian) = .ok .BigEndian ∧
    (decoded (machoDecode 1 thinBE64)).map headerEndian = .ok (some "little_endian") ∧
    endianNames.lookup MH_CIGAM = some "big_endian" ∧
    endianNames.lookup MH_CIGAM_64 = some "big_endian" := by
  decide!

/-! ## Loops (C6) -/

theorem Dec.bind_eq_ok {α β : Type} {x : Dec α} {f : α → Dec β} {d : D} {r : β × D} :
    (x >>= f) d = .ok r ↔ ∃ a d1, x d = .ok (a, d1) ∧ f a d1 = .ok r := by
  rw [Dec.bind_apply]
  cases hx : x d with
  | error e => simp
  | ok p =>
    obtain ⟨a, d1⟩ := p
    simp only [Except.ok.injEq, Prod.mk.injEq]
    constructor
    · intro h; exact ⟨a, d1, ⟨rfl, rfl⟩, h⟩
    · rintro ⟨a', d', ⟨rfl, rfl⟩, h⟩; exact h

theorem FieldStruct_eq_ok {α : Type} {name : String} {fn : Dec α} {d : D} {r : α × D} :
    FieldStruct name fn d = .ok r ↔
      ∃ cd, fn { d with children := [] } = .ok (r.1, cd) ∧
        r.2 = { d with pos := cd.pos,
                       children := d.children ++ [Value.Struct name cd.children] } := by
  unfold FieldStruct
  cases hx : fn { d with children := [] } with
  | error e => simp
  | ok p =>
    obtain ⟨a, cd⟩ := p
    obtain ⟨b, rd⟩ := r
    simp only [Except.ok.injEq, Prod.mk.injEq]
    constructor
    · rintro ⟨rfl, rfl⟩; exact ⟨cd, ⟨rfl, rfl⟩, rfl⟩
    · rintro ⟨cd', ⟨rfl, rfl⟩, rfl⟩; exact ⟨rfl, rfl⟩

/-- A successful struct loop of `n` iterations returns `n` results and adds exactly `n` structs
called `structName`; it leaves the buffer and the byte order of its decoder as they were. -/
theorem structLoop_ok {α : Type} (structName : String) (fn : Nat → Dec α) :
    ∀ (n idx : Nat) (d d' : D) (as : List α),
      structLoop structName fn n idx d = .ok (as, d') →
      as.length = n ∧ d'.buf = d.buf ∧ d'.Endian = d.Endian ∧
        ∃ cs, d'.children = d.children ++ cs ∧ cs.length = n ∧
          ∀ c ∈ cs, ∃ fs, c = Value.Struct structName fs := by
  intro n
  induction n with
  | zero =>
    intro idx d d' as h
    simp only [structLoop, Dec.pure_apply, Except.ok.injEq, Prod.mk.injEq] at h
    obtain ⟨rfl, rfl⟩ := h
    exact ⟨rfl, rfl, rfl, [], by simp, rfl, by simp⟩
  | succ n ih =>
    intro idx d d' as h
    rw [structLoop_succ, Dec.bind_eq_ok] at h
    obtain ⟨a, d1, h1, h2⟩ := h
    rw [Dec.bind_eq_ok] at h2
    obtain ⟨rest, d2, h3, h4⟩ := h2
    simp only [Dec.pure_apply, Except.ok.injEq, Prod.mk.injEq] at h4
    obtain ⟨rfl, rfl⟩ := h4
    rw [FieldStruct_eq_ok] at h1
    obtain ⟨cd, -, hd1⟩ := h1
    simp only at hd1
    obtain ⟨hl, hb, he, cs, hc, hcl, hcs⟩ := ih (idx + 1) d1 d2 rest h3
    refine ⟨by simp [hl], by rw [hb, hd1], by rw [he, hd1],
      Value.Struct structName cd.children :: cs, ?_, by simp [hcl], ?_⟩
    · rw [hc, hd1]; simp
    · intro c hcmem
      rcases List.mem_cons.mp hcmem with rfl | hmem
      · exact ⟨_, rfl⟩
      · exact hcs c hmem

/-- A loop of `i + j` iterations whose first `i` iterations succeed goes on with the remaining
`j` iterations from the state they reach. -/
theorem structLoop_add {α : Type} (structName : String) (fn : Nat → Dec α) (j : Nat) :
    ∀ (i idx : Nat) (d d1 : D) (as : List α),
      structLoop structName fn i idx d = .ok (as, d1) →
      structLoop structName fn (i + j) idx d =
        (structLoop structName fn j (idx + i) >>= fun bs => pure (as ++ bs)) d1 := by
  intro i
  induction i with
  | zero =>
    intro idx d d1 as h
    simp only [structLoop, Dec.pure_apply, Except.ok.injEq, Prod.mk.injEq] at h
    obtain ⟨rfl, rfl⟩ := h
    rw [Dec.bind_apply]
    simp only [Nat.zero_add, Nat.add_zero, List.nil_append]
    cases structLoop structName fn j idx d with
    | error e => rfl
    | ok p => rfl
  | succ i ih =>
    intro idx d d1 as h
    rw [structLoop_succ, Dec.bind_eq_ok] at h
    obtain ⟨a, d2, h1, h2⟩ := h
    rw [Dec.bind_eq_ok] at h2
    obtain ⟨rest, d3, h3, h4⟩ := h2
    simp only [Dec.pure_apply, Except.ok.injEq, Prod.mk.injEq] at h4
    obtain ⟨rfl, rfl⟩ := h4
    have hij : i + 1 + j = (i + j) + 1 := by omega
    rw [hij, structLoop_succ, Dec.bind_ok h1, Dec.bind_apply, ih (idx + 1) d2 d3 rest h3,
      Dec.bind_apply, Dec.bind_apply]
    have hidx : idx + 1 + i = idx + (i + 1) := by omega
    rw [hidx]
    cases structLoop structName fn j (idx + (i + 1)) d3 with
    | error e => rfl
    | ok p => rfl

/-- With fewer than 64 bits left, a load command fails with a read failure. -/
theorem loadCommand_truncated (archBits : Int) (cpuType : Nat) (d : D)
    (h : 8 * d.buf.length < d.pos + 64) :
    loadCommand archBits cpuType d = .error (.IOError "read") := by
  unfold loadCommand
  rw [Dec.bind_apply]
  unfold FieldU32
  rw [FieldU_eq]
  by_cases h1 : 8 * d.buf.length < d.pos + 32
  · rw [if_pos h1]
  · rw [if_neg h1]
    simp only
    rw [Dec.bind_apply, FieldU_eq, if_pos (by simpa using by omega)]

theorem FieldRawLen_ok {name : String} {nBits : Int} {sms : List Mapper} {d d1 : D}
    (h : FieldRawLen name nBits sms d = .ok ((), d1)) :
    0 ≤ nBits ∧ d.pos + nBits.toNat ≤ 8 * d.buf.length ∧
      d1 = { d with pos := d.pos + nBits.toNat,
                    children := d.children ++ [Value.Scalar name
                      (applyMappers sms ⟨.Raw (readU d.buf d.pos nBits.toNat .BigEndian), none, ""⟩)
                      d.pos nBits.toNat] } := by
  unfold FieldRawLen RawLen TryU at h
  by_cases h0 : nBits < 0
  · simp [h0] at h
  · by_cases h1 : 8 * d.buf.length < d.pos + nBits.toNat
    · simp [h0, h1] at h
    · simp only [h0, h1, if_false, addScalar, Except.ok.injEq, Prod.mk.injEq, true_and] at h
      exact ⟨by omega, by omega, h.symm⟩

/-- The header of a thin object that decodes: `cpuType` and `ncmds` are the words at bits 32
and 128 of the header, and the header struct starts with the eight fields `arch_bits`, `magic`,
`bits`, `endian`, `cputype`, `cpusubtype`, `filetype`, `ncdms`, the magic covering the first
32 bits. -/
theorem headerDecode_ok {archBits : Int} {d d' : D} {cpuType ncmds : Nat}
    (h : headerDecode archBits d = .ok ((cpuType, ncmds), d')) :
    cpuType = readU d.buf (d.pos + 32) 32 d.Endian ∧
    ncmds = readU d.buf (d.pos + 128) 32 d.Endian ∧
    d'.buf = d.buf ∧ d'.Endian = d.Endian ∧
    ∃ rest, d'.children = d.children ++ [
      Value.Scalar "arch_bits" ⟨.S archBits, none, ""⟩ d.pos 0,
      Value.Scalar "magic" (applyMappers [Hex, UToScalar magicSymMapper]
        ⟨.U (readU d.buf d.pos 32 d.Endian), none, ""⟩) d.pos 32,
      Value.Scalar "bits" ⟨.U archBits.toNat, none, ""⟩ (d.pos + 32) 0,
      Value.Scalar "endian" ⟨.Str [],
        some ((endianNames.lookup (readU d.buf d.pos 32 d.Endian)).getD ""), ""⟩ (d.pos + 32) 0,
      Value.Scalar "cputype" (applyMappers [UToSymStr cpuTypes] ⟨.U cpuType, none, ""⟩)
        (d.pos + 32) 32,
      Value.Scalar "cpusubtype" (applyMappers [UToSymStr ((cpuSubTypes.lookup cpuType).getD [])]
        ⟨.U (readU d.buf (d.pos + 64) 32 d.Endian), none, ""⟩) (d.pos + 64) 32,
      Value.Scalar "filetype" (applyMappers [UToSymStr fileTypes]
        ⟨.U (readU d.buf (d.pos + 96) 32 d.Endian), none, ""⟩) (d.pos + 96) 32,
      Value.Scalar "ncdms" ⟨.U ncmds, none, ""⟩ (d.pos + 128) 32] ++ rest := by
  simp only [headerDecode, Dec.bind_eq_ok] at h
  obtain ⟨_, d1, h1, magic, d2, h2, _, d3, h3, _, d4, h4, cpu, d5, h5, sub, d6, h6, ft, d7, h7,
    n, d8, h8, sz, d9, h9, _, d10, h10, h11⟩ := h
  simp only [FieldValueS, addScalar, Except.ok.injEq, Prod.mk.injEq, true_and] at h1
  obtain ⟨hm, -, -, hd2⟩ := FieldU32_ok h2
  simp only [FieldValueU, addScalar, Except.ok.injEq, Prod.mk.injEq, true_and] at h3
  simp only [FieldValueStr, addScalar, Except.ok.injEq, Prod.mk.injEq, true_and] at h4
  obtain ⟨hc, -, -, hd5⟩ := FieldU32_ok h5
  obtain ⟨hs, -, -, hd6⟩ := FieldU32_ok h6
  obtain ⟨hf, -, -, hd7⟩ := FieldU32_ok h7
  obtain ⟨hn, -, -, hd8⟩ := FieldU32_ok h8
  obtain ⟨-, -, -, hd9⟩ := FieldU32_ok h9
  rw [FieldStruct_eq_ok] at h10
  obtain ⟨cd, -, hd10⟩ := h10
  simp only at hd10
  subst h1 hd2 h3 h4 hd5 hd6 hd7 hd8 hd9 hd10
  have hext : cpu = cpuType ∧ n = ncmds ∧ d'.buf = d.buf ∧ d'.Endian = d.Endian ∧
      ∃ tail, d'.children =
      (((((((((d.children ++ [Value.Scalar "arch_bits" ⟨.S archBits, none, ""⟩ d.pos 0]) ++
        [Value.Scalar "magic" (applyMappers [Hex, UToScalar magicSymMapper]
          ⟨.U magic, none, ""⟩) d.pos 32]) ++
        [Value.Scalar "bits" ⟨.U archBits.toNat, none, ""⟩ (d.pos + 32) 0]) ++
        [Value.Scalar "endian" ⟨.Str [], some ((endianNames.lookup magic).getD ""), ""⟩
          (d.pos + 32) 0]) ++
        [Value.Scalar "cputype" (applyMappers [UToSymStr cpuTypes] ⟨.U cpu, none, ""⟩)
          (d.pos + 32) 32]) ++
        [Value.Scalar "cpusubtype" (applyMappers [UToSymStr ((cpuSubTypes.lookup cpu).getD [])]
          ⟨.U sub, none, ""⟩) (d.pos + 32 + 32) 32]) ++
        [Value.Scalar "filetype" (applyMappers [UToSymStr fileTypes] ⟨.U ft, none, ""⟩)
          (d.pos + 32 + 32 + 32) 32]) ++
        [Value.Scalar "ncdms" (applyMappers [] ⟨.U n, none, ""⟩) (d.pos + 32 + 32 + 32 + 32) 32]) ++
        [Value.Scalar "sizeofncdms" (applyMappers [] ⟨.U sz, none, ""⟩)
          (d.pos + 32 + 32 + 32 + 32 + 32) 32]) ++ tail := by
    by_cases h64 : archBits = 64
    · subst h64
      simp only [if_true, Dec.bind_eq_ok] at h11
      obtain ⟨_, d11, h11, h12⟩ := h11
      simp only [Dec.pure_apply, Except.ok.injEq, Prod.mk.injEq] at h12
      obtain ⟨⟨rfl, rfl⟩, rfl⟩ := h12
      obtain ⟨-, -, hd11⟩ := FieldRawLen_ok h11
      rw [hd11]
      exact ⟨rfl, rfl, rfl, rfl, _, List.append_assoc _ _ _⟩
    · simp only [h64, if_false, Dec.bind_eq_ok] at h11
      obtain ⟨_, d11, h11, h12⟩ := h11
      simp only [Dec.pure_apply, Except.ok.injEq, Prod.mk.injEq] at h11 h12
      obtain ⟨⟨rfl, rfl⟩, rfl⟩ := h12
      obtain ⟨-, rfl⟩ := h11
      exact ⟨rfl, rfl, rfl, rfl, _, rfl⟩
  obtain ⟨rfl, rfl, hb, he, tail, ht⟩ := hext
  simp only at hm hc hs hf hn
  have e1 : d.pos + 32 + 32 = d.pos + 64 := by omega
  have e2 : d.pos + 32 + 32 + 32 = d.pos + 96 := by omega
  have e3 : d.pos + 32 + 32 + 32 + 32 = d.pos + 128 := by omega
  rw [e1] at hs
  rw [e2] at hf
  rw [e3] at hn
  refine ⟨hc, hn, hb, he, ?_⟩
  rw [ht, ← hm, ← hs, ← hf, e1, e2, e3]
  refine ⟨Value.Scalar "sizeofncdms" (applyMappers [] ⟨.U sz, none, ""⟩)
    (d.pos + 128 + 32) 32 :: tail, ?_⟩
  simp only [List.append_assoc, List.cons_append, List.nil_append, applyMappers, List.foldl_nil]

theorem FieldStructArrayLoop_eq_ok {α : Type} {name structName : String} {n : Nat}
    {fn : Nat → Dec α} {d : D} {r : List α × D} :
    FieldStructArrayLoop name structName n fn d = .ok r ↔
      ∃ ad, structLoop structName fn n 0 { d with children := [] } = .ok (r.1, ad) ∧
        r.2 = { d with pos := ad.pos,
                       children := d.children ++ [Value.Array name ad.children] } := by
  unfold FieldStructArrayLoop
  cases hx : structLoop structName fn n 0 { d with children := [] } with
  | error e => simp
  | ok p =>
    obtain ⟨a, ad⟩ := p
    obtain ⟨b, rd⟩ := r
    simp only [Except.ok.injEq, Prod.mk.injEq]
    constructor
    · rintro ⟨rfl, rfl⟩; exact ⟨ad, ⟨rfl, rfl⟩, rfl⟩
    · rintro ⟨ad', ⟨rfl, rfl⟩, rfl⟩; exact ⟨rfl, rfl⟩

theorem SeekRel_eq_ok {delta : Int} {d d1 : D} {p : Nat} (h : SeekRel delta d = .ok (p, d1)) :
    0 ≤ (d.pos : Int) + delta ∧ d1 = { d with pos := ((d.pos : Int) + delta).toNat } := by
  unfold SeekRel at h
  by_cases h0 : (d.pos : Int) + delta < 0
  · simp [h0] at h
  · simp only [h0, if_false, Except.ok.injEq, Prod.mk.injEq] at h
    exact ⟨by omega, h.2.symm⟩

/-! ## The fat container (C7, C8) -/

/-- One `fat_arch` record with 20 bytes of input left: the five fields, the cursor 160 bits
further, the `offset` word returned. -/
theorem fatArchDecode_run (d : D) (h : d.pos + 160 ≤ 8 * d.buf.length) :
    fatArchDecode d = .ok (readU d.buf (d.pos + 64) 32 d.Endian,
      { d with pos := d.pos + 160,
               children := d.children ++ fatArchFields d.buf d.Endian d.pos }) := by
  unfold fatArchDecode
  rw [Dec.bind_ok (FieldU32_run _ _ (by omega))]
  rw [Dec.bind_ok (FieldU32_run _ _ (by simp only; omega))]
  rw [Dec.bind_ok (FieldU32_run _ _ (by simp only; omega))]
  rw [Dec.bind_ok (FieldU32_run _ _ (by simp only; omega))]
  rw [Dec.bind_ok (FieldU32_run _ _ (by simp only; omega))]
  simp only [Dec.pure_apply, fatArchFields, applyMappers, List.foldl_nil, List.append_assoc,
    List.cons_append, List.nil_append, Nat.add_assoc, Nat.reduceAdd]

theorem FieldStruct_run {α : Type} (name : String) {fn : Dec α} {d cd : D} {a : α}
    (h : fn { d with children := [] } = .ok (a, cd)) :
    FieldStruct name fn d = .ok (a,
      { d with pos := cd.pos, children := d.children ++ [Value.Struct name cd.children] }) := by
  unfold FieldStruct
  rw [h]

/-- The `archs` loop with `20 * n` bytes of input left: it returns the `offset` words of the `n`
records in order and adds one `arch` struct per record. -/
theorem archsLoop_run (n : Nat) : ∀ (idx : Nat) (d : D), d.pos + 160 * n ≤ 8 * d.buf.length →
    structLoop "arch" (fun _ => FieldStruct "fat_arch" fatArchDecode) n idx d =
      .ok ((List.range n).map (fun i => readU d.buf (d.pos + 160 * i + 64) 32 d.Endian),
        { d with pos := d.pos + 160 * n,
                 children := d.children ++ (List.range n).map (fun i =>
                   Value.Struct "arch" [Value.Struct "fat_arch"
                     (fatArchFields d.buf d.Endian (d.pos + 160 * i))]) }) := by
  induction n with
  | zero => intro idx d _; simp [structLoop, Dec.pure_apply]
  | succ n ih =>
    intro idx d h
    have hrec := fatArchDecode_run { d with children := [] } (by simp only; omega)
    have hinner := FieldStruct_run "fat_arch" (d := { d with children := [] }) hrec
    have houter := FieldStruct_run "arch" (d := d) hinner
    simp only [List.nil_append] at houter
    rw [structLoop_succ, Dec.bind_ok houter, Dec.bind_apply, ih (idx + 1) _ (by simp only; omega)]
    have e : ∀ i, d.pos + 160 + 160 * i = d.pos + 160 * (i + 1) := by intro i; omega
    simp only [Dec.pure_apply, List.range_succ_eq_map, List.map_cons, List.map_map,
      Function.comp_def, Nat.mul_zero, Nat.add_zero, List.append_assoc, List.cons_append,
      List.nil_append, e, Nat.succ_eq_add_one]

theorem fatArchDecode_ok {d d' : D} {off : Nat} (h : fatArchDecode d = .ok (off, d')) :
    d.pos + 160 ≤ 8 * d.buf.length := by
  simp only [fatArchDecode, Dec.bind_eq_ok] at h
  obtain ⟨c, d1, h1, s, d2, h2, o, d3, h3, z, d4, h4, a, d5, h5, -⟩ := h
  obtain ⟨-, -, -, e1⟩ := FieldU32_ok h1
  obtain ⟨-, -, -, e2⟩ := FieldU32_ok h2
  obtain ⟨-, -, -, e3⟩ := FieldU32_ok h3
  obtain ⟨-, -, -, e4⟩ := FieldU32_ok h4
  obtain ⟨-, -, l5, -⟩ := FieldU32_ok h5
  rw [e4, e3, e2, e1] at l5
  simp only at l5
  omega

theorem archsLoop_ok (n : Nat) : ∀ (idx : Nat) (d d' : D) (as : List Nat),
    d.pos ≤ 8 * d.buf.length →
    structLoop "arch" (fun _ => FieldStruct "fat_arch" fatArchDecode) n idx d = .ok (as, d') →
    d.pos + 160 * n ≤ 8 * d.buf.length := by
  induction n with
  | zero => intro idx d d' as hpos _; omega
  | succ n ih =>
    intro idx d d' as hpos h
    rw [structLoop_succ, Dec.bind_eq_ok] at h
    obtain ⟨a, d1, h1, h2⟩ := h
    rw [Dec.bind_eq_ok] at h2
    obtain ⟨rest, d2, h3, -⟩ := h2
    rw [FieldStruct_eq_ok] at h1
    obtain ⟨cd, hcd, hd1⟩ := h1
    rw [FieldStruct_eq_ok] at hcd
    obtain ⟨cd2, hcd2, hcd⟩ := hcd
    simp only at hd1 hcd hcd2
    have hrec := fatArchDecode_ok hcd2
    simp only at hrec
    have hrun := fatArchDecode_run { d with children := [] } hrec
    rw [hrun] at hcd2
    simp only [Except.ok.injEq, Prod.mk.injEq] at hcd2
    have hih := ih (idx + 1) d1 d2 rest (by rw [hd1, hcd, ← hcd2.2]; simp only; omega) h3
    rw [hd1, hcd, ← hcd2.2] at hih
    simp only at hih
    omega

theorem FieldStructArrayLoop_run {α : Type} (name structName : String) {n : Nat}
    {fn : Nat → Dec α} {d ad : D} {as : List α}
    (h : structLoop structName fn n 0 { d with children := [] } = .ok (as, ad)) :
    FieldStructArrayLoop name structName n fn d = .ok (as,
      { d with pos := ad.pos, children := d.children ++ [Value.Array name ad.children] }) := by
  unfold FieldStructArrayLoop
  rw [h]

/-- Pass 1 of `fatParse` on a buffer that holds the 8-byte fat header and its `narchs` records of
20 bytes: the result, spelled out. -/
theorem fatHeader_run (d : D)
    (hlen : 8 * (8 + 20 * readU d.buf 32 32 d.Endian) ≤ 8 * d.buf.length) :
    FieldStruct "fat_header" fatHeaderDecode { d with pos := 0 } = .ok (
      (readU d.buf 32 32 d.Endian,
        (List.range (readU d.buf 32 32 d.Endian)).map
          (fun i => readU d.buf (8 * (8 + 20 * i + 8)) 32 d.Endian)),
      { d with pos := 8 * (8 + 20 * readU d.buf 32 32 d.Endian),
               children := d.children ++ [Value.Struct "fat_header" [
                 Value.Scalar "magic" ⟨.Raw (readU d.buf 0 32 .BigEndian), none, ""⟩ 0 32,
                 Value.Scalar "narchs" ⟨.U (readU d.buf 32 32 d.Endian), none, ""⟩ 32 32,
                 Value.Array "archs" ((List.range (readU d.buf 32 32 d.Endian)).map (fun i =>
                   Value.Struct "arch" [Value.Struct "fat_arch"
                     (fatArchFields d.buf d.Endian (8 * (8 + 20 * i)))]))]] }) := by
  have hmagic : FieldRawLen "magic" (4 * 8) [] ⟨d.buf, 0, d.Endian, []⟩ = .ok ((),
      ⟨d.buf, 32, d.Endian,
        [Value.Scalar "magic" ⟨.Raw (readU d.buf 0 32 .BigEndian), none, ""⟩ 0 32]⟩) := by
    have h := FieldRawLen_run "magic" 32 [] (d := ⟨d.buf, 0, d.Endian, []⟩)
      (by simp only; omega)
    simpa [applyMappers] using h
  have hn : FieldU32 "narchs" [] ⟨d.buf, 32, d.Endian,
        [Value.Scalar "magic" ⟨.Raw (readU d.buf 0 32 .BigEndian), none, ""⟩ 0 32]⟩ =
      .ok (readU d.buf 32 32 d.Endian, ⟨d.buf, 64, d.Endian,
        [Value.Scalar "magic" ⟨.Raw (readU d.buf 0 32 .BigEndian), none, ""⟩ 0 32,
         Value.Scalar "narchs" ⟨.U (readU d.buf 32 32 d.Endian), none, ""⟩ 32 32]⟩) := by
    have h := FieldU32_run "narchs" [] (d := ⟨d.buf, 32, d.Endian,
      [Value.Scalar "magic" ⟨.Raw (readU d.buf 0 32 .BigEndian), none, ""⟩ 0 32]⟩)
      (by simp only; omega)
    simpa [applyMappers] using h
  have e2 : ∀ i, 64 + 160 * i = 8 * (8 + 20 * i) := by intro i; omega
  have hloop : structLoop "arch" (fun _ => FieldStruct "fat_arch" fatArchDecode)
      (readU d.buf 32 32 d.Endian) 0 ⟨d.buf, 64, d.Endian, []⟩ =
      .ok ((List.range (readU d.buf 32 32 d.Endian)).map
          (fun i => readU d.buf (8 * (8 + 20 * i + 8)) 32 d.Endian),
        ⟨d.buf, 8 * (8 + 20 * readU d.buf 32 32 d.Endian), d.Endian,
          (List.range (readU d.buf 32 32 d.Endian)).map (fun i =>
            Value.Struct "arch" [Value.Struct "fat_arch"
              (fatArchFields d.buf d.Endian (8 * (8 + 20 * i)))])⟩) := by
    have h := archsLoop_run (readU d.buf 32 32 d.Endian) 0 ⟨d.buf, 64, d.Endian, []⟩
      (by simp only; omega)
    have e3 : ∀ i, 8 * (8 + 20 * i) + 64 = 8 * (8 + 20 * i + 8) := by intro i; omega
    simp only [e2, e3, List.nil_append] at h
    exact h
  have hbody : fatHeaderDecode ⟨d.buf, 0, d.Endian, []⟩ = .ok (
      (readU d.buf 32 32 d.Endian,
        (List.range (readU d.buf 32 32 d.Endian)).map
          (fun i => readU d.buf (8 * (8 + 20 * i + 8)) 32 d.Endian)),
      ⟨d.buf, 8 * (8 + 20 * readU d.buf 32 32 d.Endian), d.Endian,
        [Value.Scalar "magic" ⟨.Raw (readU d.buf 0 32 .BigEndian), none, ""⟩ 0 32,
         Value.Scalar "narchs" ⟨.U (readU d.buf 32 32 d.Endian), none, ""⟩ 32 32,
         Value.Array "archs" ((List.range (readU d.buf 32 32 d.Endian)).map (fun i =>
           Value.Struct "arch" [Value.Struct "fat_arch"
             (fatArchFields d.buf d.Endian (8 * (8 + 20 * i)))]))]⟩) := by
    unfold fatHeaderDecode
    rw [Dec.bind_ok hmagic, Dec.bind_ok hn,
      Dec.bind_ok (FieldStructArrayLoop_run "archs" "arch" hloop)]
    rfl
  exact FieldStruct_run "fat_header" (d := { d with pos := 0 }) hbody

/-- Pass 1 of `fatParse` succeeds only on a buffer that holds the 8-byte fat header and its
`narchs` records of 20 bytes. -/
theorem fatHeader_ok {d : D} {r : (Nat × List Nat) × D}
    (h : FieldStruct "fat_header" fatHeaderDecode { d with pos := 0 } = .ok r) :
    8 * (8 + 20 * readU d.buf 32 32 d.Endian) ≤ 8 * d.buf.length := by
  rw [FieldStruct_eq_ok] at h
  obtain ⟨cd, hcd, -⟩ := h
  simp only [fatHeaderDecode, Dec.bind_eq_ok] at hcd
  obtain ⟨_, d1, h1, n, d2, h2, offs, d3, h3, -⟩ := hcd
  obtain ⟨-, -, hd1⟩ := FieldRawLen_ok h1
  obtain ⟨hn, -, hl2, hd2⟩ := FieldU32_ok h2
  rw [FieldStructArrayLoop_eq_ok] at h3
  obtain ⟨ad, had, -⟩ := h3
  have hpos : d2.pos ≤ 8 * d2.buf.length := by
    rw [hd2]; simp only; omega
  have hloop := archsLoop_ok n 0 { d2 with children := [] } ad offs hpos had
  rw [hd2, hd1] at hloop
  rw [hd1] at hn
  have e32 : Int.toNat 32 = 32 := rfl
  simp only [Int.reduceMul, e32, Nat.zero_add] at hloop hn
  rw [← hn]
  omega

/-- The fat path once pass 1 has succeeded: `fatParse` is the `files` loop run from the state
pass 1 ends in. -/
theorem fatParse_pass2 (ofile : Dec Unit) (d d2 : D) (narchs : Nat) (offsets : List Nat)
    (h : FieldStruct "fat_header" fatHeaderDecode { d with pos := 0 } =
      .ok ((narchs, offsets), d2)) :
    fatParse ofile d =
      (FieldStructArrayLoop "files" "file" narchs (fatFileDecode ofile offsets) >>=
        fun _ => pure ()) d2 := by
  have hseek : SeekAbs 0 d = .ok (0, { d with pos := 0 }) := by
    simp [SeekAbs]
  unfold fatParse
  rw [Dec.bind_ok hseek, Dec.bind_ok h]

/-- C8: pass 1 of `fatParse`, on a buffer that holds the 8-byte fat header and its `narchs`
records of 20 bytes, starts at bit 0 and reads the 4-byte magic, `narchs` as the 32-bit word at
byte 4 in the container's byte order, then `narchs` records of five 32-bit fields (`cputype`,
`cpusubtype`, `offset`, `size`, `align`) in file order, record `i` at byte `8 + 20 * i`; it ends
`8 + 20 * narchs` bytes into the buffer; the recorded offsets are the `offset` words of the
records in that order, `narchs` of them; and the nested decodes are all in the `files` loop
that runs from the state pass 1 ends in. -/
theorem C8_fat_header_pass (fuel : Nat) (d : D)
    (hlen : 8 * (8 + 20 * readU d.buf 32 32 d.Endian) ≤ 8 * d.buf.length) :
    FieldStruct "fat_header" fatHeaderDecode { d with pos := 0 } = .ok (
      (readU d.buf 32 32 d.Endian,
        (List.range (readU d.buf 32 32 d.Endian)).map
          (fun i => readU d.buf (8 * (8 + 20 * i + 8)) 32 d.Endian)),
      { d with pos := 8 * (8 + 20 * readU d.buf 32 32 d.Endian),
               children := d.children ++ [Value.Struct "fat_header" [
                 Value.Scalar "magic" ⟨.Raw (readU d.buf 0 32 .BigEndian), none, ""⟩ 0 32,
                 Value.Scalar "narchs" ⟨.U (readU d.buf 32 32 d.Endian), none, ""⟩ 32 32,
                 Value.Array "archs" ((List.range (readU d.buf 32 32 d.Endian)).map (fun i =>
                   Value.Struct "arch" [Value.Struct "fat_arch"
                     (fatArchFields d.buf d.Endian (8 * (8 + 20 * i)))]))]] }) ∧
    ((List.range (readU d.buf 32 32 d.Endian)).map
      (fun i => readU d.buf (8 * (8 + 20 * i + 8)) 32 d.Endian)).length =
        readU d.buf 32 32 d.Endian ∧
    fatParse (ofileDecode fuel) d =
      (FieldStructArrayLoop "files" "file" (readU d.buf 32 32 d.Endian)
        (fatFileDecode (ofileDecode fuel) ((List.range (readU d.buf 32 32 d.Endian)).map
          (fun i => readU d.buf (8 * (8 + 20 * i + 8)) 32 d.Endian))) >>= fun _ => pure ())
      { d with pos := 8 * (8 + 20 * readU d.buf 32 32 d.Endian),
               children := d.children ++ [Value.Struct "fat_header" [
                 Value.Scalar "magic" ⟨.Raw (readU d.buf 0 32 .BigEndian), none, ""⟩ 0 32,
                 Value.Scalar "narchs" ⟨.U (readU d.buf 32 32 d.Endian), none, ""⟩ 32 32,
                 Value.Array "archs" ((List.range (readU d.buf 32 32 d.Endian)).map (fun i =>
                   Value.Struct "arch" [Value.Struct "fat_arch"
                     (fatArchFields d.buf d.Endian (8 * (8 + 20 * i)))]))]] } :=
  ⟨fatHeader_run d hlen, by simp, fatParse_pass2 _ d _ _ _ (fatHeader_run d hlen)⟩

/-- Witness of C8: the fat container `fatTwoSlices` has `narchs = 2`; pass 1 ends at byte 48 and
records the offsets 76 and 48 in file order. -/
theorem C8_fat_header_pass_witness :
    endPos (FieldStruct "fat_header" fatHeaderDecode ⟨fatTwoSlices, 0, .BigEndian, []⟩) =
      .ok (8 * 48) ∧
    (List.range (readU fatTwoSlices 32 32 .BigEndian)).map
      (fun i => readU fatTwoSlices (8 * (8 + 20 * i + 8)) 32 .BigEndian) = [76, 48] :=
  ⟨by rw [(C8_fat_header_pass 1 ⟨fatTwoSlices, 32, .BigEndian, []⟩ (by decide!)).1]; decide!,
   by decide!⟩

theorem toInt64_small {x : Nat} (h : x < 2 ^ 32) : toInt64 x = (x : Int) := by
  unfold toInt64
  have h1 : x % 2 ^ 64 = x := Nat.mod_eq_of_lt (by omega)
  rw [h1, if_pos (by omega)]

/-- One `file` struct: the nested decoder runs on a fresh compound at bit `8 * offset`, in the
byte order of the container's decoder. -/
theorem fatFile_ok {ofile : Dec Unit} {offsets : List Nat} {idx : Nat} {d d1 : D}
    (hoff : ∀ o ∈ offsets, o < 2 ^ 32)
    (h : FieldStruct "file" (fatFileDecode ofile offsets idx) d = .ok ((), d1)) :
    ∃ off r, offsets.get? idx = some off ∧
      ofile ⟨d.buf, 8 * off, d.Endian, []⟩ = .ok ((), r) ∧
      d1 = { d with pos := r.pos, children := d.children ++ [Value.Struct "file" r.children] } := by
  rw [FieldStruct_eq_ok] at h
  obtain ⟨cd, hcd, hd1⟩ := h
  unfold fatFileDecode at hcd
  cases hget : offsets.get? idx with
  | none => rw [hget] at hcd; simp at hcd
  | some off =>
    rw [hget] at hcd
    simp only [Dec.bind_eq_ok] at hcd
    obtain ⟨p, s, hs, hr⟩ := hcd
    have hlt : off < 2 ^ 32 := hoff off (List.get?_mem hget)
    have hseek : SeekAbs (toInt64 off * 8) { d with children := [] } =
        .ok (8 * off, ⟨d.buf, 8 * off, d.Endian, []⟩) := by
      rw [toInt64_small hlt]
      unfold SeekAbs
      have h0 : ¬ ((off : Int) * 8 < 0) := by omega
      have h1 : ((off : Int) * 8).toNat = 8 * off := by omega
      rw [if_neg h0, h1]
    rw [hseek] at hs
    simp only [Except.ok.injEq, Prod.mk.injEq] at hs
    rw [← hs.2] at hr
    exact ⟨off, cd, rfl, hr, hd1⟩

/-- The `files` loop: a loop of `n` iterations that succeeds adds `n` `file` structs, and the
`i`-th one holds what the nested decoder produced from bit `8 * offsets[idx + i]`, whatever the
earlier iterations consumed. -/
theorem filesLoop_ok (ofile : Dec Unit) (offsets : List Nat) (hoff : ∀ o ∈ offsets, o < 2 ^ 32)
    (n : Nat) : ∀ (idx : Nat) (d d' : D) (as : List Unit),
    structLoop "file" (fatFileDecode ofile offsets) n idx d = .ok (as, d') →
    ∃ files, d'.children = d.children ++ files ∧ files.length = n ∧
      ∀ i, i < n → ∃ off r, offsets.get? (idx + i) = some off ∧
        ofile ⟨d.buf, 8 * off, d.Endian, []⟩ = .ok ((), r) ∧
        files.get? i = some (Value.Struct "file" r.children) := by
  induction n with
  | zero =>
    intro idx d d' as h
    simp only [structLoop, Dec.pure_apply, Except.ok.injEq, Prod.mk.injEq] at h
    obtain ⟨-, rfl⟩ := h
    exact ⟨[], by simp, rfl, fun i hi => absurd hi (by omega)⟩
  | succ n ih =>
    intro idx d d' as h
    rw [structLoop_succ, Dec.bind_eq_ok] at h
    obtain ⟨a, d1, h1, h2⟩ := h
    rw [Dec.bind_eq_ok] at h2
    obtain ⟨rest, d2, h3, h4⟩ := h2
    simp only [Dec.pure_apply, Except.ok.injEq, Prod.mk.injEq] at h4
    obtain ⟨-, rfl⟩ := h4
    obtain ⟨off, r, hget, hr, hd1⟩ := fatFile_ok hoff h1
    obtain ⟨files, hch, hlen, hall⟩ := ih (idx + 1) d1 d2 rest h3
    refine ⟨Value.Struct "file" r.children :: files, ?_, by simp [hlen], ?_⟩
    · rw [hch, hd1]; simp
    · intro i hi
      cases i with
      | zero => exact ⟨off, r, by simpa using hget, hr, rfl⟩
      | succ i =>
        obtain ⟨off', r', hget', hr', hf'⟩ := hall i (by omega)
        rw [hd1] at hr'
        refine ⟨off', r', ?_, hr', by simpa using hf'⟩
        rw [← hget']
        congr 1
        omega

/-- C7: a fat decode that succeeds (ending at bit `q`) has added the `fat_header` struct and a
`files` array of exactly `narchs` `file` structs, `narchs` being the 32-bit word at byte 4; the
`i`-th `file` struct holds what the nested `ofileDecode` produced when started on a fresh
compound at bit `8 * offset_i`, `offset_i` being the `offset` word of the `i`-th `fat_arch`
record in array order (byte `8 + 20 * i + 8`), in the container's byte order: the start of a
slice does not depend on where the previous slice's decode stopped. -/
theorem C7_fat_slices (fuel : Nat) (d : D) (q : Nat)
    (h : endPos (fatParse (ofileDecode fuel) d) = .ok q) :
    ∃ d' hdr files, fatParse (ofileDecode fuel) d = .ok ((), d') ∧ d'.pos = q ∧
      d'.children = d.children ++ [Value.Struct "fat_header" hdr, Value.Array "files" files] ∧
      files.length = readU d.buf 32 32 d.Endian ∧
      ∀ i, i < readU d.buf 32 32 d.Endian →
        ∃ r, ofileDecode fuel
            ⟨d.buf, 8 * readU d.buf (8 * (8 + 20 * i + 8)) 32 d.Endian, d.Endian, []⟩ =
              .ok ((), r) ∧
          files.get? i = some (Value.Struct "file" r.children) := by
  simp only [endPos] at h
  split at h
  · simp at h
  · rename_i u d' heq
    simp only [Except.ok.injEq] at h
    refine ⟨d', ?_⟩
    have heq' := heq
    simp only [fatParse, Dec.bind_eq_ok] at heq'
    obtain ⟨p, d0, h0, ⟨narchs, offsets⟩, d2, hpass, h3⟩ := heq'
    simp only [Dec.bind_eq_ok] at h3
    obtain ⟨as, d3, h3, h4⟩ := h3
    simp only [Dec.pure_apply, Except.ok.injEq, Prod.mk.injEq, true_and] at h4
    subst h4
    have hd0 : d0 = { d with pos := 0 } := by
      simp [SeekAbs] at h0
      exact h0.2.symm
    subst hd0
    have hlen := fatHeader_ok hpass
    rw [fatHeader_run d hlen] at hpass
    simp only [Except.ok.injEq, Prod.mk.injEq] at hpass
    obtain ⟨⟨hn, hoffs⟩, hd2⟩ := hpass
    rw [FieldStructArrayLoop_eq_ok] at h3
    obtain ⟨ad, had, hd3⟩ := h3
    simp only at had hd3
    have hoff : ∀ o ∈ offsets, o < 2 ^ 32 := by
      intro o ho
      rw [← hoffs] at ho
      simp only [List.mem_map] at ho
      obtain ⟨i, -, rfl⟩ := ho
      exact readU_lt _ _ _
    obtain ⟨files, hch, hfl, hall⟩ := filesLoop_ok _ offsets hoff narchs 0 _ ad as had
    simp only [List.nil_append] at hch
    refine ⟨[Value.Scalar "magic" ⟨.Raw (readU d.buf 0 32 .BigEndian), none, ""⟩ 0 32,
        Value.Scalar "narchs" ⟨.U (readU d.buf 32 32 d.Endian), none, ""⟩ 32 32,
        Value.Array "archs" ((List.range (readU d.buf 32 32 d.Endian)).map (fun i =>
          Value.Struct "arch" [Value.Struct "fat_arch"
            (fatArchFields d.buf d.Endian (8 * (8 + 20 * i)))]))],
      files, heq, h, ?_, by rw [hfl, hn], ?_⟩
    · rw [hd3, ← hd2, hch]
      simp
    · intro i hi
      obtain ⟨off, r, hget, hr, hf⟩ := hall i (by rw [← hn]; exact hi)
      rw [← hd2] at hr
      simp only [Nat.zero_add] at hget
      rw [← hoffs] at hget
      simp only [List.get?_eq_getElem?, List.getElem?_map, List.getElem?_range hi,
        Option.map_some', Option.some.injEq] at hget
      rw [← hget] at hr
      exact ⟨r, hr, hf⟩

/-- Witness of C7: the fat container `fatTwoSlices` (two slices, offsets 76 then 48) decodes
and ends at bit 608, the end of the slice listed second (offset 48), which was decoded last. -/
theorem C7_fat_slices_witness :
    ∃ d' hdr files, fatParse (ofileDecode 1) ⟨fatTwoSlices, 32, .BigEndian, []⟩ = .ok ((), d') ∧
      d'.pos = 608 ∧
      d'.children = [] ++ [Value.Struct "fat_header" hdr, Value.Array "files" files] ∧
      files.length = readU fatTwoSlices 32 32 .BigEndian ∧
      ∀ i, i < readU fatTwoSlices 32 32 .BigEndian →
        ∃ r, ofileDecode 1
            ⟨fatTwoSlices, 8 * readU fatTwoSlices (8 * (8 + 20 * i + 8)) 32 .BigEndian,
              .BigEndian, []⟩ = .ok ((), r) ∧
          files.get? i = some (Value.Struct "file" r.children) :=
  C7_fat_slices 1 ⟨fatTwoSlices, 32, .BigEndian, []⟩ 608 (by decide!)

/-! ## Fixed layouts (C11, C15) -/

theorem Value.shapes_append (a b : List Value) :
    Value.shapes (a ++ b) = Value.shapes a ++ Value.shapes b := by
  induction a with
  | nil => simp [Value.shapes]
  | cons v vs ih => simp [Value.shapes, ih]

theorem layout_cast {α : Type} {x : Dec α} {n n' : Nat} {ss ss' : List Shape}
    (h : Layout x n ss) (hn : n = n') (hs : ss = ss') : Layout x n' ss' := by
  subst hn hs; exact h

theorem layout_pure {α : Type} (a : α) : Layout (pure a : Dec α) 0 [] := by
  intro d
  unfold LayoutAt
  refine ⟨fun _ => ⟨a, d, rfl, rfl, rfl, rfl, [], by simp, rfl⟩, fun h => ?_⟩
  omega

theorem layout_bind {α β : Type} {x : Dec α} {f : α → Dec β} {n m : Nat} {s t : List Shape}
    (hx : Layout x n s) (hf : ∀ a, Layout (f a) m t) : Layout (x >>= f) (n + m) (s ++ t) := by
  intro d
  unfold LayoutAt
  constructor
  · intro hfit
    obtain ⟨a, d1, h1, hp1, hb1, he1, cs1, hc1, hs1⟩ := (hx d).1 (by omega)
    obtain ⟨b, d2, h2, hp2, hb2, he2, cs2, hc2, hs2⟩ := (hf a d1).1 (by rw [hp1, hb1]; omega)
    refine ⟨b, d2, by rw [Dec.bind_ok h1, h2], by rw [hp2, hp1]; omega, by rw [hb2, hb1],
      by rw [he2, he1], cs1 ++ cs2, by rw [hc2, hc1, List.append_assoc], ?_⟩
    rw [Value.shapes_append, hs1, hs2]
  · intro hshort
    by_cases hfit : n = 0 ∨ d.pos + n ≤ 8 * d.buf.length
    · obtain ⟨a, d1, h1, hp1, hb1, -, -⟩ := (hx d).1 hfit
      obtain ⟨e, he⟩ := (hf a d1).2 (by rw [hp1, hb1]; omega)
      exact ⟨e, by rw [Dec.bind_ok h1, he]⟩
    · obtain ⟨e, he⟩ := (hx d).2 (by omega)
      exact ⟨e, Dec.bind_error he⟩

theorem layout_ite {α : Type} {c : Prop} [Decidable c] {t e : Dec α} {n : Nat} {ss : List Shape}
    (ht : Layout t n ss) (he : Layout e n ss) : Layout (if c then t else e) n ss := by
  split <;> assumption

theorem layout_FieldU (nBits : Nat) (name : String) (sms : List Mapper) (hn : 0 < nBits) :
    Layout (FieldU nBits name sms) nBits [Shape.Leaf name nBits] := by
  intro d
  unfold LayoutAt
  rw [FieldU_eq]
  constructor
  · intro hfit
    rw [if_neg (by omega)]
    exact ⟨_, _, rfl, rfl, rfl, rfl, _, rfl, rfl⟩
  · intro hshort
    rw [if_pos hshort.2]
    exact ⟨_, rfl⟩

theorem layout_FieldU8 (name : String) (sms : List Mapper) :
    Layout (FieldU8 name sms) 8 [Shape.Leaf name 8] := layout_FieldU 8 name sms (by decide)

theorem layout_FieldU32 (name : String) (sms : List Mapper) :
    Layout (FieldU32 name sms) 32 [Shape.Leaf name 32] := layout_FieldU 32 name sms (by decide)

theorem layout_FieldU64 (name : String) (sms : List Mapper) :
    Layout (FieldU64 name sms) 64 [Shape.Leaf name 64] := layout_FieldU 64 name sms (by decide)

theorem layout_U32 : Layout U32 32 [] := by
  intro d
  unfold LayoutAt
  unfold Macho.U32 TryU
  constructor
  · intro hfit
    rw [if_neg (by omega)]
    exact ⟨_, _, rfl, rfl, rfl, rfl, [], by simp, rfl⟩
  · intro hshort
    rw [if_pos hshort.2]
    exact ⟨_, rfl⟩

theorem layout_FieldS32 (name : String) (sms : List Mapper) :
    Layout (FieldS32 name sms) 32 [Shape.Leaf name 32] := by
  intro d
  unfold LayoutAt
  unfold Macho.FieldS32 TryU addScalar
  constructor
  · intro hfit
    rw [if_neg (by omega)]
    exact ⟨_, _, rfl, rfl, rfl, rfl, _, rfl, rfl⟩
  · intro hshort
    rw [if_pos hshort.2]
    exact ⟨_, rfl⟩

theorem layout_FieldBool (name : String) : Layout (FieldBool name) 1 [Shape.Leaf name 1] := by
  intro d
  unfold LayoutAt
  unfold Macho.FieldBool TryU addScalar
  constructor
  · intro hfit
    rw [if_neg (by omega)]
    exact ⟨_, _, rfl, rfl, rfl, rfl, _, rfl, rfl⟩
  · intro hshort
    rw [if_pos hshort.2]
    exact ⟨_, rfl⟩

theorem layout_RawLen (k : Int) (hk : 0 < k) : Layout (RawLen k) k.toNat [] := by
  intro d
  unfold LayoutAt
  unfold Macho.RawLen TryU
  have h0 : ¬ (k < 0) := by omega
  rw [if_neg h0]
  constructor
  · intro hfit
    rw [if_neg (by omega)]
    exact ⟨_, _, rfl, rfl, rfl, rfl, [], by simp, rfl⟩
  · intro hshort
    rw [if_pos hshort.2]
    exact ⟨_, rfl⟩

theorem layout_FieldRawLen (name : String) (k : Int) (sms : List Mapper) (hk : 0 < k) :
    Layout (FieldRawLen name k sms) k.toNat [Shape.Leaf name k.toNat] := by
  intro d
  unfold LayoutAt
  have h0 : ¬ (k < 0) := by omega
  constructor
  · intro hfit
    have h1 : ¬ (8 * d.buf.length < d.pos + k.toNat) := by omega
    simp only [Macho.FieldRawLen, Macho.RawLen, TryU, h0, h1, if_false, addScalar]
    exact ⟨_, _, rfl, rfl, rfl, rfl, _, rfl, rfl⟩
  · intro hshort
    simp [Macho.FieldRawLen, Macho.RawLen, TryU, h0, hshort.2]

theorem layout_FieldUTF8NullFixedLen (name : String) (k : Int) (hk : 0 < k) :
    Layout (FieldUTF8NullFixedLen name k) (8 * k.toNat) [Shape.Leaf name (8 * k.toNat)] := by
  intro d
  unfold LayoutAt
  unfold Macho.FieldUTF8NullFixedLen addScalar
  have h0 : ¬ (k < 0) := by omega
  rw [if_neg h0]
  constructor
  · intro hfit
    rw [if_neg (by omega)]
    exact ⟨_, _, rfl, rfl, rfl, rfl, _, rfl, rfl⟩
  · intro hshort
    rw [if_pos hshort.2]
    exact ⟨_, rfl⟩

theorem layout_FieldValueS (name : String) (a : Int) :
    Layout (FieldValueS name a) 0 [Shape.Leaf name 0] := by
  intro d
  unfold LayoutAt
  refine ⟨fun _ => ⟨_, _, rfl, rfl, rfl, rfl, _, rfl, rfl⟩, fun h => ?_⟩
  omega

theorem layout_FieldStruct {α : Type} (name : String) {fn : Dec α} {n : Nat} {ss : List Shape}
    (hfn : Layout fn n ss) : Layout (FieldStruct name fn) n [Shape.Struct name ss] := by
  intro d
  unfold LayoutAt
  constructor
  · intro hfit
    obtain ⟨a, cd, h, hp, hb, he, cs, hc, hs⟩ := (hfn { d with children := [] }).1 hfit
    rw [FieldStruct_run name h]
    simp only [List.nil_append] at hc
    refine ⟨_, _, rfl, hp, rfl, rfl, _, rfl, ?_⟩
    simp [Value.shapes, Value.shape, hc, hs]
  · intro hshort
    obtain ⟨e, he⟩ := (hfn { d with children := [] }).2 hshort
    exact ⟨e, by unfold Macho.FieldStruct; rw [he]⟩

theorem layout_structLoop {α : Type} (structName : String) {fn : Nat → Dec α} {n : Nat}
    {ss : List Shape} (hfn : ∀ i, Layout (fn i) n ss) (k : Nat) : ∀ idx,
    Layout (structLoop structName fn k idx) (k * n)
      (List.replicate k (Shape.Struct structName ss)) := by
  induction k with
  | zero => intro idx; exact layout_cast (layout_pure _) (by simp) (by simp)
  | succ k ih =>
    intro idx
    rw [structLoop_succ]
    refine layout_cast (layout_bind (layout_FieldStruct structName (hfn idx))
      (fun a => layout_bind (ih (idx + 1)) (fun rest => layout_pure (a :: rest)))) ?_ ?_
    · rw [Nat.succ_mul]; omega
    · simp [List.replicate_succ]

theorem layout_FieldStructArrayLoop {α : Type} (name structName : String) (k : Nat)
    {fn : Nat → Dec α} {n : Nat} {ss : List Shape} (hfn : ∀ i, Layout (fn i) n ss) :
    Layout (FieldStructArrayLoop name structName k fn) (k * n)
      [Shape.Array name (List.replicate k (Shape.Struct structName ss))] := by
  intro d
  unfold LayoutAt
  have hl := layout_structLoop structName hfn k 0 { d with children := [] }
  constructor
  · intro hfit
    obtain ⟨a, ad, h, hp, hb, he, cs, hc, hs⟩ := hl.1 hfit
    rw [FieldStructArrayLoop_run name structName h]
    simp only [List.nil_append] at hc
    refine ⟨_, _, rfl, hp, rfl, rfl, _, rfl, ?_⟩
    simp [Value.shapes, Value.shape, hc, hs]
  · intro hshort
    obtain ⟨e, he⟩ := hl.2 hshort
    exact ⟨e, by unfold Macho.FieldStructArrayLoop; rw [he]⟩

theorem layout_threadStateX8664Decode :
    Layout threadStateX8664Decode (21 * 64)
      (["rax", "rbx", "rcx", "rdx", "rdi", "rsi", "rbp", "rsp", "r8", "r9", "r10", "r11", "r12",
        "r13", "r14", "r15", "rip", "rflags", "cs", "fs", "gs"].map
        (fun name => Shape.Leaf name 64)) := by
  apply layout_cast
  case h =>
    unfold Macho.threadStateX8664Decode
    repeat' with_reducible first
        | exact layout_pure _
        | exact layout_FieldU64 _ _
        | apply layout_bind
        | intro _
  case hn => rfl
  case hs => rfl

theorem layout_parseSegmentFlags :
    Layout parseSegmentFlags 32
      [Shape.Leaf "reserved" 28, Shape.Leaf "SG_PROTECTED_VERSION_1" 1,
       Shape.Leaf "SG_NORELOC" 1, Shape.Leaf "SG_FVMLIB" 1, Shape.Leaf "SG_HIGHVM" 1] := by
  apply layout_cast
  case h =>
    unfold Macho.parseSegmentFlags
    repeat' with_reducible first
        | exact layout_pure _
        | exact layout_FieldBool _
        | exact layout_FieldRawLen _ _ _ (by decide)
        | apply layout_bind
        | intro _
  case hn => rfl
  case hs => rfl

theorem layout_parseSectionFlags :
    Layout parseSectionFlags 24
      [Shape.Leaf "S_ATTR_PURE_INSTRUCTIONS" 1, Shape.Leaf "S_ATTR_NO_TOC" 1,
       Shape.Leaf "S_ATTR_STRIP_STATIC_SYMS" 1, Shape.Leaf "S_ATTR_NO_DEAD_STRIP" 1,
       Shape.Leaf "S_ATTR_LIVE_SUPPORT" 1, Shape.Leaf "S_ATTR_SELF_MODIFYING_CODE" 1,
       Shape.Leaf "S_ATTR_DEBUG" 1, Shape.Leaf "reserved" 14,
       Shape.Leaf "S_ATTR_SOME_INSTRUCTIONS" 1, Shape.Leaf "S_ATTR_EXT_RELOC" 1,
       Shape.Leaf "S_ATTR_LOC_RELOC" 1] := by
  apply layout_cast
  case h =>
    unfold Macho.parseSectionFlags
    repeat' with_reducible first
        | exact layout_pure _
        | exact layout_FieldBool _
        | exact layout_FieldRawLen _ _ _ (by decide)
        | apply layout_bind
        | intro _
  case hn => rfl
  case hs => rfl

theorem layout_sectionDecode32 :
    Layout (sectionDecode 32) (8 * 68)
      [Shape.Leaf "sectname" 128, Shape.Leaf "segname" 128, Shape.Leaf "address" 32,
       Shape.Leaf "size" 32, Shape.Leaf "offset" 32, Shape.Leaf "align" 32,
       Shape.Leaf "reloff" 32, Shape.Leaf "nreloc" 32,
       Shape.Struct "flags"
         [Shape.Leaf "S_ATTR_PURE_INSTRUCTIONS" 1, Shape.Leaf "S_ATTR_NO_TOC" 1,
          Shape.Leaf "S_ATTR_STRIP_STATIC_SYMS" 1, Shape.Leaf "S_ATTR_NO_DEAD_STRIP" 1,
          Shape.Leaf "S_ATTR_LIVE_SUPPORT" 1, Shape.Leaf "S_ATTR_SELF_MODIFYING_CODE" 1,
          Shape.Leaf "S_ATTR_DEBUG" 1, Shape.Leaf "reserved" 14,
          Shape.Leaf "S_ATTR_SOME_INSTRUCTIONS" 1, Shape.Leaf "S_ATTR_EXT_RELOC" 1,
          Shape.Leaf "S_ATTR_LOC_RELOC" 1],
       Shape.Leaf "type" 8, Shape.Leaf "reserved1" 32, Shape.Leaf "reserved2" 32] := by
  apply layout_cast
  case h =>
    unfold Macho.sectionDecode
    simp only [show ((32 : Int) = 64) = False from by decide, if_true, if_false]
    repeat' with_reducible first
        | exact layout_pure _
        | exact layout_FieldU8 _ _
        | exact layout_FieldU32 _ _
        | exact layout_FieldU64 _ _
        | exact layout_FieldUTF8NullFixedLen _ _ (by decide)
        | exact layout_FieldStruct _ layout_parseSectionFlags
        | apply layout_bind
        | intro _
  case hn => rfl
  case hs => rfl

theorem layout_sectionDecode64 :
    Layout (sectionDecode 64) (8 * 80)
      [Shape.Leaf "sectname" 128, Shape.Leaf "segname" 128, Shape.Leaf "address" 64,
       Shape.Leaf "size" 64, Shape.Leaf "offset" 32, Shape.Leaf "align" 32,
       Shape.Leaf "reloff" 32, Shape.Leaf "nreloc" 32,
       Shape.Struct "flags"
         [Shape.Leaf "S_ATTR_PURE_INSTRUCTIONS" 1, Shape.Leaf "S_ATTR_NO_TOC" 1,
          Shape.Leaf "S_ATTR_STRIP_STATIC_SYMS" 1, Shape.Leaf "S_ATTR_NO_DEAD_STRIP" 1,
          Shape.Leaf "S_ATTR_LIVE_SUPPORT" 1, Shape.Leaf "S_ATTR_SELF_MODIFYING_CODE" 1,
          Shape.Leaf "S_ATTR_DEBUG" 1, Shape.Leaf "reserved" 14,
          Shape.Leaf "S_ATTR_SOME_INSTRUCTIONS" 1, Shape.Leaf "S_ATTR_EXT_RELOC" 1,
          Shape.Leaf "S_ATTR_LOC_RELOC" 1],
       Shape.Leaf "type" 8, Shape.Leaf "reserved1" 32, Shape.Leaf "reserved2" 32,
       Shape.Leaf "reserved3" 32] := by
  apply layout_cast
  case h =>
    unfold Macho.sectionDecode
    simp only [show ((64 : Int) = 32) = False from by decide, if_true, if_false]
    repeat' with_reducible first
        | exact layout_pure _
        | exact layout_FieldU8 _ _
        | exact layout_FieldU32 _ _
        | exact layout_FieldU64 _ _
        | exact layout_FieldUTF8NullFixedLen _ _ (by decide)
        | exact layout_FieldStruct _ layout_parseSectionFlags
        | apply layout_bind
        | intro _
  case hn => rfl
  case hs => rfl

theorem layout_segmentCommandDecode32 :
    Layout (segmentCommandDecode 32) (8 * 48)
      [Shape.Leaf "arch_bits" 0, Shape.Leaf "segname" 128, Shape.Leaf "vmaddr" 32,
       Shape.Leaf "vmsize" 32, Shape.Leaf "fileoff" 32, Shape.Leaf "tfilesize" 32,
       Shape.Leaf "initprot" 32, Shape.Leaf "maxprot" 32, Shape.Leaf "nsects" 32,
       Shape.Struct "flags"
         [Shape.Leaf "reserved" 28, Shape.Leaf "SG_PROTECTED_VERSION_1" 1,
          Shape.Leaf "SG_NORELOC" 1, Shape.Leaf "SG_FVMLIB" 1, Shape.Leaf "SG_HIGHVM" 1]] := by
  apply layout_cast
  case h =>
    unfold Macho.segmentCommandDecode
    simp only [show ((32 : Int) = 64) = False from by decide, if_true, if_false]
    repeat' with_reducible first
        | exact layout_pure _
        | exact layout_FieldValueS _ _
        | exact layout_FieldU32 _ _
        | exact layout_FieldU64 _ _
        | exact layout_FieldS32 _ _
        | exact layout_FieldUTF8NullFixedLen _ _ (by decide)
        | exact layout_FieldStruct _ layout_parseSegmentFlags
        | apply layout_bind
        | intro _
  case hn => rfl
  case hs => rfl

theorem layout_segmentCommandDecode64 :
    Layout (segmentCommandDecode 64) (8 * 64)
      [Shape.Leaf "arch_bits" 0, Shape.Leaf "segname" 128, Shape.Leaf "vmaddr" 64,
       Shape.Leaf "vmsize" 64, Shape.Leaf "fileoff" 64, Shape.Leaf "tfilesize" 64,
       Shape.Leaf "initprot" 32, Shape.Leaf "maxprot" 32, Shape.Leaf "nsects" 32,
       Shape.Struct "flags"
         [Shape.Leaf "reserved" 28, Shape.Leaf "SG_PROTECTED_VERSION_1" 1,
          Shape.Leaf "SG_NORELOC" 1, Shape.Leaf "SG_FVMLIB" 1, Shape.Leaf "SG_HIGHVM" 1]] := by
  apply layout_cast
  case h =>
    unfold Macho.segmentCommandDecode
    simp only [show ((64 : Int) = 32) = False from by decide, if_true, if_false]
    repeat' with_reducible first
        | exact layout_pure _
        | exact layout_FieldValueS _ _
        | exact layout_FieldU32 _ _
        | exact layout_FieldU64 _ _
        | exact layout_FieldS32 _ _
        | exact layout_FieldUTF8NullFixedLen _ _ (by decide)
        | exact layout_FieldStruct _ layout_parseSegmentFlags
        | apply layout_bind
        | intro _
  case hn => rfl
  case hs => rfl

theorem layoutAt_of_ok {α : Type} {x : Dec α} {d d1 : D} {n : Nat} {ss : List Shape} {a : α}
    (h : LayoutAt x d n ss) (hok : x d = .ok (a, d1)) :
    (n = 0 ∨ d.pos + n ≤ 8 * d.buf.length) ∧ d1.pos = d.pos + n ∧ d1.buf = d.buf ∧
      d1.Endian = d.Endian ∧ ∃ cs, d1.children = d.children ++ cs ∧ Value.shapes cs = ss := by
  have hfit : n = 0 ∨ d.pos + n ≤ 8 * d.buf.length := by
    by_contra hc
    obtain ⟨e, he⟩ := h.2 (by omega)
    rw [he] at hok
    cases hok
  obtain ⟨a', d', h', hp, hb, he, hcs⟩ := h.1 hfit
  rw [h'] at hok
  simp only [Except.ok.injEq, Prod.mk.injEq] at hok
  obtain ⟨-, rfl⟩ := hok
  exact ⟨hfit, hp, hb, he, hcs⟩

theorem layout_of_ok {α : Type} {x : Dec α} {d d1 : D} {n : Nat} {ss : List Shape} {a : α}
    (h : Layout x n ss) (hok : x d = .ok (a, d1)) :
    d1.pos = d.pos + n ∧ d1.buf = d.buf ∧ d1.Endian = d.Endian := by
  obtain ⟨-, hp, hb, he, -⟩ := layoutAt_of_ok (h d) hok
  exact ⟨hp, hb, he⟩

/-- Sequencing at one state: the layout of the second decoder may depend on what the first one
returned. -/
theorem layoutAt_bind {α β : Type} {x : Dec α} {f : α → Dec β} {d : D} {n m : Nat}
    {s t : List Shape} (hx : LayoutAt x d n s)
    (hf : ∀ a d1, x d = .ok (a, d1) → LayoutAt (f a) d1 m t) :
    LayoutAt (x >>= f) d (n + m) (s ++ t) := by
  constructor
  · intro hfit
    obtain ⟨a, d1, h1, hp1, hb1, he1, cs1, hc1, hs1⟩ := hx.1 (by omega)
    obtain ⟨b, d2, h2, hp2, hb2, he2, cs2, hc2, hs2⟩ :=
      (hf a d1 h1).1 (by rw [hp1, hb1]; omega)
    refine ⟨b, d2, by rw [Dec.bind_ok h1, h2], by rw [hp2, hp1]; omega, by rw [hb2, hb1],
      by rw [he2, he1], cs1 ++ cs2, by rw [hc2, hc1, List.append_assoc], ?_⟩
    rw [Value.shapes_append, hs1, hs2]
  · intro hshort
    by_cases hfit : n = 0 ∨ d.pos + n ≤ 8 * d.buf.length
    · obtain ⟨a, d1, h1, hp1, hb1, -, -⟩ := hx.1 hfit
      obtain ⟨e, he⟩ := (hf a d1 h1).2 (by rw [hp1, hb1]; omega)
      exact ⟨e, by rw [Dec.bind_ok h1, he]⟩
    · obtain ⟨e, he⟩ := hx.2 (by omega)
      exact ⟨e, Dec.bind_error he⟩

theorem layoutAt_cast {α : Type} {x : Dec α} {d : D} {n n' : Nat} {ss ss' : List Shape}
    (h : LayoutAt x d n ss) (hn : n = n') (hs : ss = ss') : LayoutAt x d n' ss' := by
  subst hn hs; exact h

theorem FieldU_ok {nBits : Nat} {name : String} {sms : List Mapper} {d d1 : D} {v : Nat}
    (h : FieldU nBits name sms d = .ok (v, d1)) :
    v = readU d.buf d.pos nBits d.Endian := by
  rw [FieldU_eq] at h
  split at h
  · simp at h
  · simp only [Except.ok.injEq, Prod.mk.injEq] at h
    exact h.1.symm

/-- The `nsects` a 32-bit segment header returns is the word 40 bytes into the payload. -/
theorem segmentCommandDecode32_nsects {d d1 : D} {n : Nat}
    (h : segmentCommandDecode 32 d = .ok (n, d1)) :
    n = readU d.buf (d.pos + 8 * 40) 32 d.Endian := by
  simp only [segmentCommandDecode, show ((32 : Int) = 64) = False from by decide, if_true,
    if_false, Dec.bind_eq_ok] at h
  obtain ⟨_, s1, h1, _, s2, h2, _, s3, h3, _, s4, h4, _, s5, h5, _, s6, h6, _, s7, h7,
    _, s8, h8, _, s9, h9, n', s10, h10, _, s11, h11, h12⟩ := h
  simp only [Dec.pure_apply, Except.ok.injEq, Prod.mk.injEq] at h12
  obtain ⟨rfl, -⟩ := h12
  obtain ⟨p1, b1, e1⟩ := layout_of_ok (layout_FieldValueS _ _) h1
  obtain ⟨p2, b2, e2⟩ := layout_of_ok (layout_FieldUTF8NullFixedLen _ 16 (by decide)) h2
  obtain ⟨p3, b3, e3⟩ := layout_of_ok (layout_FieldU32 _ _) h3
  obtain ⟨p4, b4, e4⟩ := layout_of_ok (layout_FieldU32 _ _) h4
  obtain ⟨p5, b5, e5⟩ := layout_of_ok (layout_FieldU32 _ _) h5
  obtain ⟨p6, b6, e6⟩ := layout_of_ok (layout_FieldU32 _ _) h6
  obtain ⟨p7, b7, e7⟩ := layout_of_ok (layout_pure _) h7
  obtain ⟨p8, b8, e8⟩ := layout_of_ok (layout_FieldS32 _ _) h8
  obtain ⟨p9, b9, e9⟩ := layout_of_ok (layout_FieldS32 _ _) h9
  rw [FieldU_ok h10, b9, b8, b7, b6, b5, b4, b3, b2, b1, e9, e8, e7, e6, e5, e4, e3, e2, e1]
  congr 1
  have h16 : (16 : Int).toNat = 16 := rfl
  rw [p9, p8, p7, p6, p5, p4, p3, p2, p1, h16]

/-- The `nsects` a 64-bit segment header returns is the word 56 bytes into the payload. -/
theorem segmentCommandDecode64_nsects {d d1 : D} {n : Nat}
    (h : segmentCommandDecode 64 d = .ok (n, d1)) :
    n = readU d.buf (d.pos + 8 * 56) 32 d.Endian := by
  simp only [segmentCommandDecode, show ((64 : Int) = 32) = False from by decide, if_true,
    if_false, Dec.bind_eq_ok] at h
  obtain ⟨_, s1, h1, _, s2, h2, _, s3, h3, _, s4, h4, _, s5, h5, _, s6, h6, _, s7, h7,
    _, s8, h8, _, s9, h9, n', s10, h10, _, s11, h11, h12⟩ := h
  simp only [Dec.pure_apply, Except.ok.injEq, Prod.mk.injEq] at h12
  obtain ⟨rfl, -⟩ := h12
  obtain ⟨p1, b1, e1⟩ := layout_of_ok (layout_FieldValueS _ _) h1
  obtain ⟨p2, b2, e2⟩ := layout_of_ok (layout_FieldUTF8NullFixedLen _ 16 (by decide)) h2
  obtain ⟨p3, b3, e3⟩ := layout_of_ok (layout_FieldU64 _ _) h3
  obtain ⟨p4, b4, e4⟩ := layout_of_ok (layout_FieldU64 _ _) h4
  obtain ⟨p5, b5, e5⟩ := layout_of_ok (layout_FieldU64 _ _) h5
  obtain ⟨p6, b6, e6⟩ := layout_of_ok (layout_FieldU64 _ _) h6
  obtain ⟨p7, b7, e7⟩ := layout_of_ok (layout_pure _) h7
  obtain ⟨p8, b8, e8⟩ := layout_of_ok (layout_FieldS32 _ _) h8
  obtain ⟨p9, b9, e9⟩ := layout_of_ok (layout_FieldS32 _ _) h9
  rw [FieldU_ok h10, b9, b8, b7, b6, b5, b4, b3, b2, b1, e9, e8, e7, e6, e5, e4, e3, e2, e1]
  congr 1
  have h16 : (16 : Int).toNat = 16 := rfl
  rw [p9, p8, p7, p6, p5, p4, p3, p2, p1, h16]

/-! ## Segment commands (C11, C12) -/

theorem loadCommandPayload_segment (archBits : Int) (cpuType cmd cmdsize : Nat)
    (hcmd : cmd = LC_SEGMENT ∨ cmd = LC_SEGMENT_64) :
    loadCommandPayload archBits cpuType cmd cmdsize =
      (FieldStruct "segment_command" (segmentCommandDecode archBits) >>= fun nsects =>
        FieldStructArrayLoop "sections" "section" nsects (fun _ => sectionDecode archBits) >>=
          fun _ => pure ()) := by
  have hne : cmd ≠ LC_UUID := by rcases hcmd with rfl | rfl <;> decide
  unfold loadCommandPayload
  rw [if_neg hne, if_pos hcmd]

/-- C11: the payload of a segment command (id `LC_SEGMENT` or `LC_SEGMENT_64`), with `n` the
`nsects` word of its header, is the `segment_command` struct followed by a `sections` array of
exactly `n` `section` structs; the widths follow the object's bit width and not the id: in a
32-bit object the decode succeeds exactly when `48 + 68 * n` bytes are left and consumes them, in
a 64-bit object `64 + 80 * n` bytes, and only the 64-bit section has `reserved3`.  With `n = 0`
the array is empty and the 48/64-byte header is all that is consumed. -/
theorem C11_segment_sections (cpuType cmd cmdsize : Nat) (d : D)
    (hcmd : cmd = LC_SEGMENT ∨ cmd = LC_SEGMENT_64) :
    LayoutAt (loadCommandPayload 32 cpuType cmd cmdsize) d
      (8 * (48 + 68 * readU d.buf (d.pos + 8 * 40) 32 d.Endian))
      [Shape.Struct "segment_command" segmentShape32,
       Shape.Array "sections" (List.replicate (readU d.buf (d.pos + 8 * 40) 32 d.Endian)
         (Shape.Struct "section" sectionShape32))] ∧
    LayoutAt (loadCommandPayload 64 cpuType cmd cmdsize) d
      (8 * (64 + 80 * readU d.buf (d.pos + 8 * 56) 32 d.Endian))
      [Shape.Struct "segment_command" segmentShape64,
       Shape.Array "sections" (List.replicate (readU d.buf (d.pos + 8 * 56) 32 d.Endian)
         (Shape.Struct "section" sectionShape64))] := by
  constructor
  · rw [loadCommandPayload_segment 32 cpuType cmd cmdsize hcmd]
    have key : LayoutAt
        (FieldStruct "segment_command" (segmentCommandDecode 32) >>= fun nsects =>
          FieldStructArrayLoop "sections" "section" nsects (fun _ => sectionDecode 32) >>=
            fun _ => pure ()) d
        (8 * 48 + (readU d.buf (d.pos + 8 * 40) 32 d.Endian * (8 * 68) + 0))
        ([Shape.Struct "segment_command" segmentShape32] ++
          ([Shape.Array "sections" (List.replicate (readU d.buf (d.pos + 8 * 40) 32 d.Endian)
            (Shape.Struct "section" sectionShape32))] ++ [])) := by
      refine layoutAt_bind
        (layout_FieldStruct "segment_command" layout_segmentCommandDecode32 d)
        (fun n d1 h1 => ?_)
      rw [FieldStruct_eq_ok] at h1
      obtain ⟨cd, hcd, -⟩ := h1
      have hn := segmentCommandDecode32_nsects hcd
      simp only at hn
      rw [← hn]
      exact layoutAt_bind
        (layout_FieldStructArrayLoop "sections" "section" n
          (fun _ => layout_sectionDecode32) d1)
        (fun _ d2 _ => layout_pure _ d2)
    exact layoutAt_cast key (by omega) rfl
  · rw [loadCommandPayload_segment 64 cpuType cmd cmdsize hcmd]
    have key : LayoutAt
        (FieldStruct "segment_command" (segmentCommandDecode 64) >>= fun nsects =>
          FieldStructArrayLoop "sections" "section" nsects (fun _ => sectionDecode 64) >>=
            fun _ => pure ()) d
        (8 * 64 + (readU d.buf (d.pos + 8 * 56) 32 d.Endian * (8 * 80) + 0))
        ([Shape.Struct "segment_command" segmentShape64] ++
          ([Shape.Array "sections" (List.replicate (readU d.buf (d.pos + 8 * 56) 32 d.Endian)
            (Shape.Struct "section" sectionShape64))] ++ [])) := by
      refine layoutAt_bind
        (layout_FieldStruct "segment_command" layout_segmentCommandDecode64 d)
        (fun n d1 h1 => ?_)
      rw [FieldStruct_eq_ok] at h1
      obtain ⟨cd, hcd, -⟩ := h1
      have hn := segmentCommandDecode64_nsects hcd
      simp only at hn
      rw [← hn]
      exact layoutAt_bind
        (layout_FieldStructArrayLoop "sections" "section" n
          (fun _ => layout_sectionDecode64) d1)
        (fun _ d2 _ => layout_pure _ d2)
    exact layoutAt_cast key (by omega) rfl

theorem C11_segment_sections_witness :
    readU segmentStart32.buf (segmentStart32.pos + 8 * 40) 32 segmentStart32.Endian = 1 ∧
    LayoutAt (loadCommandPayload 32 7 LC_SEGMENT 124) segmentStart32
      (8 * (48 + 68 * readU segmentStart32.buf (segmentStart32.pos + 8 * 40) 32
        segmentStart32.Endian))
      [Shape.Struct "segment_command" segmentShape32,
       Shape.Array "sections"
         (List.replicate
           (readU segmentStart32.buf (segmentStart32.pos + 8 * 40) 32 segmentStart32.Endian)
           (Shape.Struct "section" sectionShape32))] :=
  ⟨by decide!, (C11_segment_sections 7 LC_SEGMENT 124 segmentStart32 (Or.inl rfl)).1⟩

/-- C12: the code does not report the word after the file size as `maxprot`.  On the 32-bit
little-endian segment payload `segmentPayload32` (file size at bits 224..255, then the words 7 and
5) the `segment_command` struct lists `initprot` right after `tfilesize`, over bits 256..287 with
value 7, and `maxprot` after it, over bits 288..319 with value 5: the two names are exchanged
with respect to the claimed order name, vmaddr, vmsize, fileoff, filesize, maxprot, initprot. -/
theorem C12_initprot_before_maxprot :
    (decoded (loadCommandPayload 32 7 LC_SEGMENT 124 segmentStart32)).map segmentProt =
      .ok [("tfilesize", some (224, 32), some (.U 0x1000)),
           ("initprot", some (256, 32), some (.S 7)),
           ("maxprot", some (288, 32), some (.S 5))] := by
  decide!

/-! ## Name-carrying commands (C13) -/

theorem FieldUTF8NullFixedLen_run (name : String) (k : Nat) {d : D}
    (h : d.pos + 8 * k ≤ 8 * d.buf.length) :
    FieldUTF8NullFixedLen name (k : Int) d =
      .ok ((readBytes d.buf d.pos k).takeWhile (fun b => b != 0),
        { d with pos := d.pos + 8 * k,
                 children := d.children ++ [Value.Scalar name
                   ⟨.Str ((readBytes d.buf d.pos k).takeWhile (fun b => b != 0)), none, ""⟩
                   d.pos (8 * k)] }) := by
  have h0 : ¬ ((k : Int) < 0) := by omega
  have h1 : ¬ (8 * d.buf.length < d.pos + 8 * k) := by omega
  simp [FieldUTF8NullFixedLen, addScalar, h0, h1]

theorem loadCommandPayload_dylib (archBits : Int) (cpuType cmd cmdsize : Nat)
    (hcmd : cmd = LC_LOAD_DYLIB ∨ cmd = LC_ID_DYLIB ∨ cmd = LC_LOAD_UPWARD_DYLIB
      ∨ cmd = LC_LOAD_WEAK_DYLIB ∨ cmd = LC_LAZY_LOAD_DYLIB ∨ cmd = LC_REEXPORT_DYLIB) :
    loadCommandPayload archBits cpuType cmd cmdsize =
      FieldStruct "dylib_command"
        (FieldU32 "offset" [] >>= fun offset =>
          FieldU32 "timestamp" [timestampMapper] >>= fun _ =>
          FieldU32 "current_version" [] >>= fun _ =>
          FieldU32 "compatibility_version" [] >>= fun _ =>
          FieldUTF8NullFixedLen "name" ((cmdsize : Int) - (offset : Int)) >>= fun _ =>
          pure ()) := by
  unfold loadCommandPayload
  rcases hcmd with rfl | rfl | rfl | rfl | rfl | rfl <;>
    simp (disch := decide) only [if_neg, if_pos]

theorem loadCommandPayload_fvmlib (archBits : Int) (cpuType cmd cmdsize : Nat)
    (hcmd : cmd = LC_IDFVMLIB ∨ cmd = LC_LOADFVMLIB) :
    loadCommandPayload archBits cpuType cmd cmdsize =
      FieldStruct "fvmlib"
        (FieldU32 "offset" [] >>= fun offset =>
          FieldU32 "minor_version" [] >>= fun _ =>
          FieldU32 "header_addr" [Hex] >>= fun _ =>
          FieldUTF8NullFixedLen "name" ((cmdsize : Int) - (offset : Int)) >>= fun _ =>
          pure ()) := by
  unfold loadCommandPayload
  rcases hcmd with rfl | rfl <;>
    simp (disch := decide) only [if_neg, if_pos]

theorem loadCommandPayload_name (archBits : Int) (cpuType cmd cmdsize : Nat)
    (hcmd : cmd = LC_LOAD_DYLINKER ∨ cmd = LC_ID_DYLINKER ∨ cmd = LC_DYLD_ENVIRONMENT
      ∨ cmd = LC_RPATH ∨ cmd = LC_SUB_UMBRELLA ∨ cmd = LC_SUB_LIBRARY ∨ cmd = LC_SUB_CLIENT
      ∨ cmd = LC_SUB_FRAMEWORK) :
    loadCommandPayload archBits cpuType cmd cmdsize =
      (FieldU32 "offset" [] >>= fun offset =>
        FieldUTF8NullFixedLen "name" ((cmdsize : Int) - (offset : Int)) >>= fun _ =>
        pure ()) := by
  unfold loadCommandPayload
  rcases hcmd with rfl | rfl | rfl | rfl | rfl | rfl | rfl | rfl <;>
    simp (disch := decide) only [if_neg, if_pos]
/-- C13: a name-carrying command with fixed prefix `P` (16 for the dylib family, 12 for the
fvmlib family, 4 for the dylinker family, `rpath` and the `sub_*` family) whose `offset` word is
at most `cmdsize`, given `P + (cmdsize - offset)` bytes of input: the payload decodes, consumes
exactly `P + (cmdsize - offset)` bytes, and its `name` field spans the `cmdsize - offset` bytes
after the prefix whatever they hold, while the reported string is those bytes up to the first
null.  The bytes consumed equal `cmdsize - 8` exactly when `offset = P + 8`. -/
theorem C13_name_span (archBits : Int) (cpuType cmd cmdsize P : Nat) (d : D)
    (hP : namePrefix cmd = some P)
    (hoff : readU d.buf d.pos 32 d.Endian ≤ cmdsize)
    (hfit : d.pos + 8 * (P + (cmdsize - readU d.buf d.pos 32 d.Endian)) ≤ 8 * d.buf.length) :
    ∃ d' cs, loadCommandPayload archBits cpuType cmd cmdsize d = .ok ((), d') ∧
      d'.pos = d.pos + 8 * (P + (cmdsize - readU d.buf d.pos 32 d.Endian)) ∧
      d'.children = d.children ++ cs ∧
      nameField cs = some (Value.Scalar "name"
        ⟨.Str ((readBytes d.buf (d.pos + 8 * P)
          (cmdsize - readU d.buf d.pos 32 d.Endian)).takeWhile (fun b => b != 0)), none, ""⟩
        (d.pos + 8 * P) (8 * (cmdsize - readU d.buf d.pos 32 d.Endian))) ∧
      (((P + (cmdsize - readU d.buf d.pos 32 d.Endian) : Nat) : Int) = (cmdsize : Int) - 8 ↔
        readU d.buf d.pos 32 d.Endian = P + 8) := by
  have hsub : ((cmdsize : Int) - ((readU d.buf d.pos 32 d.Endian : Nat) : Int)) =
      ((cmdsize - readU d.buf d.pos 32 d.Endian : Nat) : Int) := by omega
  have hiff : (((P + (cmdsize - readU d.buf d.pos 32 d.Endian) : Nat) : Int) = (cmdsize : Int) - 8 ↔
      readU d.buf d.pos 32 d.Endian = P + 8) := by omega
  unfold namePrefix at hP
  split_ifs at hP with h1 h2 h3
  · obtain rfl : 16 = P := by simpa using hP
    rw [loadCommandPayload_dylib archBits cpuType cmd cmdsize h1]
    have hrun : (FieldU32 "offset" [] >>= fun offset =>
          FieldU32 "timestamp" [timestampMapper] >>= fun _ =>
          FieldU32 "current_version" [] >>= fun _ =>
          FieldU32 "compatibility_version" [] >>= fun _ =>
          FieldUTF8NullFixedLen "name" ((cmdsize : Int) - (offset : Int)) >>= fun _ =>
          (pure () : Dec Unit)) { d with children := [] } = .ok ((),
        { d with pos := d.pos + 8 * (16 + (cmdsize - readU d.buf d.pos 32 d.Endian)),
                 children := [
          Value.Scalar "offset" ⟨.U (readU d.buf d.pos 32 d.Endian), none, ""⟩ d.pos 32,
          Value.Scalar "timestamp" (applyMappers [timestampMapper]
            ⟨.U (readU d.buf (d.pos + 32) 32 d.Endian), none, ""⟩) (d.pos + 32) 32,
          Value.Scalar "current_version" ⟨.U (readU d.buf (d.pos + 64) 32 d.Endian), none, ""⟩
            (d.pos + 64) 32,
          Value.Scalar "compatibility_version"
            ⟨.U (readU d.buf (d.pos + 96) 32 d.Endian), none, ""⟩ (d.pos + 96) 32,
          Value.Scalar "name"
            ⟨.Str ((readBytes d.buf (d.pos + 8 * 16)
              (cmdsize - readU d.buf d.pos 32 d.Endian)).takeWhile (fun b => b != 0)), none, ""⟩
            (d.pos + 8 * 16) (8 * (cmdsize - readU d.buf d.pos 32 d.Endian))] }) := by
      rw [Dec.bind_ok (FieldU32_run _ _ (by simp only; omega))]
      rw [Dec.bind_ok (FieldU32_run _ _ (by simp only; omega))]
      rw [Dec.bind_ok (FieldU32_run _ _ (by simp only; omega))]
      rw [Dec.bind_ok (FieldU32_run _ _ (by simp only; omega))]
      simp only [hsub]
      rw [Dec.bind_ok (FieldUTF8NullFixedLen_run _ _ (by simp only; omega))]
      simp only [Dec.pure_apply, applyMappers, List.foldl_nil, List.append_assoc,
        List.cons_append, List.nil_append, Nat.add_assoc, Nat.reduceAdd, Nat.reduceMul,
        Except.ok.injEq, Prod.mk.injEq, true_and, D.mk.injEq, and_true]
      omega
    refine ⟨_, _, FieldStruct_run "dylib_command" hrun, rfl, rfl, ?_, hiff⟩
    simp [nameField, field, Value.name, Value.children, List.find?]
  · obtain rfl : 12 = P := by simpa using hP
    rw [loadCommandPayload_fvmlib archBits cpuType cmd cmdsize h2]
    have hrun : (FieldU32 "offset" [] >>= fun offset =>
          FieldU32 "minor_version" [] >>= fun _ =>
          FieldU32 "header_addr" [Hex] >>= fun _ =>
          FieldUTF8NullFixedLen "name" ((cmdsize : Int) - (offset : Int)) >>= fun _ =>
          (pure () : Dec Unit)) { d with children := [] } = .ok ((),
        { d with pos := d.pos + 8 * (12 + (cmdsize - readU d.buf d.pos 32 d.Endian)),
                 children := [
          Value.Scalar "offset" ⟨.U (readU d.buf d.pos 32 d.Endian), none, ""⟩ d.pos 32,
          Value.Scalar "minor_version" ⟨.U (readU d.buf (d.pos + 32) 32 d.Endian), none, ""⟩
            (d.pos + 32) 32,
          Value.Scalar "header_addr" (applyMappers [Hex]
            ⟨.U (readU d.buf (d.pos + 64) 32 d.Endian), none, ""⟩) (d.pos + 64) 32,
          Value.Scalar "name"
            ⟨.Str ((readBytes d.buf (d.pos + 8 * 12)
              (cmdsize - readU d.buf d.pos 32 d.Endian)).takeWhile (fun b => b != 0)), none, ""⟩
            (d.pos + 8 * 12) (8 * (cmdsize - readU d.buf d.pos 32 d.Endian))] }) := by
      rw [Dec.bind_ok (FieldU32_run _ _ (by simp only; omega))]
      rw [Dec.bind_ok (FieldU32_run _ _ (by simp only; omega))]
      rw [Dec.bind_ok (FieldU32_run _ _ (by simp only; omega))]
      simp only [hsub]
      rw [Dec.bind_ok (FieldUTF8NullFixedLen_run _ _ (by simp only; omega))]
      simp only [Dec.pure_apply, applyMappers, List.foldl_nil, List.append_assoc,
        List.cons_append, List.nil_append, Nat.add_assoc, Nat.reduceAdd, Nat.reduceMul,
        Except.ok.injEq, Prod.mk.injEq, true_and, D.mk.injEq, and_true]
      omega
    refine ⟨_, _, FieldStruct_run "fvmlib" hrun, rfl, rfl, ?_, hiff⟩
    simp [nameField, field, Value.name, Value.children, List.find?]
  · obtain rfl : 4 = P := by simpa using hP
    rw [loadCommandPayload_name archBits cpuType cmd cmdsize h3]
    rw [Dec.bind_ok (FieldU32_run _ _ (by omega))]
    simp only [hsub]
    rw [Dec.bind_ok (FieldUTF8NullFixedLen_run _ _ (by simp only; omega))]
    refine ⟨_, [Value.Scalar "offset" ⟨.U (readU d.buf d.pos 32 d.Endian), none, ""⟩ d.pos 32,
      Value.Scalar "name"
        ⟨.Str ((readBytes d.buf (d.pos + 8 * 4)
          (cmdsize - readU d.buf d.pos 32 d.Endian)).takeWhile (fun b => b != 0)), none, ""⟩
        (d.pos + 8 * 4) (8 * (cmdsize - readU d.buf d.pos 32 d.Endian))], rfl, ?_, ?_, ?_, hiff⟩
    · simp only; omega
    · simp [applyMappers]
    · simp [nameField, field, Value.name, List.find?]

theorem C13_name_span_witness :
    readU dylibStart.buf dylibStart.pos 32 dylibStart.Endian = 24 ∧
    (readBytes dylibStart.buf (dylibStart.pos + 8 * 16)
      (32 - readU dylibStart.buf dylibStart.pos 32 dylibStart.Endian)).takeWhile
        (fun b => b != 0) = [0x61, 0x62] ∧
    ∃ d' cs, loadCommandPayload 64 7 LC_LOAD_DYLIB 32 dylibStart = .ok ((), d') ∧
      d'.pos = dylibStart.pos +
        8 * (16 + (32 - readU dylibStart.buf dylibStart.pos 32 dylibStart.Endian)) ∧
      d'.children = dylibStart.children ++ cs ∧
      nameField cs = some (Value.Scalar "name"
        ⟨.Str ((readBytes dylibStart.buf (dylibStart.pos + 8 * 16)
          (32 - readU dylibStart.buf dylibStart.pos 32 dylibStart.Endian)).takeWhile
            (fun b => b != 0)), none, ""⟩
        (dylibStart.pos + 8 * 16)
        (8 * (32 - readU dylibStart.buf dylibStart.pos 32 dylibStart.Endian))) ∧
      (((16 + (32 - readU dylibStart.buf dylibStart.pos 32 dylibStart.Endian) : Nat) : Int) =
          (32 : Int) - 8 ↔
        readU dylibStart.buf dylibStart.pos 32 dylibStart.Endian = 16 + 8) :=
  ⟨by decide!, by decide!,
   C13_name_span 64 7 LC_LOAD_DYLIB 32 16 dylibStart (by decide) (by decide!) (by decide!)⟩

/-! ## The prebound_dylib bitmap (C14) -/

/-- C14: the `linked_modules` bitmap is not `ceil(nmodules / 8)` bytes long.  On the payload
`preboundPayload` (`nmodules = 16`, name `a`, two bitmap bytes) the field starts at bit 112,
after the name, and is 2 bits long, the decode ending at bit 114 and not at bit 128: the length
`nmodules / 8 + nmodules % 8` is handed to a primitive that counts bits, where 16 modules need
`8 * ceil(16 / 8) = 16` bits. -/
theorem C14_linked_modules_length :
    readU preboundStart.buf (preboundStart.pos + 32) 32 preboundStart.Endian = 16 ∧
    (decoded (loadCommandPayload 32 7 LC_PREBOUND_DYLIB 24 preboundStart)).map
      (fun t => (field "linked_modules" t).bind Value.range) = .ok (some (112, 2)) ∧
    endPos (loadCommandPayload 32 7 LC_PREBOUND_DYLIB 24 preboundStart) = .ok 114 := by
  decide!

/-! ## Thread commands (C15, C16, C17) -/

theorem loadCommandPayload_thread (archBits : Int) (cpuType cmd cmdsize : Nat)
    (hcmd : cmd = LC_THREAD ∨ cmd = LC_UNIXTHREAD) :
    loadCommandPayload archBits cpuType cmd cmdsize =
      (FieldU32 "flavor" [] >>= fun _ =>
        FieldU32 "count" [] >>= fun count =>
        FieldStruct "state" (threadStateDecode cpuType count)) := by
  unfold loadCommandPayload
  rcases hcmd with rfl | rfl <;>
    simp (disch := decide) only [if_neg, if_pos]

/-- C15, a sample the claim fails on: with the captured variables of a 64-bit little-endian
x86-64 object, the thread payload `threadPayload` declares `count = 4`, and its state block is
`21 * 64 = 1344` bits long, not `4 * 32 = 128`; the decode ends 1344 bits after the 64 bits of
`flavor` and `count`. -/
theorem C15_counterexample :
    readU threadStart.buf (threadStart.pos + 32) 32 threadStart.Endian = 4 ∧
    (decoded (loadCommandPayload 64 0x1000007 LC_UNIXTHREAD 184 threadStart)).map stateBits =
      .ok 1344 ∧
    endPos (loadCommandPayload 64 0x1000007 LC_UNIXTHREAD 184 threadStart) = .ok (64 + 1344) ∧
    1344 ≠ 4 * 32 := by
  decide!

/-- C15: in an object with cputype x86-64 (`0x1000007`) the payload of a thread or unixthread
command is `flavor`, `count` and a `state` struct of exactly 21 named 64-bit registers (`rax` ..
`r15`, `rip`, `rflags`, `cs`, `fs`, `gs`): the decode succeeds exactly when `8 + 168` bytes are
left and the state block is `21 * 64 = 1344` bits whatever the declared `count`; this is
`count * 32` bits exactly when `count = 42`. -/
theorem C15_x8664_state (archBits : Int) (cmd cmdsize : Nat) (d : D)
    (hcmd : cmd = LC_THREAD ∨ cmd = LC_UNIXTHREAD) :
    LayoutAt (loadCommandPayload archBits 0x1000007 cmd cmdsize) d (64 + 21 * 64)
      [Shape.Leaf "flavor" 32, Shape.Leaf "count" 32,
       Shape.Struct "state"
        (["rax", "rbx", "rcx", "rdx", "rdi", "rsi", "rbp", "rsp", "r8", "r9", "r10", "r11",
          "r12", "r13", "r14", "r15", "rip", "rflags", "cs", "fs", "gs"].map
          (fun name => Shape.Leaf name 64))] ∧
    (21 * 64 = readU d.buf (d.pos + 32) 32 d.Endian * 32 ↔
      readU d.buf (d.pos + 32) 32 d.Endian = 42) := by
  refine ⟨?_, by omega⟩
  rw [loadCommandPayload_thread archBits _ cmd cmdsize hcmd]
  have hstate : ∀ count, threadStateDecode 0x1000007 count = threadStateX8664Decode := by
    intro count
    unfold threadStateDecode
    simp (disch := decide) only [if_neg, if_pos]
  have key : Layout (FieldU32 "flavor" [] >>= fun _ =>
        FieldU32 "count" [] >>= fun count =>
        FieldStruct "state" (threadStateDecode 0x1000007 count)) (32 + (32 + 21 * 64))
      ([Shape.Leaf "flavor" 32] ++ ([Shape.Leaf "count" 32] ++
        [Shape.Struct "state"
          (["rax", "rbx", "rcx", "rdx", "rdi", "rsi", "rbp", "rsp", "r8", "r9", "r10", "r11",
            "r12", "r13", "r14", "r15", "rip", "rflags", "cs", "fs", "gs"].map
            (fun name => Shape.Leaf name 64))])) := by
    refine layout_bind (layout_FieldU32 _ _) (fun _ => layout_bind (layout_FieldU32 _ _) ?_)
    intro count
    rw [hstate count]
    exact layout_FieldStruct "state" layout_threadStateX8664Decode
  exact layoutAt_cast (key d) (by omega) rfl

theorem C15_x8664_state_witness :
    readU threadStart.buf (threadStart.pos + 32) 32 threadStart.Endian = 4 ∧
    LayoutAt (loadCommandPayload 64 0x1000007 LC_UNIXTHREAD 184) threadStart (64 + 21 * 64)
      [Shape.Leaf "flavor" 32, Shape.Leaf "count" 32,
       Shape.Struct "state"
        (["rax", "rbx", "rcx", "rdx", "rdi", "rsi", "rbp", "rsp", "r8", "r9", "r10", "r11",
          "r12", "r13", "r14", "r15", "rip", "rflags", "cs", "fs", "gs"].map
          (fun name => Shape.Leaf name 64))] ∧
    (21 * 64 = readU threadStart.buf (threadStart.pos + 32) 32 threadStart.Endian * 32 ↔
      readU threadStart.buf (threadStart.pos + 32) 32 threadStart.Endian = 42) :=
  ⟨by decide!, C15_x8664_state 64 LC_UNIXTHREAD 184 threadStart (Or.inr rfl)⟩

/-- C16: the thread-state dispatch does not agree with the cpu-type table on PowerPC.  The table
`cpuTypes` labels 18 as `CPU_TYPE_POWERPC` and has no entry for `0x13`; the dispatch gives the
PPC32 layout to `0x13` and gives an object of cputype 18 the raw fallback: on four bytes with
`count = 1` its state is the single raw field `state`, not the PPC32 registers. -/
theorem C16_powerpc_dispatch :
    cpuTypes.lookup 18 = some "CPU_TYPE_POWERPC" ∧ cpuTypes.lookup 0x13 = none ∧
    (∀ count, threadStateDecode 18 count = FieldRawLen "state" (toInt64 (count * 32)) []) ∧
    (∀ count, threadStateDecode 0x13 count = threadStatePPC32Decode) ∧
    decoded (threadStateDecode 18 1 ⟨[0, 0, 0, 1], 0, .BigEndian, []⟩) =
      .ok [Value.Scalar "state" ⟨.Raw 1, none, ""⟩ 0 32] := by
  refine ⟨by decide, by decide, fun count => ?_, fun count => ?_, by decide!⟩
  · unfold threadStateDecode
    simp (disch := decide) only [if_neg, if_pos]
  · unfold threadStateDecode
    simp (disch := decide) only [if_neg, if_pos]

theorem toInt64_lt {x : Nat} (h : x < 2 ^ 63) : toInt64 x = (x : Int) := by
  unfold toInt64
  have h1 : x % 2 ^ 64 = x := Nat.mod_eq_of_lt (by omega)
  rw [h1, if_pos h]

/-- A raw field of `k` bits at one state: a field of no bits needs the cursor to be inside the
buffer. -/
theorem layoutAt_FieldRawLen (name : String) (k : Nat) (sms : List Mapper) (d : D)
    (h : 0 < k ∨ d.pos ≤ 8 * d.buf.length) :
    LayoutAt (FieldRawLen name (k : Int) sms) d k [Shape.Leaf name k] := by
  have h0 : ¬ ((k : Int) < 0) := by omega
  constructor
  · intro hfit
    have h1 : ¬ (8 * d.buf.length < d.pos + k) := by omega
    rw [FieldRawLen_run name k sms (by omega)]
    exact ⟨_, _, rfl, rfl, rfl, rfl, _, rfl, rfl⟩
  · intro hshort
    simp [Macho.FieldRawLen, Macho.RawLen, TryU, h0, hshort.2]

theorem layoutAt_FieldStruct {α : Type} (name : String) {fn : Dec α} {d : D} {n : Nat}
    {ss : List Shape} (hfn : LayoutAt fn { d with children := [] } n ss) :
    LayoutAt (FieldStruct name fn) d n [Shape.Struct name ss] := by
  constructor
  · intro hfit
    obtain ⟨a, cd, h, hp, hb, he, cs, hc, hs⟩ := hfn.1 hfit
    rw [FieldStruct_run name h]
    simp only [List.nil_append] at hc
    refine ⟨_, _, rfl, hp, rfl, rfl, _, rfl, ?_⟩
    simp [Value.shapes, Value.shape, hc, hs]
  · intro hshort
    obtain ⟨e, he⟩ := hfn.2 hshort
    exact ⟨e, by unfold Macho.FieldStruct; rw [he]⟩

/-- C17: in an object whose cputype is none of the six dispatched values, the payload of a thread
or unixthread command is `flavor`, `count` and a `state` struct that holds one raw field `state`
of exactly `count * 32` bits, `count` being the declared 32-bit word: the decode succeeds
exactly when `8 + 4 * count` bytes are left and consumes them, whatever the bit width of the
object. -/
theorem C17_fallback_state (archBits : Int) (cpuType cmd cmdsize : Nat) (d : D)
    (hcmd : cmd = LC_THREAD ∨ cmd = LC_UNIXTHREAD)
    (hcpu : cpuType ≠ 0x7 ∧ cpuType ≠ 0xC ∧ cpuType ≠ 0x13 ∧ cpuType ≠ 0x1000007 ∧
      cpuType ≠ 0x100000C ∧ cpuType ≠ 0x1000013) :
    LayoutAt (loadCommandPayload archBits cpuType cmd cmdsize) d
      (64 + readU d.buf (d.pos + 32) 32 d.Endian * 32)
      [Shape.Leaf "flavor" 32, Shape.Leaf "count" 32,
       Shape.Struct "state" [Shape.Leaf "state" (readU d.buf (d.pos + 32) 32 d.Endian * 32)]] := by
  rw [loadCommandPayload_thread archBits cpuType cmd cmdsize hcmd]
  obtain ⟨h1, h2, h3, h4, h5, h6⟩ := hcpu
  have hstate : ∀ count, threadStateDecode cpuType count =
      FieldRawLen "state" (toInt64 (count * 32)) [] := by
    intro count
    unfold threadStateDecode
    rw [if_neg h1, if_neg h2, if_neg h3, if_neg h4, if_neg h5, if_neg h6]
  have key : LayoutAt (FieldU32 "flavor" [] >>= fun _ =>
        FieldU32 "count" [] >>= fun count =>
        FieldStruct "state" (threadStateDecode cpuType count)) d
      (32 + (32 + readU d.buf (d.pos + 32) 32 d.Endian * 32))
      ([Shape.Leaf "flavor" 32] ++ ([Shape.Leaf "count" 32] ++
        [Shape.Struct "state"
          [Shape.Leaf "state" (readU d.buf (d.pos + 32) 32 d.Endian * 32)]])) := by
    refine layoutAt_bind (layout_FieldU32 _ _ d) (fun _ d1 hf => ?_)
    obtain ⟨-, -, -, rfl⟩ := FieldU32_ok hf
    refine layoutAt_bind (layout_FieldU32 _ _ _) (fun count d2 hc => ?_)
    obtain ⟨rfl, hlt, hfit, rfl⟩ := FieldU32_ok hc
    rw [hstate, toInt64_lt (by
      have := readU_lt d.buf (d.pos + 32) d.Endian
      simp only; omega)]
    exact layoutAt_FieldStruct "state" (layoutAt_FieldRawLen "state" _ [] _ (Or.inr hfit))
  exact layoutAt_cast key (by omega) rfl

theorem C17_fallback_state_witness :
    readU threadStart.buf (threadStart.pos + 32) 32 threadStart.Endian = 4 ∧
    LayoutAt (loadCommandPayload 32 18 LC_THREAD 24) threadStart
      (64 + readU threadStart.buf (threadStart.pos + 32) 32 threadStart.Endian * 32)
      [Shape.Leaf "flavor" 32, Shape.Leaf "count" 32,
       Shape.Struct "state"
        [Shape.Leaf "state"
          (readU threadStart.buf (threadStart.pos + 32) 32 threadStart.Endian * 32)]] :=
  ⟨by decide!,
   C17_fallback_state 32 18 LC_THREAD 24 threadStart (Or.inl rfl) (by decide)⟩

/-! ## Where the magic is re-read (C18) -/

/-- The thin path re-reads the magic at the 32 bits before its start state: the `magic` field
of the `header` struct covers them. -/
theorem ofileThin_magic {archBits : Int} {d d' : D} (hc : d.children = [])
    (h : ofileThin archBits d = .ok ((), d')) :
    32 ≤ d.pos ∧ magicRange "header" d'.children = some (d.pos - 32, 32) := by
  simp only [ofileThin, Dec.bind_eq_ok] at h
  obtain ⟨p, d1, h1, ⟨cpuType, ncmds⟩, d2, h2, h3⟩ := h
  simp only [Dec.bind_eq_ok] at h3
  obtain ⟨as, d3, h3, h4⟩ := h3
  simp only [Dec.pure_apply, Except.ok.injEq, Prod.mk.injEq, true_and] at h4
  subst h4
  obtain ⟨hpos, hd1⟩ := SeekRel_eq_ok h1
  rw [FieldStruct_eq_ok] at h2
  obtain ⟨cd, hcd, hd2⟩ := h2
  simp only at hcd hd2
  obtain ⟨-, -, -, -, rest, hrest⟩ := headerDecode_ok hcd
  rw [FieldStructArrayLoop_eq_ok] at h3
  obtain ⟨ad, had, hd3⟩ := h3
  simp only at hd3
  have hp1 : d1.pos = d.pos - 32 := by rw [hd1]; simp only; omega
  simp only [List.nil_append] at hrest
  refine ⟨by omega, ?_⟩
  rw [hd3, hd2, hd1, hc, hrest, hp1]
  simp [magicRange, fieldChildren, field, List.find?, Value.name, Value.children, Value.range]

/-- The fat path re-reads the magic at bit 0 of the buffer, wherever it started: the `magic`
field of the `fat_header` struct covers bits 0..31. -/
theorem fatParse_magic {ofile : Dec Unit} {d d' : D} (hc : d.children = [])
    (h : fatParse ofile d = .ok ((), d')) :
    magicRange "fat_header" d'.children = some (0, 32) := by
  simp only [fatParse, Dec.bind_eq_ok] at h
  obtain ⟨p, d0, h0, ⟨narchs, offsets⟩, d2, hpass, h3⟩ := h
  simp only [Dec.bind_eq_ok] at h3
  obtain ⟨as, d3, h3, h4⟩ := h3
  simp only [Dec.pure_apply, Except.ok.injEq, Prod.mk.injEq, true_and] at h4
  subst h4
  have hd0 : d0 = { d with pos := 0 } := by
    simp [SeekAbs] at h0
    exact h0.2.symm
  subst hd0
  have hlen := fatHeader_ok hpass
  rw [fatHeader_run d hlen] at hpass
  simp only [Except.ok.injEq, Prod.mk.injEq] at hpass
  obtain ⟨-, hd2⟩ := hpass
  rw [FieldStructArrayLoop_eq_ok] at h3
  obtain ⟨ad, had, hd3⟩ := h3
  simp only at hd3
  rw [hd3, ← hd2, hc]
  simp [magicRange, fieldChildren, field, List.find?, Value.name, Value.children, Value.range]

/-- C18, a sample the claim fails on: `ofileDecode` started at byte 8 of `fatAtByte8`, where a
fat magic is, succeeds (the word at bytes 4..7, read as `narchs`, is 0) and the `magic` field of
its `fat_header` covers bytes 0..3 of the buffer, not bytes 8..11. -/
theorem C18_counterexample :
    readU fatAtByte8 64 32 .LittleEndian = FAT_CIGAM ∧
    (decoded (ofileDecode 1 ⟨fatAtByte8, 64, .BigEndian, []⟩)).map (magicRange "fat_header") =
      .ok (some (0, 32)) := by
  decide!

/-- C18: a decode started at bit `p` that succeeds has re-read the magic as follows.  On the
thin path (one of the four thin magics at `p`) the `magic` field of the `header` struct covers
the bits `p .. p + 31`, the first four bytes of the region.  On the fat path (one of the two fat
magics at `p`) the `magic` field of the `fat_header` struct covers the bits `0 .. 31` of the
whole buffer, whatever `p` is: the thin path steps back four bytes, the fat path seeks to the
absolute position 0. -/
theorem C18_magic_range (fuel : Nat) (buf : List Nat) (p : Nat) (e : Endian) (q : Nat)
    (h : endPos (ofileDecode (fuel + 1) ⟨buf, p, e, []⟩) = .ok q) :
    ∃ d', ofileDecode (fuel + 1) ⟨buf, p, e, []⟩ = .ok ((), d') ∧
      ((readU buf p 32 .LittleEndian = MH_MAGIC ∨ readU buf p 32 .LittleEndian = MH_MAGIC_64
          ∨ readU buf p 32 .LittleEndian = MH_CIGAM ∨ readU buf p 32 .LittleEndian = MH_CIGAM_64) →
        magicRange "header" d'.children = some (p, 32)) ∧
      ((readU buf p 32 .LittleEndian = FAT_MAGIC ∨ readU buf p 32 .LittleEndian = FAT_CIGAM) →
        magicRange "fat_header" d'.children = some (0, 32)) := by
  simp only [endPos] at h
  split at h
  · simp at h
  · rename_i u d' heq
    refine ⟨d', heq, ?_, ?_⟩
    · intro hm
      rw [ofileDecode_succ] at heq
      simp only at heq
      by_cases hlen : 8 * buf.length < p + 32
      · rw [if_pos hlen] at heq
        exact absurd heq (by simp)
      · rw [if_neg hlen] at heq
        rcases hm with hm | hm | hm | hm <;> rw [hm] at heq <;>
          simp (disch := decide) only [if_pos, if_neg] at heq <;>
          simpa using (ofileThin_magic rfl heq).2
    · intro hm
      rw [ofileDecode_succ] at heq
      simp only at heq
      by_cases hlen : 8 * buf.length < p + 32
      · rw [if_pos hlen] at heq
        exact absurd heq (by simp)
      · rw [if_neg hlen] at heq
        rcases hm with hm | hm <;> rw [hm] at heq <;>
          simp (disch := decide) only [if_pos, if_neg] at heq <;>
          exact fatParse_magic rfl heq

theorem C18_magic_range_witness :
    readU thinAtByte4 32 32 .LittleEndian = MH_MAGIC ∧
    ∃ d', ofileDecode (0 + 1) ⟨thinAtByte4, 32, .BigEndian, []⟩ = .ok ((), d') ∧
      ((readU thinAtByte4 32 32 .LittleEndian = MH_MAGIC
          ∨ readU thinAtByte4 32 32 .LittleEndian = MH_MAGIC_64
          ∨ readU thinAtByte4 32 32 .LittleEndian = MH_CIGAM
          ∨ readU thinAtByte4 32 32 .LittleEndian = MH_CIGAM_64) →
        magicRange "header" d'.children = some (32, 32)) ∧
      ((readU thinAtByte4 32 32 .LittleEndian = FAT_MAGIC
          ∨ readU thinAtByte4 32 32 .LittleEndian = FAT_CIGAM) →
        magicRange "fat_header" d'.children = some (0, 32)) :=
  ⟨by decide!, C18_magic_range 0 thinAtByte4 32 .BigEndian 256 (by decide!)⟩

/-! ## Depth of the recursion (C19) -/

/-- The container `fatSelf` hands its nested decoder the state its own decode started in. -/
theorem fatParse_fatSelf (ofile : Dec Unit) (err : Err)
    (h : ofile ⟨fatSelf, 0, .BigEndian, []⟩ = .error err) :
    fatParse ofile ⟨fatSelf, 32, .BigEndian, []⟩ = .error err := by
  have hrun := fatHeader_run ⟨fatSelf, 32, .BigEndian, []⟩ (by decide!)
  rw [fatParse_pass2 ofile _ _ _ _ hrun]
  have hr1 : List.range 1 = [0] := rfl
  have hn : readU fatSelf 32 32 .BigEndian = 1 := by decide!
  have ho : readU fatSelf (8 * (8 + 20 * 0 + 8)) 32 .BigEndian = 0 := by decide!
  have hseek : ∀ d : D, SeekAbs (toInt64 0 * 8) d = .ok (0, { d with pos := 0 }) := by
    intro d
    simp [SeekAbs, toInt64]
  simp only [hn, hr1, List.map_cons, List.map_nil, ho]
  rw [Dec.bind_apply]
  unfold FieldStructArrayLoop
  simp only [structLoop_succ, Dec.bind_apply]
  unfold FieldStruct fatFileDecode
  simp only [List.get?_cons_zero, Dec.bind_apply, hseek, h]

/-- C19: the decode of `fatSelf`, a fat container whose one `fat_arch` record has offset 0,
never returns.  Each nested `ofileDecode` starts at byte 0, finds the same fat magic and nests
again: whatever bound is put on the nesting depth, the decode runs into it. -/
theorem C19_self_slice_never_returns : ¬ ∃ fuel, machoDecode fuel fatSelf ≠ .error .outOfFuel := by
  rintro ⟨fuel, h⟩
  apply h
  clear h
  induction fuel with
  | zero => rfl
  | succ n ih =>
    unfold machoDecode at ih ⊢
    rw [ofileDecode_succ]
    have hm : readU fatSelf 0 32 .LittleEndian = FAT_CIGAM := by decide!
    have hl : ¬ (8 * fatSelf.length < 0 + 32) := by decide
    simp only [hm]
    rw [if_neg hl]
    simp (disch := decide) only [if_pos, if_neg]
    exact fatParse_fatSelf _ _ ih
/-- A region that does not start with a fat magic is decoded by one activation: more fuel
changes nothing. -/
theorem ofileDecode_notFat (fuel : Nat) (d : D) (h : ¬ fatMagicAt d.buf d.pos) :
    ofileDecode (fuel + 1) d = ofileDecode 1 d := by
  rw [ofileDecode_succ, ofileDecode_succ]
  by_cases hlen : 8 * d.buf.length < d.pos + 32
  · rw [if_pos hlen, if_pos hlen]
  · have hF : ¬ (readU d.buf d.pos 32 .LittleEndian = FAT_MAGIC) :=
      fun hm => h ⟨by omega, Or.inl hm⟩
    have hC : ¬ (readU d.buf d.pos 32 .LittleEndian = FAT_CIGAM) :=
      fun hm => h ⟨by omega, Or.inr hm⟩
    simp only [hF, hC, if_false]

/-- A region that does not start with a fat magic never exhausts the fuel of one activation. -/
theorem ofileDecode_one_ne_outOfFuel (d : D) (h : ¬ fatMagicAt d.buf d.pos) :
    ofileDecode 1 d ≠ .error .outOfFuel := by
  intro heq
  rw [ofileDecode_succ] at heq
  by_cases hlen : 8 * d.buf.length < d.pos + 32
  · rw [if_pos hlen] at heq
    cases heq
  · have hF : ¬ (readU d.buf d.pos 32 .LittleEndian = FAT_MAGIC) :=
      fun hm => h ⟨by omega, Or.inl hm⟩
    have hC : ¬ (readU d.buf d.pos 32 .LittleEndian = FAT_CIGAM) :=
      fun hm => h ⟨by omega, Or.inr hm⟩
    simp only [hlen, hF, hC, if_false] at heq
    split_ifs at heq <;>
      first
        | (obtain ⟨op, hop⟩ := IOOnly.ofileThin _ _ _ heq; cases hop)
        | cases heq

/-- The struct loop only runs its body on fresh compounds over the buffer and byte order of its
decoder: two bodies that agree there give the same loop. -/
theorem structLoop_congr {α : Type} (structName : String) {fn1 fn2 : Nat → Dec α}
    (B : List Nat) (E : Endian)
    (h : ∀ idx p, fn1 idx ⟨B, p, E, []⟩ = fn2 idx ⟨B, p, E, []⟩) :
    ∀ (n idx : Nat) (d : D), d.buf = B → d.Endian = E →
      structLoop structName fn1 n idx d = structLoop structName fn2 n idx d := by
  intro n
  induction n with
  | zero => intro idx d _ _; rfl
  | succ n ih =>
    intro idx d hb he
    have hstep : FieldStruct structName (fn1 idx) d = FieldStruct structName (fn2 idx) d := by
      obtain ⟨b, p, e, c⟩ := d
      simp only at hb he
      subst hb he
      unfold FieldStruct
      simp only [h idx p]
    rw [structLoop_succ, structLoop_succ, Dec.bind_apply, Dec.bind_apply, hstep]
    cases hr : FieldStruct structName (fn2 idx) d with
    | error e => rfl
    | ok r =>
      obtain ⟨a, d1⟩ := r
      rw [FieldStruct_eq_ok] at hr
      obtain ⟨cd, -, hd1⟩ := hr
      simp only at hd1
      have hb1 : d1.buf = B := by rw [hd1]; exact hb
      have he1 : d1.Endian = E := by rw [hd1]; exact he
      simp only [Dec.bind_apply, ih (idx + 1) d1 hb1 he1]

/-- A failure of the struct loop is the failure of its body on a fresh compound over the buffer
and byte order of its decoder. -/
theorem structLoop_error {α : Type} (structName : String) {fn : Nat → Dec α}
    (B : List Nat) (E : Endian) (e : Err) :
    ∀ (n idx : Nat) (d : D), d.buf = B → d.Endian = E →
      structLoop structName fn n idx d = .error e →
      ∃ idx1 p, fn idx1 ⟨B, p, E, []⟩ = .error e := by
  intro n
  induction n with
  | zero =>
    intro idx d _ _ h
    simp [structLoop, Dec.pure_apply] at h
  | succ n ih =>
    intro idx d hb he h
    rw [structLoop_succ, Dec.bind_apply] at h
    cases hr : FieldStruct structName (fn idx) d with
    | error e1 =>
      rw [hr] at h
      simp only [Except.error.injEq] at h
      subst h
      obtain ⟨b, p, e0, c⟩ := d
      simp only at hb he
      subst hb he
      refine ⟨idx, p, ?_⟩
      unfold FieldStruct at hr
      simp only at hr
      split at hr
      · rename_i e2 heq
        simp only [Except.error.injEq] at hr
        rw [← hr]; exact heq
      · cases hr
    | ok r =>
      obtain ⟨a, d1⟩ := r
      rw [hr] at h
      simp only [Dec.bind_apply] at h
      rw [FieldStruct_eq_ok] at hr
      obtain ⟨cd, -, hd1⟩ := hr
      simp only at hd1
      have hb1 : d1.buf = B := by rw [hd1]; exact hb
      have he1 : d1.Endian = E := by rw [hd1]; exact he
      cases hl : structLoop structName fn n (idx + 1) d1 with
      | error e1 =>
        rw [hl] at h
        simp only [Except.error.injEq] at h
        subst h
        exact ih (idx + 1) d1 hb1 he1 hl
      | ok r1 =>
        rw [hl] at h
        simp [Dec.pure_apply] at h

/-- One `file` body on a fresh compound: the nested decoder started at bit `8 * offset`. -/
theorem fatFileDecode_at (ofile : Dec Unit) (offsets : List Nat) (idx : Nat)
    (hoff : ∀ o ∈ offsets, o < 2 ^ 32) (B : List Nat) (p : Nat) (E : Endian) :
    fatFileDecode ofile offsets idx ⟨B, p, E, []⟩ =
      match offsets.get? idx with
      | none => .error (.Panic "index out of range")
      | some off => ofile ⟨B, 8 * off, E, []⟩ := by
  unfold fatFileDecode
  cases hget : offsets.get? idx with
  | none => rfl
  | some off =>
    have hlt := hoff off (List.get?_mem hget)
    have h0 : ¬ ((off : Int) * 8 < 0) := by omega
    have h1 : ((off : Int) * 8).toNat = 8 * off := by omega
    simp only [Dec.bind_apply, SeekAbs, toInt64_small hlt, h0, if_false, h1]

theorem IOOnly.fatHeaderDecode : IOOnly fatHeaderDecode := by
  unfold Macho.fatHeaderDecode Macho.fatArchDecode
  repeat' with_reducible first
      | exact IOOnly.pure _
      | exact IOOnly.FieldU32 _ _
      | exact IOOnly.FieldRawLen _ _ _
      | apply IOOnly.FieldStruct
      | apply IOOnly.FieldStructArrayLoop
      | apply IOOnly.bind
      | intro _

/-- The fat path over slices none of which starts with a fat magic: the nested decoders need one
activation each, so more fuel changes nothing and the fuel is never exhausted. -/
theorem fatParse_thin_slices (fuel : Nat) (d : D)
    (h : ∀ i, i < readU d.buf 32 32 d.Endian →
      ¬ fatMagicAt d.buf (8 * readU d.buf (8 * (8 + 20 * i + 8)) 32 d.Endian)) :
    fatParse (ofileDecode (fuel + 1)) d = fatParse (ofileDecode 1) d ∧
      fatParse (ofileDecode 1) d ≠ .error .outOfFuel := by
  have hseek : SeekAbs 0 d = .ok (0, { d with pos := 0 }) := by simp [SeekAbs]
  cases hh : FieldStruct "fat_header" fatHeaderDecode { d with pos := 0 } with
  | error e =>
    have hfail : ∀ ofile : Dec Unit, fatParse ofile d = .error e := by
      intro ofile
      unfold fatParse
      rw [Dec.bind_ok hseek, Dec.bind_error hh]
    rw [hfail, hfail]
    refine ⟨rfl, ?_⟩
    obtain ⟨op, hop⟩ := IOOnly.FieldStruct "fat_header" IOOnly.fatHeaderDecode _ _ hh
    rw [hop]
    intro hc
    cases hc
  | ok r =>
    have hlen := fatHeader_ok hh
    have hrun := fatHeader_run d hlen
    have hoff : ∀ o ∈ (List.range (readU d.buf 32 32 d.Endian)).map
        (fun i => readU d.buf (8 * (8 + 20 * i + 8)) 32 d.Endian), o < 2 ^ 32 := by
      intro o ho
      simp only [List.mem_map] at ho
      obtain ⟨i, -, rfl⟩ := ho
      exact readU_lt _ _ _
    have hslice : ∀ idx off,
        ((List.range (readU d.buf 32 32 d.Endian)).map
          (fun i => readU d.buf (8 * (8 + 20 * i + 8)) 32 d.Endian)).get? idx = some off →
        ¬ fatMagicAt d.buf (8 * off) := by
      intro idx off hget
      have hmem := List.get?_mem hget
      simp only [List.mem_map, List.mem_range] at hmem
      obtain ⟨i, hi, rfl⟩ := hmem
      exact h i hi
    rw [fatParse_pass2 _ d _ _ _ hrun, fatParse_pass2 _ d _ _ _ hrun]
    have hbody : ∀ idx p,
        fatFileDecode (ofileDecode (fuel + 1)) ((List.range (readU d.buf 32 32 d.Endian)).map
          (fun i => readU d.buf (8 * (8 + 20 * i + 8)) 32 d.Endian)) idx ⟨d.buf, p, d.Endian, []⟩ =
        fatFileDecode (ofileDecode 1) ((List.range (readU d.buf 32 32 d.Endian)).map
          (fun i => readU d.buf (8 * (8 + 20 * i + 8)) 32 d.Endian)) idx
            ⟨d.buf, p, d.Endian, []⟩ := by
      intro idx p
      rw [fatFileDecode_at _ _ _ hoff, fatFileDecode_at _ _ _ hoff]
      cases hget : ((List.range (readU d.buf 32 32 d.Endian)).map
          (fun i => readU d.buf (8 * (8 + 20 * i + 8)) 32 d.Endian)).get? idx with
      | none => rfl
      | some off => exact ofileDecode_notFat fuel _ (hslice idx off hget)
    constructor
    · rw [Dec.bind_apply, Dec.bind_apply]
      unfold FieldStructArrayLoop
      simp only
      rw [structLoop_congr "file" d.buf d.Endian hbody]
      · rfl
      · rfl
    · intro hc
      rw [Dec.bind_apply] at hc
      unfold FieldStructArrayLoop at hc
      simp only at hc
      split at hc
      · rename_i e1 heq
        split at heq
        · rename_i e2 hloop
          simp only [Except.error.injEq] at heq hc
          subst heq
          subst hc
          obtain ⟨idx1, p, hbad⟩ := structLoop_error "file" d.buf d.Endian _ _ _ _ (by rfl) (by rfl) hloop
          rw [fatFileDecode_at _ _ _ hoff] at hbad
          cases hget : ((List.range (readU d.buf 32 32 d.Endian)).map
              (fun i => readU d.buf (8 * (8 + 20 * i + 8)) 32 d.Endian)).get? idx1 with
          | none => rw [hget] at hbad; cases hbad
          | some off =>
            rw [hget] at hbad
            exact ofileDecode_one_ne_outOfFuel _ (hslice idx1 off hget) hbad
        · cases heq
      · simp [Dec.pure_apply] at hc
/-- Where the recursion does end: its depth follows the nesting of fat magics.  A region
that does not start with a fat magic is decoded by a single activation of `ofileDecode`: any
larger bound on the depth gives the same result, and the bound is never hit.  A fat container
(fat magic at the start, byte order `E` as the magic says) whose `fat_arch` offsets, read from
byte 0 of the buffer, all point at places without a fat magic is decoded by two nested
activations, whatever `narchs` is: any bound from 2 on gives the same result, and the bound is
never hit. -/
theorem ofileDecode_nesting_depth (fuel : Nat) (d : D) (E : Endian) :
    (¬ fatMagicAt d.buf d.pos →
      ofileDecode (fuel + 1) d = ofileDecode 1 d ∧ ofileDecode 1 d ≠ .error .outOfFuel) ∧
    ((readU d.buf d.pos 32 .LittleEndian = FAT_MAGIC ∧ E = .LittleEndian
        ∨ readU d.buf d.pos 32 .LittleEndian = FAT_CIGAM ∧ E = .BigEndian) →
      (∀ i, i < readU d.buf 32 32 E →
        ¬ fatMagicAt d.buf (8 * readU d.buf (8 * (8 + 20 * i + 8)) 32 E)) →
      ofileDecode (fuel + 2) d = ofileDecode 2 d ∧ ofileDecode 2 d ≠ .error .outOfFuel) := by
  refine ⟨fun h => ⟨ofileDecode_notFat fuel d h, ofileDecode_one_ne_outOfFuel d h⟩, ?_⟩
  intro hm hs
  have key := fatParse_thin_slices fuel { d with pos := d.pos + 32, Endian := E } hs
  rw [ofileDecode_succ (fuel + 1), ofileDecode_succ 1]
  by_cases hlen : 8 * d.buf.length < d.pos + 32
  · simp only [if_pos hlen]
    exact ⟨trivial, fun hc => by cases hc⟩
  · simp only [if_neg hlen]
    rcases hm with ⟨hm, rfl⟩ | ⟨hm, rfl⟩ <;> rw [hm] <;>
      simp (disch := decide) only [if_pos, if_neg] <;>
      exact key

/-- The container `fatTwoSlices`, two thin slices, needs two nested activations. -/
theorem ofileDecode_nesting_depth_fatTwoSlices :
    ofileDecode (1 + 2) ⟨fatTwoSlices, 0, .LittleEndian, []⟩ =
        ofileDecode 2 ⟨fatTwoSlices, 0, .LittleEndian, []⟩ ∧
      ofileDecode 2 ⟨fatTwoSlices, 0, .LittleEndian, []⟩ ≠ .error .outOfFuel :=
  (ofileDecode_nesting_depth 1 ⟨fatTwoSlices, 0, .LittleEndian, []⟩ .BigEndian).2
    (Or.inr ⟨by decide!, rfl⟩) (by decide!)

/-! ## Reads and the bytes they depend on (C20) -/

theorem bigEndianNat_foldl (b : List Nat) : ∀ acc : Nat,
    b.foldl (fun acc x => acc * 256 + x % 256) acc =
      acc * 256 ^ b.length + b.foldl (fun acc x => acc * 256 + x % 256) 0 := by
  induction b with
  | nil => intro acc; simp
  | cons x xs ih =>
    intro acc
    simp only [List.foldl_cons, List.length_cons, Nat.zero_mul, Nat.zero_add]
    rw [ih (acc * 256 + x % 256), ih (x % 256)]
    ring

theorem bigEndianNat_append (a b : List Nat) :
    bigEndianNat (a ++ b) = bigEndianNat a * 256 ^ b.length + bigEndianNat b := by
  unfold bigEndianNat
  rw [List.foldl_append, bigEndianNat_foldl]

theorem bigEndianNat_lt (b : List Nat) : bigEndianNat b < 256 ^ b.length := by
  induction b using List.reverseRecOn with
  | nil => simp [bigEndianNat]
  | append_singleton xs x ih =>
    rw [bigEndianNat_append]
    have hx : bigEndianNat [x] = x % 256 := by simp [bigEndianNat]
    have h2 : x % 256 < 256 := Nat.mod_lt _ (by norm_num)
    simp only [List.length_append, List.length_singleton, hx, pow_succ, pow_zero, Nat.one_mul]
    have h3 : (bigEndianNat xs + 1) * 256 ≤ 256 ^ xs.length * 256 :=
      Nat.mul_le_mul_right _ ih
    omega

/-- A read that ends inside the first part of a buffer does not depend on the second part. -/
theorem readBits_append_left (a b : List Nat) (p n : Nat) (h : p + n ≤ 8 * a.length) :
    readBits (a ++ b) p n = readBits a p n := by
  unfold readBits
  rw [bigEndianNat_append, List.length_append]
  have he : 8 * (a.length + b.length) - (p + n) = 8 * b.length + (8 * a.length - (p + n)) := by
    omega
  have h256 : (256 : Nat) ^ b.length = 2 ^ (8 * b.length) := by
    rw [pow_mul]; norm_num
  have hlt := bigEndianNat_lt b
  rw [he, pow_add, ← Nat.div_div_eq_div_mul, ← h256]
  have hdiv : (bigEndianNat a * 256 ^ b.length + bigEndianNat b) / 256 ^ b.length =
      bigEndianNat a := by
    rw [Nat.add_comm, Nat.add_mul_div_right _ _ (by positivity), Nat.div_eq_of_lt hlt,
      Nat.zero_add]
  rw [hdiv]

/-- A read that starts inside the second part of a buffer does not depend on the first part. -/
theorem readBits_append_right (a b : List Nat) (p n : Nat) (h1 : 8 * a.length ≤ p)
    (h2 : p + n ≤ 8 * (a.length + b.length)) :
    readBits (a ++ b) p n = readBits b (p - 8 * a.length) n := by
  unfold readBits
  rw [bigEndianNat_append, List.length_append]
  have he : 8 * (a.length + b.length) - (p + n) = 8 * b.length - (p - 8 * a.length + n) := by
    omega
  rw [he]
  obtain ⟨t, ht⟩ : ∃ t, 8 * b.length = (8 * b.length - (p - 8 * a.length + n)) + (n + t) :=
    ⟨p - 8 * a.length, by omega⟩
  have h256 : (256 : Nat) ^ b.length = 2 ^ (8 * b.length) := by
    rw [pow_mul]; norm_num
  generalize 8 * b.length - (p - 8 * a.length + n) = s at ht ⊢
  rw [h256, ht, pow_add, pow_add]
  have hdiv : (bigEndianNat a * (2 ^ s * (2 ^ n * 2 ^ t)) + bigEndianNat b) / 2 ^ s =
      bigEndianNat a * 2 ^ t * 2 ^ n + bigEndianNat b / 2 ^ s := by
    have : bigEndianNat a * (2 ^ s * (2 ^ n * 2 ^ t)) =
        2 ^ s * (bigEndianNat a * 2 ^ t * 2 ^ n) := by ring
    rw [this, Nat.mul_add_div (by positivity)]
  rw [hdiv, Nat.add_comm, Nat.add_mul_mod_self_right]

theorem readU_agree {lo hi : Nat} {B B' : List Nat} (h : AgreeOn lo hi B B') {p n : Nat}
    (hlo : lo ≤ p) (hhi : p + n ≤ hi) (hfit : p + n ≤ 8 * B.length) (e : Endian) :
    readU B' p n e = readU B p n e := by
  unfold readU
  rw [h.2 p n hlo hhi hfit]

theorem readBytes_agree {lo hi : Nat} {B B' : List Nat} (h : AgreeOn lo hi B B') {p k : Nat}
    (hlo : lo ≤ p) (hhi : p + 8 * k ≤ hi) (hfit : p + 8 * k ≤ 8 * B.length) :
    readBytes B' p k = readBytes B p k := by
  unfold readBytes
  apply List.map_congr_left
  intro i hi
  rw [List.mem_range] at hi
  exact (h.2 (p + 8 * i) 8 (by omega) (by omega) (by omega)).symm

theorem findNull_agree {lo : Nat} {B B' : List Nat} (h : AgreeOn lo (8 * B.length) B B') :
    ∀ (fuel p : Nat), lo ≤ p → findNull B' fuel p = findNull B fuel p := by
  intro fuel
  induction fuel with
  | zero => intro p _; rfl
  | succ n ih =>
    intro p hp
    unfold findNull
    rw [← h.1]
    by_cases hc : 8 * B.length < p + 8
    · simp [hc]
    · rw [if_neg hc, if_neg hc, h.2 p 8 hp (by omega) (by omega), ih (p + 8) (by omega)]

theorem findNull_fits (B : List Nat) : ∀ (fuel p k : Nat), findNull B fuel p = some k →
    p + 8 * (k + 1) ≤ 8 * B.length := by
  intro fuel
  induction fuel with
  | zero => intro p k h; simp [findNull] at h
  | succ n ih =>
    intro p k h
    unfold findNull at h
    by_cases hc : 8 * B.length < p + 8
    · simp [hc] at h
    · rw [if_neg hc] at h
      by_cases h0 : readBits B p 8 = 0
      · rw [if_pos h0] at h
        simp only [Option.some.injEq] at h
        omega
      · rw [if_neg h0] at h
        cases hr : findNull B n (p + 8) with
        | none => rw [hr] at h; simp at h
        | some j =>
          rw [hr] at h
          simp only [Option.map_some', Option.some.injEq] at h
          have := ih (p + 8) j hr
          omega

theorem fwd_slack {α : Type} {x : Dec α} (h : Fwd 0 x) : Fwd 64 x := by
  intro lo B' d hag hlo
  exact h lo B' d hag (by omega)

theorem fwd_pure {α : Type} (a : α) : Fwd 0 (pure a : Dec α) := by
  intro lo B' d hag hlo
  refine ⟨fun e he => (by cases he), fun a1 d1 h => ?_⟩
  simp only [Dec.pure_apply, Except.ok.injEq, Prod.mk.injEq] at h
  obtain ⟨rfl, rfl⟩ := h
  exact ⟨rfl, rfl, by omega⟩

theorem fwd_bind {α β : Type} {x : Dec α} {f : α → Dec β} (hx : Fwd 0 x)
    (hf : ∀ a, Fwd 0 (f a)) : Fwd 0 (x >>= f) := by
  intro lo B' d hag hlo
  obtain ⟨hxe, hxo⟩ := hx lo B' d hag hlo
  constructor
  · intro e he
    rw [Dec.bind_apply] at he ⊢
    cases hxd : x d with
    | error e1 =>
      rw [hxd] at he
      simp only [Except.error.injEq] at he
      subst he
      rw [hxe _ hxd]
    | ok r =>
      obtain ⟨a, d1⟩ := r
      rw [hxd] at he
      simp only at he
      obtain ⟨ht, hb, hp⟩ := hxo a d1 hxd
      rw [ht]
      simp only
      exact (hf a lo B' d1 (by rw [hb]; exact hag) (by omega)).1 e he
  · intro b d2 he
    rw [Dec.bind_apply] at he ⊢
    cases hxd : x d with
    | error e1 => rw [hxd] at he; cases he
    | ok r =>
      obtain ⟨a, d1⟩ := r
      rw [hxd] at he
      simp only at he
      obtain ⟨ht, hb, hp⟩ := hxo a d1 hxd
      rw [ht]
      simp only
      obtain ⟨h1, h2, h3⟩ := (hf a lo B' d1 (by rw [hb]; exact hag) (by omega)).2 b d2 he
      exact ⟨h1, by rw [h2, hb], h3⟩

theorem fwd_ite {α : Type} {c : Prop} [Decidable c] {t e : Dec α} (ht : Fwd 0 t)
    (he : Fwd 0 e) : Fwd 0 (if c then t else e) := by
  split <;> assumption

theorem fwd_ite64 {α : Type} {c : Prop} [Decidable c] {t e : Dec α} (ht : Fwd 64 t)
    (he : Fwd 64 e) : Fwd 64 (if c then t else e) := by
  split <;> assumption

theorem fwd_TryU (n : Nat) (e : Endian) : Fwd 0 (TryU n e) := by
  intro lo B' d hag hlo
  have hlen := hag.1
  by_cases hc : 8 * d.buf.length < d.pos + n
  · have hc' : 8 * B'.length < d.pos + n := by omega
    refine ⟨fun er h => ?_, fun a d1 h => ?_⟩
    · simp only [Macho.TryU, hc, hc', if_true] at h ⊢
      exact h
    · simp [Macho.TryU, hc] at h
  · have hc' : ¬ 8 * B'.length < d.pos + n := by omega
    have hr := readU_agree hag (p := d.pos) (n := n) (by omega) (by omega) (by omega) e
    refine ⟨fun er h => ?_, fun a d1 h => ?_⟩
    · simp [Macho.TryU, hc] at h
    · simp only [Macho.TryU, hc, hc', if_false, Except.ok.injEq, Prod.mk.injEq] at h ⊢
      obtain ⟨rfl, rfl⟩ := h
      exact ⟨⟨hr, rfl⟩, rfl, by simp only; omega⟩

theorem fwd_U32 : Fwd 0 U32 := fun lo B' d hag hlo => fwd_TryU 32 d.Endian lo B' d hag hlo

theorem fwd_addScalar (name : String) (s : S) (start len : Nat) :
    Fwd 0 (addScalar name s start len) := by
  intro lo B' d hag hlo
  refine ⟨fun e he => (by cases he), fun a1 d1 h => ?_⟩
  simp only [Macho.addScalar, Except.ok.injEq, Prod.mk.injEq] at h
  obtain ⟨-, rfl⟩ := h
  exact ⟨rfl, rfl, by simp only; omega⟩

theorem FieldU_bind (nBits : Nat) (name : String) (sms : List Mapper) :
    FieldU nBits name sms = fun d => (TryU nBits d.Endian >>= fun v =>
      addScalar name (applyMappers sms ⟨.U v, none, ""⟩) d.pos nBits >>= fun _ => pure v) d := by
  funext d
  simp only [Macho.FieldU, Dec.bind_apply]
  cases TryU nBits d.Endian d with
  | error e => rfl
  | ok r =>
    obtain ⟨v, d1⟩ := r
    simp only
    cases addScalar name (applyMappers sms ⟨.U v, none, ""⟩) d.pos nBits d1 with
    | error e => rfl
    | ok r2 => rfl

/-- A decoder that is, at every state, a forward-looking decoder chosen from the state's cursor
and byte order. -/
theorem fwd_of_state {α : Type} {x : Dec α} (y : Nat → Endian → Dec α)
    (hy : ∀ p e, Fwd 0 (y p e)) (h : ∀ d, x d = y d.pos d.Endian d) : Fwd 0 x := by
  intro lo B' d hag hlo
  have := hy d.pos d.Endian lo B' d hag hlo
  rw [h d, h { d with buf := B' }]
  exact this

theorem fwd_FieldU (nBits : Nat) (name : String) (sms : List Mapper) :
    Fwd 0 (FieldU nBits name sms) := by
  refine fwd_of_state (fun p e => Macho.TryU nBits e >>= fun v =>
      Macho.addScalar name (applyMappers sms ⟨.U v, none, ""⟩) p nBits >>= fun _ => Pure.pure v)
    (fun p e => fwd_bind (fwd_TryU _ _) (fun v => fwd_bind (fwd_addScalar _ _ _ _)
      (fun _ => fwd_pure _))) (fun d => ?_)
  rw [FieldU_bind]

theorem fwd_FieldU8 (name : String) (sms : List Mapper) : Fwd 0 (FieldU8 name sms) :=
  fwd_FieldU 8 name sms

theorem fwd_FieldU32 (name : String) (sms : List Mapper) : Fwd 0 (FieldU32 name sms) :=
  fwd_FieldU 32 name sms

theorem fwd_FieldU64 (name : String) (sms : List Mapper) : Fwd 0 (FieldU64 name sms) :=
  fwd_FieldU 64 name sms

theorem fwd_FieldS32 (name : String) (sms : List Mapper) : Fwd 0 (FieldS32 name sms) := by
  refine fwd_of_state (fun p e => Macho.TryU 32 e >>= fun v =>
      Macho.addScalar name (applyMappers sms
        ⟨.S (if v < 2 ^ 31 then (v : Int) else (v : Int) - 2 ^ 32), none, ""⟩) p 32 >>=
        fun _ => Pure.pure (if v < 2 ^ 31 then (v : Int) else (v : Int) - 2 ^ 32))
    (fun p e => fwd_bind (fwd_TryU _ _) (fun v => fwd_bind (fwd_addScalar _ _ _ _)
      (fun _ => fwd_pure _))) (fun d => ?_)
  simp only [Macho.FieldS32, Dec.bind_apply]
  cases Macho.TryU 32 d.Endian d with
  | error e => rfl
  | ok r => rfl

theorem fwd_FieldBool (name : String) : Fwd 0 (FieldBool name) := by
  refine fwd_of_state (fun p _ => Macho.TryU 1 .BigEndian >>= fun v =>
      Macho.addScalar name ⟨.B (v == 1), none, ""⟩ p 1 >>= fun _ => Pure.pure (v == 1))
    (fun p e => fwd_bind (fwd_TryU _ _) (fun v => fwd_bind (fwd_addScalar _ _ _ _)
      (fun _ => fwd_pure _))) (fun d => ?_)
  simp only [Macho.FieldBool, Dec.bind_apply]
  cases Macho.TryU 1 .BigEndian d with
  | error e => rfl
  | ok r => rfl

theorem fwd_RawLen (nBits : Int) : Fwd 0 (RawLen nBits) := by
  by_cases h : nBits < 0
  · intro lo B' d hag hlo
    refine ⟨fun e he => ?_, fun a d1 he => ?_⟩
    · simp only [Macho.RawLen, h, if_true] at he ⊢
      exact he
    · simp [Macho.RawLen, h] at he
  · have : Macho.RawLen nBits = Macho.TryU nBits.toNat .BigEndian := by
      funext d
      simp [Macho.RawLen, h]
    rw [this]
    exact fwd_TryU _ _

theorem fwd_FieldRawLen (name : String) (nBits : Int) (sms : List Mapper) :
    Fwd 0 (FieldRawLen name nBits sms) := by
  refine fwd_of_state (fun p _ => Macho.RawLen nBits >>= fun v =>
      Macho.addScalar name (applyMappers sms ⟨.Raw v, none, ""⟩) p nBits.toNat)
    (fun p e => fwd_bind (fwd_RawLen _) (fun v => fwd_addScalar _ _ _ _)) (fun d => ?_)
  simp only [Macho.FieldRawLen, Dec.bind_apply]
  cases Macho.RawLen nBits d with
  | error e => rfl
  | ok r => rfl

theorem fwd_FieldValueS (name : String) (a : Int) : Fwd 0 (FieldValueS name a) :=
  fwd_of_state (fun p _ => Macho.addScalar name ⟨.S a, none, ""⟩ p 0)
    (fun _ _ => fwd_addScalar _ _ _ _) (fun _ => rfl)

theorem fwd_FieldValueU (name : String) (a : Nat) : Fwd 0 (FieldValueU name a) :=
  fwd_of_state (fun p _ => Macho.addScalar name ⟨.U a, none, ""⟩ p 0)
    (fun _ _ => fwd_addScalar _ _ _ _) (fun _ => rfl)

theorem fwd_FieldValueStr (name : String) (a : String) : Fwd 0 (FieldValueStr name a) :=
  fwd_of_state (fun p _ => Macho.addScalar name ⟨.Str [], some a, ""⟩ p 0)
    (fun _ _ => fwd_addScalar _ _ _ _) (fun _ => rfl)
theorem fwd_FieldBitBufFn (name : String) {fn : Dec Nat} (hfn : Fwd 0 fn) :
    Fwd 0 (FieldBitBufFn name fn) := by
  intro lo B' d hag hlo
  obtain ⟨hfe, hfo⟩ := hfn lo B' d hag hlo
  unfold Macho.FieldBitBufFn
  constructor
  · intro e he
    cases hr : fn d with
    | error e1 =>
      rw [hr] at he
      simp only [Except.error.injEq] at he
      subst he
      rw [hfe _ hr]
    | ok r =>
      rw [hr] at he
      simp [Macho.addScalar] at he
  · intro a d2 he
    cases hr : fn d with
    | error e1 => rw [hr] at he; cases he
    | ok r =>
      obtain ⟨v, d1⟩ := r
      rw [hr] at he
      obtain ⟨ht, hb, hp⟩ := hfo v d1 hr
      rw [ht]
      simp only [Macho.addScalar, Except.ok.injEq, Prod.mk.injEq] at he ⊢
      obtain ⟨-, rfl⟩ := he
      exact ⟨⟨trivial, rfl⟩, hb, hp⟩

theorem fwd_FieldUTF8NullFixedLen (name : String) (fixedBytes : Int) :
    Fwd 0 (FieldUTF8NullFixedLen name fixedBytes) := by
  intro lo B' d hag hlo
  have hlen := hag.1
  unfold Macho.FieldUTF8NullFixedLen
  by_cases h0 : fixedBytes < 0
  · simp only [h0, if_true]
    exact ⟨fun e he => he, fun a d1 he => by cases he⟩
  · simp only [h0, if_false]
    by_cases hc : 8 * d.buf.length < d.pos + 8 * fixedBytes.toNat
    · have hc' : 8 * B'.length < d.pos + 8 * fixedBytes.toNat := by omega
      simp only [hc, hc', if_true]
      exact ⟨fun e he => he, fun a d1 he => by cases he⟩
    · have hc' : ¬ 8 * B'.length < d.pos + 8 * fixedBytes.toNat := by omega
      have hr := readBytes_agree hag (p := d.pos) (k := fixedBytes.toNat) (by omega) (by omega)
        (by omega)
      simp only [hc, hc', if_false, Macho.addScalar, hr]
      refine ⟨fun e he => (by cases he), fun a d1 he => ?_⟩
      simp only [Except.ok.injEq, Prod.mk.injEq] at he
      obtain ⟨rfl, rfl⟩ := he
      exact ⟨rfl, rfl, by simp only; omega⟩

theorem fwd_FieldUTF8Null (name : String) : Fwd 0 (FieldUTF8Null name) := by
  intro lo B' d hag hlo
  have hlen := hag.1
  unfold Macho.FieldUTF8Null
  have hfn := findNull_agree hag d.buf.length d.pos (by omega)
  simp only
  rw [← hlen, hfn]
  cases hk : findNull d.buf d.buf.length d.pos with
  | none => exact ⟨fun e he => he, fun a d1 he => by cases he⟩
  | some k =>
    have hfit := findNull_fits d.buf _ _ _ hk
    have hr := readBytes_agree hag (p := d.pos) (k := k) (by omega) (by omega) (by omega)
    simp only [Macho.addScalar, hr]
    refine ⟨fun e he => (by cases he), fun a d1 he => ?_⟩
    simp only [Except.ok.injEq, Prod.mk.injEq] at he
    obtain ⟨rfl, rfl⟩ := he
    exact ⟨rfl, rfl, by simp only; omega⟩

theorem fwd_FieldStruct {α : Type} (name : String) {fn : Dec α} (hfn : Fwd 0 fn) :
    Fwd 0 (FieldStruct name fn) := by
  intro lo B' d hag hlo
  obtain ⟨hfe, hfo⟩ := hfn lo B' { d with children := [] } hag hlo
  unfold Macho.FieldStruct
  constructor
  · intro e he
    cases hr : fn { d with children := [] } with
    | error e1 =>
      rw [hr] at he
      simp only [Except.error.injEq] at he
      subst he
      have := hfe _ hr
      simp only at this ⊢
      rw [this]
    | ok r => rw [hr] at he; cases he
  · intro a d2 he
    cases hr : fn { d with children := [] } with
    | error e1 => rw [hr] at he; cases he
    | ok r =>
      obtain ⟨v, d1⟩ := r
      rw [hr] at he
      simp only [Except.ok.injEq, Prod.mk.injEq] at he
      obtain ⟨rfl, rfl⟩ := he
      obtain ⟨ht, hb, hp⟩ := hfo v d1 hr
      refine ⟨?_, rfl, hp⟩
      simp only at ht ⊢
      rw [ht]

theorem fwd_structLoop {α : Type} (structName : String) {fn : Nat → Dec α}
    (hfn : ∀ i, Fwd 0 (fn i)) (n : Nat) : ∀ idx, Fwd 0 (structLoop structName fn n idx) := by
  induction n with
  | zero => intro idx; exact fwd_pure _
  | succ n ih =>
    intro idx
    rw [structLoop_succ]
    exact fwd_bind (fwd_FieldStruct _ (hfn idx))
      (fun _ => fwd_bind (ih (idx + 1)) (fun _ => fwd_pure _))

theorem fwd_FieldStructArrayLoop {α : Type} (name structName : String) (n : Nat)
    {fn : Nat → Dec α} (hfn : ∀ i, Fwd 0 (fn i)) :
    Fwd 0 (FieldStructArrayLoop name structName n fn) := by
  intro lo B' d hag hlo
  obtain ⟨hfe, hfo⟩ := fwd_structLoop structName hfn n 0 lo B' { d with children := [] } hag hlo
  unfold Macho.FieldStructArrayLoop
  constructor
  · intro e he
    cases hr : Macho.structLoop structName fn n 0 { d with children := [] } with
    | error e1 =>
      rw [hr] at he
      simp only [Except.error.injEq] at he
      subst he
      have := hfe _ hr
      simp only at this ⊢
      rw [this]
    | ok r => rw [hr] at he; cases he
  · intro a d2 he
    cases hr : Macho.structLoop structName fn n 0 { d with children := [] } with
    | error e1 => rw [hr] at he; cases he
    | ok r =>
      obtain ⟨v, d1⟩ := r
      rw [hr] at he
      simp only [Except.ok.injEq, Prod.mk.injEq] at he
      obtain ⟨rfl, rfl⟩ := he
      obtain ⟨ht, hb, hp⟩ := hfo v d1 hr
      refine ⟨?_, rfl, hp⟩
      simp only at ht ⊢
      rw [ht]

/-- A seek of no more than 64 bits back, started at least 64 bits after the floor, stays at or
after the floor; it reads nothing. -/
theorem fwd_seekBack (delta : Int) (h : -64 ≤ delta) :
    Fwd 64 (SeekRel delta >>= fun _ => (Pure.pure () : Dec Unit)) := by
  intro lo B' d hag hlo
  have h0 : ¬ ((d.pos : Int) + delta < 0) := by omega
  simp only [Dec.bind_apply, SeekRel, h0, if_false, Dec.pure_apply]
  refine ⟨fun e he => (by cases he), fun a d1 he => ?_⟩
  simp only [Except.ok.injEq, Prod.mk.injEq] at he
  obtain ⟨-, rfl⟩ := he
  exact ⟨rfl, rfl, by simp only; omega⟩

/-- After a 32-bit field the cursor is 32 bits further from the floor. -/
theorem fwd_bind_FieldU32 {β : Type} (name : String) (sms : List Mapper) {f : Nat → Dec β}
    (k : Nat) (hf : ∀ a, a < 2 ^ 32 → Fwd (k + 32) (f a)) :
    Fwd k (Macho.FieldU32 name sms >>= f) := by
  intro lo B' d hag hlo
  have hx := fwd_FieldU32 name sms lo B' d hag (by omega)
  obtain ⟨hxe, hxo⟩ := hx
  constructor
  · intro e he
    rw [Dec.bind_apply] at he ⊢
    cases hxd : Macho.FieldU32 name sms d with
    | error e1 =>
      rw [hxd] at he
      simp only [Except.error.injEq] at he
      subst he
      rw [hxe _ hxd]
    | ok r =>
      obtain ⟨a, d1⟩ := r
      rw [hxd] at he
      simp only at he
      obtain ⟨ht, hb, hp⟩ := hxo a d1 hxd
      obtain ⟨-, hlt, -, hd1⟩ := FieldU32_ok hxd
      rw [ht]
      simp only
      exact (hf a hlt lo B' d1 (by rw [hb]; exact hag) (by rw [hd1]; simp only; omega)).1 e he
  · intro b d2 he
    rw [Dec.bind_apply] at he ⊢
    cases hxd : Macho.FieldU32 name sms d with
    | error e1 => rw [hxd] at he; cases he
    | ok r =>
      obtain ⟨a, d1⟩ := r
      rw [hxd] at he
      simp only at he
      obtain ⟨ht, hb, hp⟩ := hxo a d1 hxd
      obtain ⟨-, hlt, -, hd1⟩ := FieldU32_ok hxd
      rw [ht]
      simp only
      obtain ⟨h1, h2, h3⟩ :=
        (hf a hlt lo B' d1 (by rw [hb]; exact hag) (by rw [hd1]; simp only; omega)).2 b d2 he
      exact ⟨h1, by rw [h2, hb], h3⟩

theorem toInt64_skip_ge {cmdsize : Nat} (h32 : cmdsize < 2 ^ 32) :
    -64 ≤ toInt64 (((cmdsize + 2 ^ 64 - 8) % 2 ^ 64) * 8) := by
  unfold toInt64
  by_cases h8 : 8 ≤ cmdsize
  · have h1 : (cmdsize + 2 ^ 64 - 8) % 2 ^ 64 = cmdsize - 8 := by omega
    rw [h1]
    split_ifs <;> omega
  · have h1 : (cmdsize + 2 ^ 64 - 8) % 2 ^ 64 = 2 ^ 64 - (8 - cmdsize) := by omega
    rw [h1]
    have h2 : (2 ^ 64 - (8 - cmdsize)) * 8 % 2 ^ 64 = 2 ^ 64 - 8 * (8 - cmdsize) := by omega
    rw [h2]
    split_ifs <;> omega
/-! ### The load commands only look forward -/

theorem fwd_parseSegmentFlags :
    Fwd 0 (Macho.parseSegmentFlags) := by
  unfold Macho.parseSegmentFlags
  repeat' with_reducible first
    | exact fwd_pure _
    | exact fwd_FieldBool _
    | exact fwd_FieldRawLen _ _ _
    | exact fwd_FieldU32 _ _
    | exact fwd_FieldU64 _ _
    | exact fwd_FieldS32 _ _
    | exact fwd_FieldU8 _ _
    | exact fwd_U32
    | exact fwd_RawLen _
    | exact fwd_FieldUTF8NullFixedLen _ _
    | exact fwd_FieldUTF8Null _
    | exact fwd_FieldValueS _ _
    | exact fwd_FieldValueU _ _
    | exact fwd_FieldValueStr _ _
    | apply fwd_bind
    | apply fwd_ite
    | apply fwd_FieldStruct
    | apply fwd_FieldStructArrayLoop
    | apply fwd_FieldBitBufFn
    | intro _

theorem fwd_parseSectionFlags :
    Fwd 0 (Macho.parseSectionFlags) := by
  unfold Macho.parseSectionFlags
  repeat' with_reducible first
    | exact fwd_pure _
    | exact fwd_FieldBool _
    | exact fwd_FieldRawLen _ _ _
    | exact fwd_FieldU32 _ _
    | exact fwd_FieldU64 _ _
    | exact fwd_FieldS32 _ _
    | exact fwd_FieldU8 _ _
    | exact fwd_U32
    | exact fwd_RawLen _
    | exact fwd_FieldUTF8NullFixedLen _ _
    | exact fwd_FieldUTF8Null _
    | exact fwd_FieldValueS _ _
    | exact fwd_FieldValueU _ _
    | exact fwd_FieldValueStr _ _
    | apply fwd_bind
    | apply fwd_ite
    | apply fwd_FieldStruct
    | apply fwd_FieldStructArrayLoop
    | apply fwd_FieldBitBufFn
    | intro _

theorem fwd_threadStateI386Decode :
    Fwd 0 (Macho.threadStateI386Decode) := by
  unfold Macho.threadStateI386Decode
  repeat' with_reducible first
    | exact fwd_pure _
    | exact fwd_FieldBool _
    | exact fwd_FieldRawLen _ _ _
    | exact fwd_FieldU32 _ _
    | exact fwd_FieldU64 _ _
    | exact fwd_FieldS32 _ _
    | exact fwd_FieldU8 _ _
    | exact fwd_U32
    | exact fwd_RawLen _
    | exact fwd_FieldUTF8NullFixedLen _ _
    | exact fwd_FieldUTF8Null _
    | exact fwd_FieldValueS _ _
    | exact fwd_FieldValueU _ _
    | exact fwd_FieldValueStr _ _
    | apply fwd_bind
    | apply fwd_ite
    | apply fwd_FieldStruct
    | apply fwd_FieldStructArrayLoop
    | apply fwd_FieldBitBufFn
    | intro _

theorem fwd_threadStateX8664Decode :
    Fwd 0 (Macho.threadStateX8664Decode) := by
  unfold Macho.threadStateX8664Decode
  repeat' with_reducible first
    | exact fwd_pure _
    | exact fwd_FieldBool _
    | exact fwd_FieldRawLen _ _ _
    | exact fwd_FieldU32 _ _
    | exact fwd_FieldU64 _ _
    | exact fwd_FieldS32 _ _
    | exact fwd_FieldU8 _ _
    | exact fwd_U32
    | exact fwd_RawLen _
    | exact fwd_FieldUTF8NullFixedLen _ _
    | exact fwd_FieldUTF8Null _
    | exact fwd_FieldValueS _ _
    | exact fwd_FieldValueU _ _
    | exact fwd_FieldValueStr _ _
    | apply fwd_bind
    | apply fwd_ite
    | apply fwd_FieldStruct
    | apply fwd_FieldStructArrayLoop
    | apply fwd_FieldBitBufFn
    | intro _

theorem fwd_threadStateARM32Decode :
    Fwd 0 (Macho.threadStateARM32Decode) := by
  unfold Macho.threadStateARM32Decode
  repeat' with_reducible first
    | exact fwd_pure _
    | exact fwd_FieldBool _
    | exact fwd_FieldRawLen _ _ _
    | exact fwd_FieldU32 _ _
    | exact fwd_FieldU64 _ _
    | exact fwd_FieldS32 _ _
    | exact fwd_FieldU8 _ _
    | exact fwd_U32
    | exact fwd_RawLen _
    | exact fwd_FieldUTF8NullFixedLen _ _
    | exact fwd_FieldUTF8Null _
    | exact fwd_FieldValueS _ _
    | exact fwd_FieldValueU _ _
    | exact fwd_FieldValueStr _ _
    | apply fwd_bind
    | apply fwd_ite
    | apply fwd_FieldStruct
    | apply fwd_FieldStructArrayLoop
    | apply fwd_FieldBitBufFn
    | intro _

theorem fwd_threadStateARM64Decode :
    Fwd 0 (Macho.threadStateARM64Decode) := by
  unfold Macho.threadStateARM64Decode
  repeat' with_reducible first
    | exact fwd_pure _
    | exact fwd_FieldBool _
    | exact fwd_FieldRawLen _ _ _
    | exact fwd_FieldU32 _ _
    | exact fwd_FieldU64 _ _
    | exact fwd_FieldS32 _ _
    | exact fwd_FieldU8 _ _
    | exact fwd_U32
    | exact fwd_RawLen _
    | exact fwd_FieldUTF8NullFixedLen _ _
    | exact fwd_FieldUTF8Null _
    | exact fwd_FieldValueS _ _
    | exact fwd_FieldValueU _ _
    | exact fwd_FieldValueStr _ _
    | apply fwd_bind
    | apply fwd_ite
    | apply fwd_FieldStruct
    | apply fwd_FieldStructArrayLoop
    | apply fwd_FieldBitBufFn
    | intro _

theorem fwd_threadStatePPC32Decode :
    Fwd 0 (Macho.threadStatePPC32Decode) := by
  unfold Macho.threadStatePPC32Decode
  repeat' with_reducible first
    | exact fwd_pure _
    | exact fwd_FieldBool _
    | exact fwd_FieldRawLen _ _ _
    | exact fwd_FieldU32 _ _
    | exact fwd_FieldU64 _ _
    | exact fwd_FieldS32 _ _
    | exact fwd_FieldU8 _ _
    | exact fwd_U32
    | exact fwd_RawLen _
    | exact fwd_FieldUTF8NullFixedLen _ _
    | exact fwd_FieldUTF8Null _
    | exact fwd_FieldValueS _ _
    | exact fwd_FieldValueU _ _
    | exact fwd_FieldValueStr _ _
    | apply fwd_bind
    | apply fwd_ite
    | apply fwd_FieldStruct
    | apply fwd_FieldStructArrayLoop
    | apply fwd_FieldBitBufFn
    | intro _

theorem fwd_threadStatePPC64Decode :
    Fwd 0 (Macho.threadStatePPC64Decode) := by
  unfold Macho.threadStatePPC64Decode
  repeat' with_reducible first
    | exact fwd_pure _
    | exact fwd_FieldBool _
    | exact fwd_FieldRawLen _ _ _
    | exact fwd_FieldU32 _ _
    | exact fwd_FieldU64 _ _
    | exact fwd_FieldS32 _ _
    | exact fwd_FieldU8 _ _
    | exact fwd_U32
    | exact fwd_RawLen _
    | exact fwd_FieldUTF8NullFixedLen _ _
    | exact fwd_FieldUTF8Null _
    | exact fwd_FieldValueS _ _
    | exact fwd_FieldValueU _ _
    | exact fwd_FieldValueStr _ _
    | apply fwd_bind
    | apply fwd_ite
    | apply fwd_FieldStruct
    | apply fwd_FieldStructArrayLoop
    | apply fwd_FieldBitBufFn
    | intro _

theorem fwd_sectionDecode (archBits : Int) :
    Fwd 0 (Macho.sectionDecode archBits) := by
  unfold Macho.sectionDecode
  repeat' with_reducible first
    | exact fwd_pure _
    | exact fwd_FieldBool _
    | exact fwd_FieldRawLen _ _ _
    | exact fwd_FieldU32 _ _
    | exact fwd_FieldU64 _ _
    | exact fwd_FieldS32 _ _
    | exact fwd_FieldU8 _ _
    | exact fwd_U32
    | exact fwd_RawLen _
    | exact fwd_FieldUTF8NullFixedLen _ _
    | exact fwd_FieldUTF8Null _
    | exact fwd_FieldValueS _ _
    | exact fwd_FieldValueU _ _
    | exact fwd_FieldValueStr _ _
    | exact fwd_parseSectionFlags
    | apply fwd_bind
    | apply fwd_ite
    | apply fwd_FieldStruct
    | apply fwd_FieldStructArrayLoop
    | apply fwd_FieldBitBufFn
    | intro _

theorem fwd_segmentCommandDecode (archBits : Int) :
    Fwd 0 (Macho.segmentCommandDecode archBits) := by
  unfold Macho.segmentCommandDecode
  repeat' with_reducible first
    | exact fwd_pure _
    | exact fwd_FieldBool _
    | exact fwd_FieldRawLen _ _ _
    | exact fwd_FieldU32 _ _
    | exact fwd_FieldU64 _ _
    | exact fwd_FieldS32 _ _
    | exact fwd_FieldU8 _ _
    | exact fwd_U32
    | exact fwd_RawLen _
    | exact fwd_FieldUTF8NullFixedLen _ _
    | exact fwd_FieldUTF8Null _
    | exact fwd_FieldValueS _ _
    | exact fwd_FieldValueU _ _
    | exact fwd_FieldValueStr _ _
    | exact fwd_parseSegmentFlags
    | apply fwd_bind
    | apply fwd_ite
    | apply fwd_FieldStruct
    | apply fwd_FieldStructArrayLoop
    | apply fwd_FieldBitBufFn
    | intro _

theorem fwd_threadStateDecode (cpuType count : Nat) :
    Fwd 0 (Macho.threadStateDecode cpuType count) := by
  unfold Macho.threadStateDecode
  repeat' with_reducible first
    | exact fwd_pure _
    | exact fwd_FieldBool _
    | exact fwd_FieldRawLen _ _ _
    | exact fwd_FieldU32 _ _
    | exact fwd_FieldU64 _ _
    | exact fwd_FieldS32 _ _
    | exact fwd_FieldU8 _ _
    | exact fwd_U32
    | exact fwd_RawLen _
    | exact fwd_FieldUTF8NullFixedLen _ _
    | exact fwd_FieldUTF8Null _
    | exact fwd_FieldValueS _ _
    | exact fwd_FieldValueU _ _
    | exact fwd_FieldValueStr _ _
    | exact fwd_threadStateI386Decode
    | exact fwd_threadStateX8664Decode
    | exact fwd_threadStateARM32Decode
    | exact fwd_threadStateARM64Decode
    | exact fwd_threadStatePPC32Decode
    | exact fwd_threadStatePPC64Decode
    | apply fwd_bind
    | apply fwd_ite
    | apply fwd_FieldStruct
    | apply fwd_FieldStructArrayLoop
    | apply fwd_FieldBitBufFn
    | intro _

/-- The payload of a command, started 64 bits after the start of the command: the one backward
move, the seek of an unknown id with `cmdsize` below 8, does not go back past the start of the
command. -/
theorem fwd_loadCommandPayload (archBits : Int) (cpuType cmd : Nat) {cmdsize : Nat}
    (hc : cmdsize < 2 ^ 32) :
    Fwd 64 (Macho.loadCommandPayload archBits cpuType cmd cmdsize) := by
  unfold Macho.loadCommandPayload
  repeat' with_reducible first
    | exact fwd_seekBack _ (toInt64_skip_ge hc)
    | apply fwd_ite64
    | apply fwd_slack
    | exact fwd_pure _
    | exact fwd_FieldBool _
    | exact fwd_FieldRawLen _ _ _
    | exact fwd_FieldU32 _ _
    | exact fwd_FieldU64 _ _
    | exact fwd_FieldS32 _ _
    | exact fwd_FieldU8 _ _
    | exact fwd_U32
    | exact fwd_RawLen _
    | exact fwd_FieldUTF8NullFixedLen _ _
    | exact fwd_FieldUTF8Null _
    | exact fwd_FieldValueS _ _
    | exact fwd_FieldValueU _ _
    | exact fwd_FieldValueStr _ _
    | exact fwd_segmentCommandDecode _
    | exact fwd_sectionDecode _
    | exact fwd_threadStateDecode _ _
    | apply fwd_bind
    | apply fwd_ite
    | apply fwd_FieldStruct
    | apply fwd_FieldStructArrayLoop
    | apply fwd_FieldBitBufFn
    | intro _

theorem fwd_loadCommand (archBits : Int) (cpuType : Nat) :
    Fwd 0 (Macho.loadCommand archBits cpuType) := by
  unfold Macho.loadCommand
  exact fwd_bind_FieldU32 _ _ 0 (fun cmd _ =>
    fwd_bind_FieldU32 _ _ 32 (fun cmdsize hc => fwd_loadCommandPayload archBits cpuType cmd hc))

/-! ### The header reads between its start and its end -/

theorem AgreeOn.mono {lo hi lo1 hi1 : Nat} {B B' : List Nat} (h : AgreeOn lo hi B B')
    (hlo : lo ≤ lo1) (hhi : hi1 ≤ hi) : AgreeOn lo1 hi1 B B' :=
  ⟨h.1, fun p n h1 h2 h3 => h.2 p n (by omega) (by omega) h3⟩

theorem region_pure {α : Type} (a : α) : Region (pure a : Dec α) := by
  intro d a1 d1 h
  simp only [Dec.pure_apply, Except.ok.injEq, Prod.mk.injEq] at h
  obtain ⟨rfl, rfl⟩ := h
  exact ⟨rfl, Nat.le_refl _, fun _ _ => rfl⟩

theorem region_bind {α β : Type} {x : Dec α} {f : α → Dec β} (hx : Region x)
    (hf : ∀ a, Region (f a)) : Region (x >>= f) := by
  intro d b d2 h
  rw [Dec.bind_eq_ok] at h
  obtain ⟨a, d1, h1, h2⟩ := h
  obtain ⟨hb1, hp1, ht1⟩ := hx d a d1 h1
  obtain ⟨hb2, hp2, ht2⟩ := hf a d1 b d2 h2
  refine ⟨by rw [hb2, hb1], by omega, fun B' hag => ?_⟩
  rw [Dec.bind_apply, ht1 B' (hag.mono (Nat.le_refl _) hp2)]
  simp only
  exact ht2 B' (by rw [hb1]; exact hag.mono hp1 (Nat.le_refl _))

theorem region_of_state {α : Type} {x : Dec α} (y : Nat → Endian → Dec α)
    (hy : ∀ p e, Region (y p e)) (h : ∀ d, x d = y d.pos d.Endian d) : Region x := by
  intro d a d1 hx
  rw [h d] at hx
  obtain ⟨hb, hp, ht⟩ := hy d.pos d.Endian d a d1 hx
  refine ⟨hb, hp, fun B' hag => ?_⟩
  rw [h { d with buf := B' }]
  exact ht B' hag

theorem region_TryU (n : Nat) (e : Endian) : Region (TryU n e) := by
  intro d a d1 h
  by_cases hc : 8 * d.buf.length < d.pos + n
  · simp [Macho.TryU, hc] at h
  · simp only [Macho.TryU, hc, if_false, Except.ok.injEq, Prod.mk.injEq] at h
    obtain ⟨rfl, rfl⟩ := h
    refine ⟨rfl, by simp only; omega, fun B' hag => ?_⟩
    have hc' : ¬ 8 * B'.length < d.pos + n := by have := hag.1; omega
    have hr := readU_agree hag (p := d.pos) (n := n) (Nat.le_refl _) (Nat.le_refl _)
      (by omega) e
    simp only [Macho.TryU, hc', if_false, hr]

theorem region_addScalar (name : String) (s : S) (start len : Nat) :
    Region (addScalar name s start len) := by
  intro d a d1 h
  simp only [Macho.addScalar, Except.ok.injEq, Prod.mk.injEq] at h
  obtain ⟨-, rfl⟩ := h
  exact ⟨rfl, Nat.le_refl _, fun _ _ => rfl⟩

theorem region_FieldU32 (name : String) (sms : List Mapper) : Region (FieldU32 name sms) := by
  refine region_of_state (fun p e => Macho.TryU 32 e >>= fun v =>
      Macho.addScalar name (applyMappers sms ⟨.U v, none, ""⟩) p 32 >>= fun _ => Pure.pure v)
    (fun p e => region_bind (region_TryU _ _) (fun v => region_bind (region_addScalar _ _ _ _)
      (fun _ => region_pure _))) (fun d => ?_)
  unfold Macho.FieldU32
  rw [FieldU_bind]

theorem region_FieldBool (name : String) : Region (FieldBool name) := by
  refine region_of_state (fun p _ => Macho.TryU 1 .BigEndian >>= fun v =>
      Macho.addScalar name ⟨.B (v == 1), none, ""⟩ p 1 >>= fun _ => Pure.pure (v == 1))
    (fun p e => region_bind (region_TryU _ _) (fun v => region_bind (region_addScalar _ _ _ _)
      (fun _ => region_pure _))) (fun d => ?_)
  simp only [Macho.FieldBool, Dec.bind_apply]
  cases Macho.TryU 1 .BigEndian d with
  | error e => rfl
  | ok r => rfl

theorem region_FieldRawLen (name : String) (nBits : Int) (sms : List Mapper)
    (h0 : 0 ≤ nBits) : Region (FieldRawLen name nBits sms) := by
  refine region_of_state (fun p _ => Macho.TryU nBits.toNat .BigEndian >>= fun v =>
      Macho.addScalar name (applyMappers sms ⟨.Raw v, none, ""⟩) p nBits.toNat)
    (fun p e => region_bind (region_TryU _ _) (fun v => region_addScalar _ _ _ _)) (fun d => ?_)
  have h1 : ¬ (nBits < 0) := by omega
  simp only [Macho.FieldRawLen, Macho.RawLen, h1, if_false, Dec.bind_apply]
  cases Macho.TryU nBits.toNat .BigEndian d with
  | error e => rfl
  | ok r => rfl

theorem region_FieldValueS (name : String) (a : Int) : Region (FieldValueS name a) :=
  region_of_state (fun p _ => Macho.addScalar name ⟨.S a, none, ""⟩ p 0)
    (fun _ _ => region_addScalar _ _ _ _) (fun _ => rfl)

theorem region_FieldValueU (name : String) (a : Nat) : Region (FieldValueU name a) :=
  region_of_state (fun p _ => Macho.addScalar name ⟨.U a, none, ""⟩ p 0)
    (fun _ _ => region_addScalar _ _ _ _) (fun _ => rfl)

theorem region_FieldValueStr (name : String) (a : String) : Region (FieldValueStr name a) :=
  region_of_state (fun p _ => Macho.addScalar name ⟨.Str [], some a, ""⟩ p 0)
    (fun _ _ => region_addScalar _ _ _ _) (fun _ => rfl)

theorem region_FieldStruct {α : Type} (name : String) {fn : Dec α} (hfn : Region fn) :
    Region (FieldStruct name fn) := by
  intro d a d2 h
  rw [FieldStruct_eq_ok] at h
  obtain ⟨cd, hcd, hd2⟩ := h
  simp only at hcd hd2
  obtain ⟨hb, hp, ht⟩ := hfn _ _ _ hcd
  subst hd2
  refine ⟨rfl, hp, fun B' hag => ?_⟩
  have := ht B' hag
  unfold Macho.FieldStruct
  simp only at this ⊢
  rw [this]

theorem region_parseMachHeaderFlags : Region parseMachHeaderFlags := by
  unfold Macho.parseMachHeaderFlags
  repeat' with_reducible first
    | exact region_pure _
    | exact region_FieldBool _
    | exact region_FieldRawLen _ _ _ (by decide)
    | apply region_bind
    | intro _

theorem region_headerFields (archBits : Int) : Region (headerFields archBits) := by
  unfold Macho.headerFields
  repeat' with_reducible first
    | exact region_pure _
    | exact region_FieldU32 _ _
    | exact region_FieldValueS _ _
    | exact region_FieldValueU _ _
    | exact region_FieldValueStr _ _
    | exact region_FieldStruct _ region_parseMachHeaderFlags
    | apply region_bind
    | intro _

theorem Dec.bind_assoc {α β γ : Type} (x : Dec α) (f : α → Dec β) (g : β → Dec γ) :
    (x >>= f) >>= g = x >>= fun a => f a >>= g := by
  funext d
  simp only [Dec.bind_apply]
  cases x d with
  | error e => rfl
  | ok r => rfl

/-- The 64-bit header is its fields before `reserved`, then the `reserved` field. -/
theorem headerDecode64_eq :
    headerDecode 64 = (headerFields 64 >>= fun r =>
      FieldRawLen "reserved" (4 * 8) [BitBufIsZero] >>= fun _ => pure r) := by
  unfold headerDecode headerFields
  simp only [Dec.bind_assoc, if_true]
  rfl
theorem layout_FieldValueU (name : String) (a : Nat) :
    Layout (FieldValueU name a) 0 [Shape.Leaf name 0] := by
  intro d
  unfold LayoutAt
  refine ⟨fun _ => ⟨_, _, rfl, rfl, rfl, rfl, _, rfl, rfl⟩, fun h => ?_⟩
  omega

theorem layout_FieldValueStr (name : String) (a : String) :
    Layout (FieldValueStr name a) 0 [Shape.Leaf name 0] := by
  intro d
  unfold LayoutAt
  refine ⟨fun _ => ⟨_, _, rfl, rfl, rfl, rfl, _, rfl, rfl⟩, fun h => ?_⟩
  omega

theorem layout_parseMachHeaderFlags : Layout parseMachHeaderFlags 32 machHeaderFlagsShape := by
  apply layout_cast
  case h =>
    unfold Macho.parseMachHeaderFlags
    repeat' with_reducible first
        | exact layout_pure _
        | exact layout_FieldBool _
        | exact layout_FieldRawLen _ _ _ (by decide)
        | apply layout_bind
        | intro _
  case hn => rfl
  case hs => rfl

theorem layout_headerFields (archBits : Int) :
    Layout (headerFields archBits) (8 * 28) headerShape32 := by
  apply layout_cast
  case h =>
    unfold Macho.headerFields
    repeat' with_reducible first
        | exact layout_pure _
        | exact layout_FieldU32 _ _
        | exact layout_FieldValueS _ _
        | exact layout_FieldValueU _ _
        | exact layout_FieldValueStr _ _
        | exact layout_FieldStruct _ layout_parseMachHeaderFlags
        | apply layout_bind
        | intro _
  case hn => rfl
  case hs => rfl

theorem layout_headerDecode32 : Layout (headerDecode 32) (8 * 28) headerShape32 := by
  apply layout_cast
  case h =>
    unfold Macho.headerDecode
    simp only [show ((32 : Int) = 64) = False from by decide, if_false]
    repeat' with_reducible first
        | exact layout_pure _
        | exact layout_FieldU32 _ _
        | exact layout_FieldValueS _ _
        | exact layout_FieldValueU _ _
        | exact layout_FieldValueStr _ _
        | exact layout_FieldStruct _ layout_parseMachHeaderFlags
        | apply layout_bind
        | intro _
  case hn => rfl
  case hs => rfl

theorem layout_headerDecode64 : Layout (headerDecode 64) (8 * 32) headerShape64 := by
  apply layout_cast
  case h =>
    unfold Macho.headerDecode
    simp only [if_true]
    repeat' with_reducible first
        | exact layout_pure _
        | exact layout_FieldU32 _ _
        | exact layout_FieldValueS _ _
        | exact layout_FieldValueU _ _
        | exact layout_FieldValueStr _ _
        | exact layout_FieldRawLen _ _ _ (by decide)
        | exact layout_FieldStruct _ layout_parseMachHeaderFlags
        | apply layout_bind
        | intro _
  case hn => rfl
  case hs => rfl
/-! ### The reserved header bytes (C20) -/

theorem eraseReserved_reserved (s : S) (start len : Nat) :
    eraseReserved (Value.Scalar "reserved" s start len) =
      Value.Scalar "reserved" ⟨.Raw 0, none, ""⟩ start len := by
  simp [eraseReserved]

/-- The thin path of a 64-bit object on two buffers that differ at most in the four reserved
bytes of the header that starts at bit `p`: the same failure, or the same end and the same tree
up to the value of `reserved`. -/
theorem ofileThin64_reserved (B B' : List Nat) (p : Nat) (E : Endian)
    (hlow : AgreeOn p (p + 224) B B') (hhigh : AgreeOn (p + 256) (8 * B.length) B B')
    (hfit : p + 256 ≤ 8 * B.length) :
    endPos (ofileThin 64 ⟨B, p + 32, E, []⟩) = endPos (ofileThin 64 ⟨B', p + 32, E, []⟩) ∧
    (decoded (ofileThin 64 ⟨B, p + 32, E, []⟩)).map forgetReserved =
      (decoded (ofileThin 64 ⟨B', p + 32, E, []⟩)).map forgetReserved := by
  have hlen : B.length = B'.length := hlow.1
  have hseek : ∀ X : List Nat, SeekRel (-4 * 8) ⟨X, p + 32, E, []⟩ = .ok (p, ⟨X, p, E, []⟩) := by
    intro X
    have h0 : ¬ (((p + 32 : Nat) : Int) + -4 * 8 < 0) := by omega
    have h1 : (((p + 32 : Nat) : Int) + -4 * 8).toNat = p := by omega
    simp only [SeekRel, h0, if_false, h1]
  -- the fields before `reserved`
  obtain ⟨r, d8, h8, hp8, hb8, he8, cs8, hc8, -⟩ :=
    (layout_headerFields 64 ⟨B, p, E, []⟩).1 (Or.inr (by simp only; omega))
  simp only at hp8 hb8 he8 hc8
  obtain ⟨cpu, n⟩ := r
  have h8' : headerFields 64 ⟨B', p, E, []⟩ = .ok ((cpu, n), { d8 with buf := B' }) :=
    (region_headerFields 64 _ _ _ h8).2.2 B' (by simp only; rw [hp8]; exact hlow)
  -- the `reserved` field
  have e32 : ((4 : Int) * 8) = ((32 : Nat) : Int) := by norm_num
  have hres : ∀ X : List Nat, p + 256 ≤ 8 * X.length →
      headerFields 64 ⟨X, p, E, []⟩ = .ok ((cpu, n), { d8 with buf := X }) →
      FieldStruct "header" (headerDecode 64) ⟨X, p, E, []⟩ = .ok ((cpu, n),
        ⟨X, p + 256, E, [Value.Struct "header" (cs8 ++ [Value.Scalar "reserved"
          (applyMappers [BitBufIsZero] ⟨.Raw (readU X (p + 224) 32 .BigEndian), none, ""⟩)
          (p + 224) 32])]⟩) := by
    intro X hX hrun
    have hraw := FieldRawLen_run "reserved" 32 [BitBufIsZero] (d := { d8 with buf := X })
      (by simp only; omega)
    have hinner : headerDecode 64 ⟨X, p, E, []⟩ = .ok ((cpu, n),
        ⟨X, p + 256, E, cs8 ++ [Value.Scalar "reserved"
          (applyMappers [BitBufIsZero] ⟨.Raw (readU X (p + 224) 32 .BigEndian), none, ""⟩)
          (p + 224) 32]⟩) := by
      rw [headerDecode64_eq, Dec.bind_ok hrun, e32, Dec.bind_ok hraw, Dec.pure_apply]
      simp only [hp8, hc8, he8, List.nil_append, Except.ok.injEq, Prod.mk.injEq, true_and,
        D.mk.injEq, and_true]
    rw [FieldStruct_run "header" hinner]
    simp only [List.nil_append]
  have hd8 : ({ d8 with buf := B } : D) = d8 := by subst hb8; rfl
  have hB := hres B hfit (by rw [hd8]; exact h8)
  have hB' := hres B' (by omega) h8'
  have hthin : ∀ (X : List Nat) (S2 : D),
      FieldStruct "header" (headerDecode 64) ⟨X, p, E, []⟩ = .ok ((cpu, n), S2) →
      ofileThin 64 ⟨X, p + 32, E, []⟩ =
        (FieldStructArrayLoop "load_commands" "load_command" n
          (fun _ => loadCommand 64 cpu) >>= fun _ => pure ()) S2 := by
    intro X S2 hS
    unfold ofileThin
    rw [Dec.bind_ok (hseek X), Dec.bind_ok hS]
  rw [hthin B _ hB, hthin B' _ hB']
  -- the load commands
  obtain ⟨hfe, hfo⟩ := fwd_structLoop "load_command" (fun _ => fwd_loadCommand 64 cpu) n 0
    (p + 256) B' ⟨B, p + 256, E, []⟩ hhigh (by simp only; omega)
  simp only [Dec.bind_apply]
  unfold FieldStructArrayLoop
  simp only
  cases hl : structLoop "load_command" (fun _ => loadCommand 64 cpu) n 0 ⟨B, p + 256, E, []⟩ with
  | error e =>
    have hl' := hfe e hl
    simp only at hl'
    rw [hl']
    exact ⟨rfl, rfl⟩
  | ok res =>
    obtain ⟨as, ad⟩ := res
    obtain ⟨hl', -, -⟩ := hfo as ad hl
    simp only at hl'
    rw [hl']
    simp only [Dec.pure_apply, endPos, decoded, Except.map, forgetReserved, List.map_cons,
      List.map_nil, List.nil_append, List.cons_append, List.map_append, if_true,
      eraseReserved_reserved, true_and]
/-- C20: the four reserved bytes of the header of a 64-bit thin object are only reported.  Take
any buffer that holds, at byte `|pre|`, a 64-bit thin magic and the 28 header bytes `hdr`, then
the reserved bytes `r`, then anything; replace `r` by any other four bytes `r'`.  Both decodes
fail with the same failure or both succeed, they end at the same bit, and the decoded trees are
the same once the value (and all-zero mark) of the `reserved` field of the `header` struct is
forgotten.  The header of a 64-bit object is 32 bytes and ends with `reserved`; the header of a
32-bit object is 28 bytes and has no `reserved` field. -/
theorem C20_reserved_soft (fuel : Nat) (pre hdr r r' post : List Nat) (e : Endian)
    (hh : hdr.length = 28) (hr : r.length = 4) (hr' : r'.length = 4)
    (hm : readU (pre ++ hdr ++ r ++ post) (8 * pre.length) 32 .LittleEndian = MH_MAGIC_64
      ∨ readU (pre ++ hdr ++ r ++ post) (8 * pre.length) 32 .LittleEndian = MH_CIGAM_64) :
    endPos (ofileDecode (fuel + 1) ⟨pre ++ hdr ++ r ++ post, 8 * pre.length, e, []⟩) =
      endPos (ofileDecode (fuel + 1) ⟨pre ++ hdr ++ r' ++ post, 8 * pre.length, e, []⟩) ∧
    (decoded (ofileDecode (fuel + 1) ⟨pre ++ hdr ++ r ++ post, 8 * pre.length, e, []⟩)).map
        forgetReserved =
      (decoded (ofileDecode (fuel + 1) ⟨pre ++ hdr ++ r' ++ post, 8 * pre.length, e, []⟩)).map
        forgetReserved ∧
    Layout (headerDecode 64) (8 * 32) headerShape64 ∧
    Layout (headerDecode 32) (8 * 28) headerShape32 := by
  refine ⟨?_, ?_, layout_headerDecode64, layout_headerDecode32⟩ <;>
  · have hl : (pre ++ hdr ++ r ++ post).length = pre.length + 32 + post.length := by
      simp only [List.length_append]; omega
    have hl' : (pre ++ hdr ++ r' ++ post).length = pre.length + 32 + post.length := by
      simp only [List.length_append]; omega
    have ha : (pre ++ hdr ++ r).length = pre.length + 32 := by
      simp only [List.length_append]; omega
    have ha' : (pre ++ hdr ++ r').length = pre.length + 32 := by
      simp only [List.length_append]; omega
    have hp : (pre ++ hdr).length = pre.length + 28 := by
      simp only [List.length_append]; omega
    have hlow : AgreeOn (8 * pre.length) (8 * pre.length + 224) (pre ++ hdr ++ r ++ post)
        (pre ++ hdr ++ r' ++ post) := by
      refine ⟨by rw [hl, hl'], fun p n _ h2 _ => ?_⟩
      rw [readBits_append_left (pre ++ hdr ++ r) post p n (by rw [ha]; omega),
        readBits_append_left (pre ++ hdr) r p n (by rw [hp]; omega),
        readBits_append_left (pre ++ hdr ++ r') post p n (by rw [ha']; omega),
        readBits_append_left (pre ++ hdr) r' p n (by rw [hp]; omega)]
    have hhigh : AgreeOn (8 * pre.length + 256) (8 * (pre ++ hdr ++ r ++ post).length)
        (pre ++ hdr ++ r ++ post) (pre ++ hdr ++ r' ++ post) := by
      refine ⟨by rw [hl, hl'], fun p n h1 _ h3 => ?_⟩
      rw [readBits_append_right (pre ++ hdr ++ r) post p n (by rw [ha]; omega)
          (by rw [ha]; rw [hl] at h3; omega),
        readBits_append_right (pre ++ hdr ++ r') post p n (by rw [ha']; omega)
          (by rw [ha']; rw [hl] at h3; omega), ha, ha']
    have hm' : readU (pre ++ hdr ++ r' ++ post) (8 * pre.length) 32 .LittleEndian =
        readU (pre ++ hdr ++ r ++ post) (8 * pre.length) 32 .LittleEndian :=
      readU_agree hlow (Nat.le_refl _) (by omega) (by rw [hl]; omega) _
    have hfit : ¬ (8 * (pre ++ hdr ++ r ++ post).length < 8 * pre.length + 32) := by
      rw [hl]; omega
    have hfit' : ¬ (8 * (pre ++ hdr ++ r' ++ post).length < 8 * pre.length + 32) := by
      rw [hl']; omega
    have key := fun E => ofileThin64_reserved (pre ++ hdr ++ r ++ post)
      (pre ++ hdr ++ r' ++ post) (8 * pre.length) E hlow hhigh (by rw [hl]; omega)
    rw [ofileDecode_succ, ofileDecode_succ]
    simp only [hm', if_neg hfit, if_neg hfit']
    rcases hm with hm | hm <;> rw [hm] <;>
      simp (disch := decide) only [if_pos, if_neg] <;>
      first | exact (key _).1 | exact (key _).2

theorem C20_reserved_soft_witness :
    (decoded (ofileDecode (0 + 1)
        ⟨[] ++ header64 ++ [0, 0, 0, 0] ++ [], 8 * ([] : List Nat).length, .BigEndian, []⟩)).map
      (fun t => (field "reserved" (fieldChildren "header" t)).bind Value.scalar) =
      .ok (some ⟨.Raw 0, none, "all zero"⟩) ∧
    (decoded (ofileDecode (0 + 1)
        ⟨[] ++ header64 ++ [1, 2, 3, 4] ++ [], 8 * ([] : List Nat).length, .BigEndian, []⟩)).map
      (fun t => (field "reserved" (fieldChildren "header" t)).bind Value.scalar) =
      .ok (some ⟨.Raw 0x01020304, none, "all not zero"⟩) ∧
    (decoded (ofileDecode (0 + 1)
        ⟨[] ++ header64 ++ [0, 0, 0, 0] ++ [], 8 * ([] : List Nat).length, .BigEndian, []⟩)).map
        forgetReserved =
      (decoded (ofileDecode (0 + 1)
        ⟨[] ++ header64 ++ [1, 2, 3, 4] ++ [], 8 * ([] : List Nat).length, .BigEndian, []⟩)).map
        forgetReserved :=
  ⟨by decide!, by decide!,
   (C20_reserved_soft 0 [] header64 [0, 0, 0, 0] [1, 2, 3, 4] [] .BigEndian (by decide)
     (by decide) (by decide) (Or.inr (by decide!))).2.1⟩

/-! ## Register blocks (C23, C24) -/

/-- C23: the thread-state decoders of i386, ARM32, ARM64 and PPC32 have fixed layouts and do not
take the declared `count`: i386 is 16 named 32-bit registers (512 bits); ARM32 is 13 generic
registers and `sp`, `lr`, `pc`, `cpsr`, 17 words of 32 bits (544 bits); ARM64 is 29 generic
registers and `fp`, `lr`, `sp`, `pc` of 64 bits, then `cpsr` and `pad` of 32 bits (2176 bits);
PPC32 is 2 `srr`, 32 `r` and `ct`, `xer`, `lr`, `ctr`, `mq`, `vrsave`, 40 words of 32 bits
(1280 bits).  Each decode succeeds exactly when that many bits are left. -/
theorem C23_register_blocks :
    Layout threadStateI386Decode (16 * 32)
      (["eax", "ebx", "ecx", "edx", "edi", "esi", "ebp", "esp", "ss", "eflags", "eip", "cs",
        "ds", "es", "fs", "gs"].map (fun name => Shape.Leaf name 32)) ∧
    Layout threadStateARM32Decode (17 * 32)
      (registerArray "r" 13 32 ::
        ["sp", "lr", "pc", "cpsr"].map (fun name => Shape.Leaf name 32)) ∧
    Layout threadStateARM64Decode (33 * 64 + 2 * 32)
      (registerArray "r" 29 64 ::
        (["fp", "lr", "sp", "pc"].map (fun name => Shape.Leaf name 64) ++
          ["cpsr", "pad"].map (fun name => Shape.Leaf name 32))) ∧
    Layout threadStatePPC32Decode (40 * 32)
      (registerArray "srr" 2 32 :: registerArray "r" 32 32 ::
        ["ct", "xer", "lr", "ctr", "mq", "vrsave"].map (fun name => Shape.Leaf name 32)) ∧
    (∀ count, threadStateDecode 0x7 count = threadStateI386Decode) ∧
    (∀ count, threadStateDecode 0xC count = threadStateARM32Decode) ∧
    (∀ count, threadStateDecode 0x100000C count = threadStateARM64Decode) ∧
    (∀ count, threadStateDecode 0x13 count = threadStatePPC32Decode) := by
  refine ⟨?_, ?_, ?_, ?_, ?_, ?_, ?_, ?_⟩
  · apply layout_cast
    case h =>
      unfold Macho.threadStateI386Decode
      repeat' with_reducible first
          | exact layout_pure _
          | exact layout_FieldU32 _ _
          | apply layout_bind
          | intro _
    case hn => rfl
    case hs => rfl
  · apply layout_cast
    case h =>
      unfold Macho.threadStateARM32Decode
      repeat' with_reducible first
          | exact layout_pure _
          | exact layout_FieldU32 _ _
          | apply layout_FieldStructArrayLoop
          | apply layout_bind
          | intro _
    case hn => rfl
    case hs => rfl
  · apply layout_cast
    case h =>
      unfold Macho.threadStateARM64Decode
      repeat' with_reducible first
          | exact layout_pure _
          | exact layout_FieldU32 _ _
          | exact layout_FieldU64 _ _
          | apply layout_FieldStructArrayLoop
          | apply layout_bind
          | intro _
    case hn => rfl
    case hs => rfl
  · apply layout_cast
    case h =>
      unfold Macho.threadStatePPC32Decode
      repeat' with_reducible first
          | exact layout_pure _
          | exact layout_FieldU32 _ _
          | apply layout_FieldStructArrayLoop
          | apply layout_bind
          | intro _
    case hn => rfl
    case hs => rfl
  all_goals
    intro count
    unfold threadStateDecode
    simp (disch := decide) only [if_neg, if_pos]

/-- C24, a sample the claim fails on: on 304 zero bytes the PPC64 thread state decodes and ends
at bit 2432, with `vrsave` over the 32 bits 2400..2431 and `ct` over the 32 bits 2176..2207.
With `ct` as the only 32-bit trailing field the block would be 2464 bits and would not fit. -/
theorem C24_counterexample :
    endPos (threadStatePPC64Decode ⟨ppc64State, 0, .BigEndian, []⟩) = .ok 2432 ∧
    (decoded (threadStatePPC64Decode ⟨ppc64State, 0, .BigEndian, []⟩)).map
      (fun t => ((field "ct" t).bind Value.range, (field "vrsave" t).bind Value.range)) =
      .ok (some (2176, 32), some (2400, 32)) ∧
    8 * ppc64State.length < 34 * 64 + 32 + 4 * 64 := by
  decide!

/-- C24: the PPC64 thread-state decoder reads 2 `srr` and 32 `r` registers of 64 bits, then the
five trailing fields `ct` (32 bits), `xer`, `lr`, `ctr` (64 bits each) and `vrsave` (32 bits):
two of the trailing fields are 32-bit, and the block is 2432 bits.  The decode succeeds exactly
when that many bits are left; the dispatch value is `0x1000013`, for every declared `count`. -/
theorem C24_ppc64_block :
    Layout threadStatePPC64Decode (34 * 64 + 32 + 3 * 64 + 32)
      [registerArray "srr" 2 64, registerArray "r" 32 64, Shape.Leaf "ct" 32,
       Shape.Leaf "xer" 64, Shape.Leaf "lr" 64, Shape.Leaf "ctr" 64, Shape.Leaf "vrsave" 32] ∧
    (∀ count, threadStateDecode 0x1000013 count = threadStatePPC64Decode) := by
  constructor
  · apply layout_cast
    case h =>
      unfold Macho.threadStatePPC64Decode
      repeat' with_reducible first
          | exact layout_pure _
          | exact layout_FieldU32 _ _
          | exact layout_FieldU64 _ _
          | apply layout_FieldStructArrayLoop
          | apply layout_bind
          | intro _
    case hn => rfl
    case hs => rfl
  · intro count
    unfold threadStateDecode
    simp (disch := decide) only [if_neg, if_pos]

/-! ## Fixed-layout commands (C25, C26) -/

theorem fixed_uuid (archBits : Int) (cpuType cmd cmdsize : Nat)
    (hcmd : cmd = LC_UUID) :
    Layout (loadCommandPayload archBits cpuType cmd cmdsize) (8 * 16)
      ([Shape.Struct "uuid_command" [Shape.Leaf "uuid" 128]]) := by
  subst hcmd
  · apply layout_cast
    case h =>
      unfold Macho.loadCommandPayload
      simp (disch := decide) only [if_neg, if_pos]
      repeat' with_reducible first
          | exact layout_pure _
          | exact layout_FieldU32 _ _
          | exact layout_FieldU64 _ _
          | exact layout_FieldRawLen _ _ _ (by decide)
          | apply layout_FieldStruct
          | apply layout_bind
          | intro _
    case hn => rfl
    case hs => rfl

theorem fixed_twolevel (archBits : Int) (cpuType cmd cmdsize : Nat)
    (hcmd : cmd = LC_TWOLEVEL_HINTS) :
    Layout (loadCommandPayload archBits cpuType cmd cmdsize) (8 * 8)
      (words32 ["offset", "nhints"]) := by
  subst hcmd
  · apply layout_cast
    case h =>
      unfold Macho.loadCommandPayload
      simp (disch := decide) only [if_neg, if_pos]
      repeat' with_reducible first
          | exact layout_pure _
          | exact layout_FieldU32 _ _
          | exact layout_FieldU64 _ _
          | exact layout_FieldRawLen _ _ _ (by decide)
          | apply layout_FieldStruct
          | apply layout_bind
          | intro _
    case hn => rfl
    case hs => rfl

theorem fixed_routines (archBits : Int) (cpuType cmd cmdsize : Nat)
    (hcmd : cmd = LC_ROUTINES ∨ cmd = LC_ROUTINES_64) :
    (archBits = 32 → Layout (loadCommandPayload archBits cpuType cmd cmdsize) (8 * 32)
      (words32 ["init_address", "init_module", "reserved1", "reserved2", "reserved3", "reserved4",
        "reserved5", "reserved6"])) ∧
    (archBits ≠ 32 → Layout (loadCommandPayload archBits cpuType cmd cmdsize) (8 * 64)
      (words64 ["init_address", "init_module", "reserved1", "reserved2", "reserved3", "reserved4",
        "reserved5", "reserved6"])) := by
  constructor <;> intro h32 <;> rcases hcmd with rfl | rfl <;>
  · apply layout_cast
    case h =>
      unfold Macho.loadCommandPayload
      simp (disch := decide) only [if_neg, if_pos]
      first | rw [if_pos h32] | rw [if_neg h32]
      repeat' with_reducible first
          | exact layout_pure _
          | exact layout_FieldU32 _ _
          | exact layout_FieldU64 _ _
          | exact layout_FieldRawLen _ _ _ (by decide)
          | apply layout_FieldStruct
          | apply layout_bind
          | intro _
    case hn => rfl
    case hs => rfl

theorem fixed_symtab (archBits : Int) (cpuType cmd cmdsize : Nat)
    (hcmd : cmd = LC_SYMTAB) :
    Layout (loadCommandPayload archBits cpuType cmd cmdsize) (8 * 16)
      (words32 ["symoff", "nsyms", "stroff", "strsize"]) := by
  subst hcmd
  · apply layout_cast
    case h =>
      unfold Macho.loadCommandPayload
      simp (disch := decide) only [if_neg, if_pos]
      repeat' with_reducible first
          | exact layout_pure _
          | exact layout_FieldU32 _ _
          | exact layout_FieldU64 _ _
          | exact layout_FieldRawLen _ _ _ (by decide)
          | apply layout_FieldStruct
          | apply layout_bind
          | intro _
    case hn => rfl
    case hs => rfl

theorem fixed_dysymtab (archBits : Int) (cpuType cmd cmdsize : Nat)
    (hcmd : cmd = LC_DYSYMTAB) :
    Layout (loadCommandPayload archBits cpuType cmd cmdsize) (8 * 72)
      (words32 ["ilocalsym", "nlocalsym", "iextdefsym", "nextdefsym", "iundefsym",
      "nundefsym", "tocoff", "ntoc", "modtaboff", "nmodtab", "extrefsymoff", "nextrefsyms",
      "indirectsymoff", "nindirectsyms", "extreloff", "nextrel", "locreloff", "nlocrel"]) := by
  subst hcmd
  · apply layout_cast
    case h =>
      unfold Macho.loadCommandPayload
      simp (disch := decide) only [if_neg, if_pos]
      repeat' with_reducible first
          | exact layout_pure _
          | exact layout_FieldU32 _ _
          | exact layout_FieldU64 _ _
          | exact layout_FieldRawLen _ _ _ (by decide)
          | apply layout_FieldStruct
          | apply layout_bind
          | intro _
    case hn => rfl
    case hs => rfl

theorem fixed_linkedit (archBits : Int) (cpuType cmd cmdsize : Nat)
    (hcmd : cmd = LC_CODE_SIGNATURE ∨ cmd = LC_SEGMENT_SPLIT_INFO ∨ cmd = LC_FUNCTION_STARTS ∨ cmd = LC_DATA_IN_CODE ∨ cmd = LC_DYLIB_CODE_SIGN_DRS ∨ cmd = LC_LINKER_OPTIMIZATION_HINT) :
    Layout (loadCommandPayload archBits cpuType cmd cmdsize) (8 * 8)
      ([Shape.Struct "linkedit_data" (words32 ["off", "size"])]) := by
  rcases hcmd with rfl | rfl | rfl | rfl | rfl | rfl <;>
  · apply layout_cast
    case h =>
      unfold Macho.loadCommandPayload
      simp (disch := decide) only [if_neg, if_pos]
      repeat' with_reducible first
          | exact layout_pure _
          | exact layout_FieldU32 _ _
          | exact layout_FieldU64 _ _
          | exact layout_FieldRawLen _ _ _ (by decide)
          | apply layout_FieldStruct
          | apply layout_bind
          | intro _
    case hn => rfl
    case hs => rfl

theorem fixed_versionmin (archBits : Int) (cpuType cmd cmdsize : Nat)
    (hcmd : cmd = LC_VERSION_MIN_IPHONEOS ∨ cmd = LC_VERSION_MIN_MACOSX ∨ cmd = LC_VERSION_MIN_TVOS ∨ cmd = LC_VERSION_MIN_WATCHOS) :
    Layout (loadCommandPayload archBits cpuType cmd cmdsize) (8 * 8)
      (words32 ["version", "sdk"]) := by
  rcases hcmd with rfl | rfl | rfl | rfl <;>
  · apply layout_cast
    case h =>
      unfold Macho.loadCommandPayload
      simp (disch := decide) only [if_neg, if_pos]
      repeat' with_reducible first
          | exact layout_pure _
          | exact layout_FieldU32 _ _
          | exact layout_FieldU64 _ _
          | exact layout_FieldRawLen _ _ _ (by decide)
          | apply layout_FieldStruct
          | apply layout_bind
          | intro _
    case hn => rfl
    case hs => rfl

theorem fixed_dyldinfo (archBits : Int) (cpuType cmd cmdsize : Nat)
    (hcmd : cmd = LC_DYLD_INFO ∨ cmd = LC_DYLD_INFO_ONLY) :
    Layout (loadCommandPayload archBits cpuType cmd cmdsize) (8 * 40)
      ([Shape.Struct "dyld_info" (words32 ["rebase_off", "rebase_size", "bind_off",
      "bind_size", "weak_bind_off", "weak_bind_size", "lazy_bind_off", "lazy_bind_size",
      "export_off", "export_size"])]) := by
  rcases hcmd with rfl | rfl <;>
  · apply layout_cast
    case h =>
      unfold Macho.loadCommandPayload
      simp (disch := decide) only [if_neg, if_pos]
      repeat' with_reducible first
          | exact layout_pure _
          | exact layout_FieldU32 _ _
          | exact layout_FieldU64 _ _
          | exact layout_FieldRawLen _ _ _ (by decide)
          | apply layout_FieldStruct
          | apply layout_bind
          | intro _
    case hn => rfl
    case hs => rfl

theorem fixed_main (archBits : Int) (cpuType cmd cmdsize : Nat)
    (hcmd : cmd = LC_MAIN) :
    Layout (loadCommandPayload archBits cpuType cmd cmdsize) (8 * 16)
      ([Shape.Struct "entrypoint" (words64 ["entryoff", "stacksize"])]) := by
  subst hcmd
  · apply layout_cast
    case h =>
      unfold Macho.loadCommandPayload
      simp (disch := decide) only [if_neg, if_pos]
      repeat' with_reducible first
          | exact layout_pure _
          | exact layout_FieldU32 _ _
          | exact layout_FieldU64 _ _
          | exact layout_FieldRawLen _ _ _ (by decide)
          | apply layout_FieldStruct
          | apply layout_bind
          | intro _
    case hn => rfl
    case hs => rfl

theorem fixed_sourceversion (archBits : Int) (cpuType cmd cmdsize : Nat)
    (hcmd : cmd = LC_SOURCE_VERSION) :
    Layout (loadCommandPayload archBits cpuType cmd cmdsize) (8 * 8)
      ([Shape.Struct "source_version_tag" (words64 ["tag"])]) := by
  subst hcmd
  · apply layout_cast
    case h =>
      unfold Macho.loadCommandPayload
      simp (disch := decide) only [if_neg, if_pos]
      repeat' with_reducible first
          | exact layout_pure _
          | exact layout_FieldU32 _ _
          | exact layout_FieldU64 _ _
          | exact layout_FieldRawLen _ _ _ (by decide)
          | apply layout_FieldStruct
          | apply layout_bind
          | intro _
    case hn => rfl
    case hs => rfl

theorem fixed_encryption (archBits : Int) (cpuType cmd cmdsize : Nat)
    (hcmd : cmd = LC_ENCRYPTION_INFO ∨ cmd = LC_ENCRYPTION_INFO_64) :
    Layout (loadCommandPayload archBits cpuType cmd cmdsize) (8 * 12)
      ([Shape.Struct "encryption_info" (words32 ["offset", "size", "id"])]) := by
  rcases hcmd with rfl | rfl <;>
  · apply layout_cast
    case h =>
      unfold Macho.loadCommandPayload
      simp (disch := decide) only [if_neg, if_pos]
      repeat' with_reducible first
          | exact layout_pure _
          | exact layout_FieldU32 _ _
          | exact layout_FieldU64 _ _
          | exact layout_FieldRawLen _ _ _ (by decide)
          | apply layout_FieldStruct
          | apply layout_bind
          | intro _
    case hn => rfl
    case hs => rfl

/-- C25: the payload of each fixed-layout command is the documented one whatever `cmdsize`
says: uuid 16 bytes; symtab 16; dysymtab 72 (18 fields of 32 bits); twolevel_hints 8; the
linkedit-data family 8; the version-min family 8; dyld_info and dyld_info_only 40 (5 offset/size
pairs); main 16 (two 64-bit fields); source_version 8 (one 64-bit field); encryption_info and
encryption_info_64 12; routines and routines_64 8 fields, of 32 bits (32 bytes) in a 32-bit
object and of 64 bits (64 bytes) otherwise.  The decode of the payload succeeds exactly when
that many bytes are left and then consumes them. -/
theorem C25_fixed_payload (archBits : Int) (cpuType cmd cmdsize k : Nat) (ss : List Shape)
    (h : fixedPayload archBits cmd = some (k, ss)) :
    Layout (loadCommandPayload archBits cpuType cmd cmdsize) (8 * k) ss := by
  unfold fixedPayload at h
  by_cases c1 : cmd = LC_UUID
  · rw [if_pos c1] at h
    simp only [Option.some.injEq, Prod.mk.injEq] at h
    obtain ⟨rfl, rfl⟩ := h
    exact fixed_uuid archBits cpuType cmd cmdsize c1
  rw [if_neg c1] at h
  by_cases c2 : cmd = LC_TWOLEVEL_HINTS
  · rw [if_pos c2] at h
    simp only [Option.some.injEq, Prod.mk.injEq] at h
    obtain ⟨rfl, rfl⟩ := h
    exact fixed_twolevel archBits cpuType cmd cmdsize c2
  rw [if_neg c2] at h
  by_cases c3 : cmd = LC_ROUTINES ∨ cmd = LC_ROUTINES_64
  · rw [if_pos c3] at h
    by_cases hr : archBits = 32
    · rw [if_pos hr] at h
      simp only [Option.some.injEq, Prod.mk.injEq] at h
      obtain ⟨rfl, rfl⟩ := h
      exact (fixed_routines archBits cpuType cmd cmdsize c3).1 hr
    · rw [if_neg hr] at h
      simp only [Option.some.injEq, Prod.mk.injEq] at h
      obtain ⟨rfl, rfl⟩ := h
      exact (fixed_routines archBits cpuType cmd cmdsize c3).2 hr
  rw [if_neg c3] at h
  by_cases c4 : cmd = LC_SYMTAB
  · rw [if_pos c4] at h
    simp only [Option.some.injEq, Prod.mk.injEq] at h
    obtain ⟨rfl, rfl⟩ := h
    exact fixed_symtab archBits cpuType cmd cmdsize c4
  rw [if_neg c4] at h
  by_cases c5 : cmd = LC_DYSYMTAB
  · rw [if_pos c5] at h
    simp only [Option.some.injEq, Prod.mk.injEq] at h
    obtain ⟨rfl, rfl⟩ := h
    exact fixed_dysymtab archBits cpuType cmd cmdsize c5
  rw [if_neg c5] at h
  by_cases c6 : cmd = LC_CODE_SIGNATURE ∨ cmd = LC_SEGMENT_SPLIT_INFO ∨ cmd = LC_FUNCTION_STARTS ∨ cmd = LC_DATA_IN_CODE ∨ cmd = LC_DYLIB_CODE_SIGN_DRS ∨ cmd = LC_LINKER_OPTIMIZATION_HINT
  · rw [if_pos c6] at h
    simp only [Option.some.injEq, Prod.mk.injEq] at h
    obtain ⟨rfl, rfl⟩ := h
    exact fixed_linkedit archBits cpuType cmd cmdsize c6
  rw [if_neg c6] at h
  by_cases c7 : cmd = LC_VERSION_MIN_IPHONEOS ∨ cmd = LC_VERSION_MIN_MACOSX ∨ cmd = LC_VERSION_MIN_TVOS ∨ cmd = LC_VERSION_MIN_WATCHOS
  · rw [if_pos c7] at h
    simp only [Option.some.injEq, Prod.mk.injEq] at h
    obtain ⟨rfl, rfl⟩ := h
    exact fixed_versionmin archBits cpuType cmd cmdsize c7
  rw [if_neg c7] at h
  by_cases c8 : cmd = LC_DYLD_INFO ∨ cmd = LC_DYLD_INFO_ONLY
  · rw [if_pos c8] at h
    simp only [Option.some.injEq, Prod.mk.injEq] at h
    obtain ⟨rfl, rfl⟩ := h
    exact fixed_dyldinfo archBits cpuType cmd cmdsize c8
  rw [if_neg c8] at h
  by_cases c9 : cmd = LC_MAIN
  · rw [if_pos c9] at h
    simp only [Option.some.injEq, Prod.mk.injEq] at h
    obtain ⟨rfl, rfl⟩ := h
    exact fixed_main archBits cpuType cmd cmdsize c9
  rw [if_neg c9] at h
  by_cases c10 : cmd = LC_SOURCE_VERSION
  · rw [if_pos c10] at h
    simp only [Option.some.injEq, Prod.mk.injEq] at h
    obtain ⟨rfl, rfl⟩ := h
    exact fixed_sourceversion archBits cpuType cmd cmdsize c10
  rw [if_neg c10] at h
  by_cases c11 : cmd = LC_ENCRYPTION_INFO ∨ cmd = LC_ENCRYPTION_INFO_64
  · rw [if_pos c11] at h
    simp only [Option.some.injEq, Prod.mk.injEq] at h
    obtain ⟨rfl, rfl⟩ := h
    exact fixed_encryption archBits cpuType cmd cmdsize c11
  rw [if_neg c11] at h
  cases h

theorem C25_fixed_payload_witness :
    Layout (loadCommandPayload 64 7 LC_DYSYMTAB 80) (8 * 72)
      (words32 ["ilocalsym", "nlocalsym", "iextdefsym", "nextdefsym", "iundefsym",
        "nundefsym", "tocoff", "ntoc", "modtaboff", "nmodtab", "extrefsymoff", "nextrefsyms",
        "indirectsymoff", "nindirectsyms", "extreloff", "nextrel", "locreloff", "nlocrel"]) :=
  C25_fixed_payload 64 7 LC_DYSYMTAB 80 72 _ rfl

theorem loadCommandPayload_buildVersion (archBits : Int) (cpuType cmdsize : Nat) :
    loadCommandPayload archBits cpuType LC_BUILD_VERSION cmdsize =
      (FieldU32 "platform" [] >>= fun _ =>
        FieldU32 "minos" [] >>= fun _ =>
        FieldU32 "sdk" [] >>= fun _ =>
        FieldU32 "ntools" [] >>= fun ntools =>
        FieldStructArrayLoop "tools" "tool" ntools (fun _ =>
          FieldU32 "tool" [] >>= fun _ => FieldU32 "version" [] >>= fun _ => pure ()) >>=
          fun _ => pure ()) := by
  unfold loadCommandPayload
  simp (disch := decide) only [if_neg, if_pos]

/-- C26: the payload of a build_version command, with `t` the `ntools` word 12 bytes into it, is
`platform`, `minos`, `sdk`, `ntools` and a `tools` array of exactly `t` `tool` structs, each the
two 32-bit fields `tool` and `version`; the decode succeeds exactly when `16 + 8 * t` bytes are
left and consumes them. -/
theorem C26_build_version (archBits : Int) (cpuType cmdsize : Nat) (d : D) :
    LayoutAt (loadCommandPayload archBits cpuType LC_BUILD_VERSION cmdsize) d
      (8 * (16 + 8 * readU d.buf (d.pos + 96) 32 d.Endian))
      [Shape.Leaf "platform" 32, Shape.Leaf "minos" 32, Shape.Leaf "sdk" 32,
       Shape.Leaf "ntools" 32,
       Shape.Array "tools" (List.replicate (readU d.buf (d.pos + 96) 32 d.Endian)
         (Shape.Struct "tool" [Shape.Leaf "tool" 32, Shape.Leaf "version" 32]))] := by
  rw [loadCommandPayload_buildVersion]
  have key : LayoutAt
      (FieldU32 "platform" [] >>= fun _ =>
        FieldU32 "minos" [] >>= fun _ =>
        FieldU32 "sdk" [] >>= fun _ =>
        FieldU32 "ntools" [] >>= fun ntools =>
        FieldStructArrayLoop "tools" "tool" ntools (fun _ =>
          FieldU32 "tool" [] >>= fun _ => FieldU32 "version" [] >>= fun _ =>
            (pure () : Dec Unit)) >>=
          fun _ => (pure () : Dec Unit)) d
      (32 + (32 + (32 + (32 + (readU d.buf (d.pos + 96) 32 d.Endian * (32 + (32 + 0)) + 0)))))
      ([Shape.Leaf "platform" 32] ++ ([Shape.Leaf "minos" 32] ++ ([Shape.Leaf "sdk" 32] ++
        ([Shape.Leaf "ntools" 32] ++
          ([Shape.Array "tools" (List.replicate (readU d.buf (d.pos + 96) 32 d.Endian)
            (Shape.Struct "tool" ([Shape.Leaf "tool" 32] ++ ([Shape.Leaf "version" 32] ++ []))))]
            ++ []))))) := by
    refine layoutAt_bind (layout_FieldU32 _ _ d) (fun _ d1 h1 => ?_)
    obtain ⟨-, -, -, rfl⟩ := FieldU32_ok h1
    refine layoutAt_bind (layout_FieldU32 _ _ _) (fun _ d2 h2 => ?_)
    obtain ⟨-, -, -, rfl⟩ := FieldU32_ok h2
    refine layoutAt_bind (layout_FieldU32 _ _ _) (fun _ d3 h3 => ?_)
    obtain ⟨-, -, -, rfl⟩ := FieldU32_ok h3
    refine layoutAt_bind (layout_FieldU32 _ _ _) (fun n d4 h4 => ?_)
    obtain ⟨hn, -, -, rfl⟩ := FieldU32_ok h4
    simp only at hn
    have e : d.pos + 32 + 32 + 32 = d.pos + 96 := by omega
    rw [e] at hn
    rw [← hn]
    exact layoutAt_bind
      (layout_FieldStructArrayLoop "tools" "tool" n
        (fun _ => layout_bind (layout_FieldU32 _ _)
          (fun _ => layout_bind (layout_FieldU32 _ _) (fun _ => layout_pure _))) _)
      (fun _ d5 _ => layout_pure _ d5)
  exact layoutAt_cast key (by omega) rfl

/-- The sample `buildVersionPayload` declares two tools and is consumed whole (32 bytes). -/
theorem buildVersionPayload_decodes :
    readU buildVersionStart.buf (buildVersionStart.pos + 96) 32 buildVersionStart.Endian = 2 ∧
    endPos (loadCommandPayload 64 7 LC_BUILD_VERSION 40 buildVersionStart) = .ok (8 * 32) := by
  decide!

/-! ## The size of the header (C27) -/

/-- C27: the header of a thin object is 28 bytes in a 32-bit object and 32 bytes in a 64-bit
object: the words `magic`, `cputype`, `cpusubtype`, `filetype`, `ncdms`, `sizeofncdms`, the
`flags` word, which `parseMachHeaderFlags` decodes as exactly 32 bits (6 reserved bits, then 26
one-bit flags), and the 4 `reserved` bytes in a 64-bit object only.  With the header in the
input, the `load_commands` loop, whose first action is to read `cmd`, starts 28 or 32 bytes after
the start of the region. -/
theorem C27_header_size (buf : List Nat) (p : Nat) (E : Endian) :
    Layout (headerDecode 32) (8 * 28) headerShape32 ∧
    Layout (headerDecode 64) (8 * 32) headerShape64 ∧
    Layout parseMachHeaderFlags 32 machHeaderFlagsShape ∧
    (p + 8 * 28 ≤ 8 * buf.length →
      ∃ cpu n S2, FieldStruct "header" (headerDecode 32) ⟨buf, p, E, []⟩ = .ok ((cpu, n), S2) ∧
        S2.pos = p + 8 * 28 ∧
        ofileThin 32 ⟨buf, p + 32, E, []⟩ =
          (FieldStructArrayLoop "load_commands" "load_command" n
            (fun _ => loadCommand 32 cpu) >>= fun _ => pure ()) S2) ∧
    (p + 8 * 32 ≤ 8 * buf.length →
      ∃ cpu n S2, FieldStruct "header" (headerDecode 64) ⟨buf, p, E, []⟩ = .ok ((cpu, n), S2) ∧
        S2.pos = p + 8 * 32 ∧
        ofileThin 64 ⟨buf, p + 32, E, []⟩ =
          (FieldStructArrayLoop "load_commands" "load_command" n
            (fun _ => loadCommand 64 cpu) >>= fun _ => pure ()) S2) := by
  have hseek : SeekRel (-4 * 8) ⟨buf, p + 32, E, []⟩ = .ok (p, ⟨buf, p, E, []⟩) := by
    have h0 : ¬ (((p + 32 : Nat) : Int) + -4 * 8 < 0) := by omega
    have h1 : (((p + 32 : Nat) : Int) + -4 * 8).toNat = p := by omega
    simp only [SeekRel, h0, if_false, h1]
  refine ⟨layout_headerDecode32, layout_headerDecode64, layout_parseMachHeaderFlags, ?_, ?_⟩
  · intro hfit
    obtain ⟨r, S2, hS, hp, -⟩ :=
      (layout_FieldStruct "header" layout_headerDecode32 ⟨buf, p, E, []⟩).1 (Or.inr hfit)
    obtain ⟨cpu, n⟩ := r
    refine ⟨cpu, n, S2, hS, hp, ?_⟩
    unfold ofileThin
    rw [Dec.bind_ok hseek, Dec.bind_ok hS]
  · intro hfit
    obtain ⟨r, S2, hS, hp, -⟩ :=
      (layout_FieldStruct "header" layout_headerDecode64 ⟨buf, p, E, []⟩).1 (Or.inr hfit)
    obtain ⟨cpu, n⟩ := r
    refine ⟨cpu, n, S2, hS, hp, ?_⟩
    unfold ofileThin
    rw [Dec.bind_ok hseek, Dec.bind_ok hS]

theorem C27_header_size_witness :
    ∃ cpu n S2, FieldStruct "header" (headerDecode 32) ⟨zeroSizeCommand, 0, .LittleEndian, []⟩ =
        .ok ((cpu, n), S2) ∧
      S2.pos = 0 + 8 * 28 ∧
      ofileThin 32 ⟨zeroSizeCommand, 0 + 32, .LittleEndian, []⟩ =
        (FieldStructArrayLoop "load_commands" "load_command" n
          (fun _ => loadCommand 32 cpu) >>= fun _ => pure ()) S2 :=
  (C27_header_size zeroSizeCommand 0 .LittleEndian).2.2.2.1 (by decide)

/-! ## Short `cmdsize` (C28) -/

theorem toInt64_skip_any {cmdsize : Nat} (h32 : cmdsize < 2 ^ 32) :
    toInt64 (((cmdsize + 2 ^ 64 - 8) % 2 ^ 64) * 8) = 8 * (cmdsize : Int) - 64 := by
  unfold toInt64
  by_cases h8 : 8 ≤ cmdsize
  · have h1 : (cmdsize + 2 ^ 64 - 8) % 2 ^ 64 = cmdsize - 8 := by omega
    rw [h1]
    split_ifs <;> omega
  · have h1 : (cmdsize + 2 ^ 64 - 8) % 2 ^ 64 = 2 ^ 64 - (8 - cmdsize) := by omega
    rw [h1]
    have h2 : (2 ^ 64 - (8 - cmdsize)) * 8 % 2 ^ 64 = 2 ^ 64 - 8 * (8 - cmdsize) := by omega
    rw [h2]
    split_ifs <;> omega

/-- A command with an unknown id and any `cmdsize`, run from an empty compound: the two fields,
and the cursor `cmdsize` bytes after the start of the command. -/
theorem loadCommand_unknown_any (archBits : Int) (cpuType : Nat) (d : D)
    (hlen : d.pos + 64 ≤ 8 * d.buf.length)
    (hunknown : loadCommands.lookup (readU d.buf d.pos 32 d.Endian) = none) :
    loadCommand archBits cpuType { d with children := [] } = .ok ((),
      { d with pos := d.pos + 8 * readU d.buf (d.pos + 32) 32 d.Endian,
               children := [
                 Value.Scalar "cmd" ⟨.U (readU d.buf d.pos 32 d.Endian), none, ""⟩ d.pos 32,
                 Value.Scalar "cmdsize" ⟨.U (readU d.buf (d.pos + 32) 32 d.Endian), none, ""⟩
                   (d.pos + 32) 32] }) := by
  have hcmd := FieldU32_run "cmd" [UToSymStr loadCommands, Hex]
    (d := { d with children := [] }) (by simpa using by omega)
  have hsize := FieldU32_run "cmdsize" []
    (d := { d with pos := d.pos + 32,
                   children := [] ++ [Value.Scalar "cmd" (applyMappers [UToSymStr loadCommands, Hex]
                     ⟨.U (readU d.buf d.pos 32 d.Endian), none, ""⟩) d.pos 32] })
    (by simpa using by omega)
  have hlt := readU_lt d.buf (d.pos + 32) d.Endian
  unfold loadCommand
  rw [Dec.bind_ok hcmd, Dec.bind_ok hsize, loadCommandPayload_unknown _ _ _ hunknown,
    toInt64_skip_any hlt, Dec.bind_apply]
  have h0 : ¬ (((d.pos + 32 + 32 : Nat) : Int) +
      (8 * (readU d.buf (d.pos + 32) 32 d.Endian : Int) - 64) < 0) := by omega
  have h1 : (((d.pos + 32 + 32 : Nat) : Int) +
      (8 * (readU d.buf (d.pos + 32) 32 d.Endian : Int) - 64)).toNat =
      d.pos + 8 * readU d.buf (d.pos + 32) 32 d.Endian := by omega
  simp only [SeekRel, h0, if_false, h1, Dec.pure_apply]
  simp [applyMappers, UToSymStr, Hex, hunknown]

/-- C28: for a command whose id is not a key of `loadCommands`, with the 8 bytes of `cmd` and
`cmdsize` in the input: for every 32-bit `cmdsize` the seek distance, the unsigned 64-bit
`(cmdsize - 8) * 8` converted to `int64`, is the integer `8 * cmdsize - 64`; the command decodes
to its two fields and the cursor lands `cmdsize` bytes after the start of the command, before
the end of the two fields when `cmdsize < 8`; with `cmdsize = 0` the cursor is back at the start
of the command, and a loop of `n` iterations reads the same command `n` times and ends there. -/
theorem C28_short_cmdsize (archBits : Int) (cpuType : Nat) (d : D)
    (hlen : d.pos + 64 ≤ 8 * d.buf.length)
    (hunknown : loadCommands.lookup (readU d.buf d.pos 32 d.Endian) = none) :
    (∀ cmdsize, cmdsize < 2 ^ 32 →
      toInt64 (((cmdsize + 2 ^ 64 - 8) % 2 ^ 64) * 8) = 8 * (cmdsize : Int) - 64) ∧
    loadCommand archBits cpuType { d with children := [] } = .ok ((),
      { d with pos := d.pos + 8 * readU d.buf (d.pos + 32) 32 d.Endian,
               children := [
                 Value.Scalar "cmd" ⟨.U (readU d.buf d.pos 32 d.Endian), none, ""⟩ d.pos 32,
                 Value.Scalar "cmdsize" ⟨.U (readU d.buf (d.pos + 32) 32 d.Endian), none, ""⟩
                   (d.pos + 32) 32] }) ∧
    (readU d.buf (d.pos + 32) 32 d.Endian = 0 →
      ∀ n idx, structLoop "load_command" (fun _ => loadCommand archBits cpuType) n idx d =
        .ok (List.replicate n (),
          { d with children := d.children ++ List.replicate n (Value.Struct "load_command" [
              Value.Scalar "cmd" ⟨.U (readU d.buf d.pos 32 d.Endian), none, ""⟩ d.pos 32,
              Value.Scalar "cmdsize" ⟨.U 0, none, ""⟩ (d.pos + 32) 32]) })) := by
  refine ⟨fun c hc => toInt64_skip_any hc, loadCommand_unknown_any archBits cpuType d hlen
    hunknown, ?_⟩
  intro h0
  have hstep : ∀ cs : List Value,
      FieldStruct "load_command" (loadCommand archBits cpuType) { d with children := cs } =
      .ok ((), { d with children := cs ++ [Value.Struct "load_command" [
            Value.Scalar "cmd" ⟨.U (readU d.buf d.pos 32 d.Endian), none, ""⟩ d.pos 32,
            Value.Scalar "cmdsize" ⟨.U 0, none, ""⟩ (d.pos + 32) 32]] }) := by
    intro cs
    have hrun := loadCommand_unknown_any archBits cpuType { d with children := cs } hlen
      hunknown
    simp only [h0, Nat.mul_zero, Nat.add_zero] at hrun
    exact FieldStruct_run "load_command" (d := { d with children := cs }) hrun
  have hgen : ∀ (m j : Nat) (cs : List Value),
      structLoop "load_command" (fun _ => loadCommand archBits cpuType) m j
          { d with children := cs } =
        .ok (List.replicate m (),
          { d with children := cs ++ List.replicate m (Value.Struct "load_command" [
            Value.Scalar "cmd" ⟨.U (readU d.buf d.pos 32 d.Endian), none, ""⟩ d.pos 32,
            Value.Scalar "cmdsize" ⟨.U 0, none, ""⟩ (d.pos + 32) 32]) }) := by
    intro m
    induction m with
    | zero => intro j cs; simp [structLoop, Dec.pure_apply]
    | succ m ihm =>
      intro j cs
      rw [structLoop_succ, Dec.bind_ok (hstep cs), Dec.bind_ok (ihm (j + 1) _),
        Dec.pure_apply]
      simp [List.replicate_succ]
  exact fun n idx => hgen n idx d.children

theorem C28_short_cmdsize_witness :
    readU zeroSizeStart.buf (zeroSizeStart.pos + 32) 32 zeroSizeStart.Endian = 0 ∧
    structLoop "load_command" (fun _ => loadCommand 32 7) 3 0 zeroSizeStart =
      .ok (List.replicate 3 (),
        { zeroSizeStart with
          children := zeroSizeStart.children ++ List.replicate 3 (Value.Struct "load_command" [
            Value.Scalar "cmd"
              ⟨.U (readU zeroSizeStart.buf zeroSizeStart.pos 32 zeroSizeStart.Endian), none, ""⟩
              zeroSizeStart.pos 32,
            Value.Scalar "cmdsize" ⟨.U 0, none, ""⟩ (zeroSizeStart.pos + 32) 32]) }) ∧
    endPos (machoDecode 1 zeroSizeCommand) = .ok 224 :=
  ⟨by decide!,
   (C28_short_cmdsize 32 7 zeroSizeStart (by decide!) (by decide!)).2.2 (by decide!) 3 0,
   by decide!⟩

/-! ## A failing slice (C21) -/

/-- The `files` loop stops at the first slice whose nested decode fails, with that failure. -/
theorem filesLoop_abort (ofile : Dec Unit) (offsets : List Nat)
    (hoff : ∀ o ∈ offsets, o < 2 ^ 32) (B : List Nat) (E : Endian) (e : Err) :
    ∀ (i n idx : Nat) (d : D), d.buf = B → d.Endian = E → i < n →
      (∀ j, j < i → ∃ off, offsets.get? (idx + j) = some off ∧
        succeeds (ofile ⟨B, 8 * off, E, []⟩) = true) →
      (∃ off, offsets.get? (idx + i) = some off ∧ ofile ⟨B, 8 * off, E, []⟩ = .error e) →
      structLoop "file" (fatFileDecode ofile offsets) n idx d = .error e := by
  intro i
  induction i with
  | zero =>
    intro n idx d hb he hi _ hfail
    obtain ⟨m, rfl⟩ : ∃ m, n = m + 1 := ⟨n - 1, by omega⟩
    obtain ⟨off, hget, hbad⟩ := hfail
    obtain ⟨b, p, e0, c⟩ := d
    simp only at hb he
    subst hb he
    have hbody : fatFileDecode ofile offsets idx ⟨b, p, e0, []⟩ = .error e := by
      rw [fatFileDecode_at _ _ _ hoff]
      simp only [Nat.add_zero] at hget
      rw [hget]
      exact hbad
    rw [structLoop_succ, Dec.bind_apply]
    unfold FieldStruct
    simp only [hbody]
  | succ i ih =>
    intro n idx d hb he hi hok hfail
    obtain ⟨m, rfl⟩ : ∃ m, n = m + 1 := ⟨n - 1, by omega⟩
    obtain ⟨off0, hget0, hs0⟩ := hok 0 (by omega)
    obtain ⟨b, p, e0, c⟩ := d
    simp only at hb he
    subst hb he
    simp only [Nat.add_zero] at hget0
    cases hr : ofile ⟨b, 8 * off0, e0, []⟩ with
    | error e1 => rw [hr] at hs0; simp [succeeds] at hs0
    | ok r =>
      obtain ⟨u, r1⟩ := r
      have hbody : fatFileDecode ofile offsets idx ⟨b, p, e0, []⟩ = .ok (u, r1) := by
        rw [fatFileDecode_at _ _ _ hoff, hget0]
        exact hr
      have hstruct := FieldStruct_run "file" (d := ⟨b, p, e0, c⟩) hbody
      rw [structLoop_succ, Dec.bind_ok hstruct, Dec.bind_apply]
      have hrest := ih m (idx + 1)
        ⟨b, r1.pos, e0, c ++ [Value.Struct "file" r1.children]⟩ rfl rfl (by omega)
        (fun j hj => by
          obtain ⟨off, hg, hs⟩ := hok (j + 1) (by omega)
          exact ⟨off, by rw [← hg]; congr 1; omega, hs⟩)
        (by
          obtain ⟨off, hg, hs⟩ := hfail
          exact ⟨off, by rw [← hg]; congr 1; omega, hs⟩)
      rw [hrest]

/-- C21: a fat container whose header and `fat_arch` records are in the input, with `narchs`
slices the `i`-th of which (`i < narchs`) is the first whose nested decode fails, with the
failure `e`, bad magic, read exhaustion or any other: the fat decode fails with `e`.  The
nested decoder is arbitrary and nothing is assumed of it on the slices after `i`: they are not
decoded.  The slices are those at the `offset` words of the records, in array order. -/
theorem C21_abort_all (ofile : Dec Unit) (d : D) (i : Nat) (e : Err)
    (hlen : 8 * (8 + 20 * readU d.buf 32 32 d.Endian) ≤ 8 * d.buf.length)
    (hi : i < readU d.buf 32 32 d.Endian)
    (hok : ∀ j, j < i → succeeds
      (ofile ⟨d.buf, 8 * readU d.buf (8 * (8 + 20 * j + 8)) 32 d.Endian, d.Endian, []⟩) = true)
    (hfail : ofile ⟨d.buf, 8 * readU d.buf (8 * (8 + 20 * i + 8)) 32 d.Endian, d.Endian, []⟩ =
      .error e) :
    fatParse ofile d = .error e := by
  have hrun := fatHeader_run d hlen
  rw [fatParse_pass2 ofile d _ _ _ hrun, Dec.bind_apply]
  unfold FieldStructArrayLoop
  simp only
  have hoff : ∀ o ∈ (List.range (readU d.buf 32 32 d.Endian)).map
      (fun i => readU d.buf (8 * (8 + 20 * i + 8)) 32 d.Endian), o < 2 ^ 32 := by
    intro o ho
    simp only [List.mem_map] at ho
    obtain ⟨i, -, rfl⟩ := ho
    exact readU_lt _ _ _
  have hget : ∀ j, j < readU d.buf 32 32 d.Endian →
      ((List.range (readU d.buf 32 32 d.Endian)).map
        (fun i => readU d.buf (8 * (8 + 20 * i + 8)) 32 d.Endian)).get? (0 + j) =
        some (readU d.buf (8 * (8 + 20 * j + 8)) 32 d.Endian) := by
    intro j hj
    simp only [Nat.zero_add, List.get?_eq_getElem?, List.getElem?_map, List.getElem?_range hj,
      Option.map_some']
  rw [filesLoop_abort ofile _ hoff d.buf d.Endian e i (readU d.buf 32 32 d.Endian) 0
    ⟨d.buf, 8 * (8 + 20 * readU d.buf 32 32 d.Endian), d.Endian, []⟩ rfl rfl hi
    (fun j hj => ⟨_, hget j (by omega), hok j hj⟩) ⟨_, hget i hi, hfail⟩]

theorem C21_abort_all_witness :
    readU fatSecondBadStart.buf 32 32 fatSecondBadStart.Endian = 3 ∧
    fatParse (ofileDecode 1) fatSecondBadStart = .error (.Fatalf "Invalid magic field") :=
  ⟨by decide!,
   C21_abort_all (ofileDecode 1) fatSecondBadStart 1 (.Fatalf "Invalid magic field")
     (by decide!) (by decide!) (by decide!) (by decide!)⟩

/-! ## Writing the fields back (C22) -/

theorem reverseBytes_push (k : Nat) : ∀ (a b : Nat), a < 256 → b < 256 ^ k →
    reverseBytes (k + 1) (a * 256 ^ k + b) = reverseBytes k b * 256 + a := by
  induction k with
  | zero =>
    intro a b ha hb
    have hb0 : b = 0 := by simpa using hb
    subst hb0
    simp only [reverseBytes, pow_zero, Nat.mul_one, Nat.add_zero, Nat.zero_mul, Nat.zero_add]
    omega
  | succ k ih =>
    intro a b ha hb
    have hdiv : (a * 256 ^ (k + 1) + b) / 256 = a * 256 ^ k + b / 256 := by
      rw [pow_succ, ← Nat.mul_assoc, Nat.add_comm, Nat.add_mul_div_right _ _ (by norm_num),
        Nat.add_comm]
    have hmod : (a * 256 ^ (k + 1) + b) % 256 = b % 256 := by
      rw [pow_succ, ← Nat.mul_assoc, Nat.add_comm, Nat.add_mul_mod_self_right]
    have hb2 : b / 256 < 256 ^ k := by
      rw [Nat.div_lt_iff_lt_mul (by norm_num)]
      rw [pow_succ] at hb
      exact hb
    conv_lhs => unfold reverseBytes
    rw [hdiv, hmod, ih a (b / 256) ha hb2]
    conv_rhs => unfold reverseBytes
    ring

/-- Reversing the bytes twice gives the number back. -/
theorem reverseBytes_reverseBytes (k : Nat) : ∀ v, v < 256 ^ k →
    reverseBytes k (reverseBytes k v) = v := by
  induction k with
  | zero => intro v hv; simp at hv; subst hv; rfl
  | succ k ih =>
    intro v hv
    have hv2 : v / 256 < 256 ^ k := by
      rw [Nat.div_lt_iff_lt_mul (by norm_num)]
      rw [pow_succ] at hv
      exact hv
    conv_lhs => arg 2; unfold reverseBytes
    rw [reverseBytes_push k (v % 256) (reverseBytes k (v / 256)) (Nat.mod_lt _ (by norm_num))
      (reverseBytes_lt _ _), ih _ hv2]
    omega

theorem readBits_lt (buf : List Nat) (p n : Nat) : readBits buf p n < 2 ^ n := by
  unfold readBits
  exact Nat.mod_lt _ (by positivity)

/-- Two reads one after the other are one read of both. -/
theorem readBits_add (buf : List Nat) (p n m : Nat) (h : p + n + m ≤ 8 * buf.length) :
    readBits buf p (n + m) = readBits buf p n * 2 ^ m + readBits buf (p + n) m := by
  unfold readBits
  have e1 : 8 * buf.length - (p + (n + m)) = 8 * buf.length - (p + n + m) := by omega
  have e2 : 8 * buf.length - (p + n) = (8 * buf.length - (p + n + m)) + m := by omega
  rw [e1, e2]
  generalize 8 * buf.length - (p + n + m) = s
  generalize bigEndianNat buf = N
  have hd : N / 2 ^ (s + m) = N / 2 ^ s / 2 ^ m := by
    rw [pow_add, Nat.div_div_eq_div_mul]
  have hp : (2 : Nat) ^ (n + m) = 2 ^ m * 2 ^ n := by
    rw [Nat.add_comm, pow_add]
  rw [hd, hp, Nat.mod_mul]
  ring

theorem writtenLen_append (l1 l2 : List (S × Nat)) :
    writtenLen (l1 ++ l2) = writtenLen l1 + writtenLen l2 := by
  induction l1 with
  | nil => simp [writtenLen]
  | cons x xs ih =>
    obtain ⟨s, len⟩ := x
    show len + writtenLen (xs ++ l2) = len + writtenLen xs + writtenLen l2
    rw [ih]
    omega

theorem written_append (e : Endian) (l1 l2 : List (S × Nat)) :
    written e (l1 ++ l2) = written e l1 * 2 ^ writtenLen l2 + written e l2 := by
  induction l1 with
  | nil => simp [written]
  | cons x xs ih =>
    obtain ⟨s, len⟩ := x
    show writeBack e s len * 2 ^ writtenLen (xs ++ l2) + written e (xs ++ l2) =
      (writeBack e s len * 2 ^ writtenLen xs + written e xs) * 2 ^ writtenLen l2 + written e l2
    rw [ih, writtenLen_append, pow_add]
    ring

theorem leavesList_append (a b : List Value) :
    Value.leavesList (a ++ b) = Value.leavesList a ++ Value.leavesList b := by
  induction a with
  | nil => simp [Value.leavesList]
  | cons x xs ih =>
    show Value.leaves x ++ Value.leavesList (xs ++ b) =
      (Value.leaves x ++ Value.leavesList xs) ++ Value.leavesList b
    rw [ih, List.append_assoc]

theorem leavesList_scalar (name : String) (s : S) (start len : Nat) :
    Value.leavesList [Value.Scalar name s start len] = [(s, len)] := by
  simp [Value.leavesList, Value.leaves]

theorem leavesList_struct (name : String) (cs : List Value) :
    Value.leavesList [Value.Struct name cs] = Value.leavesList cs := by
  simp [Value.leavesList, Value.leaves]

theorem leavesList_array (name : String) (cs : List Value) :
    Value.leavesList [Value.Array name cs] = Value.leavesList cs := by
  simp [Value.leavesList, Value.leaves]

theorem written_single (e : Endian) (s : S) (len : Nat) :
    written e [(s, len)] = writeBack e s len ∧ writtenLen [(s, len)] = len := by
  simp [written, writtenLen]

theorem readBits_zero (buf : List Nat) (p : Nat) : readBits buf p 0 = 0 := by
  unfold readBits
  simp [Nat.mod_one]

theorem exact_pure {α : Type} (a : α) : Exact (pure a : Dec α) := by
  intro d _ b d1 h
  rw [Dec.pure_apply] at h
  simp only [Except.ok.injEq, Prod.mk.injEq] at h
  obtain ⟨-, rfl⟩ := h
  refine ⟨rfl, rfl, le_refl _, by assumption, [], by simp, ?_, ?_⟩
  · simp [Value.leavesList, writtenLen]
  · simp [Value.leavesList, written, readBits_zero]

theorem exactAt_bind {α β : Type} {x : Dec α} {f : α → Dec β} {d : D}
    (hx : ExactAt x d) (hf : ∀ a d1, x d = .ok (a, d1) → ExactAt (f a) d1) :
    ExactAt (x >>= f) d := by
  intro hpos b d2 h
  rw [Dec.bind_apply] at h
  cases hxd : x d with
  | error e => rw [hxd] at h; cases h
  | ok r =>
    obtain ⟨a, d1⟩ := r
    rw [hxd] at h
    simp only at h
    obtain ⟨hb1, he1, hp1, hq1, cs1, hc1, hl1, hw1⟩ := hx hpos a d1 hxd
    obtain ⟨hb2, he2, hp2, hq2, cs2, hc2, hl2, hw2⟩ :=
      hf a d1 hxd (by rw [hb1]; exact hq1) b d2 h
    rw [hb1] at hb2 hq2 hw2
    rw [he1] at he2 hw2
    refine ⟨hb2, he2, le_trans hp1 hp2, hq2, cs1 ++ cs2, ?_, ?_, ?_⟩
    · rw [hc2, hc1, List.append_assoc]
    · rw [leavesList_append, writtenLen_append, hl1, hl2]
      omega
    · rw [leavesList_append, written_append, hl2, hw1, hw2]
      have e1 : d2.pos - d.pos = (d1.pos - d.pos) + (d2.pos - d1.pos) := by omega
      have e2 : d1.pos = d.pos + (d1.pos - d.pos) := by omega
      rw [e1, readBits_add _ _ _ _ (by omega), ← e2]

theorem exact_bind {α β : Type} {x : Dec α} {f : α → Dec β}
    (hx : Exact x) (hf : ∀ a, Exact (f a)) : Exact (x >>= f) :=
  fun d => exactAt_bind (hx d) (fun a d1 _ => hf a d1)

theorem exact_ite {α : Type} (c : Prop) [Decidable c] {x y : Dec α}
    (hx : Exact x) (hy : Exact y) : Exact (if c then x else y) := by
  split
  · exact hx
  · exact hy

theorem exactAt_FieldStruct {α : Type} (name : String) {fn : Dec α} {d : D}
    (h : ExactAt fn { d with children := [] }) : ExactAt (FieldStruct name fn) d := by
  intro hpos a d1 hrun
  unfold FieldStruct at hrun
  cases hfn : fn { d with children := [] } with
  | error e => rw [hfn] at hrun; cases hrun
  | ok r =>
    obtain ⟨a1, cd⟩ := r
    rw [hfn] at hrun
    simp only [Except.ok.injEq, Prod.mk.injEq] at hrun
    obtain ⟨-, rfl⟩ := hrun
    obtain ⟨hb, he, hp, hq, cs, hc, hl, hw⟩ := h hpos a1 cd hfn
    simp only [List.nil_append] at hc
    refine ⟨rfl, rfl, hp, hq, [Value.Struct name cd.children], rfl, ?_, ?_⟩
    · rw [leavesList_struct, hc]; exact hl
    · rw [leavesList_struct, hc]; exact hw

theorem exact_FieldStruct {α : Type} (name : String) {fn : Dec α} (h : Exact fn) :
    Exact (FieldStruct name fn) :=
  fun _ => exactAt_FieldStruct name (h _)

theorem exact_structLoop {α : Type} (structName : String) {fn : Nat → Dec α}
    (h : ∀ idx, Exact (fn idx)) : ∀ n idx, Exact (structLoop structName fn n idx) := by
  intro n
  induction n with
  | zero => intro idx; exact exact_pure _
  | succ n ih =>
    intro idx
    rw [structLoop_succ]
    exact exact_bind (exact_FieldStruct _ (h idx))
      (fun a => exact_bind (ih (idx + 1)) (fun rest => exact_pure _))

theorem exact_FieldStructArrayLoop {α : Type} (name structName : String) (n : Nat)
    {fn : Nat → Dec α} (h : ∀ idx, Exact (fn idx)) :
    Exact (FieldStructArrayLoop name structName n fn) := by
  intro d hpos a d1 hrun
  unfold FieldStructArrayLoop at hrun
  cases hfn : structLoop structName fn n 0 { d with children := [] } with
  | error e => rw [hfn] at hrun; cases hrun
  | ok r =>
    obtain ⟨a1, cd⟩ := r
    rw [hfn] at hrun
    simp only [Except.ok.injEq, Prod.mk.injEq] at hrun
    obtain ⟨-, rfl⟩ := hrun
    obtain ⟨hb, he, hp, hq, cs, hc, hl, hw⟩ := exact_structLoop structName h n 0 { d with children := [] } hpos a1 cd hfn
    simp only [List.nil_append] at hc
    refine ⟨rfl, rfl, hp, hq, [Value.Array name cd.children], rfl, ?_, ?_⟩
    · rw [leavesList_array, hc]; exact hl
    · rw [leavesList_array, hc]; exact hw

theorem keepsActual_Hex : KeepsActual Hex := fun _ => rfl

theorem keepsActual_timestampMapper : KeepsActual timestampMapper := fun _ => rfl

theorem keepsActual_UToSymStr (table : List (Nat × String)) : KeepsActual (UToSymStr table) := by
  intro s
  unfold UToSymStr
  split
  · split <;> rfl
  · rfl

theorem keepsActual_UToScalar (table : List (Nat × String)) : KeepsActual (UToScalar table) := by
  intro s
  unfold UToScalar
  split
  · split <;> rfl
  · rfl

theorem keepsActual_BitBufIsZero : KeepsActual BitBufIsZero := by
  intro s
  unfold BitBufIsZero
  split <;> rfl

theorem keeps_nil : ∀ m ∈ ([] : List Mapper), KeepsActual m := by
  intro m hm
  cases hm

theorem keeps_cons {m : Mapper} {l : List Mapper} (hm : KeepsActual m)
    (hl : ∀ m1 ∈ l, KeepsActual m1) : ∀ m1 ∈ m :: l, KeepsActual m1 := by
  intro m1 h1
  rcases List.mem_cons.mp h1 with rfl | h2
  · exact hm
  · exact hl m1 h2

theorem applyMappers_actual (sms : List Mapper) (h : ∀ m ∈ sms, KeepsActual m) (s : S) :
    (applyMappers sms s).Actual = s.Actual := by
  unfold applyMappers
  induction sms generalizing s with
  | nil => rfl
  | cons m l ih =>
    rw [List.foldl_cons, ih (fun m1 h1 => h m1 (List.mem_cons_of_mem _ h1)),
      h m (List.mem_cons_self _ _)]

theorem two_pow_eight_mul (k : Nat) : (2 : Nat) ^ (8 * k) = 256 ^ k := by
  rw [pow_mul]
  norm_num

/-- An unsigned field written back at its width and in the byte order it was read in gives the
bits it was read from. -/
theorem writeBack_unsigned (buf : List Nat) (p k : Nat) (e : Endian) (s : S)
    (hs : s.Actual = .U (readU buf p (8 * k) e)) :
    writeBack e s (8 * k) = readBits buf p (8 * k) := by
  have hdiv : 8 * k / 8 = k := by omega
  have hlt : readBits buf p (8 * k) < 256 ^ k := by
    rw [← two_pow_eight_mul]
    exact readBits_lt _ _ _
  unfold writeBack
  rw [hs]
  simp only
  unfold readU
  by_cases he : e = .LittleEndian
  · rw [if_pos he, if_pos he, hdiv, two_pow_eight_mul,
      Nat.mod_eq_of_lt (reverseBytes_lt _ _), reverseBytes_reverseBytes _ _ hlt]
  · rw [if_neg he, if_neg he, two_pow_eight_mul, Nat.mod_eq_of_lt hlt]

theorem writeBack_zero (e : Endian) (s : S) : writeBack e s 0 = 0 := by
  unfold writeBack
  cases s.Actual <;> simp [reverseBytes, Nat.mod_one, Int.emod_one]

theorem exact_addScalar_zero (name : String) (s : S) :
    Exact (fun d => addScalar name s d.pos 0 d) := by
  intro d hpos a d1 h
  unfold addScalar at h
  simp only [Except.ok.injEq, Prod.mk.injEq] at h
  obtain ⟨-, rfl⟩ := h
  refine ⟨rfl, rfl, le_refl _, hpos, [Value.Scalar name s d.pos 0], rfl, ?_, ?_⟩
  · rw [leavesList_scalar]; simp [writtenLen]
  · rw [leavesList_scalar]; simp [written, writtenLen, writeBack_zero, readBits_zero]

theorem exact_FieldValueS (name : String) (a : Int) : Exact (FieldValueS name a) :=
  exact_addScalar_zero name _

theorem exact_FieldValueU (name : String) (a : Nat) : Exact (FieldValueU name a) :=
  exact_addScalar_zero name _

theorem exact_FieldValueStr (name : String) (a : String) : Exact (FieldValueStr name a) :=
  exact_addScalar_zero name _

theorem exact_FieldU (k : Nat) (name : String) (sms : List Mapper)
    (h : ∀ m ∈ sms, KeepsActual m) : Exact (FieldU (8 * k) name sms) := by
  intro d hpos a d1 hrun
  rw [FieldU_eq] at hrun
  split at hrun
  · cases hrun
  · rename_i hlen
    simp only [Except.ok.injEq, Prod.mk.injEq] at hrun
    obtain ⟨-, rfl⟩ := hrun
    refine ⟨rfl, rfl, by simp, by simp only; omega, _, rfl, ?_, ?_⟩
    · rw [leavesList_scalar]; simp [writtenLen]
    · rw [leavesList_scalar, (written_single _ _ _).1]
      simp only [Nat.add_sub_cancel_left]
      exact writeBack_unsigned _ _ _ _ _ (applyMappers_actual sms h _)

theorem exact_FieldU32 (name : String) (sms : List Mapper)
    (h : ∀ m ∈ sms, KeepsActual m) : Exact (FieldU32 name sms) :=
  exact_FieldU 4 name sms h

theorem exact_FieldU64 (name : String) (sms : List Mapper)
    (h : ∀ m ∈ sms, KeepsActual m) : Exact (FieldU64 name sms) :=
  exact_FieldU 8 name sms h

theorem exact_FieldBool (name : String) : Exact (FieldBool name) := by
  intro d hpos a d1 hrun
  unfold FieldBool TryU addScalar at hrun
  split at hrun
  · rename_i e heq
    split at heq
    · cases hrun
    · cases heq
  · rename_i v d2 heq
    split at heq
    · cases heq
    · rename_i hlen
      simp only [Except.ok.injEq, Prod.mk.injEq] at heq
      obtain ⟨rfl, rfl⟩ := heq
      simp only [Except.ok.injEq, Prod.mk.injEq] at hrun
      obtain ⟨-, rfl⟩ := hrun
      refine ⟨rfl, rfl, by simp, by simp only; omega, _, rfl, ?_, ?_⟩
      · rw [leavesList_scalar]; simp [writtenLen]
      · rw [leavesList_scalar, (written_single _ _ _).1]
        simp only [Nat.add_sub_cancel_left]
        have hv : readBits d.buf d.pos 1 < 2 := by
          have := readBits_lt d.buf d.pos 1
          simpa using this
        have hu : readU d.buf d.pos 1 .BigEndian = readBits d.buf d.pos 1 := by
          unfold readU
          rw [if_neg (by decide)]
        unfold writeBack
        simp only [hu]
        rcases Nat.lt_succ_iff_lt_or_eq.mp hv with h0 | h1
        · have h0 : readBits d.buf d.pos 1 = 0 := by omega
          rw [h0]; rfl
        · rw [h1]; rfl

theorem exact_FieldRawLen (name : String) (nBits : Int) (sms : List Mapper)
    (h : ∀ m ∈ sms, KeepsActual m) : Exact (FieldRawLen name nBits sms) := by
  intro d hpos a d1 hrun
  unfold FieldRawLen RawLen TryU addScalar at hrun
  split at hrun
  · cases hrun
  · rename_i v d2 heq
    split at heq
    · cases heq
    · split at heq
      · cases heq
      · rename_i hneg hlen
        simp only [Except.ok.injEq, Prod.mk.injEq] at heq
        obtain ⟨rfl, rfl⟩ := heq
        simp only [Except.ok.injEq, Prod.mk.injEq] at hrun
        obtain ⟨-, rfl⟩ := hrun
        refine ⟨rfl, rfl, by simp, by simp only; omega, _, rfl, ?_, ?_⟩
        · rw [leavesList_scalar]; simp [writtenLen]
        · rw [leavesList_scalar, (written_single _ _ _).1]
          simp only [Nat.add_sub_cancel_left]
          have hu : readU d.buf d.pos nBits.toNat .BigEndian = readBits d.buf d.pos nBits.toNat := by
            unfold readU
            rw [if_neg (by decide)]
          unfold writeBack
          rw [applyMappers_actual sms h]
          simp only [hu]
          exact Nat.mod_eq_of_lt (readBits_lt _ _ _)

theorem grows_pure {α : Type} (a : α) : Grows (pure a : Dec α) := by
  intro d b d1 h
  rw [Dec.pure_apply] at h
  simp only [Except.ok.injEq, Prod.mk.injEq] at h
  obtain ⟨-, rfl⟩ := h
  exact ⟨[], by simp⟩

theorem grows_bind {α β : Type} {x : Dec α} {f : α → Dec β}
    (hx : Grows x) (hf : ∀ a, Grows (f a)) : Grows (x >>= f) := by
  intro d b d2 h
  rw [Dec.bind_eq_ok] at h
  obtain ⟨a, d1, h1, h2⟩ := h
  obtain ⟨cs1, hc1⟩ := hx d a d1 h1
  obtain ⟨cs2, hc2⟩ := hf a d1 b d2 h2
  exact ⟨cs1 ++ cs2, by rw [hc2, hc1, List.append_assoc]⟩

theorem grows_ite {α : Type} (c : Prop) [Decidable c] {x y : Dec α}
    (hx : Grows x) (hy : Grows y) : Grows (if c then x else y) := by
  split
  · exact hx
  · exact hy

theorem grows_FieldStruct {α : Type} (name : String) (fn : Dec α) :
    Grows (FieldStruct name fn) := by
  intro d a d1 h
  rw [FieldStruct_eq_ok] at h
  obtain ⟨cd, -, hd⟩ := h
  simp only at hd
  exact ⟨_, by rw [hd]⟩

theorem grows_FieldStructArrayLoop {α : Type} (name structName : String) (n : Nat)
    (fn : Nat → Dec α) : Grows (FieldStructArrayLoop name structName n fn) := by
  intro d a d1 h
  rw [FieldStructArrayLoop_eq_ok] at h
  obtain ⟨ad, -, hd⟩ := h
  simp only at hd
  exact ⟨_, by rw [hd]⟩

theorem grows_FieldU (nBits : Nat) (name : String) (sms : List Mapper) :
    Grows (FieldU nBits name sms) := by
  intro d a d1 h
  rw [FieldU_eq] at h
  split at h
  · cases h
  · simp only [Except.ok.injEq, Prod.mk.injEq] at h
    obtain ⟨-, rfl⟩ := h
    exact ⟨_, rfl⟩

theorem grows_FieldU32 (name : String) (sms : List Mapper) : Grows (FieldU32 name sms) :=
  grows_FieldU 32 name sms

theorem grows_FieldU64 (name : String) (sms : List Mapper) : Grows (FieldU64 name sms) :=
  grows_FieldU 64 name sms

theorem grows_U32 : Grows U32 := by
  intro d a d1 h
  unfold U32 TryU at h
  split at h
  · cases h
  · simp only [Except.ok.injEq, Prod.mk.injEq] at h
    obtain ⟨-, rfl⟩ := h
    exact ⟨[], by simp⟩

theorem grows_SeekRel (delta : Int) : Grows (SeekRel delta) := by
  intro d a d1 h
  unfold SeekRel at h
  split at h
  · cases h
  · simp only [Except.ok.injEq, Prod.mk.injEq] at h
    obtain ⟨-, rfl⟩ := h
    exact ⟨[], by simp⟩

theorem grows_FieldUTF8NullFixedLen (name : String) (fixedBytes : Int) :
    Grows (FieldUTF8NullFixedLen name fixedBytes) := by
  intro d a d1 h
  unfold FieldUTF8NullFixedLen addScalar at h
  split at h
  · cases h
  · split at h
    · cases h
    · simp only [Except.ok.injEq, Prod.mk.injEq] at h
      obtain ⟨-, rfl⟩ := h
      exact ⟨_, rfl⟩

theorem grows_FieldUTF8Null (name : String) : Grows (FieldUTF8Null name) := by
  intro d a d1 h
  unfold FieldUTF8Null addScalar at h
  split at h
  · cases h
  · simp only [Except.ok.injEq, Prod.mk.injEq] at h
    obtain ⟨-, rfl⟩ := h
    exact ⟨_, rfl⟩

theorem grows_FieldBitBufFn (name : String) (fn : Dec Nat) (hfn : Grows fn) :
    Grows (FieldBitBufFn name fn) := by
  intro d a d1 h
  unfold FieldBitBufFn addScalar at h
  split at h
  · cases h
  · rename_i v d2 heq
    simp only [Except.ok.injEq, Prod.mk.injEq] at h
    obtain ⟨-, rfl⟩ := h
    obtain ⟨cs, hcs⟩ := hfn d v d2 heq
    exact ⟨cs ++ [Value.Scalar name ⟨.Raw v, none, ""⟩ d.pos (d2.pos - d.pos)],
      by simp only [hcs, List.append_assoc]⟩

theorem grows_RawLen (nBits : Int) : Grows (RawLen nBits) := by
  intro d a d1 h
  unfold RawLen TryU at h
  split at h
  · cases h
  · split at h
    · cases h
    · simp only [Except.ok.injEq, Prod.mk.injEq] at h
      obtain ⟨-, rfl⟩ := h
      exact ⟨[], by simp⟩

theorem grows_loadCommandPayload (archBits : Int) (cpuType cmd cmdsize : Nat) :
    Grows (loadCommandPayload archBits cpuType cmd cmdsize) := by
  unfold Macho.loadCommandPayload
  repeat' with_reducible first
    | exact grows_pure _
    | exact grows_FieldU32 _ _
    | exact grows_FieldU64 _ _
    | exact grows_U32
    | exact grows_RawLen _
    | exact grows_SeekRel _
    | exact grows_FieldUTF8NullFixedLen _ _
    | exact grows_FieldUTF8Null _
    | exact grows_FieldStruct _ _
    | exact grows_FieldStructArrayLoop _ _ _ _
    | apply grows_FieldBitBufFn
    | apply grows_ite
    | apply grows_bind
    | intro _

/-- The first field of a decoded load command is its `cmd` word as read at the cursor. -/
theorem loadCommand_children {archBits : Int} {cpuType : Nat} {d d1 : D} {a : Unit}
    (h : loadCommand archBits cpuType d = .ok (a, d1)) :
    ∃ cs, d1.children = d.children ++ Value.Scalar "cmd"
      (applyMappers [UToSymStr loadCommands, Hex] ⟨.U (readU d.buf d.pos 32 d.Endian), none, ""⟩)
      d.pos 32 :: cs := by
  unfold loadCommand at h
  rw [Dec.bind_eq_ok] at h
  obtain ⟨cmd, d2, h1, h2⟩ := h
  obtain ⟨hv, -, -, hd2⟩ := FieldU32_ok h1
  have hg : Grows (FieldU32 "cmdsize" [] >>= fun cmdsize =>
      loadCommandPayload archBits cpuType cmd cmdsize) :=
    grows_bind (grows_FieldU32 _ _) (fun s => grows_loadCommandPayload _ _ _ s)
  obtain ⟨cs, hcs⟩ := hg d2 a d1 h2
  refine ⟨cs, ?_⟩
  rw [hcs, hd2, hv]
  simp

theorem commandId_cons (name : String) (v start len : Nat) (sms : List Mapper)
    (h : ∀ m ∈ sms, KeepsActual m) (cs : List Value) :
    (field "cmd" (Value.children (Value.Struct name
      (Value.Scalar "cmd" (applyMappers sms ⟨.U v, none, ""⟩) start len :: cs)))).bind
        Value.unsigned = some v := by
  have ha := applyMappers_actual sms h ⟨.U v, none, ""⟩
  generalize applyMappers sms ⟨.U v, none, ""⟩ = s at ha
  obtain ⟨act, sym, descr⟩ := s
  simp only at ha
  subst ha
  simp [field, Value.children, Value.name, Value.unsigned]

theorem exact_parseMachHeaderFlags : Exact parseMachHeaderFlags := by
  unfold Macho.parseMachHeaderFlags
  repeat' with_reducible first
    | exact exact_pure _
    | exact keeps_nil
    | exact keepsActual_Hex
    | exact keepsActual_timestampMapper
    | exact keepsActual_BitBufIsZero
    | exact keepsActual_UToSymStr _
    | exact keepsActual_UToScalar _
    | apply keeps_cons
    | exact exact_FieldBool _
    | exact exact_FieldValueS _ _
    | exact exact_FieldValueU _ _
    | exact exact_FieldValueStr _ _
    | apply exact_FieldU32
    | apply exact_FieldU64
    | apply exact_FieldRawLen
    | apply exact_FieldStruct
    | apply exact_FieldStructArrayLoop
    | apply exact_ite
    | apply exact_bind
    | intro _

theorem exact_headerDecode (archBits : Int) : Exact (headerDecode archBits) := by
  unfold Macho.headerDecode
  repeat' with_reducible first
    | exact exact_parseMachHeaderFlags
    | exact exact_pure _
    | exact keeps_nil
    | exact keepsActual_Hex
    | exact keepsActual_timestampMapper
    | exact keepsActual_BitBufIsZero
    | exact keepsActual_UToSymStr _
    | exact keepsActual_UToScalar _
    | apply keeps_cons
    | exact exact_FieldBool _
    | exact exact_FieldValueS _ _
    | exact exact_FieldValueU _ _
    | exact exact_FieldValueStr _ _
    | apply exact_FieldU32
    | apply exact_FieldU64
    | apply exact_FieldRawLen
    | apply exact_FieldStruct
    | apply exact_FieldStructArrayLoop
    | apply exact_ite
    | apply exact_bind
    | intro _

theorem exact_threadStateI386Decode : Exact threadStateI386Decode := by
  unfold Macho.threadStateI386Decode
  repeat' with_reducible first
    | exact exact_pure _
    | exact keeps_nil
    | exact keepsActual_Hex
    | exact keepsActual_timestampMapper
    | exact keepsActual_BitBufIsZero
    | exact keepsActual_UToSymStr _
    | exact keepsActual_UToScalar _
    | apply keeps_cons
    | exact exact_FieldBool _
    | exact exact_FieldValueS _ _
    | exact exact_FieldValueU _ _
    | exact exact_FieldValueStr _ _
    | apply exact_FieldU32
    | apply exact_FieldU64
    | apply exact_FieldRawLen
    | apply exact_FieldStruct
    | apply exact_FieldStructArrayLoop
    | apply exact_ite
    | apply exact_bind
    | intro _

theorem exact_threadStateX8664Decode : Exact threadStateX8664Decode := by
  unfold Macho.threadStateX8664Decode
  repeat' with_reducible first
    | exact exact_pure _
    | exact keeps_nil
    | exact keepsActual_Hex
    | exact keepsActual_timestampMapper
    | exact keepsActual_BitBufIsZero
    | exact keepsActual_UToSymStr _
    | exact keepsActual_UToScalar _
    | apply keeps_cons
    | exact exact_FieldBool _
    | exact exact_FieldValueS _ _
    | exact exact_FieldValueU _ _
    | exact exact_FieldValueStr _ _
    | apply exact_FieldU32
    | apply exact_FieldU64
    | apply exact_FieldRawLen
    | apply exact_FieldStruct
    | apply exact_FieldStructArrayLoop
    | apply exact_ite
    | apply exact_bind
    | intro _

theorem exact_threadStateARM32Decode : Exact threadStateARM32Decode := by
  unfold Macho.threadStateARM32Decode
  repeat' with_reducible first
    | exact exact_pure _
    | exact keeps_nil
    | exact keepsActual_Hex
    | exact keepsActual_timestampMapper
    | exact keepsActual_BitBufIsZero
    | exact keepsActual_UToSymStr _
    | exact keepsActual_UToScalar _
    | apply keeps_cons
    | exact exact_FieldBool _
    | exact exact_FieldValueS _ _
    | exact exact_FieldValueU _ _
    | exact exact_FieldValueStr _ _
    | apply exact_FieldU32
    | apply exact_FieldU64
    | apply exact_FieldRawLen
    | apply exact_FieldStruct
    | apply exact_FieldStructArrayLoop
    | apply exact_ite
    | apply exact_bind
    | intro _

theorem exact_threadStateARM64Decode : Exact threadStateARM64Decode := by
  unfold Macho.threadStateARM64Decode
  repeat' with_reducible first
    | exact exact_pure _
    | exact keeps_nil
    | exact keepsActual_Hex
    | exact keepsActual_timestampMapper
    | exact keepsActual_BitBufIsZero
    | exact keepsActual_UToSymStr _
    | exact keepsActual_UToScalar _
    | apply keeps_cons
    | exact exact_FieldBool _
    | exact exact_FieldValueS _ _
    | exact exact_FieldValueU _ _
    | exact exact_FieldValueStr _ _
    | apply exact_FieldU32
    | apply exact_FieldU64
    | apply exact_FieldRawLen
    | apply exact_FieldStruct
    | apply exact_FieldStructArrayLoop
    | apply exact_ite
    | apply exact_bind
    | intro _

theorem exact_threadStatePPC32Decode : Exact threadStatePPC32Decode := by
  unfold Macho.threadStatePPC32Decode
  repeat' with_reducible first
    | exact exact_pure _
    | exact keeps_nil
    | exact keepsActual_Hex
    | exact keepsActual_timestampMapper
    | exact keepsActual_BitBufIsZero
    | exact keepsActual_UToSymStr _
    | exact keepsActual_UToScalar _
    | apply keeps_cons
    | exact exact_FieldBool _
    | exact exact_FieldValueS _ _
    | exact exact_FieldValueU _ _
    | exact exact_FieldValueStr _ _
    | apply exact_FieldU32
    | apply exact_FieldU64
    | apply exact_FieldRawLen
    | apply exact_FieldStruct
    | apply exact_FieldStructArrayLoop
    | apply exact_ite
    | apply exact_bind
    | intro _

theorem exact_threadStatePPC64Decode : Exact threadStatePPC64Decode := by
  unfold Macho.threadStatePPC64Decode
  repeat' with_reducible first
    | exact exact_pure _
    | exact keeps_nil
    | exact keepsActual_Hex
    | exact keepsActual_timestampMapper
    | exact keepsActual_BitBufIsZero
    | exact keepsActual_UToSymStr _
    | exact keepsActual_UToScalar _
    | apply keeps_cons
    | exact exact_FieldBool _
    | exact exact_FieldValueS _ _
    | exact exact_FieldValueU _ _
    | exact exact_FieldValueStr _ _
    | apply exact_FieldU32
    | apply exact_FieldU64
    | apply exact_FieldRawLen
    | apply exact_FieldStruct
    | apply exact_FieldStructArrayLoop
    | apply exact_ite
    | apply exact_bind
    | intro _

theorem exact_threadStateDecode (cpuType count : Nat) :
    Exact (threadStateDecode cpuType count) := by
  unfold Macho.threadStateDecode
  repeat' with_reducible first
    | exact exact_threadStateI386Decode
    | exact exact_threadStateX8664Decode
    | exact exact_threadStateARM32Decode
    | exact exact_threadStateARM64Decode
    | exact exact_threadStatePPC32Decode
    | exact exact_threadStatePPC64Decode
    | exact keeps_nil
    | apply exact_FieldRawLen
    | apply exact_ite

theorem exact_payload_uuid (archBits : Int) (cpuType cmd cmdsize : Nat)
    (hcmd : cmd = LC_UUID) :
    Exact (loadCommandPayload archBits cpuType cmd cmdsize) := by
  subst hcmd
  · unfold Macho.loadCommandPayload
    simp (disch := decide) only [if_neg, if_pos]
    repeat' with_reducible first
      | exact exact_threadStateDecode _ _
      | exact exact_pure _
      | exact keeps_nil
      | exact keepsActual_Hex
      | exact keepsActual_timestampMapper
      | exact keepsActual_BitBufIsZero
      | exact keepsActual_UToSymStr _
      | exact keepsActual_UToScalar _
      | apply keeps_cons
      | exact exact_FieldBool _
      | exact exact_FieldValueS _ _
      | exact exact_FieldValueU _ _
      | exact exact_FieldValueStr _ _
      | apply exact_FieldU32
      | apply exact_FieldU64
      | apply exact_FieldRawLen
      | apply exact_FieldStruct
      | apply exact_FieldStructArrayLoop
      | apply exact_ite
      | apply exact_bind
      | intro _

theorem exact_payload_twolevel (archBits : Int) (cpuType cmd cmdsize : Nat)
    (hcmd : cmd = LC_TWOLEVEL_HINTS) :
    Exact (loadCommandPayload archBits cpuType cmd cmdsize) := by
  subst hcmd
  · unfold Macho.loadCommandPayload
    simp (disch := decide) only [if_neg, if_pos]
    repeat' with_reducible first
      | exact exact_threadStateDecode _ _
      | exact exact_pure _
      | exact keeps_nil
      | exact keepsActual_Hex
      | exact keepsActual_timestampMapper
      | exact keepsActual_BitBufIsZero
      | exact keepsActual_UToSymStr _
      | exact keepsActual_UToScalar _
      | apply keeps_cons
      | exact exact_FieldBool _
      | exact exact_FieldValueS _ _
      | exact exact_FieldValueU _ _
      | exact exact_FieldValueStr _ _
      | apply exact_FieldU32
      | apply exact_FieldU64
      | apply exact_FieldRawLen
      | apply exact_FieldStruct
      | apply exact_FieldStructArrayLoop
      | apply exact_ite
      | apply exact_bind
      | intro _

theorem exact_payload_thread (archBits : Int) (cpuType cmd cmdsize : Nat)
    (hcmd : cmd = LC_THREAD ∨ cmd = LC_UNIXTHREAD) :
    Exact (loadCommandPayload archBits cpuType cmd cmdsize) := by
  rcases hcmd with rfl | rfl <;>
  · unfold Macho.loadCommandPayload
    simp (disch := decide) only [if_neg, if_pos]
    repeat' with_reducible first
      | exact exact_threadStateDecode _ _
      | exact exact_pure _
      | exact keeps_nil
      | exact keepsActual_Hex
      | exact keepsActual_timestampMapper
      | exact keepsActual_BitBufIsZero
      | exact keepsActual_UToSymStr _
      | exact keepsActual_UToScalar _
      | apply keeps_cons
      | exact exact_FieldBool _
      | exact exact_FieldValueS _ _
      | exact exact_FieldValueU _ _
      | exact exact_FieldValueStr _ _
      | apply exact_FieldU32
      | apply exact_FieldU64
      | apply exact_FieldRawLen
      | apply exact_FieldStruct
      | apply exact_FieldStructArrayLoop
      | apply exact_ite
      | apply exact_bind
      | intro _

theorem exact_payload_routines (archBits : Int) (cpuType cmd cmdsize : Nat)
    (hcmd : cmd = LC_ROUTINES ∨ cmd = LC_ROUTINES_64) :
    Exact (loadCommandPayload archBits cpuType cmd cmdsize) := by
  rcases hcmd with rfl | rfl <;>
  · unfold Macho.loadCommandPayload
    simp (disch := decide) only [if_neg, if_pos]
    repeat' with_reducible first
      | exact exact_threadStateDecode _ _
      | exact exact_pure _
      | exact keeps_nil
      | exact keepsActual_Hex
      | exact keepsActual_timestampMapper
      | exact keepsActual_BitBufIsZero
      | exact keepsActual_UToSymStr _
      | exact keepsActual_UToScalar _
      | apply keeps_cons
      | exact exact_FieldBool _
      | exact exact_FieldValueS _ _
      | exact exact_FieldValueU _ _
      | exact exact_FieldValueStr _ _
      | apply exact_FieldU32
      | apply exact_FieldU64
      | apply exact_FieldRawLen
      | apply exact_FieldStruct
      | apply exact_FieldStructArrayLoop
      | apply exact_ite
      | apply exact_bind
      | intro _

theorem exact_payload_symtab (archBits : Int) (cpuType cmd cmdsize : Nat)
    (hcmd : cmd = LC_SYMTAB) :
    Exact (loadCommandPayload archBits cpuType cmd cmdsize) := by
  subst hcmd
  · unfold Macho.loadCommandPayload
    simp (disch := decide) only [if_neg, if_pos]
    repeat' with_reducible first
      | exact exact_threadStateDecode _ _
      | exact exact_pure _
      | exact keeps_nil
      | exact keepsActual_Hex
      | exact keepsActual_timestampMapper
      | exact keepsActual_BitBufIsZero
      | exact keepsActual_UToSymStr _
      | exact keepsActual_UToScalar _
      | apply keeps_cons
      | exact exact_FieldBool _
      | exact exact_FieldValueS _ _
      | exact exact_FieldValueU _ _
      | exact exact_FieldValueStr _ _
      | apply exact_FieldU32
      | apply exact_FieldU64
      | apply exact_FieldRawLen
      | apply exact_FieldStruct
      | apply exact_FieldStructArrayLoop
      | apply exact_ite
      | apply exact_bind
      | intro _

theorem exact_payload_dysymtab (archBits : Int) (cpuType cmd cmdsize : Nat)
    (hcmd : cmd = LC_DYSYMTAB) :
    Exact (loadCommandPayload archBits cpuType cmd cmdsize) := by
  subst hcmd
  · unfold Macho.loadCommandPayload
    simp (disch := decide) only [if_neg, if_pos]
    repeat' with_reducible first
      | exact exact_threadStateDecode _ _
      | exact exact_pure _
      | exact keeps_nil
      | exact keepsActual_Hex
      | exact keepsActual_timestampMapper
      | exact keepsActual_BitBufIsZero
      | exact keepsActual_UToSymStr _
      | exact keepsActual_UToScalar _
      | apply keeps_cons
      | exact exact_FieldBool _
      | exact exact_FieldValueS _ _
      | exact exact_FieldValueU _ _
      | exact exact_FieldValueStr _ _
      | apply exact_FieldU32
      | apply exact_FieldU64
      | apply exact_FieldRawLen
      | apply exact_FieldStruct
      | apply exact_FieldStructArrayLoop
      | apply exact_ite
      | apply exact_bind
      | intro _

theorem exact_payload_buildVersion (archBits : Int) (cpuType cmd cmdsize : Nat)
    (hcmd : cmd = LC_BUILD_VERSION) :
    Exact (loadCommandPayload archBits cpuType cmd cmdsize) := by
  subst hcmd
  · unfold Macho.loadCommandPayload
    simp (disch := decide) only [if_neg, if_pos]
    repeat' with_reducible first
      | exact exact_threadStateDecode _ _
      | exact exact_pure _
      | exact keeps_nil
      | exact keepsActual_Hex
      | exact keepsActual_timestampMapper
      | exact keepsActual_BitBufIsZero
      | exact keepsActual_UToSymStr _
      | exact keepsActual_UToScalar _
      | apply keeps_cons
      | exact exact_FieldBool _
      | exact exact_FieldValueS _ _
      | exact exact_FieldValueU _ _
      | exact exact_FieldValueStr _ _
      | apply exact_FieldU32
      | apply exact_FieldU64
      | apply exact_FieldRawLen
      | apply exact_FieldStruct
      | apply exact_FieldStructArrayLoop
      | apply exact_ite
      | apply exact_bind
      | intro _

theorem exact_payload_linkedit (archBits : Int) (cpuType cmd cmdsize : Nat)
    (hcmd : cmd = LC_CODE_SIGNATURE ∨ cmd = LC_SEGMENT_SPLIT_INFO ∨ cmd = LC_FUNCTION_STARTS ∨ cmd = LC_DATA_IN_CODE ∨ cmd = LC_DYLIB_CODE_SIGN_DRS ∨ cmd = LC_LINKER_OPTIMIZATION_HINT) :
    Exact (loadCommandPayload archBits cpuType cmd cmdsize) := by
  rcases hcmd with rfl | rfl | rfl | rfl | rfl | rfl <;>
  · unfold Macho.loadCommandPayload
    simp (disch := decide) only [if_neg, if_pos]
    repeat' with_reducible first
      | exact exact_threadStateDecode _ _
      | exact exact_pure _
      | exact keeps_nil
      | exact keepsActual_Hex
      | exact keepsActual_timestampMapper
      | exact keepsActual_BitBufIsZero
      | exact keepsActual_UToSymStr _
      | exact keepsActual_UToScalar _
      | apply keeps_cons
      | exact exact_FieldBool _
      | exact exact_FieldValueS _ _
      | exact exact_FieldValueU _ _
      | exact exact_FieldValueStr _ _
      | apply exact_FieldU32
      | apply exact_FieldU64
      | apply exact_FieldRawLen
      | apply exact_FieldStruct
      | apply exact_FieldStructArrayLoop
      | apply exact_ite
      | apply exact_bind
      | intro _

theorem exact_payload_versionmin (archBits : Int) (cpuType cmd cmdsize : Nat)
    (hcmd : cmd = LC_VERSION_MIN_IPHONEOS ∨ cmd = LC_VERSION_MIN_MACOSX ∨ cmd = LC_VERSION_MIN_TVOS ∨ cmd = LC_VERSION_MIN_WATCHOS) :
    Exact (loadCommandPayload archBits cpuType cmd cmdsize) := by
  rcases hcmd with rfl | rfl | rfl | rfl <;>
  · unfold Macho.loadCommandPayload
    simp (disch := decide) only [if_neg, if_pos]
    repeat' with_reducible first
      | exact exact_threadStateDecode _ _
      | exact exact_pure _
      | exact keeps_nil
      | exact keepsActual_Hex
      | exact keepsActual_timestampMapper
      | exact keepsActual_BitBufIsZero
      | exact keepsActual_UToSymStr _
      | exact keepsActual_UToScalar _
      | apply keeps_cons
      | exact exact_FieldBool _
      | exact exact_FieldValueS _ _
      | exact exact_FieldValueU _ _
      | exact exact_FieldValueStr _ _
      | apply exact_FieldU32
      | apply exact_FieldU64
      | apply exact_FieldRawLen
      | apply exact_FieldStruct
      | apply exact_FieldStructArrayLoop
      | apply exact_ite
      | apply exact_bind
      | intro _

theorem exact_payload_dyldinfo (archBits : Int) (cpuType cmd cmdsize : Nat)
    (hcmd : cmd = LC_DYLD_INFO ∨ cmd = LC_DYLD_INFO_ONLY) :
    Exact (loadCommandPayload archBits cpuType cmd cmdsize) := by
  rcases hcmd with rfl | rfl <;>
  · unfold Macho.loadCommandPayload
    simp (disch := decide) only [if_neg, if_pos]
    repeat' with_reducible first
      | exact exact_threadStateDecode _ _
      | exact exact_pure _
      | exact keeps_nil
      | exact keepsActual_Hex
      | exact keepsActual_timestampMapper
      | exact keepsActual_BitBufIsZero
      | exact keepsActual_UToSymStr _
      | exact keepsActual_UToScalar _
      | apply keeps_cons
      | exact exact_FieldBool _
      | exact exact_FieldValueS _ _
      | exact exact_FieldValueU _ _
      | exact exact_FieldValueStr _ _
      | apply exact_FieldU32
      | apply exact_FieldU64
      | apply exact_FieldRawLen
      | apply exact_FieldStruct
      | apply exact_FieldStructArrayLoop
      | apply exact_ite
      | apply exact_bind
      | intro _

theorem exact_payload_main (archBits : Int) (cpuType cmd cmdsize : Nat)
    (hcmd : cmd = LC_MAIN) :
    Exact (loadCommandPayload archBits cpuType cmd cmdsize) := by
  subst hcmd
  · unfold Macho.loadCommandPayload
    simp (disch := decide) only [if_neg, if_pos]
    repeat' with_reducible first
      | exact exact_threadStateDecode _ _
      | exact exact_pure _
      | exact keeps_nil
      | exact keepsActual_Hex
      | exact keepsActual_timestampMapper
      | exact keepsActual_BitBufIsZero
      | exact keepsActual_UToSymStr _
      | exact keepsActual_UToScalar _
      | apply keeps_cons
      | exact exact_FieldBool _
      | exact exact_FieldValueS _ _
      | exact exact_FieldValueU _ _
      | exact exact_FieldValueStr _ _
      | apply exact_FieldU32
      | apply exact_FieldU64
      | apply exact_FieldRawLen
      | apply exact_FieldStruct
      | apply exact_FieldStructArrayLoop
      | apply exact_ite
      | apply exact_bind
      | intro _

theorem exact_payload_sourceversion (archBits : Int) (cpuType cmd cmdsize : Nat)
    (hcmd : cmd = LC_SOURCE_VERSION) :
    Exact (loadCommandPayload archBits cpuType cmd cmdsize) := by
  subst hcmd
  · unfold Macho.loadCommandPayload
    simp (disch := decide) only [if_neg, if_pos]
    repeat' with_reducible first
      | exact exact_threadStateDecode _ _
      | exact exact_pure _
      | exact keeps_nil
      | exact keepsActual_Hex
      | exact keepsActual_timestampMapper
      | exact keepsActual_BitBufIsZero
      | exact keepsActual_UToSymStr _
      | exact keepsActual_UToScalar _
      | apply keeps_cons
      | exact exact_FieldBool _
      | exact exact_FieldValueS _ _
      | exact exact_FieldValueU _ _
      | exact exact_FieldValueStr _ _
      | apply exact_FieldU32
      | apply exact_FieldU64
      | apply exact_FieldRawLen
      | apply exact_FieldStruct
      | apply exact_FieldStructArrayLoop
      | apply exact_ite
      | apply exact_bind
      | intro _

theorem exact_payload_encryption (archBits : Int) (cpuType cmd cmdsize : Nat)
    (hcmd : cmd = LC_ENCRYPTION_INFO ∨ cmd = LC_ENCRYPTION_INFO_64) :
    Exact (loadCommandPayload archBits cpuType cmd cmdsize) := by
  rcases hcmd with rfl | rfl <;>
  · unfold Macho.loadCommandPayload
    simp (disch := decide) only [if_neg, if_pos]
    repeat' with_reducible first
      | exact exact_threadStateDecode _ _
      | exact exact_pure _
      | exact keeps_nil
      | exact keepsActual_Hex
      | exact keepsActual_timestampMapper
      | exact keepsActual_BitBufIsZero
      | exact keepsActual_UToSymStr _
      | exact keepsActual_UToScalar _
      | apply keeps_cons
      | exact exact_FieldBool _
      | exact exact_FieldValueS _ _
      | exact exact_FieldValueU _ _
      | exact exact_FieldValueStr _ _
      | apply exact_FieldU32
      | apply exact_FieldU64
      | apply exact_FieldRawLen
      | apply exact_FieldStruct
      | apply exact_FieldStructArrayLoop
      | apply exact_ite
      | apply exact_bind
      | intro _

/-- The payload of a command of the numeric families keeps every bit it consumes. -/
theorem exact_payload_numeric (archBits : Int) (cpuType cmd cmdsize : Nat)
    (h : numericCommand archBits cmd = true) :
    Exact (loadCommandPayload archBits cpuType cmd cmdsize) := by
  by_cases c1 : cmd = LC_UUID
  · exact exact_payload_uuid _ _ _ _ c1
  by_cases c2 : cmd = LC_TWOLEVEL_HINTS
  · exact exact_payload_twolevel _ _ _ _ c2
  by_cases c3 : cmd = LC_ROUTINES ∨ cmd = LC_ROUTINES_64
  · exact exact_payload_routines _ _ _ _ c3
  by_cases c4 : cmd = LC_SYMTAB
  · exact exact_payload_symtab _ _ _ _ c4
  by_cases c5 : cmd = LC_DYSYMTAB
  · exact exact_payload_dysymtab _ _ _ _ c5
  by_cases c6 : cmd = LC_CODE_SIGNATURE ∨ cmd = LC_SEGMENT_SPLIT_INFO ∨ cmd = LC_FUNCTION_STARTS
      ∨ cmd = LC_DATA_IN_CODE ∨ cmd = LC_DYLIB_CODE_SIGN_DRS ∨ cmd = LC_LINKER_OPTIMIZATION_HINT
  · exact exact_payload_linkedit _ _ _ _ c6
  by_cases c7 : cmd = LC_VERSION_MIN_IPHONEOS ∨ cmd = LC_VERSION_MIN_MACOSX
      ∨ cmd = LC_VERSION_MIN_TVOS ∨ cmd = LC_VERSION_MIN_WATCHOS
  · exact exact_payload_versionmin _ _ _ _ c7
  by_cases c8 : cmd = LC_DYLD_INFO ∨ cmd = LC_DYLD_INFO_ONLY
  · exact exact_payload_dyldinfo _ _ _ _ c8
  by_cases c9 : cmd = LC_MAIN
  · exact exact_payload_main _ _ _ _ c9
  by_cases c10 : cmd = LC_SOURCE_VERSION
  · exact exact_payload_sourceversion _ _ _ _ c10
  by_cases c11 : cmd = LC_ENCRYPTION_INFO ∨ cmd = LC_ENCRYPTION_INFO_64
  · exact exact_payload_encryption _ _ _ _ c11
  by_cases c12 : cmd = LC_BUILD_VERSION
  · exact exact_payload_buildVersion _ _ _ _ c12
  by_cases c13 : cmd = LC_THREAD ∨ cmd = LC_UNIXTHREAD
  · exact exact_payload_thread _ _ _ _ c13
  exfalso
  unfold numericCommand fixedPayload at h
  rw [if_neg c1, if_neg c2, if_neg c3, if_neg c4, if_neg c5, if_neg c6, if_neg c7, if_neg c8,
    if_neg c9, if_neg c10, if_neg c11] at h
  rw [not_or] at c13
  simp [c12, c13.1, c13.2] at h

/-- A load command whose id, the word at the cursor, is of the numeric families keeps every bit
it consumes. -/
theorem exactAt_loadCommand (archBits : Int) (cpuType : Nat) (d : D)
    (h : numericCommand archBits (readU d.buf d.pos 32 d.Endian) = true) :
    ExactAt (loadCommand archBits cpuType) d := by
  unfold loadCommand
  refine exactAt_bind (exact_FieldU32 _ _
    (keeps_cons (keepsActual_UToSymStr _) (keeps_cons keepsActual_Hex keeps_nil)) d) ?_
  intro cmd d1 hrun
  obtain ⟨hv, -, -, -⟩ := FieldU32_ok hrun
  rw [hv]
  exact exact_bind (exact_FieldU32 _ _ keeps_nil)
    (fun cmdsize => exact_payload_numeric archBits cpuType _ cmdsize h) d1

/-- A successful run of the `load_commands` loop all of whose decoded commands have ids of the
numeric families keeps every bit it consumes. -/
theorem exactAt_commandLoop (archBits : Int) (cpuType : Nat) :
    ∀ (n idx : Nat) (d d1 : D) (as : List Unit) (cs : List Value),
      structLoop "load_command" (fun _ => loadCommand archBits cpuType) n idx d = .ok (as, d1) →
      d1.children = d.children ++ cs →
      (∀ c ∈ cs, numericId archBits ((field "cmd" c.children).bind Value.unsigned) = true) →
      ExactAt (structLoop "load_command" (fun _ => loadCommand archBits cpuType) n idx) d := by
  intro n
  induction n with
  | zero => intro idx d d1 as cs _ _ _; exact exact_pure _ d
  | succ n ih =>
    intro idx d d1 as cs hrun hcs hnum
    rw [structLoop_succ, Dec.bind_eq_ok] at hrun
    obtain ⟨a, dA, h1, h2⟩ := hrun
    rw [Dec.bind_eq_ok] at h2
    obtain ⟨rest, d2, h3, h4⟩ := h2
    simp only [Dec.pure_apply, Except.ok.injEq, Prod.mk.injEq] at h4
    obtain ⟨-, rfl⟩ := h4
    have h1c := h1
    rw [FieldStruct_eq_ok] at h1c
    obtain ⟨cd, hcd, hdA⟩ := h1c
    simp only at hcd hdA
    obtain ⟨-, -, -, cs2, hc2, -, -⟩ := structLoop_ok _ _ n (idx + 1) dA d2 rest h3
    obtain ⟨tail, htail⟩ := loadCommand_children hcd
    simp only [List.nil_append] at htail
    have hcs2 : cs = Value.Struct "load_command" cd.children :: cs2 := by
      have : d.children ++ cs = d.children ++ (Value.Struct "load_command" cd.children :: cs2) := by
        rw [← hcs, hc2, hdA]
        simp
      exact List.append_cancel_left this
    have hid : numericCommand archBits (readU d.buf d.pos 32 d.Endian) = true := by
      have := hnum (Value.Struct "load_command" cd.children) (by rw [hcs2]; exact List.mem_cons_self _ _)
      rw [htail, commandId_cons "load_command" _ _ _ _
        (keeps_cons (keepsActual_UToSymStr _) (keeps_cons keepsActual_Hex keeps_nil))] at this
      exact this
    have hrest : ExactAt (structLoop "load_command" (fun _ => loadCommand archBits cpuType) n
        (idx + 1)) dA :=
      ih (idx + 1) dA d2 rest cs2 h3 hc2
        (fun c hc => hnum c (by rw [hcs2]; exact List.mem_cons_of_mem _ hc))
    rw [structLoop_succ]
    refine exactAt_bind (exactAt_FieldStruct _ (exactAt_loadCommand archBits cpuType _ hid)) ?_
    intro a1 dB hB
    rw [h1] at hB
    simp only [Except.ok.injEq, Prod.mk.injEq] at hB
    obtain ⟨-, rfl⟩ := hB
    exact exactAt_bind hrest (fun _ d3 _ => exact_pure _ d3)

theorem headerDecode_ok_len {archBits : Int} {d d1 : D} {r : Nat × Nat}
    (h : headerDecode archBits d = .ok (r, d1)) : d.pos + 32 ≤ 8 * d.buf.length := by
  unfold headerDecode at h
  rw [Dec.bind_eq_ok] at h
  obtain ⟨u, d2, h1, h2⟩ := h
  rw [Dec.bind_eq_ok] at h2
  obtain ⟨magic, d3, h3, -⟩ := h2
  unfold FieldValueS addScalar at h1
  simp only [Except.ok.injEq, Prod.mk.injEq] at h1
  obtain ⟨-, rfl⟩ := h1
  obtain ⟨-, -, hlen, -⟩ := FieldU32_ok h3
  exact hlen

/-- C22 (counterexample): the thin object `thinPrebound`, a header and one `LC_PREBOUND_DYLIB`
command, decodes successfully and the decoder consumes its first 402 bits; writing the decoded
fields back gives 338 bits, 64 bits short, and not the bits consumed: the two offset words of
the command are read without a field. -/
theorem C22_counterexample :
    endPos (machoDecode 1 thinPrebound) = .ok 402 ∧
    (writtenBack .LittleEndian (machoDecode 1 thinPrebound)).map Prod.snd = .ok 338 ∧
    (consumed thinPrebound 0 (machoDecode 1 thinPrebound)).map Prod.snd = .ok 402 ∧
    writtenBack .LittleEndian (machoDecode 1 thinPrebound)
      ≠ consumed thinPrebound 0 (machoDecode 1 thinPrebound) := by
  decide!

/-- C22 (amended): a thin object whose header starts at bit `p`, decoded in byte order `e`
(`ofileThin` is entered after the magic, at `p + 32`), that decodes successfully and all of
whose decoded load commands have ids of the numeric families (`numericCommand`: the
fixed-layout commands, `LC_BUILD_VERSION`, the thread commands) round-trips: the header fields
followed by each command's fields, written back at their widths in byte order `e`, are exactly
the bits the decoder consumed, from `p` to the position it ended at. -/
theorem C22_numeric_round_trip (archBits : Int) (buf : List Nat) (p : Nat) (e : Endian)
    (hnum : numericCommands archBits (ofileThin archBits ⟨buf, p + 32, e, []⟩) = true) :
    writtenBack e (ofileThin archBits ⟨buf, p + 32, e, []⟩)
      = consumed buf p (ofileThin archBits ⟨buf, p + 32, e, []⟩) := by
  have hseek : SeekRel (-4 * 8) ⟨buf, p + 32, e, []⟩ = .ok (p, ⟨buf, p, e, []⟩) := by
    have h0 : ¬ (((p + 32 : Nat) : Int) + -4 * 8 < 0) := by omega
    have h1 : (((p + 32 : Nat) : Int) + -4 * 8).toNat = p := by omega
    simp only [SeekRel, h0, if_false, h1]
  cases hr : ofileThin archBits ⟨buf, p + 32, e, []⟩ with
  | error err => rw [hr] at hnum; cases hnum
  | ok r =>
    obtain ⟨u, d1⟩ := r
    rw [hr] at hnum
    unfold ofileThin at hr
    rw [Dec.bind_ok hseek, Dec.bind_eq_ok] at hr
    obtain ⟨hdr, dH, hH, h2⟩ := hr
    obtain ⟨cpu, n⟩ := hdr
    simp only at h2
    rw [Dec.bind_eq_ok] at h2
    obtain ⟨as, dL, hL, h3⟩ := h2
    simp only [Dec.pure_apply, Except.ok.injEq, Prod.mk.injEq] at h3
    obtain ⟨-, rfl⟩ := h3
    have hHc := hH
    rw [FieldStruct_eq_ok] at hHc
    obtain ⟨cdH, hcdH, hdH⟩ := hHc
    simp only at hcdH hdH
    have hlen : p + 32 ≤ 8 * buf.length := headerDecode_ok_len hcdH
    obtain ⟨hb1, he1, hp1, hq1, csH, hcH, hlH, hwH⟩ :=
      exact_FieldStruct "header" (exact_headerDecode archBits) ⟨buf, p, e, []⟩
        (by simp only; omega) _ _ hH
    simp only [List.nil_append] at hb1 he1 hp1 hq1 hcH hlH hwH
    have hLc := hL
    rw [FieldStructArrayLoop_eq_ok] at hLc
    obtain ⟨ad, had, hdL⟩ := hLc
    simp only at had hdL
    obtain ⟨-, -, -, cs, hcs, -, -⟩ := structLoop_ok _ _ n 0 _ ad as had
    simp only [List.nil_append] at hcs
    have htree : dL.children = csH ++ [Value.Array "load_commands" cs] := by
      rw [hdL, hcH, hcs]
    have hcsH : csH = [Value.Struct "header" cdH.children] := by
      rw [← hcH, hdH]
      simp
    have hall : ∀ c ∈ cs,
        numericId archBits ((field "cmd" c.children).bind Value.unsigned) = true := by
      intro c hc
      unfold numericCommands commandIds at hnum
      simp only [htree, hcsH] at hnum
      have hf : fieldChildren "load_commands"
          ([Value.Struct "header" cdH.children] ++ [Value.Array "load_commands" cs]) = cs := by
        simp [fieldChildren, field, Value.name, Value.children]
      rw [hf, List.all_eq_true] at hnum
      exact hnum _ (List.mem_map_of_mem _ hc)
    obtain ⟨hb2, he2, hp2, hq2, cs2, hc2, hl2, hw2⟩ :=
      exactAt_commandLoop archBits cpu n 0 { dH with children := [] } ad as cs had
        (by simp only [List.nil_append]; exact hcs) hall (by simp only; rw [hb1]; exact hq1)
        as ad had
    simp only [List.nil_append] at hb2 he2 hp2 hq2 hc2 hl2 hw2
    have hcs2 : cs2 = cs := by rw [← hc2, hcs]
    subst hcs2
    rw [hb1] at hq2 hw2
    rw [he1] at hw2
    have hpos : dL.pos = ad.pos := by rw [hdL]
    unfold writtenBack consumed
    simp only [Except.ok.injEq, Prod.mk.injEq]
    rw [htree, leavesList_append, leavesList_array, written_append, writtenLen_append, hlH, hl2,
      hwH, hw2, hpos]
    have e1 : ad.pos - p = (dH.pos - p) + (ad.pos - dH.pos) := by omega
    have e2 : dH.pos = p + (dH.pos - p) := by omega
    constructor
    · rw [e1, readBits_add _ _ _ _ (by omega), ← e2]
    · omega

/-- C22 (amended), on a concrete input: the thin object `thinUuidSymtab` (a `uuid` and a
`LC_SYMTAB` command) decodes with numeric commands only and round-trips. -/
theorem C22_numeric_round_trip_witness :
    numericCommands 32 (ofileThin 32 ⟨thinUuidSymtab, 0 + 32, .LittleEndian, []⟩) = true ∧
    writtenBack .LittleEndian (ofileThin 32 ⟨thinUuidSymtab, 0 + 32, .LittleEndian, []⟩)
      = consumed thinUuidSymtab 0 (ofileThin 32 ⟨thinUuidSymtab, 0 + 32, .LittleEndian, []⟩) :=
  ⟨by decide!, C22_numeric_round_trip 32 thinUuidSymtab 0 .LittleEndian (by decide!)⟩

/-! ## Truncated and oversized fixed-layout commands (C1, C6) -/

theorem readFail_pure {α : Type} (a : α) : ReadFail (pure a : Dec α) := by
  intro d e h
  rw [Dec.pure_apply] at h
  cases h

theorem readFail_bind {α β : Type} {x : Dec α} {f : α → Dec β} (hx : ReadFail x)
    (hf : ∀ a, ReadFail (f a)) : ReadFail (x >>= f) := by
  intro d e h
  rw [Dec.bind_apply] at h
  cases hxd : x d with
  | error e1 =>
    rw [hxd] at h
    simp only [Except.error.injEq] at h
    subst h
    exact hx d e1 hxd
  | ok r =>
    obtain ⟨a, d1⟩ := r
    rw [hxd] at h
    exact hf a d1 e h

theorem readFail_ite {α : Type} (c : Prop) [Decidable c] {x y : Dec α}
    (hx : ReadFail x) (hy : ReadFail y) : ReadFail (if c then x else y) := by
  split
  · exact hx
  · exact hy

theorem readFail_FieldStruct {α : Type} (name : String) {fn : Dec α} (hfn : ReadFail fn) :
    ReadFail (FieldStruct name fn) := by
  intro d e h
  unfold FieldStruct at h
  cases hr : fn { d with children := [] } with
  | error e1 =>
    rw [hr] at h
    simp only [Except.error.injEq] at h
    subst h
    exact hfn _ e1 hr
  | ok r =>
    rw [hr] at h
    cases h

theorem readFail_FieldU (nBits : Nat) (name : String) (sms : List Mapper) :
    ReadFail (FieldU nBits name sms) := by
  intro d e h
  rw [FieldU_eq] at h
  split at h
  · simp only [Except.error.injEq] at h
    exact h.symm
  · cases h

theorem readFail_FieldU32 (name : String) (sms : List Mapper) : ReadFail (FieldU32 name sms) :=
  readFail_FieldU 32 name sms

theorem readFail_FieldU64 (name : String) (sms : List Mapper) : ReadFail (FieldU64 name sms) :=
  readFail_FieldU 64 name sms

theorem readFail_FieldRawLen (name : String) (nBits : Int) (sms : List Mapper)
    (h0 : 0 ≤ nBits) : ReadFail (FieldRawLen name nBits sms) := by
  intro d e h
  unfold FieldRawLen RawLen TryU addScalar at h
  rw [if_neg (by omega)] at h
  split at h
  · rename_i e1 heq
    split at heq
    · simp only [Except.error.injEq] at heq h
      rw [← h, ← heq]
    · cases heq
  · cases h

theorem readFail_payload_uuid (archBits : Int) (cpuType cmd cmdsize : Nat)
    (hcmd : cmd = LC_UUID) :
    ReadFail (loadCommandPayload archBits cpuType cmd cmdsize) := by
  subst hcmd
  · unfold Macho.loadCommandPayload
    simp (disch := decide) only [if_neg, if_pos]
    repeat' with_reducible first
      | exact readFail_pure _
      | exact readFail_FieldU32 _ _
      | exact readFail_FieldU64 _ _
      | exact readFail_FieldRawLen _ _ _ (by decide)
      | apply readFail_FieldStruct
      | apply readFail_ite
      | apply readFail_bind
      | intro _

theorem readFail_payload_twolevel (archBits : Int) (cpuType cmd cmdsize : Nat)
    (hcmd : cmd = LC_TWOLEVEL_HINTS) :
    ReadFail (loadCommandPayload archBits cpuType cmd cmdsize) := by
  subst hcmd
  · unfold Macho.loadCommandPayload
    simp (disch := decide) only [if_neg, if_pos]
    repeat' with_reducible first
      | exact readFail_pure _
      | exact readFail_FieldU32 _ _
      | exact readFail_FieldU64 _ _
      | exact readFail_FieldRawLen _ _ _ (by decide)
      | apply readFail_FieldStruct
      | apply readFail_ite
      | apply readFail_bind
      | intro _

theorem readFail_payload_routines (archBits : Int) (cpuType cmd cmdsize : Nat)
    (hcmd : cmd = LC_ROUTINES ∨ cmd = LC_ROUTINES_64) :
    ReadFail (loadCommandPayload archBits cpuType cmd cmdsize) := by
  rcases hcmd with rfl | rfl <;>
  · unfold Macho.loadCommandPayload
    simp (disch := decide) only [if_neg, if_pos]
    repeat' with_reducible first
      | exact readFail_pure _
      | exact readFail_FieldU32 _ _
      | exact readFail_FieldU64 _ _
      | exact readFail_FieldRawLen _ _ _ (by decide)
      | apply readFail_FieldStruct
      | apply readFail_ite
      | apply readFail_bind
      | intro _

theorem readFail_payload_symtab (archBits : Int) (cpuType cmd cmdsize : Nat)
    (hcmd : cmd = LC_SYMTAB) :
    ReadFail (loadCommandPayload archBits cpuType cmd cmdsize) := by
  subst hcmd
  · unfold Macho.loadCommandPayload
    simp (disch := decide) only [if_neg, if_pos]
    repeat' with_reducible first
      | exact readFail_pure _
      | exact readFail_FieldU32 _ _
      | exact readFail_FieldU64 _ _
      | exact readFail_FieldRawLen _ _ _ (by decide)
      | apply readFail_FieldStruct
      | apply readFail_ite
      | apply readFail_bind
      | intro _

theorem readFail_payload_dysymtab (archBits : Int) (cpuType cmd cmdsize : Nat)
    (hcmd : cmd = LC_DYSYMTAB) :
    ReadFail (loadCommandPayload archBits cpuType cmd cmdsize) := by
  subst hcmd
  · unfold Macho.loadCommandPayload
    simp (disch := decide) only [if_neg, if_pos]
    repeat' with_reducible first
      | exact readFail_pure _
      | exact readFail_FieldU32 _ _
      | exact readFail_FieldU64 _ _
      | exact readFail_FieldRawLen _ _ _ (by decide)
      | apply readFail_FieldStruct
      | apply readFail_ite
      | apply readFail_bind
      | intro _

theorem readFail_payload_linkedit (archBits : Int) (cpuType cmd cmdsize : Nat)
    (hcmd : cmd = LC_CODE_SIGNATURE ∨ cmd = LC_SEGMENT_SPLIT_INFO ∨ cmd = LC_FUNCTION_STARTS ∨ cmd = LC_DATA_IN_CODE ∨ cmd = LC_DYLIB_CODE_SIGN_DRS ∨ cmd = LC_LINKER_OPTIMIZATION_HINT) :
    ReadFail (loadCommandPayload archBits cpuType cmd cmdsize) := by
  rcases hcmd with rfl | rfl | rfl | rfl | rfl | rfl <;>
  · unfold Macho.loadCommandPayload
    simp (disch := decide) only [if_neg, if_pos]
    repeat' with_reducible first
      | exact readFail_pure _
      | exact readFail_FieldU32 _ _
      | exact readFail_FieldU64 _ _
      | exact readFail_FieldRawLen _ _ _ (by decide)
      | apply readFail_FieldStruct
      | apply readFail_ite
      | apply readFail_bind
      | intro _

theorem readFail_payload_versionmin (archBits : Int) (cpuType cmd cmdsize : Nat)
    (hcmd : cmd = LC_VERSION_MIN_IPHONEOS ∨ cmd = LC_VERSION_MIN_MACOSX ∨ cmd = LC_VERSION_MIN_TVOS ∨ cmd = LC_VERSION_MIN_WATCHOS) :
    ReadFail (loadCommandPayload archBits cpuType cmd cmdsize) := by
  rcases hcmd with rfl | rfl | rfl | rfl <;>
  · unfold Macho.loadCommandPayload
    simp (disch := decide) only [if_neg, if_pos]
    repeat' with_reducible first
      | exact readFail_pure _
      | exact readFail_FieldU32 _ _
      | exact readFail_FieldU64 _ _
      | exact readFail_FieldRawLen _ _ _ (by decide)
      | apply readFail_FieldStruct
      | apply readFail_ite
      | apply readFail_bind
      | intro _

theorem readFail_payload_dyldinfo (archBits : Int) (cpuType cmd cmdsize : Nat)
    (hcmd : cmd = LC_DYLD_INFO ∨ cmd = LC_DYLD_INFO_ONLY) :
    ReadFail (loadCommandPayload archBits cpuType cmd cmdsize) := by
  rcases hcmd with rfl | rfl <;>
  · unfold Macho.loadCommandPayload
    simp (disch := decide) only [if_neg, if_pos]
    repeat' with_reducible first
      | exact readFail_pure _
      | exact readFail_FieldU32 _ _
      | exact readFail_FieldU64 _ _
      | exact readFail_FieldRawLen _ _ _ (by decide)
      | apply readFail_FieldStruct
      | apply readFail_ite
      | apply readFail_bind
      | intro _

theorem readFail_payload_main (archBits : Int) (cpuType cmd cmdsize : Nat)
    (hcmd : cmd = LC_MAIN) :
    ReadFail (loadCommandPayload archBits cpuType cmd cmdsize) := by
  subst hcmd
  · unfold Macho.loadCommandPayload
    simp (disch := decide) only [if_neg, if_pos]
    repeat' with_reducible first
      | exact readFail_pure _
      | exact readFail_FieldU32 _ _
      | exact readFail_FieldU64 _ _
      | exact readFail_FieldRawLen _ _ _ (by decide)
      | apply readFail_FieldStruct
      | apply readFail_ite
      | apply readFail_bind
      | intro _

theorem readFail_payload_sourceversion (archBits : Int) (cpuType cmd cmdsize : Nat)
    (hcmd : cmd = LC_SOURCE_VERSION) :
    ReadFail (loadCommandPayload archBits cpuType cmd cmdsize) := by
  subst hcmd
  · unfold Macho.loadCommandPayload
    simp (disch := decide) only [if_neg, if_pos]
    repeat' with_reducible first
      | exact readFail_pure _
      | exact readFail_FieldU32 _ _
      | exact readFail_FieldU64 _ _
      | exact readFail_FieldRawLen _ _ _ (by decide)
      | apply readFail_FieldStruct
      | apply readFail_ite
      | apply readFail_bind
      | intro _

theorem readFail_payload_encryption (archBits : Int) (cpuType cmd cmdsize : Nat)
    (hcmd : cmd = LC_ENCRYPTION_INFO ∨ cmd = LC_ENCRYPTION_INFO_64) :
    ReadFail (loadCommandPayload archBits cpuType cmd cmdsize) := by
  rcases hcmd with rfl | rfl <;>
  · unfold Macho.loadCommandPayload
    simp (disch := decide) only [if_neg, if_pos]
    repeat' with_reducible first
      | exact readFail_pure _
      | exact readFail_FieldU32 _ _
      | exact readFail_FieldU64 _ _
      | exact readFail_FieldRawLen _ _ _ (by decide)
      | apply readFail_FieldStruct
      | apply readFail_ite
      | apply readFail_bind
      | intro _

/-- The payload decoder of a fixed-layout command fails with the read failure only. -/
theorem readFail_fixedPayload (archBits : Int) (cpuType cmd cmdsize k : Nat) (ss : List Shape)
    (h : fixedPayload archBits cmd = some (k, ss)) :
    ReadFail (loadCommandPayload archBits cpuType cmd cmdsize) := by
  by_cases c1 : cmd = LC_UUID
  · exact readFail_payload_uuid _ _ _ _ c1
  by_cases c2 : cmd = LC_TWOLEVEL_HINTS
  · exact readFail_payload_twolevel _ _ _ _ c2
  by_cases c3 : cmd = LC_ROUTINES ∨ cmd = LC_ROUTINES_64
  · exact readFail_payload_routines _ _ _ _ c3
  by_cases c4 : cmd = LC_SYMTAB
  · exact readFail_payload_symtab _ _ _ _ c4
  by_cases c5 : cmd = LC_DYSYMTAB
  · exact readFail_payload_dysymtab _ _ _ _ c5
  by_cases c6 : cmd = LC_CODE_SIGNATURE ∨ cmd = LC_SEGMENT_SPLIT_INFO ∨ cmd = LC_FUNCTION_STARTS ∨ cmd = LC_DATA_IN_CODE ∨ cmd = LC_DYLIB_CODE_SIGN_DRS ∨ cmd = LC_LINKER_OPTIMIZATION_HINT
  · exact readFail_payload_linkedit _ _ _ _ c6
  by_cases c7 : cmd = LC_VERSION_MIN_IPHONEOS ∨ cmd = LC_VERSION_MIN_MACOSX ∨ cmd = LC_VERSION_MIN_TVOS ∨ cmd = LC_VERSION_MIN_WATCHOS
  · exact readFail_payload_versionmin _ _ _ _ c7
  by_cases c8 : cmd = LC_DYLD_INFO ∨ cmd = LC_DYLD_INFO_ONLY
  · exact readFail_payload_dyldinfo _ _ _ _ c8
  by_cases c9 : cmd = LC_MAIN
  · exact readFail_payload_main _ _ _ _ c9
  by_cases c10 : cmd = LC_SOURCE_VERSION
  · exact readFail_payload_sourceversion _ _ _ _ c10
  by_cases c11 : cmd = LC_ENCRYPTION_INFO ∨ cmd = LC_ENCRYPTION_INFO_64
  · exact readFail_payload_encryption _ _ _ _ c11
  exfalso
  unfold fixedPayload at h
  rw [if_neg c1, if_neg c2, if_neg c3, if_neg c4, if_neg c5, if_neg c6, if_neg c7, if_neg c8, if_neg c9, if_neg c10, if_neg c11] at h
  cases h

/-- The payload of a command of a fixed-layout family: the decode succeeds exactly when the
bytes of the family's layout are left, consumes them and adds the family's fields, whatever
`cmdsize` is. -/
theorem layout_fixedPayload (archBits : Int) (cpuType cmd cmdsize k : Nat) (ss : List Shape)
    (h : fixedPayload archBits cmd = some (k, ss)) :
    Layout (loadCommandPayload archBits cpuType cmd cmdsize) (8 * k) ss := by
  unfold fixedPayload at h
  by_cases c1 : cmd = LC_UUID
  · rw [if_pos c1] at h
    simp only [Option.some.injEq, Prod.mk.injEq] at h
    obtain ⟨rfl, rfl⟩ := h
    exact fixed_uuid archBits cpuType cmd cmdsize c1
  rw [if_neg c1] at h
  by_cases c2 : cmd = LC_TWOLEVEL_HINTS
  · rw [if_pos c2] at h
    simp only [Option.some.injEq, Prod.mk.injEq] at h
    obtain ⟨rfl, rfl⟩ := h
    exact fixed_twolevel archBits cpuType cmd cmdsize c2
  rw [if_neg c2] at h
  by_cases c3 : cmd = LC_ROUTINES ∨ cmd = LC_ROUTINES_64
  · rw [if_pos c3] at h
    by_cases hr : archBits = 32
    · rw [if_pos hr] at h
      simp only [Option.some.injEq, Prod.mk.injEq] at h
      obtain ⟨rfl, rfl⟩ := h
      exact (fixed_routines archBits cpuType cmd cmdsize c3).1 hr
    · rw [if_neg hr] at h
      simp only [Option.some.injEq, Prod.mk.injEq] at h
      obtain ⟨rfl, rfl⟩ := h
      exact (fixed_routines archBits cpuType cmd cmdsize c3).2 hr
  rw [if_neg c3] at h
  by_cases c4 : cmd = LC_SYMTAB
  · rw [if_pos c4] at h
    simp only [Option.some.injEq, Prod.mk.injEq] at h
    obtain ⟨rfl, rfl⟩ := h
    exact fixed_symtab archBits cpuType cmd cmdsize c4
  rw [if_neg c4] at h
  by_cases c5 : cmd = LC_DYSYMTAB
  · rw [if_pos c5] at h
    simp only [Option.some.injEq, Prod.mk.injEq] at h
    obtain ⟨rfl, rfl⟩ := h
    exact fixed_dysymtab archBits cpuType cmd cmdsize c5
  rw [if_neg c5] at h
  by_cases c6 : cmd = LC_CODE_SIGNATURE ∨ cmd = LC_SEGMENT_SPLIT_INFO ∨ cmd = LC_FUNCTION_STARTS ∨ cmd = LC_DATA_IN_CODE ∨ cmd = LC_DYLIB_CODE_SIGN_DRS ∨ cmd = LC_LINKER_OPTIMIZATION_HINT
  · rw [if_pos c6] at h
    simp only [Option.some.injEq, Prod.mk.injEq] at h
    obtain ⟨rfl, rfl⟩ := h
    exact fixed_linkedit archBits cpuType cmd cmdsize c6
  rw [if_neg c6] at h
  by_cases c7 : cmd = LC_VERSION_MIN_IPHONEOS ∨ cmd = LC_VERSION_MIN_MACOSX ∨ cmd = LC_VERSION_MIN_TVOS ∨ cmd = LC_VERSION_MIN_WATCHOS
  · rw [if_pos c7] at h
    simp only [Option.some.injEq, Prod.mk.injEq] at h
    obtain ⟨rfl, rfl⟩ := h
    exact fixed_versionmin archBits cpuType cmd cmdsize c7
  rw [if_neg c7] at h
  by_cases c8 : cmd = LC_DYLD_INFO ∨ cmd = LC_DYLD_INFO_ONLY
  · rw [if_pos c8] at h
    simp only [Option.some.injEq, Prod.mk.injEq] at h
    obtain ⟨rfl, rfl⟩ := h
    exact fixed_dyldinfo archBits cpuType cmd cmdsize c8
  rw [if_neg c8] at h
  by_cases c9 : cmd = LC_MAIN
  · rw [if_pos c9] at h
    simp only [Option.some.injEq, Prod.mk.injEq] at h
    obtain ⟨rfl, rfl⟩ := h
    exact fixed_main archBits cpuType cmd cmdsize c9
  rw [if_neg c9] at h
  by_cases c10 : cmd = LC_SOURCE_VERSION
  · rw [if_pos c10] at h
    simp only [Option.some.injEq, Prod.mk.injEq] at h
    obtain ⟨rfl, rfl⟩ := h
    exact fixed_sourceversion archBits cpuType cmd cmdsize c10
  rw [if_neg c10] at h
  by_cases c11 : cmd = LC_ENCRYPTION_INFO ∨ cmd = LC_ENCRYPTION_INFO_64
  · rw [if_pos c11] at h
    simp only [Option.some.injEq, Prod.mk.injEq] at h
    obtain ⟨rfl, rfl⟩ := h
    exact fixed_encryption archBits cpuType cmd cmdsize c11
  rw [if_neg c11] at h
  cases h

/-- The two fields of the 8-byte prefix of a load command, with the 8 bytes in the input: the
state after them, 64 bits on, in which the payload decoder runs. -/
theorem loadCommand_prefix (archBits : Int) (cpuType : Nat) (d : D)
    (h64 : d.pos + 64 ≤ 8 * d.buf.length) :
    ∃ S2 : D, S2.buf = d.buf ∧ S2.pos = d.pos + 64 ∧
      loadCommand archBits cpuType d =
        loadCommandPayload archBits cpuType (readU d.buf d.pos 32 d.Endian)
          (readU d.buf (d.pos + 32) 32 d.Endian) S2 := by
  have hcmd := FieldU32_run "cmd" [UToSymStr loadCommands, Hex] (d := d) (by omega)
  have hsize := FieldU32_run "cmdsize" []
    (d := { d with pos := d.pos + 32,
                   children := d.children ++ [Value.Scalar "cmd"
                     (applyMappers [UToSymStr loadCommands, Hex]
                       ⟨.U (readU d.buf d.pos 32 d.Endian), none, ""⟩) d.pos 32] })
    (by simpa using by omega)
  unfold loadCommand
  rw [Dec.bind_ok hcmd, Dec.bind_ok hsize]
  refine ⟨_, ?_, ?_, rfl⟩
  · rfl
  · show d.pos + 32 + 32 = d.pos + 64
    omega

/-- A fixed-layout command with its 8-byte prefix and the bytes of its layout in the input:
the cursor ends right after the layout, whatever `cmdsize` is. -/
theorem loadCommand_fixed_run (archBits : Int) (cpuType : Nat) (d : D) (k : Nat)
    (ss : List Shape)
    (hfix : fixedPayload archBits (readU d.buf d.pos 32 d.Endian) = some (k, ss))
    (hroom : d.pos + 64 + 8 * k ≤ 8 * d.buf.length) :
    endPos (loadCommand archBits cpuType d) = .ok (d.pos + 64 + 8 * k) := by
  obtain ⟨S2, hb, hp, heq⟩ := loadCommand_prefix archBits cpuType d (by omega)
  obtain ⟨a, d1, hrun, hpos, -⟩ :=
    (layout_fixedPayload archBits cpuType (readU d.buf d.pos 32 d.Endian)
      (readU d.buf (d.pos + 32) 32 d.Endian) k ss hfix S2).1
      (Or.inr (by rw [hp, hb]; omega))
  rw [heq, hrun]
  simp only [endPos, hpos, hp]

/-- A fixed-layout command that the input ends in, in its 8-byte prefix or in the bytes of its
layout: the decode fails with the read failure. -/
theorem loadCommand_fixed_truncated (archBits : Int) (cpuType : Nat) (d : D) (k : Nat)
    (ss : List Shape)
    (hfix : fixedPayload archBits (readU d.buf d.pos 32 d.Endian) = some (k, ss))
    (hshort : 8 * d.buf.length < d.pos + 64 + 8 * k) :
    loadCommand archBits cpuType d = .error (.IOError "read") := by
  by_cases h64 : 8 * d.buf.length < d.pos + 64
  · exact loadCommand_truncated archBits cpuType d h64
  obtain ⟨S2, hb, hp, heq⟩ := loadCommand_prefix archBits cpuType d (by omega)
  obtain ⟨e, he⟩ :=
    (layout_fixedPayload archBits cpuType (readU d.buf d.pos 32 d.Endian)
      (readU d.buf (d.pos + 32) 32 d.Endian) k ss hfix S2).2
      (by rw [hp, hb]; constructor <;> omega)
  rw [heq, he, readFail_fixedPayload archBits cpuType _ _ k ss hfix S2 e he]

/-- The thin path with a command due that cannot be decoded: when, after `i` commands with `i`
below the header's count, the next command fails, the decode fails with the same failure. -/
theorem ofileThin_due_fails (archBits : Int) (d : D) (i q : Nat) (err : Err)
    (hi : i < readU d.buf (d.pos + 96) 32 d.Endian)
    (hq : endPos (ofileThinPrefix archBits i d) = .ok q)
    (hfail : ∀ cpuType, loadCommand archBits cpuType ⟨d.buf, q, d.Endian, []⟩ = .error err) :
    ofileThin archBits d = .error err := by
  simp only [endPos] at hq
  split at hq
  · simp at hq
  · rename_i u dq heq
    simp only [Except.ok.injEq] at hq
    simp only [ofileThinPrefix, Dec.bind_eq_ok] at heq
    obtain ⟨p, d1, h1, ⟨cpuType, ncmds1⟩, d2, h2, h3⟩ := heq
    simp only [Dec.bind_eq_ok] at h3
    obtain ⟨as, d3, h3, h4⟩ := h3
    simp only [Dec.pure_apply, Except.ok.injEq, Prod.mk.injEq, true_and] at h4
    subst h4
    obtain ⟨hpos, hd1⟩ := SeekRel_eq_ok h1
    have h2c := h2
    rw [FieldStruct_eq_ok] at h2c
    obtain ⟨cd, hcd, hd2⟩ := h2c
    simp only at hcd hd2
    obtain ⟨-, hn, hcb, -, -⟩ := headerDecode_ok hcd
    rw [FieldStructArrayLoop_eq_ok] at h3
    obtain ⟨ad, had, hd3⟩ := h3
    simp only at had hd3
    obtain ⟨-, hab, hae, -⟩ := structLoop_ok _ _ _ _ _ _ _ had
    have hncmds : ncmds1 = readU d.buf (d.pos + 96) 32 d.Endian := by
      rw [hn, hd1]
      simp only
      congr 1
      omega
    obtain ⟨k, hk⟩ : ∃ k, ncmds1 = i + (k + 1) := ⟨ncmds1 - i - 1, by omega⟩
    have hbuf : ad.buf = d.buf := by rw [hab, hd2, hd1]
    have hend : ad.Endian = d.Endian := by rw [hae, hd2, hd1]
    have hpq : ad.pos = q := by rw [← hq, hd3]
    have hstate : ({ ad with children := [] } : D) = ⟨d.buf, q, d.Endian, []⟩ := by
      rw [← hbuf, ← hend, ← hpq]
    have hf : loadCommand archBits cpuType { ad with children := [] } = .error err := by
      rw [hstate]
      exact hfail cpuType
    have hloop : structLoop "load_command" (fun _ => loadCommand archBits cpuType) ncmds1 0
        { d2 with children := [] } = .error err := by
      rw [hk, structLoop_add _ _ (k + 1) i 0 _ _ _ had, Dec.bind_apply, structLoop_succ,
        Dec.bind_apply]
      unfold FieldStruct
      rw [hf]
    unfold ofileThin
    rw [Dec.bind_ok h1, Dec.bind_ok h2]
    simp only
    rw [Dec.bind_apply]
    unfold FieldStructArrayLoop
    rw [hloop]

/-- C1 (amended): after the 8-byte `cmd`/`cmdsize` prefix, a command whose id is not a key of
`loadCommands` and whose `cmdsize` is at least 8 consumes exactly `cmdsize - 8` bytes, so the
cursor ends at command start + `cmdsize`; a `uuid` command consumes the 16 bytes of its layout
whatever `cmdsize` declares, which ends at command start + `cmdsize` exactly when
`cmdsize = 24`; and a command of any fixed-layout family (the table `fixedPayload`) consumes
the `k` bytes of the family's layout whatever `cmdsize` declares, which ends at command
start + `cmdsize` exactly when `cmdsize = k + 8`. -/
theorem C1_payload_length (archBits : Int) (cpuType : Nat) (d : D)
    (hlen : d.pos + 64 ≤ 8 * d.buf.length) :
    (loadCommands.lookup (readU d.buf d.pos 32 d.Endian) = none →
      8 ≤ readU d.buf (d.pos + 32) 32 d.Endian →
      endPos (loadCommand archBits cpuType d) =
        .ok (d.pos + 64 + 8 * (readU d.buf (d.pos + 32) 32 d.Endian - 8)) ∧
      d.pos + 64 + 8 * (readU d.buf (d.pos + 32) 32 d.Endian - 8) =
        d.pos + 8 * readU d.buf (d.pos + 32) 32 d.Endian) ∧
    (readU d.buf d.pos 32 d.Endian = LC_UUID → d.pos + 64 + 8 * 16 ≤ 8 * d.buf.length →
      endPos (loadCommand archBits cpuType d) = .ok (d.pos + 64 + 8 * 16) ∧
      (d.pos + 64 + 8 * 16 = d.pos + 8 * readU d.buf (d.pos + 32) 32 d.Endian ↔
        readU d.buf (d.pos + 32) 32 d.Endian = 24)) ∧
    (∀ k ss, fixedPayload archBits (readU d.buf d.pos 32 d.Endian) = some (k, ss) →
      d.pos + 64 + 8 * k ≤ 8 * d.buf.length →
      endPos (loadCommand archBits cpuType d) = .ok (d.pos + 64 + 8 * k) ∧
      (d.pos + 64 + 8 * k = d.pos + 8 * readU d.buf (d.pos + 32) 32 d.Endian ↔
        readU d.buf (d.pos + 32) 32 d.Endian = k + 8)) := by
  have hcmd := FieldU32_run "cmd" [UToSymStr loadCommands, Hex] (d := d) (by omega)
  have hsize := FieldU32_run "cmdsize" []
    (d := { d with pos := d.pos + 32,
                   children := d.children ++ [Value.Scalar "cmd"
                     (applyMappers [UToSymStr loadCommands, Hex]
                       ⟨.U (readU d.buf d.pos 32 d.Endian), none, ""⟩) d.pos 32] })
    (by simpa using by omega)
  refine ⟨?_, ?_, ?_⟩
  · intro hunknown h8
    rw [loadCommand_unknown archBits cpuType hcmd hsize hunknown h8]
    refine ⟨?_, by omega⟩
    simp only [endPos]
    congr 1
    omega
  · intro huuid hroom
    refine ⟨?_, by omega⟩
    unfold loadCommand
    rw [Dec.bind_ok hcmd, Dec.bind_ok hsize, huuid, loadCommandPayload_uuid]
    unfold FieldStruct
    have hraw := FieldRawLen_run "uuid" (16 * 8) []
      (d := { buf := d.buf, pos := d.pos + 32 + 32, Endian := d.Endian, children := [] })
      (by simpa using by omega)
    simp only [Nat.cast_ofNat, Nat.cast_mul] at hraw
    simp only [hraw, endPos]
  · intro k ss hfix hroom
    exact ⟨loadCommand_fixed_run archBits cpuType d k ss hfix hroom, by omega⟩

/-- Witness of C1 (amended): a `uuid` command that declares `cmdsize = 32` ends 24 bytes after
its start, by its own conjunct and by the conjunct of the fixed-layout families. -/
theorem C1_payload_length_witness :
    endPos (loadCommand 32 7 ⟨uuidCommand32, 0, .LittleEndian, []⟩) = .ok (0 + 64 + 8 * 16) ∧
    (endPos (loadCommand 32 7 ⟨uuidCommand32, 0, .LittleEndian, []⟩) = .ok (0 + 64 + 8 * 16) ∧
      (0 + 64 + 8 * 16 = 0 + 8 * readU uuidCommand32 (0 + 32) 32 .LittleEndian ↔
        readU uuidCommand32 (0 + 32) 32 .LittleEndian = 16 + 8)) :=
  ⟨((C1_payload_length 32 7 ⟨uuidCommand32, 0, .LittleEndian, []⟩ (by decide!)).2.1
      (by decide!) (by decide!)).1,
    (C1_payload_length 32 7 ⟨uuidCommand32, 0, .LittleEndian, []⟩ (by decide!)).2.2
      16 [Shape.Struct "uuid_command" [Shape.Leaf "uuid" 128]] rfl (by decide!)⟩

/-- C6 (counterexample): the thin object `skippedPastEnd` declares one command, of 16 bytes,
and the input ends 4 bytes before the end of that command; the decode succeeds, with one
`load_command` entry, and its cursor ends at bit 352, past the 320 bits of the input: the
payload of an unknown id is skipped by a seek, and a seek past the end is not refused. -/
theorem C6_counterexample :
    8 * skippedPastEnd.length = 320 ∧
    readU skippedPastEnd 128 32 .LittleEndian = 1 ∧
    readU skippedPastEnd (224 + 32) 32 .LittleEndian = 16 ∧
    endPos (machoDecode 1 skippedPastEnd) = .ok 352 ∧
    (decoded (machoDecode 1 skippedPastEnd)).map commandIds = .ok [some 0x77] := by
  decide!

/-- C6 (amended): the `load_commands` loop of a thin object is driven by the header's count: a
decode that succeeds has added the `header` struct and a `load_commands` array with exactly as
many `load_command` entries as the header's `ncdms` field says; a decode that fails fails with
a read or seek failure; when, after `i` commands with `i` below the header's count, fewer than
8 bytes are left for the next command, the decode fails with the read failure; and when the
next command is of a fixed-layout family (the table `fixedPayload`, `k` payload bytes) and
fewer than `8 + k` bytes are left for it, the decode fails with the read failure. -/
theorem C6_command_count (archBits : Int) (d : D) :
    (∀ d', ofileThin archBits d = .ok ((), d') →
      ∃ hdr cmds, d'.children = d.children ++
          [Value.Struct "header" hdr, Value.Array "load_commands" cmds] ∧
        (field "ncdms" hdr).bind Value.unsigned = some cmds.length ∧
        ∀ c ∈ cmds, ∃ fs, c = Value.Struct "load_command" fs) ∧
    (∀ e, ofileThin archBits d = .error e → ∃ op, e = .IOError op) ∧
    (∀ i q, i < readU d.buf (d.pos + 96) 32 d.Endian →
      endPos (ofileThinPrefix archBits i d) = .ok q →
      8 * d.buf.length < q + 64 →
      ofileThin archBits d = .error (.IOError "read")) ∧
    (∀ i q k ss, i < readU d.buf (d.pos + 96) 32 d.Endian →
      endPos (ofileThinPrefix archBits i d) = .ok q →
      fixedPayload archBits (readU d.buf q 32 d.Endian) = some (k, ss) →
      8 * d.buf.length < q + 64 + 8 * k →
      ofileThin archBits d = .error (.IOError "read")) := by
  refine ⟨?_, fun e he => IOOnly.ofileThin archBits d e he, ?_, ?_⟩
  · intro d' h
    simp only [ofileThin, Dec.bind_eq_ok] at h
    obtain ⟨p, d1, h1, ⟨cpuType, ncmds⟩, d2, h2, h3⟩ := h
    simp only [Dec.bind_eq_ok] at h3
    obtain ⟨as, d3, h3, h4⟩ := h3
    simp only [Dec.pure_apply, Except.ok.injEq, Prod.mk.injEq, true_and] at h4
    subst h4
    obtain ⟨-, hd1⟩ := SeekRel_eq_ok h1
    rw [FieldStruct_eq_ok] at h2
    obtain ⟨cd, hcd, hd2⟩ := h2
    simp only at hcd hd2
    obtain ⟨-, hn, -, -, rest, hrest⟩ := headerDecode_ok hcd
    rw [FieldStructArrayLoop_eq_ok] at h3
    obtain ⟨ad, had, hd3⟩ := h3
    simp only at had hd3
    obtain ⟨-, -, -, cs, hcs, hlen, hall⟩ := structLoop_ok _ _ _ _ _ _ _ had
    simp only [List.nil_append] at hcs hrest
    refine ⟨cd.children, ad.children, ?_, ?_, ?_⟩
    · rw [hd3, hd2, hd1]; simp
    · rw [hrest, hcs, hlen, hn]
      simp [field, List.find?, Value.name, Value.unsigned]
    · rw [hcs]; exact hall
  · intro i q hi hq hshort
    exact ofileThin_due_fails archBits d i q _ hi hq
      (fun cpuType => loadCommand_truncated archBits cpuType _ hshort)
  · intro i q k ss hi hq hfix hshort
    exact ofileThin_due_fails archBits d i q _ hi hq
      (fun cpuType => loadCommand_fixed_truncated archBits cpuType _ k ss hfix hshort)

/-- Witness of C6 (amended): `truncatedThin` declares two commands and ends after the first
one, at bit 352, and `truncatedUuid` declares one `uuid` command and ends after 8 of its 16
payload bytes; both decodes fail with the read failure. -/
theorem C6_command_count_witness :
    ofileThin 32 ⟨truncatedThin, 32, .LittleEndian, []⟩ = .error (.IOError "read") ∧
    ofileThin 32 ⟨truncatedUuid, 32, .LittleEndian, []⟩ = .error (.IOError "read") :=
  ⟨(C6_command_count 32 ⟨truncatedThin, 32, .LittleEndian, []⟩).2.2.1 1 352
      (by decide!) (by decide!) (by decide!),
    (C6_command_count 32 ⟨truncatedUuid, 32, .LittleEndian, []⟩).2.2.2 0 224 16
      [Shape.Struct "uuid_command" [Shape.Leaf "uuid" 128]]
      (by decide!) (by decide!) rfl (by decide!)⟩

end Macho

namespace Midi

/-! ## The key signature (C29) -/

theorem and_byte_mask (b : Nat) : b &&& 0x00ff = b % 256 :=
  Nat.and_pow_two_sub_one_eq_mod b 8

/-- C29: on a payload of at least two bytes `b0`, `b1` the key is `b0 * 256 + b1`, below 65536,
and no index is out of range; on the empty payload and on a payload of one byte the decoder
indexes past the end of the payload and fails with the run-time panic.  `decodeSequenceNumber`,
a decoder of the same shape that checks the length before each index, fails on no payload. -/
theorem C29_key_signature (b0 b1 : Nat) (rest : List Nat) (h0 : b0 < 256) (h1 : b1 < 256) :
    decodeKeySignature (b0 :: b1 :: rest) = .ok (b0 * 256 + b1) ∧ b0 * 256 + b1 < 65536 ∧
    decodeKeySignature [] = .error "index out of range [0] with length 0" ∧
    (∀ b, decodeKeySignature [b] = .error "index out of range [1] with length 1") ∧
    (∀ data, ∃ v, decodeSequenceNumber data = .ok v) := by
  refine ⟨?_, by omega, rfl, fun b => rfl, fun data => ⟨_, rfl⟩⟩
  have e0 : b0 % 2 ^ 64 % 256 = b0 := by omega
  have e1 : b1 % 2 ^ 64 % 256 = b1 := by omega
  have e2 : b0 <<< 8 % 2 ^ 64 = b0 <<< 8 := by
    rw [Nat.shiftLeft_eq]
    omega
  have e3 : b0 <<< 8 ||| b1 = b0 * 256 + b1 := by
    rw [Nat.shiftLeft_eq, Nat.mul_comm, ← Nat.mul_add_lt_is_or (show b1 < 2 ^ 8 by omega)]
  simp only [decodeKeySignature, List.get?_cons_zero, List.get?_cons_succ, and_byte_mask, e0, e1,
    e2, e3]

theorem C29_key_signature_witness :
    decodeKeySignature (0xff :: 0x01 :: [7]) = .ok (0xff * 256 + 0x01) :=
  (C29_key_signature 0xff 0x01 [7] (by decide) (by decide)).1

/-! ## The time signature (C30) -/

/-- The loop runs `n - i` more times and doubles the denominator each time; it needs `n - i + 1`
tests of its condition. -/
theorem denominatorLoop_run : ∀ (fuel i n den : Nat), n < 256 → i ≤ n → n - i < fuel →
    den < 2 ^ 64 → denominatorLoop fuel i n den = some (den * 2 ^ (n - i) % 2 ^ 64) := by
  intro fuel
  induction fuel with
  | zero => intro i n den _ _ h _; omega
  | succ fuel ih =>
    intro i n den hn hi hf hd
    unfold denominatorLoop
    by_cases hlt : i < n
    · have e1 : (i + 1) % 256 = i + 1 := by omega
      have e2 : n - i = (n - (i + 1)) + 1 := by omega
      rw [if_pos hlt, e1, ih (i + 1) n _ hn (by omega) (by omega) (Nat.mod_lt _ (by norm_num)),
        Nat.shiftLeft_eq, e2, pow_succ, Nat.mod_mul_mod]
      congr 2
      ring
    · have e : n - i = 0 := by omega
      rw [if_neg hlt, e, pow_zero, Nat.mul_one, Nat.mod_eq_of_lt hd]

theorem two_pow_mod_word (b : Nat) :
    (2 ^ b % 2 ^ 64 = 2 ^ b ↔ b ≤ 63) ∧ (64 ≤ b → 2 ^ b % 2 ^ 64 = 0) := by
  have hbig : 64 ≤ b → 2 ^ b % 2 ^ 64 = 0 := by
    intro h
    obtain ⟨k, rfl⟩ : ∃ k, b = 64 + k := ⟨b - 64, by omega⟩
    rw [pow_add, Nat.mul_mod_right]
  refine ⟨⟨fun h => ?_, fun h => ?_⟩, hbig⟩
  · by_contra hc
    have h0 := hbig (by omega)
    have hpos : 0 < 2 ^ b := by positivity
    omega
  · exact Nat.mod_eq_of_lt (Nat.pow_lt_pow_right (by norm_num) (by omega))

/-- C30: on a payload of at least two bytes `b0`, `b1` the denominator field is `2 ^ b1` reduced
modulo `2 ^ 64`, which is `2 ^ b1` exactly when `b1 ≤ 63` and 0 when `b1 ≥ 64`.  The shift loop
ends for every byte `b1`: it tests its condition `b1 + 1` times, so that a bound of 256 tests is
enough for every payload, the counter never wrapping. -/
theorem C30_denominator (b0 b1 : Nat) (rest : List Nat) (fuel : Nat) (h1 : b1 < 256)
    (hf : b1 < fuel) :
    (∃ fields, decodeTimeSignature fuel (b0 :: b1 :: rest) = some fields ∧
      fields.lookup "denominator" = some (2 ^ b1 % 2 ^ 64)) ∧
    denominatorLoop 256 0 b1 1 = some (2 ^ b1 % 2 ^ 64) ∧
    (2 ^ b1 % 2 ^ 64 = 2 ^ b1 ↔ b1 ≤ 63) ∧ (64 ≤ b1 → 2 ^ b1 % 2 ^ 64 = 0) := by
  have hloop : ∀ f, b1 < f → denominatorLoop f 0 b1 1 = some (2 ^ b1 % 2 ^ 64) := by
    intro f hlt
    have := denominatorLoop_run f 0 b1 1 h1 (Nat.zero_le _) (by omega) (by norm_num)
    simpa using this
  refine ⟨?_, hloop 256 h1, (two_pow_mod_word b1).1, (two_pow_mod_word b1).2⟩
  simp [decodeTimeSignature, hloop fuel hf, List.lookup]

theorem C30_denominator_witness :
    (∃ fields, decodeTimeSignature 256 (4 :: 64 :: [24, 8]) = some fields ∧
      fields.lookup "denominator" = some (2 ^ 64 % 2 ^ 64)) ∧
    2 ^ 64 % 2 ^ 64 = 0 :=
  ⟨(C30_denominator 4 64 [24, 8] 256 (by decide) (by decide)).1, by decide⟩

end Midi

namespace Mpeg

open Macho

/-! ## The HRD part of the VUI parameters (C31) -/

theorem FieldBool_eq (name : String) (d : D) :
    FieldBool name d =
      if 8 * d.buf.length < d.pos + 1 then .error (.IOError "read")
      else .ok (readU d.buf d.pos 1 .BigEndian == 1,
        { d with pos := d.pos + 1,
                 children := d.children ++ [Value.Scalar name
                   ⟨.B (readU d.buf d.pos 1 .BigEndian == 1), none, ""⟩ d.pos 1] }) := by
  by_cases hc : 8 * d.buf.length < d.pos + 1 <;> simp [FieldBool, TryU, addScalar, hc]

theorem FieldBool_ok {name : String} {d d1 : D} {b : Bool} (h : FieldBool name d = .ok (b, d1)) :
    d1 = { d with pos := d.pos + 1,
                  children := d.children ++ [Value.Scalar name ⟨.B b, none, ""⟩ d.pos 1] } := by
  rw [FieldBool_eq] at h
  split at h
  · cases h
  · simp only [Except.ok.injEq, Prod.mk.injEq] at h
    obtain ⟨rfl, rfl⟩ := h
    rfl

theorem avoids_pure {α : Type} (a : α) : Avoids (pure a : Dec α) := by
  intro d b d1 h
  rw [Dec.pure_apply] at h
  simp only [Except.ok.injEq, Prod.mk.injEq] at h
  obtain ⟨-, rfl⟩ := h
  exact ⟨[], by simp, by simp⟩

theorem avoids_bind {α β : Type} {x : Dec α} {f : α → Dec β}
    (hx : Avoids x) (hf : ∀ a, Avoids (f a)) : Avoids (x >>= f) := by
  intro d b d2 h
  rw [Dec.bind_eq_ok] at h
  obtain ⟨a, d1, h1, h2⟩ := h
  obtain ⟨cs1, hc1, hn1⟩ := hx d a d1 h1
  obtain ⟨cs2, hc2, hn2⟩ := hf a d1 b d2 h2
  refine ⟨cs1 ++ cs2, by rw [hc2, hc1, List.append_assoc], ?_⟩
  intro c hc
  rcases List.mem_append.mp hc with h | h
  · exact hn1 c h
  · exact hn2 c h

theorem avoids_ite {α : Type} (c : Prop) [Decidable c] {x y : Dec α}
    (hx : Avoids x) (hy : Avoids y) : Avoids (if c then x else y) := by
  split
  · exact hx
  · exact hy

theorem avoids_FieldBool (name : String) (hn : hrdNames.contains name = false) :
    Avoids (FieldBool name) := by
  intro d b d1 h
  rw [FieldBool_ok h]
  refine ⟨_, rfl, ?_⟩
  intro c hc
  rw [List.mem_singleton] at hc
  subst hc
  exact hn

theorem avoids_FieldU (nBits : Nat) (name : String) (sms : List Mapper)
    (hn : hrdNames.contains name = false) : Avoids (FieldU nBits name sms) := by
  intro d a d1 h
  rw [FieldU_eq] at h
  split at h
  · cases h
  · simp only [Except.ok.injEq, Prod.mk.injEq] at h
    obtain ⟨-, rfl⟩ := h
    refine ⟨_, rfl, ?_⟩
    intro c hc
    rw [List.mem_singleton] at hc
    subst hc
    exact hn

theorem avoids_FieldU8 (name : String) (sms : List Mapper)
    (hn : hrdNames.contains name = false) : Avoids (FieldU8 name sms) :=
  avoids_FieldU 8 name sms hn

theorem avoids_FieldU32 (name : String) (sms : List Mapper)
    (hn : hrdNames.contains name = false) : Avoids (FieldU32 name sms) :=
  avoids_FieldU 32 name sms hn

theorem avoids_FieldUFn (name : String) (fn : Dec Nat) (sms : List Mapper) (hq : Quiet fn)
    (hn : hrdNames.contains name = false) : Avoids (FieldUFn name fn sms) := by
  intro d a d1 h
  unfold FieldUFn addScalar at h
  split at h
  · cases h
  · rename_i v d2 heq
    simp only [Except.ok.injEq, Prod.mk.injEq] at h
    obtain ⟨-, rfl⟩ := h
    refine ⟨[Value.Scalar name (applyMappers sms ⟨.U v, none, ""⟩) d.pos (d2.pos - d.pos)],
      by simp only [hq d v d2 heq], ?_⟩
    intro c hc
    rw [List.mem_singleton] at hc
    subst hc
    exact hn

theorem avoids_vuiHead (x : Collaborators) (hq : Quiet x.uEV) : Avoids (vuiHead x) := by
  unfold vuiHead
  repeat' with_reducible first
    | exact avoids_pure _
    | exact avoids_FieldBool _ (by decide)
    | exact avoids_FieldU8 _ _ (by decide)
    | exact avoids_FieldU32 _ _ (by decide)
    | exact avoids_FieldU _ _ _ (by decide)
    | exact avoids_FieldUFn _ _ _ hq (by decide)
    | apply avoids_ite
    | apply avoids_bind
    | intro _

theorem avoids_vuiTail (x : Collaborators) (hq : Quiet x.uEV) : Avoids (vuiTail x) := by
  unfold vuiTail
  repeat' with_reducible first
    | exact avoids_pure _
    | exact avoids_FieldBool _ (by decide)
    | exact avoids_FieldU8 _ _ (by decide)
    | exact avoids_FieldU32 _ _ (by decide)
    | exact avoids_FieldU _ _ _ (by decide)
    | exact avoids_FieldUFn _ _ _ hq (by decide)
    | apply avoids_ite
    | apply avoids_bind
    | intro _

theorem quiet_expGolomb : Quiet expGolomb := by
  intro d a d1 h
  unfold expGolomb TryU at h
  split at h
  · cases h
  · split at h
    · cases h
    · rename_i v d2 heq
      split at heq
      · cases heq
      · simp only [Except.ok.injEq, Prod.mk.injEq] at heq h
        obtain ⟨-, rfl⟩ := heq
        obtain ⟨-, rfl⟩ := h
        rfl

theorem ite_pure_ok {c : Prop} [Decidable c] {x : Dec Unit} {d d1 : D} {a : Unit}
    (h : (if c then x else pure ()) d = .ok (a, d1)) :
    (c ∧ x d = .ok (a, d1)) ∨ (¬ c ∧ d1 = d) := by
  by_cases hc : c
  · rw [if_pos hc] at h
    exact Or.inl ⟨hc, h⟩
  · rw [if_neg hc, Dec.pure_apply] at h
    simp only [Except.ok.injEq, Prod.mk.injEq] at h
    exact Or.inr ⟨hc, h.2.symm⟩

/-- A successful run of lines 94-104: the fields it adds, for the values of the two flags. -/
theorem vuiHrd_ok {x : Collaborators} {d d1 : D} {a : Unit} (h : vuiHrd x d = .ok (a, d1)) :
    ∃ (nal vcl : Bool) (mid : List Value), d1.children = d.children ++ mid ∧
      flag "nal_hrd_parameters_present_flag" mid = some nal ∧
      flag "vcl_hrd_parameters_present_flag" mid = some vcl ∧
      hrdTrace mid = claimedTrace nal vcl ∧
      hasNode "nal_hrd_parameters" mid = nal ∧
      hasNode "vcl_hrd_parameters" mid = vcl ∧
      hasNode "low_delay_hrd_flag" mid = (nal || vcl) := by
  unfold vuiHrd at h
  rw [Dec.bind_eq_ok] at h
  obtain ⟨nal, dA, hA, h2⟩ := h
  have eA := FieldBool_ok hA
  rw [Dec.bind_eq_ok] at h2
  obtain ⟨u1, dB, hB, h3⟩ := h2
  rw [Dec.bind_eq_ok] at h3
  obtain ⟨vcl, dC, hC, h4⟩ := h3
  have eC := FieldBool_ok hC
  rw [Dec.bind_eq_ok] at h4
  obtain ⟨u2, dD, hD, h5⟩ := h4
  refine ⟨nal, vcl, ?_⟩
  have eB : ∃ nalS, dB.children = dA.children ++ nalS ∧
      ((nal = true ∧ ∃ cs, nalS = [Value.Struct "nal_hrd_parameters" cs]) ∨
        (nal = false ∧ nalS = [])) := by
    rcases ite_pure_ok hB with ⟨hc, hrun⟩ | ⟨hc, rfl⟩
    · rw [FieldStruct_eq_ok] at hrun
      obtain ⟨cd, -, hd⟩ := hrun
      simp only at hd
      exact ⟨_, by rw [hd], Or.inl ⟨hc, _, rfl⟩⟩
    · exact ⟨[], by simp, Or.inr ⟨by simpa using hc, rfl⟩⟩
  have eD : ∃ vclS, dD.children = dC.children ++ vclS ∧
      ((vcl = true ∧ ∃ cs, vclS = [Value.Struct "vcl_hrd_parameters" cs]) ∨
        (vcl = false ∧ vclS = [])) := by
    rcases ite_pure_ok hD with ⟨hc, hrun⟩ | ⟨hc, rfl⟩
    · rw [FieldStruct_eq_ok] at hrun
      obtain ⟨cd, -, hd⟩ := hrun
      simp only at hd
      exact ⟨_, by rw [hd], Or.inl ⟨hc, _, rfl⟩⟩
    · exact ⟨[], by simp, Or.inr ⟨by simpa using hc, rfl⟩⟩
  have eE : ∃ low, d1.children = dD.children ++ low ∧
      (((nal || vcl) = true ∧ ∃ b p, low = [Value.Scalar "low_delay_hrd_flag"
          ⟨.B b, none, ""⟩ p 1]) ∨ ((nal || vcl) = false ∧ low = [])) := by
    rcases ite_pure_ok h5 with ⟨hc, hrun⟩ | ⟨hc, rfl⟩
    · rw [Dec.bind_eq_ok] at hrun
      obtain ⟨b, dE, hE, h6⟩ := hrun
      rw [Dec.pure_apply] at h6
      simp only [Except.ok.injEq, Prod.mk.injEq] at h6
      obtain ⟨-, rfl⟩ := h6
      exact ⟨_, by rw [FieldBool_ok hE], Or.inl ⟨hc, b, _, rfl⟩⟩
    · exact ⟨[], by simp, Or.inr ⟨by simpa using hc, rfl⟩⟩
  obtain ⟨nalS, hnalS, hn⟩ := eB
  obtain ⟨vclS, hvclS, hv⟩ := eD
  obtain ⟨low, hlow, hl⟩ := eE
  refine ⟨Value.Scalar "nal_hrd_parameters_present_flag" ⟨.B nal, none, ""⟩ d.pos 1 :: (nalS ++
    Value.Scalar "vcl_hrd_parameters_present_flag" ⟨.B vcl, none, ""⟩ dB.pos 1 :: (vclS ++ low)),
    ?_, ?_⟩
  · rw [hlow, hvclS, eC, hnalS, eA]
    simp
  · rcases hn with ⟨rfl, cs1, rfl⟩ | ⟨rfl, rfl⟩ <;>
    rcases hv with ⟨rfl, cs2, rfl⟩ | ⟨rfl, rfl⟩ <;>
    rcases hl with ⟨hor, b, p, rfl⟩ | ⟨hor, rfl⟩ <;>
    first
      | (exfalso; revert hor; decide)
      | (refine ⟨?_, ?_, ?_, ?_, ?_, ?_⟩ <;>
          simp [flag, field, hasNode, hrdTrace, claimedTrace, hrdNames, Value.name, isCompound])

theorem field_avoided (n : String) (hn : hrdNames.contains n = true) :
    ∀ cs : List Value, (∀ c ∈ cs, hrdNames.contains c.name = false) → field n cs = none := by
  intro cs
  induction cs with
  | nil => intro _; rfl
  | cons c cs ih =>
    intro h
    have hc : (c.name == n) = false := by
      cases hcn : c.name == n with
      | false => rfl
      | true =>
        have hcn2 : c.name = n := by simpa using hcn
        have := h c (List.mem_cons_self _ _)
        rw [hcn2, hn] at this
        cases this
    have ih2 := ih (fun c1 h1 => h c1 (List.mem_cons_of_mem _ h1))
    unfold field at ih2 ⊢
    rw [List.find?_cons, hc]
    exact ih2

theorem field_sandwich (n : String) (hn : hrdNames.contains n = true) (head mid tail : List Value)
    (hh : ∀ c ∈ head, hrdNames.contains c.name = false)
    (ht : ∀ c ∈ tail, hrdNames.contains c.name = false) :
    field n (head ++ (mid ++ tail)) = field n mid := by
  have h1 := field_avoided n hn head hh
  have h2 := field_avoided n hn tail ht
  unfold field at h1 h2 ⊢
  rw [List.find?_append, List.find?_append, h1, h2]
  cases List.find? (fun v => v.name == n) mid <;> rfl

theorem hrdTrace_avoided : ∀ cs : List Value,
    (∀ c ∈ cs, hrdNames.contains c.name = false) → hrdTrace cs = [] := by
  intro cs h
  unfold hrdTrace
  rw [List.filter_eq_nil_iff.mpr (fun c hc => by rw [h c hc]; decide)]
  rfl

theorem hrdTrace_append (a b : List Value) : hrdTrace (a ++ b) = hrdTrace a ++ hrdTrace b := by
  unfold hrdTrace
  rw [List.filter_append, List.map_append]

/-- C31: a VUI that decodes successfully, from any position of any input, with any reader
`uEV` that adds no field of its own and any label tables.  With `nal` and `vcl` the decoded
values of `nal_hrd_parameters_present_flag` and `vcl_hrd_parameters_present_flag`:
`low_delay_hrd_flag` is in the decoded VUI exactly when `nal` or `vcl` is set, the structure
`nal_hrd_parameters` exactly when `nal` is set, the structure `vcl_hrd_parameters` exactly when
`vcl` is set; and the nodes with these five names are, in decode order, the nal flag, the nal
structure, the vcl flag, the vcl structure, `low_delay_hrd_flag`, each of them once at
most. -/
theorem C31_hrd_flags (x : Collaborators) (hq : Quiet x.uEV) (buf : List Nat) (p : Nat)
    (h : succeeds (avcVuiParameters x ⟨buf, p, .BigEndian, []⟩) = true) :
    ∃ nal vcl : Bool,
      flag "nal_hrd_parameters_present_flag"
        (treeOf (avcVuiParameters x ⟨buf, p, .BigEndian, []⟩)) = some nal ∧
      flag "vcl_hrd_parameters_present_flag"
        (treeOf (avcVuiParameters x ⟨buf, p, .BigEndian, []⟩)) = some vcl ∧
      hasNode "low_delay_hrd_flag"
        (treeOf (avcVuiParameters x ⟨buf, p, .BigEndian, []⟩)) = (nal || vcl) ∧
      hasNode "nal_hrd_parameters"
        (treeOf (avcVuiParameters x ⟨buf, p, .BigEndian, []⟩)) = nal ∧
      hasNode "vcl_hrd_parameters"
        (treeOf (avcVuiParameters x ⟨buf, p, .BigEndian, []⟩)) = vcl ∧
      hrdTrace (treeOf (avcVuiParameters x ⟨buf, p, .BigEndian, []⟩)) = claimedTrace nal vcl := by
  have hsplit : avcVuiParameters x = (vuiHead x >>= fun _ => vuiHrd x >>= fun _ => vuiTail x) := by
    unfold avcVuiParameters vuiHead vuiHrd vuiTail
    simp only [Dec.bind_assoc]
  cases hr : avcVuiParameters x ⟨buf, p, .BigEndian, []⟩ with
  | error e => rw [hr] at h; cases h
  | ok r =>
    obtain ⟨u, d3⟩ := r
    have hr2 := hr
    rw [hsplit, Dec.bind_eq_ok] at hr2
    obtain ⟨u1, d1, h1, h2⟩ := hr2
    rw [Dec.bind_eq_ok] at h2
    obtain ⟨u2, d2, h3, h4⟩ := h2
    obtain ⟨head, hhead, hha⟩ := avoids_vuiHead x hq _ _ _ h1
    obtain ⟨nal, vcl, mid, hmid, hf1, hf2, htr, hn1, hn2, hn3⟩ := vuiHrd_ok h3
    obtain ⟨tail, htail, hta⟩ := avoids_vuiTail x hq _ _ _ h4
    have htree : d3.children = head ++ (mid ++ tail) := by
      rw [htail, hmid, hhead]
      simp
    refine ⟨nal, vcl, ?_⟩
    unfold treeOf
    simp only [htree]
    unfold flag hasNode at *
    rw [field_sandwich _ (by decide) head mid tail hha hta,
      field_sandwich _ (by decide) head mid tail hha hta,
      field_sandwich _ (by decide) head mid tail hha hta,
      field_sandwich _ (by decide) head mid tail hha hta,
      field_sandwich _ (by decide) head mid tail hha hta]
    refine ⟨hf1, hf2, hn3, hn1, hn2, ?_⟩
    rw [hrdTrace_append, hrdTrace_append, hrdTrace_avoided head hha, hrdTrace_avoided tail hta,
      htr]
    simp

/-- C31 on a concrete input: `expGolomb` adds no field, the VUI `vuiNalOnly` decodes, its nal
flag is 1 and its vcl flag is 0, and its HRD nodes are the nal flag, the nal structure, the vcl
flag and `low_delay_hrd_flag`. -/
theorem C31_hrd_flags_witness :
    Quiet sampleCollaborators.uEV ∧
    succeeds (avcVuiParameters sampleCollaborators ⟨vuiNalOnly, 0, .BigEndian, []⟩) = true ∧
    hrdTrace (treeOf (avcVuiParameters sampleCollaborators ⟨vuiNalOnly, 0, .BigEndian, []⟩)) =
      [("nal_hrd_parameters_present_flag", false), ("nal_hrd_parameters", true),
       ("vcl_hrd_parameters_present_flag", false), ("low_delay_hrd_flag", false)] ∧
    ∃ nal vcl : Bool,
      flag "nal_hrd_parameters_present_flag"
        (treeOf (avcVuiParameters sampleCollaborators ⟨vuiNalOnly, 0, .BigEndian, []⟩)) = some nal ∧
      flag "vcl_hrd_parameters_present_flag"
        (treeOf (avcVuiParameters sampleCollaborators ⟨vuiNalOnly, 0, .BigEndian, []⟩)) = some vcl ∧
      hasNode "low_delay_hrd_flag"
        (treeOf (avcVuiParameters sampleCollaborators ⟨vuiNalOnly, 0, .BigEndian, []⟩))
          = (nal || vcl) ∧
      hasNode "nal_hrd_parameters"
        (treeOf (avcVuiParameters sampleCollaborators ⟨vuiNalOnly, 0, .BigEndian, []⟩)) = nal ∧
      hasNode "vcl_hrd_parameters"
        (treeOf (avcVuiParameters sampleCollaborators ⟨vuiNalOnly, 0, .BigEndian, []⟩)) = vcl ∧
      hrdTrace (treeOf (avcVuiParameters sampleCollaborators ⟨vuiNalOnly, 0, .BigEndian, []⟩))
        = claimedTrace nal vcl :=
  ⟨quiet_expGolomb, by decide!, by decide!,
    C31_hrd_flags sampleCollaborators quiet_expGolomb vuiNalOnly 0 (by decide!)⟩

/-- The VUI `vuiNoHrd`, with both present flags 0, decodes its 9 flags and has neither HRD
structure nor `low_delay_hrd_flag`. -/
theorem vuiNoHrd_trace :
    endPos (avcVuiParameters sampleCollaborators ⟨vuiNoHrd, 0, .BigEndian, []⟩) = .ok 9 ∧
    hrdTrace (treeOf (avcVuiParameters sampleCollaborators ⟨vuiNoHrd, 0, .BigEndian, []⟩)) =
      [("nal_hrd_parameters_present_flag", false), ("vcl_hrd_parameters_present_flag", false)] := by
  decide!

end Mpeg
